import Mathlib

/-!
# Simulated ledger benchmarks: statistics, samplers and metrics

A shallow embedding of the statistical core of the benchmark suite
(`src/utils/metrics.js`, `src/utils/network-distributions.js` and the helpers at the
top of `src/tests/run-simulated-benchmarks.js`).

Number model.  A JavaScript number is read as an element of a linearly ordered field `α`
(the rationals when a definition is evaluated, the reals when the true square root is
needed).  The rounding of IEEE doubles is explicit where a statement depends on it: the
definitions whose name ends in `Rounded` take the rounding `fl` of an arithmetic result
as a parameter, and `roundDouble` is the rounding to the nearest binary64 number.  Four
conventions keep the non-finite values of JavaScript visible:

* a division `a / b` by a divisor that is not a non-zero literal is `jsDiv a b`, which is
  `none` when `b = 0` (JavaScript yields `NaN` or an infinity there);
* the quotient `tps = totalTransactions / totalTime` of the suite is `jsDivCount`, which
  tells `Infinity` (a zero duration) from `NaN` (`0 / 0`), and the sample store of the
  replication loop holds numbers or `Infinity` (`WithTop α`), since `pushMetric` skips
  `NaN` but pushes `Infinity`;
* an array read `xs[i]` is `xs[i]?`, which is `none` when `i` is out of range
  (JavaScript yields `undefined`);
* the functions of the `Math` object are a parameter `M : JSMath α`.
-/

namespace IotaBench

/-! ## Numbers -/

/-- The functions and constants of the JavaScript `Math` object that the samplers and the
aggregator call.  They are parameters of the embedding. -/
structure JSMath (α : Type) where
  sqrt : α → α
  log : α → α
  exp : α → α
  cos : α → α
  pow : α → α → α
  PI : α

section Numbers

variable {α : Type} [LinearOrderedField α]

/-- JavaScript `a / b` on finite numbers: `none` stands for the non-finite result
(`NaN`, `Infinity`, `-Infinity`) of a division by zero. -/
def jsDiv (a b : α) : Option α :=
  if b = 0 then none else some (a / b)

/-- JavaScript `n / b` for a count `n` and a finite divisor `b` that is not `-0`, with
the non-finite results kept apart: `none` is `NaN` (`0 / 0`) and `⊤` is `Infinity`
(`n / 0` with `n > 0`). -/
def jsDivCount (n : Nat) (b : α) : Option (WithTop α) :=
  if b = 0 then (if n = 0 then none else some ⊤) else some (WithTop.some ((n : α) / b))

/-! ## Statistical aggregator (`run-simulated-benchmarks.js`, lines 33-47) -/

/-- The constant `Z95 = 1.96`. -/
def Z95 : α := 1.96

/-- The function `mean(arr)`: `arr.reduce((a,b)=>a+b,0)/arr.length`. -/
def mean (arr : List α) : Option α :=
  jsDiv (arr.foldl (fun a b => a + b) 0) (arr.length : α)

/-- The function `sampleVariance(arr)`: `0` below two samples, otherwise the sum of the
squared deviations from `mean(arr)` divided by `arr.length-1`. -/
def sampleVariance (arr : List α) : Option α :=
  if arr.length < 2 then some 0
  else
    (mean arr).bind fun m =>
      jsDiv (arr.foldl (fun acc x => acc + (x - m) ^ 2) 0) ((arr.length : α) - 1)

/-- The object returned by `ci95_normal`. -/
structure SummaryStatistic (α : Type) where
  n : Nat
  mean : α
  variance : α
  std : α
  ci95_normal : α × α

/-- The function `ci95_normal(arr)`.  The result is `none` when one of its fields would
be non-finite. -/
def ci95_normal (M : JSMath α) (arr : List α) : Option (SummaryStatistic α) :=
  let n := arr.length
  (mean arr).bind fun m =>
    (sampleVariance arr).bind fun s2 =>
      let s := M.sqrt s2
      (jsDiv s (M.sqrt (n : α))).map fun q =>
        let half := Z95 * q
        ⟨n, m, s2, s, (m - half, m + half)⟩

/-- The function `mean(arr)` with the rounding of every arithmetic result made explicit:
`fl` maps the exact result of an operation to the number that is stored. -/
def meanRounded (fl : α → α) (arr : List α) : Option α :=
  (jsDiv (arr.foldl (fun a b => fl (a + b)) 0) (arr.length : α)).map fl

/-- The function `sampleVariance(arr)` with explicit rounding; `arr.length-1` is an
integer and is not rounded. -/
def sampleVarianceRounded (fl : α → α) (arr : List α) : Option α :=
  if arr.length < 2 then some 0
  else
    (meanRounded fl arr).bind fun m =>
      (jsDiv (arr.foldl (fun acc x => fl (acc + fl (fl (x - m) ^ 2))) 0)
        ((arr.length : α) - 1)).map fl

/-- The function `ci95_normal(arr)` with explicit rounding; the square root `M.sqrt` is
the one of the runtime, and the literal `1.96` denotes its rounding. -/
def ci95_normalRounded (fl : α → α) (M : JSMath α) (arr : List α) :
    Option (SummaryStatistic α) :=
  let n := arr.length
  (meanRounded fl arr).bind fun m =>
    (sampleVarianceRounded fl arr).bind fun s2 =>
      let s := M.sqrt s2
      (jsDiv s (M.sqrt (n : α))).map fun q =>
        let half := fl (fl Z95 * fl q)
        ⟨n, m, s2, s, (fl (m - half), fl (m + half))⟩

end Numbers

/-! ## Rounding of IEEE 754 doubles -/

section Rounding

variable {α : Type} [LinearOrderedField α] [FloorRing α]

/-- Rounding to the nearest integer, a tie going to the even one. -/
def roundHalfEven (q : α) : ℤ :=
  let f := ⌊q⌋
  if q - (f : α) < 1 / 2 then f
  else if 1 / 2 < q - (f : α) then f + 1
  else if f % 2 = 0 then f else f + 1

/-- Rounding of a number to the nearest IEEE 754 binary64 number (53 significant bits, a
tie going to the even significand), in the range of the normal numbers: every
arithmetic operation of JavaScript returns the rounding of its exact result. -/
def roundDouble (x : α) : α :=
  if x = 0 then 0
  else ((roundHalfEven (x / (2 : α) ^ (Int.log 2 |x| - 52)) : ℤ) : α) *
    (2 : α) ^ (Int.log 2 |x| - 52)

/-- The double nearest to `0.1`, the number that the literal `0.1` denotes. -/
def tenth : α := 3602879701896397 / 2 ^ 55

end Rounding

/-! ## Metrics accumulator (`src/utils/metrics.js`) -/

/-- The argument of `recordTransaction`: every field may be absent (`none`).  No caller
in the repository passes a `timestamp` field, so the spread `...data` never overrides
the time stamp. -/
structure TxData (α : Type) where
  txHash : Option String
  latency : Option α
  gasUsed : Option α
  cpuTime : Option α
  success : Option Bool
  error : Option String

/-- One element of `this.metrics`: `{ timestamp: Date.now(), ...data }`. -/
structure Record (α : Type) extends TxData α where
  timestamp : α

/-- The object returned by `calculateStats`.  A field read from the sorted array is
`none` when the read is out of range (`undefined`); `mean` is `none` when non-finite. -/
structure Stats (α : Type) where
  min : Option α
  max : Option α
  mean : Option α
  median : Option α
  p95 : Option α
  p99 : Option α
  count : Nat

/-- The object returned by `getSummary`; `null` is `none` in the three statistics. -/
structure Summary (α : Type) where
  totalTransactions : Nat
  successRate : Option α
  latency : Option (Stats α)
  throughput : Option α
  gas : Option (Stats α)
  cpu : Option (Stats α)

/-- The class `MetricsCollector`: its only state is the log `this.metrics`. -/
structure MetricsCollector (α : Type) where
  metrics : List (Record α)

namespace MetricsCollector

section Methods

variable {α : Type} [LinearOrderedField α]

/-- The method `recordTransaction(data)`; `now` is the value of `Date.now()`. -/
def recordTransaction (now : α) (data : TxData α) (c : MetricsCollector α) :
    MetricsCollector α :=
  ⟨c.metrics ++ [⟨data, now⟩]⟩

/-- The method `calculateStats(values)`: `null` on the empty array, otherwise the floor
indexed order statistics of `[...values].sort((a, b) => a - b)`. -/
def calculateStats [FloorRing α] (values : List α) : Option (Stats α) :=
  if values.length = 0 then none
  else
    let sorted := values.insertionSort (· ≤ ·)
    let sum := values.foldl (fun a b => a + b) 0
    some
      ⟨sorted[0]?,
        sorted[sorted.length - 1]?,
        jsDiv sum (values.length : α),
        sorted[⌊(sorted.length : α) / 2⌋₊]?,
        sorted[⌊(sorted.length : α) * 0.95⌋₊]?,
        sorted[⌊(sorted.length : α) * 0.99⌋₊]?,
        values.length⟩

/-- The method `calculateStats(values)` with the rounding `fl` of the sum and of the mean
made explicit; the order statistics are read from the sorted copy without arithmetic. -/
def calculateStatsRounded [FloorRing α] (fl : α → α) (values : List α) :
    Option (Stats α) :=
  if values.length = 0 then none
  else
    let sorted := values.insertionSort (· ≤ ·)
    let sum := values.foldl (fun a b => fl (a + b)) 0
    some
      ⟨sorted[0]?,
        sorted[sorted.length - 1]?,
        (jsDiv sum (values.length : α)).map fl,
        sorted[⌊(sorted.length : α) / 2⌋₊]?,
        sorted[⌊(sorted.length : α) * 0.95⌋₊]?,
        sorted[⌊(sorted.length : α) * 0.99⌋₊]?,
        values.length⟩

/-- The method `getLatencyStats()`: the records whose `latency` is not `undefined`. -/
def getLatencyStats [FloorRing α] (c : MetricsCollector α) : Option (Stats α) :=
  calculateStats (c.metrics.filterMap fun m => m.latency)

/-- The method `getThroughput()`. -/
def getThroughput (c : MetricsCollector α) : Option α :=
  match c.metrics with
  | [] => some 0
  | first :: rest =>
    let firstTimestamp := first.timestamp
    let lastTimestamp := ((first :: rest).getLast (List.cons_ne_nil first rest)).timestamp
    let totalTime := (lastTimestamp - firstTimestamp) / 1000
    if totalTime > 0 then jsDiv ((first :: rest).length : α) totalTime else some 0

/-- The method `getGasStats()`. -/
def getGasStats [FloorRing α] (c : MetricsCollector α) : Option (Stats α) :=
  calculateStats (c.metrics.filterMap fun m => m.gasUsed)

/-- The method `getSuccessRate()`: `m.success === true` holds for `some true` only. -/
def getSuccessRate (c : MetricsCollector α) : Option α :=
  let total := c.metrics.length
  let successful := (c.metrics.filter fun m => m.success == some true).length
  if total > 0 then (jsDiv (successful : α) (total : α)).map fun q => q * 100 else some 0

/-- The method `getCPUUsage()`. -/
def getCPUUsage [FloorRing α] (c : MetricsCollector α) : Option (Stats α) :=
  calculateStats (c.metrics.filterMap fun m => m.cpuTime)

/-- The method `getSummary()`. -/
def getSummary [FloorRing α] (c : MetricsCollector α) : Summary α :=
  ⟨c.metrics.length, c.getSuccessRate, c.getLatencyStats, c.getThroughput,
    c.getGasStats, c.getCPUUsage⟩

/-! ### Calls with their effect on the arrays

The arrays of numbers that exist while `getSummary()` runs are the cells of a heap; a
reference is the index of a cell.  The only mutating call in `metrics.js` besides
`push` and `clear` is `sort`, which sorts its receiver in place. -/

/-- The read of the array behind a reference. -/
def heapRead (h : List (List α)) (ref : Nat) : List α :=
  (h[ref]?).getD []

/-- The allocation of a new array with the given elements (`filter`, `map` and the spread
`[...values]` all return a new array): its reference and the new heap. -/
def heapAlloc (h : List (List α)) (a : List α) : Nat × List (List α) :=
  (h.length, h ++ [a])

/-- The call `a.sort((x, y) => x - y)` on the array behind `ref`: the array is sorted in
place. -/
def heapSort (h : List (List α)) (ref : Nat) : List (List α) :=
  h.set ref ((heapRead h ref).insertionSort (· ≤ ·))

/-- The call `calculateStats(values)` for a reference `values`: the returned value and
the heap after the call. -/
def calculateStatsOn [FloorRing α] (h : List (List α)) (values : Nat) :
    Option (Stats α) × List (List α) :=
  if (heapRead h values).length = 0 then (none, h)
  else
    let copy := heapAlloc h (heapRead h values)
    let h1 := heapSort copy.2 copy.1
    let sorted := heapRead h1 copy.1
    let sum := (heapRead h1 values).foldl (fun a b => a + b) 0
    (some
        ⟨sorted[0]?,
          sorted[sorted.length - 1]?,
          jsDiv sum ((heapRead h1 values).length : α),
          sorted[⌊(sorted.length : α) / 2⌋₊]?,
          sorted[⌊(sorted.length : α) * 0.95⌋₊]?,
          sorted[⌊(sorted.length : α) * 0.99⌋₊]?,
          (heapRead h1 values).length⟩,
      h1)

/-- The call `getSummary()`: the returned summary, the collector after the call and the
heap after the call.  The properties of the object literal are evaluated in order; each
of the three statistics allocates the array of its values and hands it to
`calculateStats`; no statement assigns `this.metrics` or one of its records. -/
def getSummaryOn [FloorRing α] (c : MetricsCollector α) (h : List (List α)) :
    Summary α × MetricsCollector α × List (List α) :=
  let totalTransactions := c.metrics.length
  let successRate := c.getSuccessRate
  let latencies := heapAlloc h (c.metrics.filterMap fun m => m.latency)
  let latency := calculateStatsOn latencies.2 latencies.1
  let throughput := c.getThroughput
  let gasUsed := heapAlloc latency.2 (c.metrics.filterMap fun m => m.gasUsed)
  let gas := calculateStatsOn gasUsed.2 gasUsed.1
  let cpuTimes := heapAlloc gas.2 (c.metrics.filterMap fun m => m.cpuTime)
  let cpu := calculateStatsOn cpuTimes.2 cpuTimes.1
  (⟨totalTransactions, successRate, latency.1, throughput, gas.1, cpu.1⟩, c, cpu.2)

end Methods

end MetricsCollector

/-! ## Distribution sampler (`src/utils/network-distributions.js`) -/

/-- The active random source: the stream of values that successive calls of
`Math.random()` return, and the number of values consumed so far. -/
structure RandomSource (α : Type) where
  stream : Nat → α
  pos : Nat

/-- One call of `Math.random()`. -/
def RandomSource.random {α : Type} (r : RandomSource α) : α × RandomSource α :=
  (r.stream r.pos, ⟨r.stream, r.pos + 1⟩)

section Sampler

variable {α : Type} [LinearOrderedField α]

/-- The function `randn()` (Box-Muller), two uniform draws. -/
def randn (M : JSMath α) (r : RandomSource α) : α × RandomSource α :=
  let d1 := r.random
  let u := 1 - d1.1
  let d2 := d1.2.random
  let v := 1 - d2.1
  (M.sqrt (-2.0 * M.log u) * M.cos (2.0 * M.PI * v), d2.2)

/-- The expression `Math.min(max, y)` for a bound `max` that may be `Infinity` (`⊤`). -/
def minBound (max : WithTop α) (y : α) : α :=
  match max with
  | none => y
  | some m => Min.min m y

/-- The loop `for (let i = 0; i < 10; i++)` of `truncatedNormal` with `k` iterations
left, followed by the fallback `Math.min(max, Math.max(min, mean))`. -/
def truncatedNormalLoop (M : JSMath α) (mean sd min : α) (max : WithTop α) :
    Nat → RandomSource α → α × RandomSource α
  | 0, r => (minBound max (Max.max min mean), r)
  | k + 1, r =>
    let d := randn M r
    let x := mean + sd * d.1
    if min ≤ x ∧ (x : WithTop α) ≤ max then (x, d.2)
    else truncatedNormalLoop M mean sd min max k d.2

/-- The function `truncatedNormal({mean, sd, min, max})`; the defaults of the source
are `min = 0` and `max = Infinity`. -/
def truncatedNormal (M : JSMath α) (mean sd min : α) (max : WithTop α)
    (r : RandomSource α) : α × RandomSource α :=
  truncatedNormalLoop M mean sd min max 10 r


/-- The acceptance test `x >= min && x <= max` of `truncatedNormal`. -/
def inBounds (min : α) (max : WithTop α) (x : α) : Prop :=
  min ≤ x ∧ (x : WithTop α) ≤ max

/-- The candidate `mean + sd * randn()` drawn in iteration `i` (counted from 0) of the
loop of `truncatedNormal` started on the source `r`: it reads the uniform draws number
`r.pos + 2 * i` and `r.pos + 2 * i + 1` of the stream. -/
def candidate (M : JSMath α) (mean sd : α) (r : RandomSource α) (i : Nat) : α :=
  mean + sd * (randn M ⟨r.stream, r.pos + 2 * i⟩).1

/-- The uniform draws of JavaScript: every value of the stream lies in `[0, 1)`. -/
def RandomSource.Uniform (r : RandomSource α) : Prop :=
  ∀ i, 0 ≤ r.stream i ∧ r.stream i < 1

/-- The function `lognormal({medianMs, p95Ms})`. -/
def lognormal (M : JSMath α) (medianMs p95Ms : α) (r : RandomSource α) :
    α × RandomSource α :=
  let mu := M.log medianMs
  let z95 : α := 1.6448536269514722
  let sigma := (M.log p95Ms - mu) / z95
  let d := randn M r
  let val := M.exp (mu + sigma * d.1)
  (Max.max 1 val, d.2)

/-- The value of `lognormal({medianMs, p95Ms})` when `randn()` returns `z`, with the
rounding `fl` of every arithmetic result made explicit; a literal denotes its rounding,
and the values of `Math.log` and `Math.exp` are those of `M`. -/
def lognormalAt (fl : α → α) (M : JSMath α) (medianMs p95Ms z : α) : α :=
  let mu := M.log medianMs
  let z95 : α := fl 1.6448536269514722
  let sigma := fl (fl (M.log p95Ms - mu) / z95)
  let val := M.exp (fl (mu + fl (sigma * z)))
  Max.max 1 val

/-- The loop `while (Math.random() > p) k++` of `geometricBlocks` with the counter at
`k`; `fuel` bounds the number of evaluations of the loop condition, and `none` means
that the loop is still running when the fuel is used up. -/
def geometricBlocksLoop (p : α) : Nat → Nat → RandomSource α → Option (Nat × RandomSource α)
  | 0, _, _ => none
  | fuel + 1, k, r =>
    let d := r.random
    if d.1 > p then geometricBlocksLoop p fuel (k + 1) d.2 else some (k, d.2)

/-- The function `geometricBlocks(p)`: `let k = 1`, the loop, `return k`. -/
def geometricBlocks (fuel : Nat) (p : α) (r : RandomSource α) :
    Option (Nat × RandomSource α) :=
  geometricBlocksLoop p fuel 1 r

/-- One pass through the body of `while (true)` in `gamma`: `some y` when the pass
returns `y = d * v * theta`, `none` when it goes round again (after `continue`, or when
both acceptance tests fail).  `Math.log(0)` is `-Infinity`, which is below every finite
number, so the second test succeeds for `u = 0`. -/
def gammaBody (M : JSMath α) (d c theta : α) (r : RandomSource α) :
    Option α × RandomSource α :=
  let n := randn M r
  let x := n.1
  let v := 1 + c * x
  if v ≤ 0 then (none, n.2)
  else
    let v3 := v * v * v
    let du := n.2.random
    let u := du.1
    if u < 1 - 0.331 * M.pow x 4 then (some (d * v3 * theta), du.2)
    else if u = 0 ∨ M.log u < 0.5 * x * x + d * (1 - v3 + M.log v3) then
      (some (d * v3 * theta), du.2)
    else (none, du.2)

/-- The loop `while (true)` of `gamma`; `fuel` bounds the number of passes, and `none`
means that the loop is still running when the fuel is used up. -/
def gammaLoop (M : JSMath α) (d c theta : α) :
    Nat → RandomSource α → Option (α × RandomSource α)
  | 0, _ => none
  | fuel + 1, r =>
    match gammaBody M d c theta r with
    | (some y, r1) => some (y, r1)
    | (none, r1) => gammaLoop M d c theta fuel r1

/-- The state of a call that may run forever: `done x` when it has returned `x`,
`nonFinite` when a division by zero has made an intermediate value non-finite (the
number model says nothing about the call then), `unfinished` when it is still running
after the given fuel. -/
inductive Run (β : Type) where
  | done (x : β)
  | nonFinite
  | unfinished

/-- The factor `Math.pow(u, 1/k)` of the boosted branch of `gamma`, `none` when it is not
a finite number.  For `k = 0` the exponent is `Infinity`, and `Math.pow(u, Infinity)` is
`0` when `|u| < 1` (it is `NaN` or `Infinity` otherwise); for `k < 0` and `u = 0` the
power is `Infinity`; in every other case the exponent `1/k` is finite and the power is
`M.pow u (1/k)`. -/
def boostFactor (M : JSMath α) (u k : α) : Option α :=
  if k = 0 then (if |u| < 1 then some 0 else none)
  else if u = 0 ∧ k < 0 then none
  else some (M.pow u (1 / k))

/-- The function `gamma({shape, scale})` (Marsaglia-Tsang); `fuel` bounds the depth of
the recursion for `shape < 1` and the number of passes of the loop.  The product of the
boosted branch is `nonFinite` when its second factor is. -/
def gamma (M : JSMath α) : Nat → α → α → RandomSource α → Run (α × RandomSource α)
  | 0, _, _, _ => Run.unfinished
  | fuel + 1, shape, scale, r =>
    if shape < 1 then
      let du := r.random
      match gamma M fuel (shape + 1) scale du.2 with
      | Run.done (g, r1) =>
        match boostFactor M du.1 shape with
        | none => Run.nonFinite
        | some f => Run.done (g * f, r1)
      | Run.nonFinite => Run.nonFinite
      | Run.unfinished => Run.unfinished
    else
      let d := shape - 1 / 3
      match jsDiv 1 (M.sqrt (9 * d)) with
      | none => Run.nonFinite
      | some c =>
        match gammaLoop M d c scale fuel r with
        | none => Run.unfinished
        | some res => Run.done res

/-- The function `maybeSpike(ms, {spikeProb, spikeMin, spikeMax})`; the defaults of the
source are `0.02`, `300` and `1200`. -/
def maybeSpike (ms spikeProb spikeMin spikeMax : α) (r : RandomSource α) :
    α × RandomSource α :=
  let d := r.random
  if d.1 < spikeProb then
    let e := d.2.random
    (ms + (spikeMin + e.1 * (spikeMax - spikeMin)), e.2)
  else (ms, d.2)

/-- The function `Math.round` on finite numbers: the integer nearest to `x`, a tie
going up. -/
def jsRound [FloorRing α] (x : α) : α :=
  ((⌊x + 1 / 2⌋ : ℤ) : α)

/-- The field `breakdown` of the object returned by `simulateEthereumLatency`. -/
structure EthereumBreakdown (α : Type) where
  rtt : α
  inclusion : α
  confirmation : α

/-- The object returned by `simulateEthereumLatency`. -/
structure EthereumLatency (α : Type) where
  networkRttMs : α
  blocksToInclusion : Nat
  inclusionDelayMs : α
  confirmDelayMs : α
  totalMs : α
  breakdown : EthereumBreakdown α

/-- The first phase of `simulateEthereumLatency` (lines 77-78): the value `rtt` that is
slept, `maybeSpike(lognormal({medianMs: 90, p95Ms: 250}), {0.01, 400, 1500})`. -/
def ethereumRtt (M : JSMath α) (r : RandomSource α) : α × RandomSource α :=
  let l := lognormal M 90 250 r
  maybeSpike l.1 0.01 400 1500 l.2

/-- The function `simulateEthereumLatency({inclusionProbPerBlock, blockTimeMs,
softConfirmBlocks})`; the defaults of the source are `0.8`, `12000` and `1`.  The stream
is the sequence of uniform draws that this operation receives, `wait d` is the wall
clock time that `await sleep(d)` takes, and `fuel` is that of `geometricBlocks`. -/
def simulateEthereumLatency [FloorRing α] (M : JSMath α) (wait : α → α) (fuel : Nat)
    (inclusionProbPerBlock blockTimeMs softConfirmBlocks : α) (r : RandomSource α) :
    Option (EthereumLatency α × RandomSource α) :=
  let rtt := ethereumRtt M r
  match geometricBlocks fuel inclusionProbPerBlock rtt.2 with
  | none => none
  | some (blocksToInclusion, r1) =>
    let inclusionDelay := (blocksToInclusion : α) * blockTimeMs
    let confirmDelay := softConfirmBlocks * blockTimeMs
    some
      (⟨jsRound rtt.1, blocksToInclusion, inclusionDelay, confirmDelay,
          wait rtt.1 + wait inclusionDelay + wait confirmDelay,
          ⟨jsRound rtt.1, inclusionDelay, confirmDelay⟩⟩,
        r1)

/-- A stream of uniform draws on which `gamma({shape: 3, scale: 270})` never returns:
the draws alternate between `1 - 10^-6` and `1/2`, so that every `randn()` is
`-sqrt(-2 ln 10^-6)`, about `-5.26`, and every pass ends at `continue`. -/
def stallStream : Nat → α :=
  fun i => if i % 2 = 0 then 1 - 1 / 1000000 else 1 / 2

end Sampler

/-! ## Deterministic seeding harness (`run-simulated-benchmarks.js`, lines 26-31) -/

/-- The mutable global state seen by `withSeed`: the function installed as
`Math.random`, and everything else. -/
structure Runtime (ρ σ : Type) where
  mathRandom : ρ
  rest : σ

/-- The function `withSeed(seed, fn)` for an integer seed below `10^21` in absolute
value, for which `String(seed)` is its decimal numeral.  An asynchronous `fn` is a state
transformer whose result is its settlement: `Except.ok` when it resolves, `Except.error`
when it throws or rejects.  The result is the settlement of the returned promise
together with the state at that moment. -/
def withSeed {ρ σ ε β : Type} (seedrandom : String → ρ) (seed : Int)
    (fn : Runtime ρ σ → Except ε β × Runtime ρ σ) (w : Runtime ρ σ) :
    Except ε β × Runtime ρ σ :=
  let rng := seedrandom (toString seed)
  let original := w.mathRandom
  let settled := fn ⟨rng, w.rest⟩
  (settled.1, ⟨original, settled.2.rest⟩)

/-! ## One replication of the simulated suite (`run-simulated-benchmarks.js`, lines 58-246)

The external collaborators (the CSV writer, the file system, the connection probe) are
taken to succeed and are left out.  What a replication depends on is the settlement of
each simulated operation and the clock readings, which are the input of the model. -/

/-- The fields that the suite reads from the object a simulated operation resolves with
(`simulateTransaction` for Sepolia, `submitBlock` for IOTA): `hash` or `blockId`,
`latency`, `gasUsed`, `cpuTime`, and `success` or `confirmed`. -/
structure OpResult (α : Type) where
  id : Option String
  latency : Option α
  gasUsed : Option α
  cpuTime : Option α
  success : Option Bool

/-- The settlement of one simulated operation; `rejected` carries `e.message`. -/
inductive Outcome (α : Type) where
  | resolved (r : OpResult α)
  | rejected (message : String)

/-- The two networks of the suite. -/
inductive Network where
  | sepolia
  | iota

/-- An exception raised by the suite itself: reading `property` of `null`. -/
inductive JSError where
  | typeError (property : String)
deriving DecidableEq

/-- One operation as the collector sees it: the clock reading when its handler runs,
and its settlement.  The operations of a list are in the order their handlers run. -/
abbrev Completion (α : Type) := α × Outcome α

/-- One concurrent batch: the configured size, the clock before the launch and after
`Promise.all`, and the completions (as many as `batchSize` in a run of the suite). -/
structure Batch (α : Type) where
  batchSize : Nat
  start : α
  finish : α
  ops : List (Completion α)

/-- One element of `results.sepolia` or `results.iota` in `testScalabilitySimulated`; in
`tps`, `none` is `NaN` and `⊤` is `Infinity`. -/
structure ScalabilityRow (α : Type) where
  batchSize : Nat
  tps : Option (WithTop α)
  totalTime : α
  avgLatency : Option α
  successRate : Option α

/-- Everything one replication receives from outside. -/
structure ReplicationTrace (α : Type) where
  latencySepolia : List (Completion α)
  latencyIota : List (Completion α)
  throughputSepolia : Batch α
  throughputIota : Batch α
  scalabilitySepolia : List (Batch α)
  scalabilityIota : List (Batch α)

/-- The value returned by `runAllSimulatedTests`.  The `summary` of an entry of the
throughput test is `{ ...summary, throughput: tps, totalTime }`: the summary of the
collector, the value `tps` that replaces its `throughput` (`none` is `NaN`, `⊤` is
`Infinity`), and `totalTime`. -/
structure SuiteResult (α : Type) where
  latency : List (String × Summary α)
  throughput : List (String × Summary α × Option (WithTop α) × α)
  scalability : List (ScalabilityRow α) × List (ScalabilityRow α)

section Suite

variable {α : Type} [LinearOrderedField α] [FloorRing α]

/-- The object literal that the handlers of one operation pass to `recordTransaction`:
the `then` (or `try`) branch passes the fields of the result (with `gasUsed: 0` for
IOTA), the `catch` branch passes `{ success: false, error: e.message }`. -/
def outcomeData (net : Network) (o : Outcome α) : TxData α :=
  match o with
  | Outcome.resolved r =>
    match net with
    | Network.sepolia => ⟨r.id, r.latency, r.gasUsed, r.cpuTime, r.success, none⟩
    | Network.iota => ⟨r.id, r.latency, some 0, r.cpuTime, r.success, none⟩
  | Outcome.rejected e => ⟨none, none, none, none, some false, some e⟩

/-- The handlers attached to one operation, run at clock reading `now`. -/
def recordOutcome (net : Network) (now : α) (o : Outcome α) (c : MetricsCollector α) :
    MetricsCollector α :=
  c.recordTransaction now (outcomeData net o)

/-- A fresh `MetricsCollector` after the handlers of all operations have run. -/
def runOperations (net : Network) (ops : List (Completion α)) : MetricsCollector α :=
  ops.foldl (fun c op => recordOutcome net op.1 op.2 c) ⟨[]⟩

/-- The function `testLatencySimulated`. -/
def testLatencySimulated (eth iota : List (Completion α)) :
    Except JSError (List (String × Summary α)) :=
  let ethSummary := (runOperations Network.sepolia eth).getSummary
  let iotaSummary := (runOperations Network.iota iota).getSummary
  Except.ok [("Sepolia", ethSummary), ("IOTA", iotaSummary)]

/-- One network of `testThroughputSimulated`: the summary of the collector, the value
`totalTransactions / totalTime` that replaces its `throughput`, and `totalTime`. -/
def throughputSummary (net : Network) (b : Batch α) :
    Summary α × Option (WithTop α) × α :=
  let totalTime := (b.finish - b.start) / 1000
  let s := (runOperations net b.ops).getSummary
  let tps := jsDivCount s.totalTransactions totalTime
  (s, tps, totalTime)

/-- The function `testThroughputSimulated`. -/
def testThroughputSimulated (eth iota : Batch α) :
    Except JSError (List (String × Summary α × Option (WithTop α) × α)) :=
  Except.ok [("Sepolia", throughputSummary Network.sepolia eth),
    ("IOTA", throughputSummary Network.iota iota)]

/-- The body of the loop over `batchSizes` in `testScalabilitySimulated`: the row reads
`s.latency.mean`, which raises when `s.latency` is `null`. -/
def scalabilityRow (net : Network) (b : Batch α) : Except JSError (ScalabilityRow α) :=
  let totalTime := (b.finish - b.start) / 1000
  let s := (runOperations net b.ops).getSummary
  let tps := jsDivCount s.totalTransactions totalTime
  match s.latency with
  | none => Except.error (JSError.typeError "mean")
  | some l => Except.ok ⟨b.batchSize, tps, totalTime, l.mean, s.successRate⟩

/-- The loop over `batchSizes` for one network: rows are pushed in order, and an
exception leaves the loop. -/
def scalabilityRows (net : Network) : List (Batch α) → Except JSError (List (ScalabilityRow α))
  | [] => Except.ok []
  | b :: bs =>
    match scalabilityRow net b with
    | Except.error e => Except.error e
    | Except.ok row =>
      match scalabilityRows net bs with
      | Except.error e => Except.error e
      | Except.ok rows => Except.ok (row :: rows)

/-- The function `testScalabilitySimulated`. -/
def testScalabilitySimulated (eth iota : List (Batch α)) :
    Except JSError (List (ScalabilityRow α) × List (ScalabilityRow α)) :=
  match scalabilityRows Network.sepolia eth with
  | Except.error e => Except.error e
  | Except.ok sepolia =>
    match scalabilityRows Network.iota iota with
    | Except.error e => Except.error e
    | Except.ok iotaRows => Except.ok (sepolia, iotaRows)

/-- The function `runAllSimulatedTests`: the three tests in sequence. -/
def runAllSimulatedTests (t : ReplicationTrace α) : Except JSError (SuiteResult α) :=
  match testLatencySimulated t.latencySepolia t.latencyIota with
  | Except.error e => Except.error e
  | Except.ok latency =>
    match testThroughputSimulated t.throughputSepolia t.throughputIota with
    | Except.error e => Except.error e
    | Except.ok throughput =>
      match testScalabilitySimulated t.scalabilitySepolia t.scalabilityIota with
      | Except.error e => Except.error e
      | Except.ok scalability => Except.ok ⟨latency, throughput, scalability⟩

/-- A replication of the configured suite (`iterations = 100`, `batchSize = 1000`,
`batchSizes = [10, 100, 1000, 10000]`) in which every simulated operation rejects with
the message `boom`; the clock advances by one second around every batch. -/
def rejectedTrace : ReplicationTrace ℚ :=
  ⟨List.replicate 100 (0, Outcome.rejected "boom"),
    List.replicate 100 (0, Outcome.rejected "boom"),
    ⟨1000, 0, 1000, List.replicate 1000 (1000, Outcome.rejected "boom")⟩,
    ⟨1000, 0, 1000, List.replicate 1000 (1000, Outcome.rejected "boom")⟩,
    [⟨10, 0, 1000, List.replicate 10 (1000, Outcome.rejected "boom")⟩,
      ⟨100, 0, 1000, List.replicate 100 (1000, Outcome.rejected "boom")⟩,
      ⟨1000, 0, 1000, List.replicate 1000 (1000, Outcome.rejected "boom")⟩,
      ⟨10000, 0, 1000, List.replicate 10000 (1000, Outcome.rejected "boom")⟩],
    [⟨10, 0, 1000, List.replicate 10 (1000, Outcome.rejected "boom")⟩,
      ⟨100, 0, 1000, List.replicate 100 (1000, Outcome.rejected "boom")⟩,
      ⟨1000, 0, 1000, List.replicate 1000 (1000, Outcome.rejected "boom")⟩,
      ⟨10000, 0, 1000, List.replicate 10000 (1000, Outcome.rejected "boom")⟩]⟩

end Suite

/-! ## Replication orchestrator (`run-simulated-benchmarks.js`, lines 48-52 and 251-299)

A JavaScript object used as a map is the list of its entries in insertion order.  The
sample store is `samples.latency` and `samples.throughput` (network name, then metric
name, then the array of values) and the two objects `samples.scalability.sepolia` and
`samples.scalability.iota` (batch key, then metric name, then the array). -/

/-- The read `o[key]`; `none` is `undefined`. -/
def objGet {β : Type} : List (String × β) → String → Option β
  | [], _ => none
  | (k0, v0) :: rest, key => if k0 = key then some v0 else objGet rest key

/-- The assignment `o[key] = v`: an existing key keeps its place, a new one goes last. -/
def objSet {β : Type} : List (String × β) → String → β → List (String × β)
  | [], key, v => [(key, v)]
  | (k0, v0) :: rest, key, v =>
    if k0 = key then (k0, v) :: rest else (k0, v0) :: objSet rest key v

/-- A bag of samples: metric name, then the array of values, one per replication. -/
abbrev MetricsBag (α : Type) := List (String × List α)

/-- The object `samples` of `runReplicatedSuite`. -/
structure Samples (α : Type) where
  latency : List (String × MetricsBag α)
  throughput : List (String × MetricsBag α)
  scalabilitySepolia : List (String × MetricsBag α)
  scalabilityIota : List (String × MetricsBag α)

/-- The reason why a run of the suite stops early: the suite raised `e`. -/
inductive SuiteStop where
  | raised (e : JSError)

section Orchestrator

variable {α : Type}

/-- The function `pushMetric(bag, key, value)`; the value `none` is `null`, `undefined`
or `NaN`, for which the function returns at once. -/
def pushMetric (bag : MetricsBag α) (key : String) (value : Option α) : MetricsBag α :=
  match value with
  | none => bag
  | some v =>
    match objGet bag key with
    | none => objSet bag key [v]
    | some arr => objSet bag key (arr ++ [v])

/-- The call `pushMetric(o[name], key, value)` on an object `o` of bags: when the value is
a number and `o[name]` is `undefined`, reading `bag[key]` raises. -/
def pushAt (o : List (String × MetricsBag α)) (name key : String) (value : Option α) :
    Except SuiteStop (List (String × MetricsBag α)) :=
  match value with
  | none => Except.ok o
  | some v =>
    match objGet o name with
    | none => Except.error (SuiteStop.raised (JSError.typeError key))
    | some bag => Except.ok (objSet o name (pushMetric bag key (some v)))

/-- The value `s?.latency?.mean` pushed under `avgLatency`.  A sample is a number of the
model or `Infinity`; a statistic that is absent or not a number (`none`: `null`,
`undefined`, or the `NaN` of `0 / 0`) is skipped by `pushMetric`. -/
def pushAvgLatency (o : List (String × MetricsBag (WithTop α))) (name : String)
    (s : Summary α) : Except SuiteStop (List (String × MetricsBag (WithTop α))) :=
  pushAt o name "avgLatency" ((s.latency.bind fun st => st.mean).map WithTop.some)

/-- The body of `for (const entry of res.latency)`: `avgLatency`, `p95Latency` and
`successRate` are pushed into `samples.latency[entry.network]`. -/
def recordLatencyEntry (o : List (String × MetricsBag (WithTop α)))
    (entry : String × Summary α) :
    Except SuiteStop (List (String × MetricsBag (WithTop α))) :=
  match pushAvgLatency o entry.1 entry.2 with
  | Except.error e => Except.error e
  | Except.ok o1 =>
    match pushAt o1 entry.1 "p95Latency"
        ((entry.2.latency.bind fun st => st.p95).map WithTop.some) with
    | Except.error e => Except.error e
    | Except.ok o2 => pushAt o2 entry.1 "successRate" (entry.2.successRate.map WithTop.some)

/-- The body of `for (const entry of res.throughput)`: `tps`, `avgLatency` and
`successRate` are pushed into `samples.throughput[entry.network]`; a `tps` that is
`Infinity` is pushed as it is. -/
def recordThroughputEntry (o : List (String × MetricsBag (WithTop α)))
    (entry : String × Summary α × Option (WithTop α) × α) :
    Except SuiteStop (List (String × MetricsBag (WithTop α))) :=
  match pushAt o entry.1 "tps" entry.2.2.1 with
  | Except.error e => Except.error e
  | Except.ok o1 =>
    match pushAvgLatency o1 entry.1 entry.2.1 with
    | Except.error e => Except.error e
    | Except.ok o2 =>
      pushAt o2 entry.1 "successRate" (entry.2.1.successRate.map WithTop.some)

/-- The key of a scalability row: the template literal of `batch_` and the size. -/
def batchKey (batchSize : Nat) : String :=
  "batch_" ++ toString batchSize

/-- The body of `for (const row of arr)`: the bag of the batch key is created when it is
missing, then `tps`, `avgLatency` and `successRate` are pushed into it. -/
def recordScalabilityRow (o : List (String × MetricsBag (WithTop α)))
    (row : ScalabilityRow α) : Except SuiteStop (List (String × MetricsBag (WithTop α))) :=
  let key := batchKey row.batchSize
  let o0 :=
    match objGet o key with
    | none => objSet o key []
    | some _ => o
  match pushAt o0 key "tps" row.tps with
  | Except.error e => Except.error e
  | Except.ok o1 =>
    match pushAt o1 key "avgLatency" (row.avgLatency.map WithTop.some) with
    | Except.error e => Except.error e
    | Except.ok o2 => pushAt o2 key "successRate" (row.successRate.map WithTop.some)

/-- A `for ... of` loop whose body may stop the run. -/
def forEach {σ β : Type} (body : σ → β → Except SuiteStop σ) : σ → List β → Except SuiteStop σ
  | st, [] => Except.ok st
  | st, x :: xs =>
    match body st x with
    | Except.error e => Except.error e
    | Except.ok st1 => forEach body st1 xs

/-- The part of the callback of `withSeed` that follows `runAllSimulatedTests`: the three
loops that push the metrics of one replication into `samples`. -/
def recordReplication (res : SuiteResult α) (samples : Samples (WithTop α)) :
    Except SuiteStop (Samples (WithTop α)) :=
  match forEach recordLatencyEntry samples.latency res.latency with
  | Except.error e => Except.error e
  | Except.ok lat =>
    match forEach recordThroughputEntry samples.throughput res.throughput with
    | Except.error e => Except.error e
    | Except.ok thr =>
      match forEach recordScalabilityRow samples.scalabilitySepolia res.scalability.1 with
      | Except.error e => Except.error e
      | Except.ok sep =>
        match forEach recordScalabilityRow samples.scalabilityIota res.scalability.2 with
        | Except.error e => Except.error e
        | Except.ok iot => Except.ok ⟨lat, thr, sep, iot⟩

/-- The initial value of `samples`. -/
def emptySamples : Samples (WithTop α) :=
  ⟨[("Sepolia", []), ("IOTA", [])], [("Sepolia", []), ("IOTA", [])], [], []⟩

/-- The number `i + seedStart` of the array `seeds`, for an integer-valued `seedStart`:
the sum is computed in doubles, so it is the rounding of the exact sum, which is again
an integer. -/
def seedAt (seedStart : Int) (i : Nat) : Int :=
  ⌊roundDouble ((((i : Int) + seedStart : Int) : ℚ))⌋

/-- The array `seeds`: `Array.from({ length: replications }, (_, i) => i + seedStart)`. -/
def seedList (replications : Nat) (seedStart : Int) : List Int :=
  (List.range replications).map fun (i : Nat) => seedAt seedStart i

/-- The array of a latency or throughput metric of a network in the sample store, or
of a metric of a batch key; a missing entry counts as the empty array. -/
def sampleArray {β : Type} (o : List (String × MetricsBag β)) (name metric : String) :
    List β :=
  match objGet o name with
  | none => []
  | some bag => (objGet bag metric).getD []

/-- The values that the loop over `res.latency` hands to `pushMetric` under `metric` for
a summary `s`, those that are `null`, `undefined` or `NaN` left out. -/
def latencyPushed (s : Summary α) (metric : String) : List (WithTop α) :=
  (if metric = "avgLatency" then
      ((s.latency.bind fun st => st.mean).map WithTop.some).toList else []) ++
    ((if metric = "p95Latency" then
        ((s.latency.bind fun st => st.p95).map WithTop.some).toList else []) ++
      (if metric = "successRate" then (s.successRate.map WithTop.some).toList else []))

/-- The values that the loop over `res.throughput` hands to `pushMetric` under `metric`
for the summary of an entry, those that are `null`, `undefined` or `NaN` left out. -/
def throughputPushed (e : Summary α × Option (WithTop α) × α) (metric : String) :
    List (WithTop α) :=
  (if metric = "tps" then e.2.1.toList else []) ++
    ((if metric = "avgLatency" then
        ((e.1.latency.bind fun st => st.mean).map WithTop.some).toList else []) ++
      (if metric = "successRate" then (e.1.successRate.map WithTop.some).toList else []))

/-- The values that the loop over the scalability rows hands to `pushMetric` under
`metric` for a row. -/
def rowPushed (row : ScalabilityRow α) (metric : String) : List (WithTop α) :=
  (if metric = "tps" then row.tps.toList else []) ++
    ((if metric = "avgLatency" then (row.avgLatency.map WithTop.some).toList else []) ++
      (if metric = "successRate" then (row.successRate.map WithTop.some).toList else []))

end Orchestrator

section OrchestratorRun

variable {α : Type} [LinearOrderedField α] [FloorRing α]

/-- The callback that `runReplicatedSuite` passes to `withSeed`.  The replication that
runs while the generator `g` is installed as `Math.random` receives the settlements
and clock readings `replicate g`.  The state after a stop is not tracked. -/
def replicationBody {ρ : Type} (replicate : ρ → ReplicationTrace α)
    (w : Runtime ρ (Samples (WithTop α))) :
    Except SuiteStop Unit × Runtime ρ (Samples (WithTop α)) :=
  match runAllSimulatedTests (replicate w.mathRandom) with
  | Except.error e => (Except.error (SuiteStop.raised e), w)
  | Except.ok res =>
    match recordReplication res w.rest with
    | Except.error e => (Except.error e, w)
    | Except.ok samples => (Except.ok (), ⟨w.mathRandom, samples⟩)

/-- The loop `for (const [idx, seed] of seeds.entries())` with `await withSeed(...)`: a
rejected replication ends the loop. -/
def runReplications {ρ : Type} (seedrandom : String → ρ) (replicate : ρ → ReplicationTrace α) :
    List Int → Runtime ρ (Samples (WithTop α)) →
      Except SuiteStop Unit × Runtime ρ (Samples (WithTop α))
  | [], w => (Except.ok (), w)
  | seed :: seeds, w =>
    match withSeed seedrandom seed (replicationBody replicate) w with
    | (Except.error e, w1) => (Except.error e, w1)
    | (Except.ok _, w1) => runReplications seedrandom replicate seeds w1

/-- The sampling part of `runReplicatedSuite(replications, { seedStart })` (lines
257-299), started with the generator `original` installed: its settlement and the
sample store. -/
def runReplicatedSuite {ρ : Type} (seedrandom : String → ρ)
    (replicate : ρ → ReplicationTrace α) (replications : Nat) (seedStart : Int)
    (original : ρ) : Except SuiteStop Unit × Runtime ρ (Samples (WithTop α)) :=
  runReplications seedrandom replicate (seedList replications seedStart)
    ⟨original, emptySamples⟩

/-- The settlements and clock readings of the replication of index `i` in a run of
`runReplicatedSuite`: the replication runs while the generator seeded with the string of
the seed of index `i` is installed. -/
abbrev replicationTrace {ρ : Type} (seedrandom : String → ρ)
    (replicate : ρ → ReplicationTrace α) (seedStart : Int) (i : Nat) : ReplicationTrace α :=
  replicate (seedrandom (toString (seedAt seedStart i)))

end OrchestratorRun

/-- The sample store still has the bags of both networks in `samples.latency` and in
`samples.throughput`, as in its initial value. -/
def Samples.Ready {α : Type} (s : Samples α) : Prop :=
  (objGet s.latency "Sepolia").isSome ∧ (objGet s.latency "IOTA").isSome ∧
    (objGet s.throughput "Sepolia").isSome ∧ (objGet s.throughput "IOTA").isSome

/-- The clocks of a replication advance during every concurrent batch, so that no
`totalTime` is zero and no `tps` is `Infinity` or `NaN`. -/
def ReplicationTrace.Timed {α : Type} (t : ReplicationTrace α) : Prop :=
  t.throughputSepolia.finish ≠ t.throughputSepolia.start ∧
    t.throughputIota.finish ≠ t.throughputIota.start ∧
    (∀ b ∈ t.scalabilitySepolia, b.finish ≠ b.start) ∧
    (∀ b ∈ t.scalabilityIota, b.finish ≠ b.start)

/-- In every scalability batch of a replication some operation resolves with a
latency. -/
def ReplicationTrace.Measured {α : Type} (t : ReplicationTrace α) : Prop :=
  (∀ b ∈ t.scalabilitySepolia,
      ∃ op ∈ b.ops, ∃ r, op.2 = Outcome.resolved r ∧ r.latency.isSome) ∧
    (∀ b ∈ t.scalabilityIota,
      ∃ op ∈ b.ops, ∃ r, op.2 = Outcome.resolved r ∧ r.latency.isSome)


/-- Some operation of the list resolves with a latency, so that the latency statistics of
the collector that records the list are not `null`. -/
def HasLatency {α : Type} (ops : List (Completion α)) : Prop :=
  ∃ op ∈ ops, ∃ r, op.2 = Outcome.resolved r ∧ r.latency.isSome

/-- An operation that resolves with hash `0xabc`, a latency of 24500 ms, 21000 gas, 1 ms
of CPU time and `success: true`; its handler runs at clock reading 1000. -/
def resolvedOp : Completion ℚ :=
  (1000, Outcome.resolved ⟨some "0xabc", some 24500, some 21000, some 1, some true⟩)

/-- A concurrent batch of `n` operations that all resolve, launched at clock reading 0
and complete at clock reading 1000. -/
def measuredBatch (n : Nat) : Batch ℚ :=
  ⟨n, 0, 1000, List.replicate n resolvedOp⟩

/-- A replication of the configured suite (`iterations = 100`, `batchSize = 1000`,
`batchSizes = [10, 100, 1000, 10000]`) in which every simulated operation resolves. -/
def measuredTrace : ReplicationTrace ℚ :=
  ⟨List.replicate 100 resolvedOp, List.replicate 100 resolvedOp,
    measuredBatch 1000, measuredBatch 1000,
    [10, 100, 1000, 10000].map measuredBatch, [10, 100, 1000, 10000].map measuredBatch⟩

/-- An operation that resolves at once: a latency of 0 ms, and its handler runs at clock
reading 0. -/
def instantOp : Completion ℚ :=
  (0, Outcome.resolved ⟨some "0xabc", some 0, some 21000, some 0, some true⟩)

/-- A replication of the configured suite in which every operation resolves and the
clock does not advance during the two concurrent batches of the throughput test: there
`totalTime` is `0` and `tps` is `1000 / 0`, that is `Infinity`. -/
def instantTrace : ReplicationTrace ℚ :=
  ⟨List.replicate 100 resolvedOp, List.replicate 100 resolvedOp,
    ⟨1000, 0, 0, List.replicate 1000 instantOp⟩, ⟨1000, 0, 0, List.replicate 1000 instantOp⟩,
    [10, 100, 1000, 10000].map measuredBatch, [10, 100, 1000, 10000].map measuredBatch⟩

/-- A replication of the configured suite in which the 100 operations of the Sepolia
latency test reject with the message `timeout` and every other operation resolves. -/
def lostSepoliaTrace : ReplicationTrace ℚ :=
  ⟨List.replicate 100 (0, Outcome.rejected "timeout"), List.replicate 100 resolvedOp,
    measuredBatch 1000, measuredBatch 1000,
    [10, 100, 1000, 10000].map measuredBatch, [10, 100, 1000, 10000].map measuredBatch⟩


/-! ## Latency models and simulated clients

`simulateIOTALatency` (`network-distributions.js`, lines 102-126),
`EthereumClient.simulateTransaction` (`ethereum/client.js`, lines 148-196) and
`IOTAClient.randomHex`, `sendDummyBlock` and `submitBlock` (`iota/client.js`, lines
212-282).  As in `simulateEthereumLatency`, `wait d` is the wall clock time that
`await sleep(d)` takes; the total of a latency model is the sum of its three waits, and
the `latency` of a client call adds the time `overhead` that the rest of the call takes
between its two readings of the clock. -/

/-- The field `breakdown` of the object returned by `simulateIOTALatency`. -/
structure IOTABreakdown (α : Type) where
  gossip : α
  solidification : α
  confirmation : α

/-- The object returned by `simulateIOTALatency`. -/
structure IOTALatency (α : Type) where
  gossipMs : α
  solidificationMs : α
  confirmationMs : α
  totalMs : α
  breakdown : IOTABreakdown α

/-- The field `networkStats` of the object returned by `simulateTransaction`. -/
structure EthereumNetworkStats (α : Type) where
  rtt : α
  blocksToInclusion : Nat
  inclusionDelay : α
  confirmDelay : α

/-- The object returned by `simulateTransaction`, with the nonce of the transaction in
the place of its hash (the hash is computed from the nonce and constants); the fields
`cpuTime` and `timestamp`, read from `process.cpuUsage()` and the calendar, and the
constants `simulated` and `gasCost` are left out. -/
structure SimulatedTransaction (α : Type) where
  nonce : Int
  gasUsed : α
  latency : α
  success : Bool
  breakdown : EthereumBreakdown α
  networkStats : EthereumNetworkStats α

/-- The object returned by `sendDummyBlock`; the fields `blockId` (a hash of a clock
reading and of the block data), `cpuTime` and `timestamp` are left out. -/
structure DummyBlock (α : Type) where
  confirmed : Bool
  latency : α
  breakdown : IOTABreakdown α
  networkStats : IOTABreakdown α

/-- The image of a run under a function of its result. -/
def Run.map {β γ : Type} (f : β → γ) : Run β → Run γ
  | Run.done x => Run.done (f x)
  | Run.nonFinite => Run.nonFinite
  | Run.unfinished => Run.unfinished

section Clients

variable {α : Type} [LinearOrderedField α] [FloorRing α]

/-- The first phase of `simulateIOTALatency` (lines 105-106): the value `gossip` that is
slept, `maybeSpike(lognormal({medianMs: 70, p95Ms: 180}), {0.01, 200, 800})`. -/
def iotaGossip (M : JSMath α) (r : RandomSource α) : α × RandomSource α :=
  let l := lognormal M 70 180 r
  maybeSpike l.1 0.01 200 800 l.2

/-- The function `simulateIOTALatency()`; `fuel` is that of `gamma`. -/
def simulateIOTALatency (M : JSMath α) (wait : α → α) (fuel : Nat) (r : RandomSource α) :
    Run (IOTALatency α × RandomSource α) :=
  let gossip := iotaGossip M r
  let solid := truncatedNormal M 180 60 80 (WithTop.some 400) gossip.2
  match gamma M fuel 3 270 solid.2 with
  | Run.done (confirm, r1) =>
    Run.done
      (⟨jsRound gossip.1, jsRound solid.1, jsRound confirm,
          wait gossip.1 + wait solid.1 + wait confirm,
          ⟨jsRound gossip.1, jsRound solid.1, jsRound confirm⟩⟩,
        r1)
  | Run.nonFinite => Run.nonFinite
  | Run.unfinished => Run.unfinished

/-- The method `EthereumClient.simulateTransaction(to)`: the nonce
`Math.floor(Math.random() * 1000000)` is drawn first, then `simulateEthereumLatency` runs
with `0.8`, `12000` and `1`; `latency` is `endTime - startTime`, the time of the latency
model and the time `overhead` that the rest of the body takes between the two readings
of the clock (the dynamic import, the serialisation and the hash of the transaction). -/
def simulateTransaction (M : JSMath α) (wait : α → α) (overhead : α) (fuel : Nat)
    (r : RandomSource α) : Run (SimulatedTransaction α × RandomSource α) :=
  let d := r.random
  let nonce := ⌊d.1 * 1000000⌋
  match simulateEthereumLatency M wait fuel 0.8 12000 1 d.2 with
  | none => Run.unfinished
  | some (res, r1) =>
    Run.done
      (⟨nonce, 21000, res.totalMs + overhead, true, res.breakdown,
          ⟨res.networkRttMs, res.blocksToInclusion, res.inclusionDelayMs,
            res.confirmDelayMs⟩⟩,
        r1)

/-- The method `IOTAClient.randomHex(bytes)`: one call of `this.rng()` per byte, the byte
being `(this.rng() * 256) | 0`.  The client is constructed while the seeded generator is
installed, so `this.rng` is that generator. -/
def randomHex : Nat → RandomSource α → List Int × RandomSource α
  | 0, r => ([], r)
  | n + 1, r =>
    let d := r.random
    let rest := randomHex n d.2
    (⌊d.1 * 256⌋ :: rest.1, rest.2)

/-- The method `IOTAClient.sendDummyBlock()`: the block data is `randomHex(32)` unless the
SDK is available (`crypto.randomBytes(32)` then, which draws nothing from the
generator), then `simulateIOTALatency` runs; `latency` is `endTime - startTime`, the
time of the latency model and the time `overhead` that the rest of the body takes
between the two readings of the clock (the dynamic import, the block data and its
hash). -/
def sendDummyBlock (M : JSMath α) (wait : α → α) (overhead : α) (fuel : Nat)
    (sdkAvailable : Bool) (r : RandomSource α) : Run (DummyBlock α × RandomSource α) :=
  let data := if sdkAvailable then ([], r) else randomHex 32 r
  match simulateIOTALatency M wait fuel data.2 with
  | Run.done (res, r1) =>
    Run.done
      (⟨true, res.totalMs + overhead, res.breakdown,
          ⟨res.gossipMs, res.solidificationMs, res.confirmationMs⟩⟩,
        r1)
  | Run.nonFinite => Run.nonFinite
  | Run.unfinished => Run.unfinished

/-- The part of a `simulateTransaction` result that is sampled: all but `latency`. -/
def SimulatedTransaction.sampled (tx : SimulatedTransaction α) :
    Int × α × Bool × EthereumBreakdown α × EthereumNetworkStats α :=
  (tx.nonce, tx.gasUsed, tx.success, tx.breakdown, tx.networkStats)

/-- The part of a `sendDummyBlock` result that is sampled: all but `latency`. -/
def DummyBlock.sampled (b : DummyBlock α) : Bool × IOTABreakdown α × IOTABreakdown α :=
  (b.confirmed, b.breakdown, b.networkStats)

/-- The stream of uniform draws that is `0` everywhere but for `1/2200` at position 3. -/
def halfStream : Nat → α :=
  fun i => if i = 3 then 1 / 2200 else 0

end Clients

/-- The fields of an `IOTAClient` that `submitBlock` reads or writes; `keypair` and
`address` say whether the field is truthy. -/
structure IOTAClient where
  forceSim : Bool
  sdkAvailable : Bool
  keypair : Bool
  address : Bool
  hasTxBuilder : Bool
  warnedRealTxFailure : Bool
deriving DecidableEq

/-- The calls that `submitBlock` makes and that are observed: the two ways of sending,
and the warning of a failed real transaction. -/
inductive ClientCall where
  | sendRealTransaction
  | warn
  | sendDummyBlock
deriving DecidableEq

/-- The condition `canReal` computed at the start of `submitBlock`. -/
def IOTAClient.canReal (c : IOTAClient) : Bool :=
  !c.forceSim && c.sdkAvailable && c.keypair && c.address && c.hasTxBuilder

/-- The method `submitBlock(payload)`: the calls it makes, in order, and the client after
the call; `realResolves` says whether `sendRealTransaction`, if called, resolves. -/
def IOTAClient.submitBlock (realResolves : Bool) (c : IOTAClient) :
    List ClientCall × IOTAClient :=
  if c.canReal then
    if realResolves then ([ClientCall.sendRealTransaction], c)
    else if !c.warnedRealTxFailure then
      ([ClientCall.sendRealTransaction, ClientCall.warn, ClientCall.sendDummyBlock],
        ⟨c.forceSim, c.sdkAvailable, c.keypair, c.address, c.hasTxBuilder, true⟩)
    else ([ClientCall.sendRealTransaction, ClientCall.sendDummyBlock], c)
  else ([ClientCall.sendDummyBlock], c)

/-- Consecutive calls of `submitBlock` on one client: the calls of each. -/
def IOTAClient.submitBlocks : List Bool → IOTAClient → List (List ClientCall) × IOTAClient
  | [], c => ([], c)
  | b :: bs, c =>
    let first := c.submitBlock b
    let rest := IOTAClient.submitBlocks bs first.2
    (first.1 :: rest.1, rest.2)

/-- A client on which a real transaction is possible (SDK, wallet, address and
transaction builder present, simulation not forced) and no failure was warned yet. -/
def realClient : IOTAClient :=
  ⟨false, true, true, true, true, false⟩

/-! ## Aggregation pass of `runReplicatedSuite` (lines 302-327) -/

/-- The object `stats` built by the aggregation pass. -/
structure ReplicatedStats (α : Type) where
  latency : List (String × List (String × SummaryStatistic α))
  throughput : List (String × List (String × SummaryStatistic α))
  scalabilitySepolia : List (String × List (String × SummaryStatistic α))
  scalabilityIota : List (String × List (String × SummaryStatistic α))

section Aggregation

variable {α : Type} [LinearOrderedField α]

/-- The numbers of an array of samples; `none` when the array holds `Infinity`. -/
def finiteValues : List (WithTop α) → Option (List α)
  | [] => some []
  | v :: vs =>
    match v with
    | none => none
    | some x => (finiteValues vs).map fun xs => x :: xs

/-- The loop `for (const metric of Object.keys(bag))` with `ci95_normal(bag[metric])`;
the result is `none` when a field of one of the statistics would be non-finite, as for
an array that holds `Infinity`, whose mean is `Infinity`. -/
def bagStats (M : JSMath α) :
    MetricsBag (WithTop α) → Option (List (String × SummaryStatistic α))
  | [] => some []
  | (metric, arr) :: rest =>
    ((finiteValues arr).bind fun values => ci95_normal M values).bind fun c =>
      (bagStats M rest).map fun cs => (metric, c) :: cs

/-- The loop over the keys of an object of bags (the networks of a section, or the batch
keys of a network). -/
def sectionStats (M : JSMath α) :
    List (String × MetricsBag (WithTop α)) →
      Option (List (String × List (String × SummaryStatistic α)))
  | [] => some []
  | (name, bag) :: rest =>
    (bagStats M bag).bind fun b =>
      (sectionStats M rest).map fun bs => (name, b) :: bs

/-- The aggregation pass: `stats.latency`, `stats.throughput` and `stats.scalability`. -/
def aggregateSamples (M : JSMath α) (samples : Samples (WithTop α)) :
    Option (ReplicatedStats α) :=
  (sectionStats M samples.latency).bind fun lat =>
    (sectionStats M samples.throughput).bind fun thr =>
      (sectionStats M samples.scalabilitySepolia).bind fun sep =>
        (sectionStats M samples.scalabilityIota).map fun iot => ⟨lat, thr, sep, iot⟩

/-- Every array stored in an object of bags is non-empty. -/
def BagsFilled {β : Type} (o : List (String × MetricsBag β)) : Prop :=
  ∀ e ∈ o, ∀ a ∈ e.2, a.2 ≠ []

/-- Every array stored in the sample store is non-empty. -/
def Samples.Filled {β : Type} (s : Samples β) : Prop :=
  BagsFilled s.latency ∧ BagsFilled s.throughput ∧ BagsFilled s.scalabilitySepolia ∧
    BagsFilled s.scalabilityIota

/-- No array stored in an object of bags holds `Infinity`. -/
def BagsFinite (o : List (String × MetricsBag (WithTop α))) : Prop :=
  ∀ e ∈ o, ∀ a ∈ e.2, ∀ v ∈ a.2, v ≠ ⊤

/-- No array stored in the sample store holds `Infinity`. -/
def Samples.Finite (s : Samples (WithTop α)) : Prop :=
  BagsFinite s.latency ∧ BagsFinite s.throughput ∧ BagsFinite s.scalabilitySepolia ∧
    BagsFinite s.scalabilityIota

end Aggregation

/-! ## `gamma` without its first acceptance test

The variant that the refinement statement compares with `gamma`: the line
`if (u < 1 - 0.331 * Math.pow(x, 4)) return d * v * theta;` is deleted, everything else
is as in the source. -/

section GammaVariant

variable {α : Type} [LinearOrderedField α]

/-- One pass through the body of `while (true)` with the first acceptance test
deleted. -/
def gammaBodySecondTest (M : JSMath α) (d c theta : α) (r : RandomSource α) :
    Option α × RandomSource α :=
  let n := randn M r
  let x := n.1
  let v := 1 + c * x
  if v ≤ 0 then (none, n.2)
  else
    let v3 := v * v * v
    let du := n.2.random
    let u := du.1
    if u = 0 ∨ M.log u < 0.5 * x * x + d * (1 - v3 + M.log v3) then
      (some (d * v3 * theta), du.2)
    else (none, du.2)

/-- The loop `while (true)` over the body without the first acceptance test. -/
def gammaLoopSecondTest (M : JSMath α) (d c theta : α) :
    Nat → RandomSource α → Option (α × RandomSource α)
  | 0, _ => none
  | fuel + 1, r =>
    match gammaBodySecondTest M d c theta r with
    | (some y, r1) => some (y, r1)
    | (none, r1) => gammaLoopSecondTest M d c theta fuel r1

/-- The function `gamma` with the first acceptance test deleted from its loop. -/
def gammaSecondTest (M : JSMath α) : Nat → α → α → RandomSource α → Run (α × RandomSource α)
  | 0, _, _, _ => Run.unfinished
  | fuel + 1, shape, scale, r =>
    if shape < 1 then
      let du := r.random
      match gammaSecondTest M fuel (shape + 1) scale du.2 with
      | Run.done (g, r1) =>
        match boostFactor M du.1 shape with
        | none => Run.nonFinite
        | some f => Run.done (g * f, r1)
      | Run.nonFinite => Run.nonFinite
      | Run.unfinished => Run.unfinished
    else
      let d := shape - 1 / 3
      match jsDiv 1 (M.sqrt (9 * d)) with
      | none => Run.nonFinite
      | some c =>
        match gammaLoopSecondTest M d c scale fuel r with
        | none => Run.unfinished
        | some res => Run.done res

end GammaVariant

/-! ## Lemmas -/

section RoundingLemmas

variable {α : Type} [LinearOrderedField α] [FloorRing α]

theorem roundHalfEven_of_lt (q : α) (n : ℤ) (h1 : (n : α) - 1 / 2 < q)
    (h2 : q < (n : α) + 1 / 2) : roundHalfEven q = n := by
  unfold roundHalfEven
  by_cases hq : (n : α) ≤ q
  · have hf : ⌊q⌋ = n := by
      rw [Int.floor_eq_iff]
      constructor
      · exact hq
      · linarith
    simp only [hf]
    rw [if_pos (by linarith)]
  · push_neg at hq
    have hf : ⌊q⌋ = n - 1 := by
      rw [Int.floor_eq_iff]
      push_cast
      constructor <;> linarith
    simp only [hf]
    push_cast
    rw [if_neg (by linarith), if_pos (by linarith)]
    ring

theorem roundHalfEven_intCast (n : ℤ) : roundHalfEven (n : α) = n :=
  roundHalfEven_of_lt (n : α) n (by linarith) (by linarith)

theorem roundHalfEven_tie (f : ℤ) : roundHalfEven ((f : α) + 1 / 2) =
    if f % 2 = 0 then f else f + 1 := by
  unfold roundHalfEven
  have hf : ⌊(f : α) + 1 / 2⌋ = f := by
    rw [Int.floor_eq_iff]
    constructor <;> linarith
  simp only [hf]
  rw [if_neg (by linarith), if_neg (by linarith)]

theorem log_two_eq (x : α) (e : ℤ) (h1 : (2 : α) ^ e ≤ |x|) (h2 : |x| < (2 : α) ^ (e + 1)) :
    Int.log 2 |x| = e := by
  have hpos : 0 < |x| := lt_of_lt_of_le (zpow_pos (by norm_num) e) h1
  have a := (Int.zpow_le_iff_le_log (by norm_num : 1 < 2) hpos).1
    (by exact_mod_cast h1 : ((2 : ℕ) : α) ^ e ≤ |x|)
  have b := (Int.lt_zpow_iff_log_lt (by norm_num : 1 < 2) hpos).1
    (by exact_mod_cast h2 : |x| < ((2 : ℕ) : α) ^ (e + 1))
  omega

theorem roundDouble_eq (x : α) (e n : ℤ) (h1 : (2 : α) ^ e ≤ |x|)
    (h2 : |x| < (2 : α) ^ (e + 1))
    (hn : roundHalfEven (x / (2 : α) ^ (e - 52)) = n) :
    roundDouble x = (n : α) * (2 : α) ^ (e - 52) := by
  have hpos : 0 < |x| := lt_of_lt_of_le (zpow_pos (by norm_num) e) h1
  have hx : x ≠ 0 := abs_pos.1 hpos
  unfold roundDouble
  rw [if_neg hx, log_two_eq x e h1 h2, hn]

theorem roundDouble_exact (x : α) (e n : ℤ) (h1 : (2 : α) ^ e ≤ |x|)
    (h2 : |x| < (2 : α) ^ (e + 1)) (hn : x = (n : α) * (2 : α) ^ (e - 52)) :
    roundDouble x = x := by
  have hp : (0 : α) < (2 : α) ^ (e - 52) := zpow_pos (by norm_num) _
  rw [roundDouble_eq x e n h1 h2, ← hn]
  rw [hn, mul_div_assoc, div_self hp.ne', mul_one]
  exact roundHalfEven_intCast n

theorem roundDouble_multiple (x : α) (k m : ℤ) (hx : x = (k : α) * (2 : α) ^ m)
    (hk : |k| ≤ 2 ^ 53) : roundDouble x = x := by
  by_cases h0 : x = 0
  · rw [h0]
    unfold roundDouble
    rw [if_pos rfl]
  have hpos : (0 : α) < |x| := abs_pos.2 h0
  have h1 : ((2 : ℕ) : α) ^ Int.log 2 |x| ≤ |x| := Int.zpow_log_le_self (by norm_num) hpos
  have h2 : |x| < ((2 : ℕ) : α) ^ (Int.log 2 |x| + 1) :=
    Int.lt_zpow_succ_log_self (by norm_num) _
  push_cast at h1 h2
  generalize Int.log 2 |x| = e at h1 h2
  have hp : (0 : α) < (2 : α) ^ m := zpow_pos (by norm_num) _
  have habs : |x| = ((|k| : ℤ) : α) * (2 : α) ^ m := by
    rw [hx, abs_mul, abs_of_pos hp, Int.cast_abs]
  have hle : |x| ≤ (2 : α) ^ (53 + m) := by
    rw [habs, zpow_add₀ (by norm_num : (2 : α) ≠ 0)]
    apply mul_le_mul_of_nonneg_right _ hp.le
    have : ((|k| : ℤ) : α) ≤ ((2 ^ 53 : ℤ) : α) := Int.cast_le.2 hk
    push_cast at this
    exact_mod_cast this
  have he : e ≤ 53 + m := by
    have h3 := lt_of_le_of_lt h1 (lt_of_le_of_lt hle
      (zpow_lt_zpow_right₀ (by norm_num : (1 : α) < 2) (by omega : 53 + m < 53 + m + 1)))
    have := (zpow_lt_zpow_iff_right₀ (by norm_num : (1 : α) < 2)).1 h3
    omega
  rcases he.lt_or_eq with hlt | heq
  · obtain ⟨d, hd⟩ : ∃ d : ℕ, m = e - 52 + d := ⟨(m - (e - 52)).toNat, by omega⟩
    refine roundDouble_exact x e (k * 2 ^ d) h1 h2 ?_
    rw [hx, hd, zpow_add₀ (by norm_num : (2 : α) ≠ 0)]
    push_cast
    rw [zpow_natCast]
    ring
  · have hk2 : ((|k| : ℤ) : α) * (2 : α) ^ m = (2 : α) ^ (53 + m) := by
      apply le_antisymm
      · rw [← habs]; exact hle
      · rw [← habs, ← heq]; exact h1
    have hk3 : ((|k| : ℤ) : α) = 2 ^ 53 := by
      rw [zpow_add₀ (by norm_num : (2 : α) ≠ 0)] at hk2
      have := mul_right_cancel₀ hp.ne' hk2
      rw [this]
      norm_cast
    have hk4 : |k| = 2 ^ 53 := by exact_mod_cast hk3
    obtain ⟨j, hj⟩ : ∃ j : ℤ, k = j * 2 := by
      rcases abs_cases k with ⟨h, _⟩ | ⟨h, _⟩
      · exact ⟨2 ^ 52, by rw [← h, hk4]; norm_num⟩
      · exact ⟨-2 ^ 52, by
          have : k = -|k| := by rw [h]; ring
          rw [this, hk4]; norm_num⟩
    refine roundDouble_exact x e j h1 h2 ?_
    rw [hx, hj, heq]
    have : (53 + m - 52 : ℤ) = m + 1 := by ring
    rw [this, zpow_add₀ (by norm_num : (2 : α) ≠ 0)]
    push_cast
    ring

theorem roundDouble_intCast (n : ℤ) (h : |n| ≤ 2 ^ 53) : roundDouble (n : α) = (n : α) :=
  roundDouble_multiple (n : α) n 0 (by simp) h

theorem le_roundHalfEven (q : α) (k : ℤ) (h : (k : α) ≤ q) : k ≤ roundHalfEven q := by
  have hf : k ≤ ⌊q⌋ := Int.le_floor.2 h
  unfold roundHalfEven
  simp only
  split_ifs <;> omega

theorem roundHalfEven_le (q : α) (k : ℤ) (h : q ≤ (k : α)) : roundHalfEven q ≤ k := by
  have h1 : ((⌊q⌋ : ℤ) : α) ≤ q := Int.floor_le q
  have hf : ⌊q⌋ ≤ k := by exact_mod_cast le_trans h1 h
  unfold roundHalfEven
  simp only
  by_cases hc : q - (⌊q⌋ : α) < 1 / 2
  · rw [if_pos hc]
    exact hf
  · have hlt : ⌊q⌋ < k := by
      have : ((⌊q⌋ : ℤ) : α) < (k : α) := by
        push_neg at hc
        linarith
      exact_mod_cast this
    rw [if_neg hc]
    split_ifs <;> omega

theorem roundDouble_ne_zero (x : α) (hx : x ≠ 0) : roundDouble x ≠ 0 := by
  have hpos : (0 : α) < |x| := abs_pos.2 hx
  have h1 : ((2 : ℕ) : α) ^ Int.log 2 |x| ≤ |x| := Int.zpow_log_le_self (by norm_num) hpos
  push_cast at h1
  unfold roundDouble
  rw [if_neg hx]
  generalize Int.log 2 |x| = e at h1
  have hp : (0 : α) < (2 : α) ^ (e - 52) := zpow_pos (by norm_num) _
  have hq : (1 : α) ≤ |x / (2 : α) ^ (e - 52)| := by
    rw [abs_div, abs_of_pos hp, le_div_iff₀ hp, one_mul]
    refine le_trans ?_ h1
    exact zpow_le_zpow_right₀ (by norm_num) (by omega)
  apply mul_ne_zero _ hp.ne'
  intro h0
  have h00 : roundHalfEven (x / (2 : α) ^ (e - 52)) = 0 := by exact_mod_cast h0
  rcases le_abs.1 hq with h | h
  · have := le_roundHalfEven (x / (2 : α) ^ (e - 52)) 1 (by exact_mod_cast h)
    omega
  · have := roundHalfEven_le (x / (2 : α) ^ (e - 52)) (-1) (by push_cast; linarith)
    omega

theorem roundDouble_zero : roundDouble (0 : α) = 0 := by
  unfold roundDouble
  rw [if_pos rfl]

theorem roundDouble_tenth : roundDouble (1 / 10 : α) = tenth := by
  have h := roundDouble_eq (1 / 10 : α) (-4) 7205759403792794
    (by norm_num [abs_of_pos]) (by norm_num [abs_of_pos])
    (roundHalfEven_of_lt _ _ (by norm_num) (by norm_num))
  rw [h, tenth]
  norm_num

theorem roundDouble_tenth_sum :
    [(tenth : α), tenth, tenth].foldl (fun a b => roundDouble (a + b)) 0 =
      5404319552844596 / 2 ^ 54 := by
  have h1 : roundDouble ((0 : α) + tenth) = tenth := by
    rw [zero_add]
    exact roundDouble_exact tenth (-4) 7205759403792794 (by norm_num [abs_of_pos, tenth])
      (by norm_num [abs_of_pos, tenth]) (by norm_num [tenth])
  have h2 : roundDouble ((tenth : α) + tenth) = tenth + tenth :=
    roundDouble_exact (tenth + tenth) (-3) 7205759403792794
      (by norm_num [abs_of_pos, tenth]) (by norm_num [abs_of_pos, tenth])
      (by norm_num [tenth])
  have h3 : roundDouble ((tenth : α) + tenth + tenth) = 5404319552844596 / 2 ^ 54 := by
    have h := roundDouble_eq ((tenth : α) + tenth + tenth) (-2) 5404319552844596
      (by norm_num [abs_of_pos, tenth]) (by norm_num [abs_of_pos, tenth])
      (by
        have e : ((tenth : α) + tenth + tenth) / 2 ^ ((-2 : ℤ) - 52) =
            ((5404319552844595 : ℤ) : α) + 1 / 2 := by norm_num [tenth]
        rw [e, roundHalfEven_tie]
        norm_num)
    rw [h]
    norm_num
  simp only [List.foldl_cons, List.foldl_nil, h1, h2, h3]

theorem roundDouble_tenth_mean :
    roundDouble ((5404319552844596 / 2 ^ 54 : α) / 3) = 7205759403792795 / 2 ^ 56 := by
  have h := roundDouble_eq ((5404319552844596 / 2 ^ 54 : α) / 3) (-4) 7205759403792795
    (by norm_num [abs_of_pos]) (by norm_num [abs_of_pos])
    (roundHalfEven_of_lt _ _ (by norm_num) (by norm_num))
  rw [h]
  norm_num

theorem meanRounded_tenth :
    meanRounded roundDouble [(tenth : α), tenth, tenth] =
      some (7205759403792795 / 2 ^ 56) := by
  have h3 : (([(tenth : α), tenth, tenth].length : ℕ) : α) = 3 := by
    simp only [List.length_cons, List.length_nil]
    norm_num
  unfold meanRounded
  rw [roundDouble_tenth_sum, h3, jsDiv, if_neg (by norm_num), Option.map_some',
    roundDouble_tenth_mean]

theorem sampleVarianceRounded_tenth :
    sampleVarianceRounded roundDouble [(tenth : α), tenth, tenth] = some (3 / 2 ^ 113) := by
  have h3 : (([(tenth : α), tenth, tenth].length : ℕ) : α) = 3 := by
    simp only [List.length_cons, List.length_nil]
    norm_num
  have hd : (tenth : α) - 7205759403792795 / 2 ^ 56 = -(1 / 2 ^ 56) := by
    norm_num [tenth]
  have e1 : roundDouble (-(1 / 2 ^ 56) : α) = -(1 / 2 ^ 56) :=
    roundDouble_multiple _ (-1) (-56) (by norm_num) (by norm_num)
  have e2 : roundDouble ((-(1 / 2 ^ 56) : α) ^ 2) = 1 / 2 ^ 112 := by
    have : ((-(1 / 2 ^ 56) : α) ^ 2) = 1 / 2 ^ 112 := by norm_num
    rw [this]
    exact roundDouble_multiple _ 1 (-112) (by norm_num) (by norm_num)
  have e3 : roundDouble ((0 : α) + 1 / 2 ^ 112) = 1 / 2 ^ 112 := by
    rw [zero_add]
    exact roundDouble_multiple _ 1 (-112) (by norm_num) (by norm_num)
  have e4 : roundDouble ((1 / 2 ^ 112 : α) + 1 / 2 ^ 112) = 2 / 2 ^ 112 :=  by
    have : (1 / 2 ^ 112 : α) + 1 / 2 ^ 112 = 2 / 2 ^ 112 := by norm_num
    rw [this]
    exact roundDouble_multiple _ 2 (-112) (by norm_num) (by norm_num)
  have e5 : roundDouble ((2 / 2 ^ 112 : α) + 1 / 2 ^ 112) = 3 / 2 ^ 112 :=  by
    have : (2 / 2 ^ 112 : α) + 1 / 2 ^ 112 = 3 / 2 ^ 112 := by norm_num
    rw [this]
    exact roundDouble_multiple _ 3 (-112) (by norm_num) (by norm_num)
  have e6 : roundDouble ((3 / 2 ^ 112 : α) / (3 - 1)) = 3 / 2 ^ 113 :=  by
    have : (3 / 2 ^ 112 : α) / (3 - 1) = 3 / 2 ^ 113 := by norm_num
    rw [this]
    exact roundDouble_multiple _ 3 (-113) (by norm_num) (by norm_num)
  unfold sampleVarianceRounded
  rw [if_neg (by simp), meanRounded_tenth]
  simp only [Option.some_bind, List.foldl_cons, List.foldl_nil, hd, e1, e2, e3, e4, e5, h3,
    jsDiv]
  rw [if_neg (by norm_num), Option.map_some', e6]

end RoundingLemmas

section RoundedLemmas

variable {α : Type} [LinearOrderedField α]


theorem foldl_rounded_constant (fl : α → α) (c : α) (n : Nat)
    (hsum : ∀ k : Nat, k ≤ n → fl ((k : α) * c) = (k : α) * c) :
    ∀ (arr : List α) (j : Nat), j + arr.length ≤ n → (∀ x ∈ arr, x = c) →
      arr.foldl (fun a b => fl (a + b)) ((j : α) * c) = ((j + arr.length : Nat) : α) * c := by
  intro arr
  induction arr with
  | nil => intro j _ _; simp
  | cons x xs ih =>
    intro j hj hall
    have hx : x = c := hall x (List.mem_cons_self _ _)
    have hstep : fl ((j : α) * c + x) = ((j + 1 : Nat) : α) * c := by
      have e : (j : α) * c + x = ((j + 1 : Nat) : α) * c := by
        rw [hx]; push_cast; ring
      rw [e]
      exact hsum (j + 1) (by simp only [List.length_cons] at hj; omega)
    rw [List.foldl_cons, hstep]
    have := ih (j + 1) (by simp only [List.length_cons] at hj; omega)
      (fun y hy => hall y (List.mem_cons_of_mem _ hy))
    rw [this]
    congr 2
    simp only [List.length_cons]
    omega

theorem meanRounded_constant (fl : α → α) (c : α) (arr : List α) (hne : arr ≠ [])
    (hall : ∀ x ∈ arr, x = c)
    (hsum : ∀ k : Nat, k ≤ arr.length → fl ((k : α) * c) = (k : α) * c) :
    meanRounded fl arr = some c := by
  have hlen : (arr.length : α) ≠ 0 := by
    have : 0 < arr.length := List.length_pos.2 hne
    exact_mod_cast this.ne'
  have hf := foldl_rounded_constant fl c arr.length hsum arr 0 (by omega) hall
  simp only [Nat.cast_zero, zero_mul, zero_add] at hf
  have hc : fl c = c := by
    have := hsum 1 (List.length_pos.2 hne)
    simpa using this
  unfold meanRounded
  rw [hf, jsDiv, if_neg hlen, Option.map_some', mul_div_cancel_left₀ c hlen, hc]

theorem foldl_rounded_zero (fl : α → α) (h0 : fl 0 = 0) (c : α) :
    ∀ arr : List α, (∀ x ∈ arr, x = c) →
      arr.foldl (fun acc x => fl (acc + fl (fl (x - c) ^ 2))) 0 = 0 := by
  intro arr
  induction arr with
  | nil => intro _; rfl
  | cons x xs ih =>
    intro hall
    have hx : x = c := hall x (List.mem_cons_self _ _)
    rw [List.foldl_cons, hx, sub_self, h0]
    have e : (0 : α) ^ 2 = 0 := by norm_num
    rw [e, h0, add_zero, h0]
    exact ih fun y hy => hall y (List.mem_cons_of_mem _ hy)

theorem sampleVarianceRounded_constant (fl : α → α) (c : α) (arr : List α) (hne : arr ≠ [])
    (hall : ∀ x ∈ arr, x = c)
    (hsum : ∀ k : Nat, k ≤ arr.length → fl ((k : α) * c) = (k : α) * c) :
    sampleVarianceRounded fl arr = some 0 := by
  have h0 : fl 0 = 0 := by
    have := hsum 0 (Nat.zero_le _)
    simpa using this
  unfold sampleVarianceRounded
  by_cases h2 : arr.length < 2
  · rw [if_pos h2]
  · rw [if_neg h2, meanRounded_constant fl c arr hne hall hsum]
    have hne1 : (arr.length : α) - 1 ≠ 0 := by
      have : (2 : α) ≤ (arr.length : α) := by exact_mod_cast not_lt.1 h2
      linarith
    simp only [Option.some_bind, foldl_rounded_zero fl h0 c arr hall, jsDiv, if_neg hne1,
      zero_div, Option.map_some', h0]

end RoundedLemmas

section PowerLemmas

variable {α : Type} [LinearOrderedField α]

theorem two_zpow_split (e : ℤ) (k : ℕ) :
    (2 : α) ^ e = ((2 ^ k : ℤ) : α) * (2 : α) ^ (e - k) := by
  push_cast
  rw [← zpow_natCast, ← zpow_add₀ (by norm_num : (2 : α) ≠ 0)]
  congr 1
  ring

theorem two_zpow_succ_split (e : ℤ) :
    (2 : α) ^ (e + 1) = ((2 ^ 53 : ℤ) : α) * (2 : α) ^ (e - 52) := by
  have h : (2 : α) ^ (e + 1) = ((2 ^ 53 : ℤ) : α) * (2 : α) ^ (e + 1 - ((53 : ℕ) : ℤ)) :=
    two_zpow_split (e + 1) 53
  have e1 : e + 1 - ((53 : ℕ) : ℤ) = e - 52 := by
    push_cast
    ring
  rw [e1] at h
  exact h

end PowerLemmas

section MonotoneLemmas

variable {α : Type} [LinearOrderedField α] [FloorRing α]

theorem roundHalfEven_mono (q1 q2 : α) (h : q1 ≤ q2) : roundHalfEven q1 ≤ roundHalfEven q2 := by
  have hf : ⌊q1⌋ ≤ ⌊q2⌋ := Int.floor_mono h
  rcases hf.lt_or_eq with hlt | heq
  · have h1 : roundHalfEven q1 ≤ ⌊q1⌋ + 1 :=
      roundHalfEven_le q1 (⌊q1⌋ + 1) (by push_cast; exact (Int.lt_floor_add_one q1).le)
    have h2 : ⌊q2⌋ ≤ roundHalfEven q2 := le_roundHalfEven q2 ⌊q2⌋ (Int.floor_le q2)
    omega
  · unfold roundHalfEven
    simp only
    rw [← heq]
    by_cases a1 : q1 - (⌊q1⌋ : α) < 1 / 2
    · rw [if_pos a1]
      split_ifs <;> omega
    · rw [if_neg a1]
      have a2 : ¬ q2 - (⌊q1⌋ : α) < 1 / 2 := by
        push_neg at a1 ⊢
        linarith
      rw [if_neg a2]
      by_cases b1 : 1 / 2 < q1 - (⌊q1⌋ : α)
      · have b2 : 1 / 2 < q2 - (⌊q1⌋ : α) := by linarith
        rw [if_pos b1, if_pos b2]
      · rw [if_neg b1]
        split_ifs <;> omega

theorem log_two_spec (x : α) (hx : x ≠ 0) :
    (2 : α) ^ Int.log 2 |x| ≤ |x| ∧ |x| < (2 : α) ^ (Int.log 2 |x| + 1) := by
  have hpos : (0 : α) < |x| := abs_pos.2 hx
  have h1 : ((2 : ℕ) : α) ^ Int.log 2 |x| ≤ |x| := Int.zpow_log_le_self (by norm_num) hpos
  have h2 : |x| < ((2 : ℕ) : α) ^ (Int.log 2 |x| + 1) :=
    Int.lt_zpow_succ_log_self (by norm_num) _
  push_cast at h1 h2
  exact ⟨h1, h2⟩

theorem roundDouble_pos_bounds (x : α) (hx : 0 < x) :
    (2 : α) ^ Int.log 2 |x| ≤ roundDouble x ∧
      roundDouble x ≤ (2 : α) ^ (Int.log 2 |x| + 1) := by
  obtain ⟨h1, h2⟩ := log_two_spec x hx.ne'
  unfold roundDouble
  rw [if_neg hx.ne']
  generalize Int.log 2 |x| = e at h1 h2
  rw [abs_of_pos hx] at h1 h2
  have hp : (0 : α) < (2 : α) ^ (e - 52) := zpow_pos (by norm_num) _
  have e1 : (2 : α) ^ e = ((2 ^ 52 : ℤ) : α) * (2 : α) ^ (e - 52) := two_zpow_split e 52
  have e2 : (2 : α) ^ (e + 1) = ((2 ^ 53 : ℤ) : α) * (2 : α) ^ (e - 52) :=
    two_zpow_succ_split e
  constructor
  · rw [e1]
    apply mul_le_mul_of_nonneg_right _ hp.le
    exact Int.cast_le.2 (le_roundHalfEven (x / (2 : α) ^ (e - 52)) (2 ^ 52) (by
      rw [le_div_iff₀ hp, ← e1]
      exact h1))
  · rw [e2]
    apply mul_le_mul_of_nonneg_right _ hp.le
    exact Int.cast_le.2 (roundHalfEven_le (x / (2 : α) ^ (e - 52)) (2 ^ 53) (by
      rw [div_le_iff₀ hp, ← e2]
      exact h2.le))

theorem roundDouble_neg_bounds (x : α) (hx : x < 0) :
    -(2 : α) ^ (Int.log 2 |x| + 1) ≤ roundDouble x ∧
      roundDouble x ≤ -(2 : α) ^ Int.log 2 |x| := by
  obtain ⟨h1, h2⟩ := log_two_spec x hx.ne
  unfold roundDouble
  rw [if_neg hx.ne]
  generalize Int.log 2 |x| = e at h1 h2
  rw [abs_of_neg hx] at h1 h2
  have hp : (0 : α) < (2 : α) ^ (e - 52) := zpow_pos (by norm_num) _
  have e1 : (2 : α) ^ e = ((2 ^ 52 : ℤ) : α) * (2 : α) ^ (e - 52) := two_zpow_split e 52
  have e2 : (2 : α) ^ (e + 1) = ((2 ^ 53 : ℤ) : α) * (2 : α) ^ (e - 52) :=
    two_zpow_succ_split e
  constructor
  · rw [e2, ← neg_mul]
    apply mul_le_mul_of_nonneg_right _ hp.le
    have h := le_roundHalfEven (x / (2 : α) ^ (e - 52)) (-2 ^ 53) (by
      rw [le_div_iff₀ hp, Int.cast_neg, neg_mul, ← e2]
      linarith)
    have h3 : (((-2 ^ 53 : ℤ)) : α) ≤ ((roundHalfEven (x / (2 : α) ^ (e - 52)) : ℤ) : α) :=
      Int.cast_le.2 h
    rwa [Int.cast_neg] at h3
  · rw [e1, ← neg_mul]
    apply mul_le_mul_of_nonneg_right _ hp.le
    have h := roundHalfEven_le (x / (2 : α) ^ (e - 52)) (-2 ^ 52) (by
      rw [div_le_iff₀ hp, Int.cast_neg, neg_mul, ← e1]
      linarith)
    have h3 : ((roundHalfEven (x / (2 : α) ^ (e - 52)) : ℤ) : α) ≤ (((-2 ^ 52 : ℤ)) : α) :=
      Int.cast_le.2 h
    rwa [Int.cast_neg] at h3

theorem roundDouble_mono (x y : α) (h : x ≤ y) : roundDouble x ≤ roundDouble y := by
  have hz : ∀ e : ℤ, (0 : α) < (2 : α) ^ e := fun e => zpow_pos (by norm_num) e
  rcases lt_trichotomy x 0 with hx | hx | hx
  · have hxb := roundDouble_neg_bounds x hx
    have hx0 : roundDouble x ≤ 0 := le_trans hxb.2 (neg_nonpos.2 (hz _).le)
    rcases lt_trichotomy y 0 with hy | hy | hy
    · have hyb := roundDouble_neg_bounds y hy
      have hlog : Int.log 2 |y| ≤ Int.log 2 |x| :=
        Int.log_mono_right (abs_pos.2 hy.ne) (by
          rw [abs_of_neg hx, abs_of_neg hy]
          linarith)
      rcases hlog.lt_or_eq with hlt | heq
      · refine le_trans hxb.2 (le_trans ?_ hyb.1)
        rw [neg_le_neg_iff]
        exact zpow_le_zpow_right₀ (by norm_num) (by omega)
      · unfold roundDouble
        rw [if_neg hx.ne, if_neg hy.ne, heq]
        apply mul_le_mul_of_nonneg_right _ (hz _).le
        exact Int.cast_le.2 (roundHalfEven_mono _ _ (div_le_div_of_nonneg_right h (hz _).le))
    · rw [hy, roundDouble_zero]
      exact hx0
    · exact le_trans hx0 (le_trans (hz _).le (roundDouble_pos_bounds y hy).1)
  · rw [hx, roundDouble_zero]
    rcases h.lt_or_eq with hy | hy
    · rw [hx] at hy
      exact le_trans (hz _).le (roundDouble_pos_bounds y hy).1
    · rw [← hy, hx, roundDouble_zero]
  · have hy : 0 < y := lt_of_lt_of_le hx h
    have hxb := roundDouble_pos_bounds x hx
    have hyb := roundDouble_pos_bounds y hy
    have hlog : Int.log 2 |x| ≤ Int.log 2 |y| :=
      Int.log_mono_right (abs_pos.2 hx.ne') (by
        rw [abs_of_pos hx, abs_of_pos hy]
        exact h)
    rcases hlog.lt_or_eq with hlt | heq
    · refine le_trans hxb.2 (le_trans ?_ hyb.1)
      exact zpow_le_zpow_right₀ (by norm_num) (by omega)
    · unfold roundDouble
      rw [if_neg hx.ne', if_neg hy.ne', heq]
      apply mul_le_mul_of_nonneg_right _ (hz _).le
      exact Int.cast_le.2 (roundHalfEven_mono _ _ (div_le_div_of_nonneg_right h (hz _).le))

end MonotoneLemmas

section ExpLemmas

theorem roundDouble_idem {α : Type} [LinearOrderedField α] [FloorRing α] (x : α) :
    roundDouble (roundDouble x) = roundDouble x := by
  by_cases hx : x = 0
  · rw [hx, roundDouble_zero, roundDouble_zero]
  obtain ⟨h1, h2⟩ := log_two_spec x hx
  have e : roundDouble x =
      ((roundHalfEven (x / (2 : α) ^ (Int.log 2 |x| - 52)) : ℤ) : α) *
        (2 : α) ^ (Int.log 2 |x| - 52) := by
    unfold roundDouble
    rw [if_neg hx]
  generalize Int.log 2 |x| = e0 at h1 h2 e
  have hp : (0 : α) < (2 : α) ^ (e0 - 52) := zpow_pos (by norm_num) _
  have e2 : (2 : α) ^ (e0 + 1) = ((2 ^ 53 : ℤ) : α) * (2 : α) ^ (e0 - 52) :=
    two_zpow_succ_split e0
  have hq : |x / (2 : α) ^ (e0 - 52)| ≤ ((2 ^ 53 : ℤ) : α) := by
    rw [abs_div, abs_of_pos hp, div_le_iff₀ hp, ← e2]
    exact h2.le
  obtain ⟨hq1, hq2⟩ := abs_le.1 hq
  have b1 : -2 ^ 53 ≤ roundHalfEven (x / (2 : α) ^ (e0 - 52)) :=
    le_roundHalfEven _ _ (by rw [Int.cast_neg]; exact hq1)
  have b2 : roundHalfEven (x / (2 : α) ^ (e0 - 52)) ≤ 2 ^ 53 := roundHalfEven_le _ _ hq2
  exact roundDouble_multiple _ _ _ e (abs_le.2 ⟨b1, b2⟩)

theorem exp_hi_lower :
    (2105410889108381018363120403 / 2 ^ 90 : ℝ) ≤ Real.exp (4783380397244705 / 2 ^ 53) := by
  refine le_trans ?_ (Real.sum_le_exp_of_nonneg (by positivity) 20)
  norm_num [Finset.sum_range_succ, Nat.factorial]

theorem exp_hi_upper :
    Real.exp (4783380397244705 / 2 ^ 53) ≤ (2105410889108381018363122105 / 2 ^ 90 : ℝ) := by
  refine le_trans (Real.exp_bound' (by positivity) (by norm_num) (by norm_num : 0 < 20)) ?_
  norm_num [Finset.sum_range_succ, Nat.factorial]

theorem exp_mid_upper :
    Real.exp (9566760794489409 / 2 ^ 54) ≤ (526352722277095225372334959 / 2 ^ 88 : ℝ) := by
  refine le_trans (Real.exp_bound' (by positivity) (by norm_num) (by norm_num : 0 < 20)) ?_
  norm_num [Finset.sum_range_succ, Nat.factorial]

theorem exp_eight (x : ℝ) : Real.exp (8 * x) = Real.exp x ^ 8 := by
  have := Real.exp_nat_mul x 8
  norm_num at this
  exact this

theorem exp_log_hi_lower :
    (70 + 3 / 2 ^ 47 : ℝ) < Real.exp (4783380397244705 / 2 ^ 50) := by
  have e : (4783380397244705 / 2 ^ 50 : ℝ) = 8 * (4783380397244705 / 2 ^ 53) := by norm_num
  rw [e, exp_eight]
  refine lt_of_lt_of_le ?_ (pow_le_pow_left₀ (by positivity) exp_hi_lower 8)
  norm_num

theorem exp_log_hi_upper :
    Real.exp (4783380397244705 / 2 ^ 50) < (70 + 5 / 2 ^ 47 : ℝ) := by
  have e : (4783380397244705 / 2 ^ 50 : ℝ) = 8 * (4783380397244705 / 2 ^ 53) := by norm_num
  rw [e, exp_eight]
  refine lt_of_le_of_lt (pow_le_pow_left₀ (Real.exp_pos _).le exp_hi_upper 8) ?_
  norm_num

theorem exp_log_mid_upper :
    Real.exp (9566760794489409 / 2 ^ 51) < (70 : ℝ) := by
  have e : (9566760794489409 / 2 ^ 51 : ℝ) = 8 * (9566760794489409 / 2 ^ 54) := by norm_num
  rw [e, exp_eight]
  refine lt_of_le_of_lt (pow_le_pow_left₀ (Real.exp_pos _).le exp_mid_upper 8) ?_
  norm_num

theorem roundDouble_log_seventy :
    roundDouble (Real.log 70) = 4783380397244705 / 2 ^ 50 := by
  have h1 : (9566760794489409 / 2 ^ 51 : ℝ) < Real.log 70 :=
    (Real.lt_log_iff_exp_lt (by norm_num)).2 exp_log_mid_upper
  have h2 : Real.log 70 < (4783380397244705 / 2 ^ 50 : ℝ) :=
    (Real.log_lt_iff_lt_exp (by norm_num)).2
      (lt_trans (by norm_num) exp_log_hi_lower)
  have hpos : (0 : ℝ) < Real.log 70 := lt_trans (by norm_num) h1
  have h := roundDouble_eq (Real.log 70) 2 4783380397244705
    (by rw [abs_of_pos hpos]; exact le_trans (by norm_num) h1.le)
    (by rw [abs_of_pos hpos]; exact lt_trans h2 (by norm_num))
    (roundHalfEven_of_lt _ _
      (by
        rw [lt_div_iff₀ (zpow_pos (by norm_num) _)]
        refine lt_of_le_of_lt ?_ h1
        norm_num)
      (by
        rw [div_lt_iff₀ (zpow_pos (by norm_num) _)]
        refine lt_trans h2 ?_
        norm_num))
  rw [h]
  norm_num

theorem roundDouble_exp_log_seventy :
    roundDouble (Real.exp (4783380397244705 / 2 ^ 50)) = 70 + 1 / 2 ^ 45 := by
  have h1 := exp_log_hi_lower
  have h2 := exp_log_hi_upper
  have hpos : (0 : ℝ) < Real.exp (4783380397244705 / 2 ^ 50) := Real.exp_pos _
  have h := roundDouble_eq (Real.exp (4783380397244705 / 2 ^ 50)) 6 4925812092436482
    (by rw [abs_of_pos hpos]; exact le_trans (by norm_num) h1.le)
    (by rw [abs_of_pos hpos]; exact lt_trans h2 (by norm_num))
    (roundHalfEven_of_lt _ _
      (by
        rw [lt_div_iff₀ (zpow_pos (by norm_num) _)]
        refine lt_of_le_of_lt ?_ h1
        norm_num)
      (by
        rw [div_lt_iff₀ (zpow_pos (by norm_num) _)]
        refine lt_of_lt_of_le h2 ?_
        norm_num))
  rw [h]
  norm_num

end ExpLemmas

section LognormalLemmas

theorem lognormalAt_zero {α : Type} [LinearOrderedField α] (fl : α → α) (M : JSMath α)
    (medianMs p95Ms : α) (h0 : fl 0 = 0) (hmu : fl (M.log medianMs) = M.log medianMs) :
    lognormalAt fl M medianMs p95Ms 0 = Max.max 1 (M.exp (M.log medianMs)) := by
  unfold lognormalAt
  simp only [mul_zero, h0, add_zero, hmu]

theorem lognormalAt_mono {α : Type} [LinearOrderedField α] (fl : α → α) (M : JSMath α)
    (medianMs p95Ms : α) (hfl : ∀ x y : α, x ≤ y → fl x ≤ fl y) (h0 : fl 0 = 0)
    (hexp : ∀ x y : α, x ≤ y → M.exp x ≤ M.exp y) (hz : 0 < fl 1.6448536269514722)
    (hlog : M.log medianMs ≤ M.log p95Ms) (z1 z2 : α) (hle : z1 ≤ z2) :
    lognormalAt fl M medianMs p95Ms z1 ≤ lognormalAt fl M medianMs p95Ms z2 := by
  have h1 : 0 ≤ fl (M.log p95Ms - M.log medianMs) := by
    rw [← h0]
    exact hfl _ _ (sub_nonneg.2 hlog)
  have hsig : 0 ≤ fl (fl (M.log p95Ms - M.log medianMs) / fl 1.6448536269514722) := by
    rw [← h0]
    exact hfl _ _ (div_nonneg h1 hz.le)
  unfold lognormalAt
  exact max_le_max (le_refl 1)
    (hexp _ _ (hfl _ _ (add_le_add_left (hfl _ _ (mul_le_mul_of_nonneg_left hle hsig)) _)))

theorem randn_rounded_zero_draws :
    (randn (JSMath.mk (fun x => roundDouble (Real.sqrt x)) (fun x => roundDouble (Real.log x)) (fun x => roundDouble (Real.exp x)) (fun x => roundDouble (Real.cos x)) (fun x y => roundDouble (x ^ y)) (roundDouble Real.pi))
      ⟨fun _ => 0, 0⟩).1 = 0 := by
  simp [randn, RandomSource.random, roundDouble_zero]

end LognormalLemmas

section Lemmas

variable {α : Type} [LinearOrderedField α]

theorem jsDiv_of_ne_zero (a : α) {b : α} (hb : b ≠ 0) : jsDiv a b = some (a / b) := by
  simp [jsDiv, hb]

theorem foldl_add_eq_sum (l : List α) (a : α) :
    l.foldl (fun x y => x + y) a = a + l.sum := by
  induction l generalizing a with
  | nil => simp
  | cons x xs ih => simp [ih, add_assoc]

theorem foldl_sq_dev_eq_sum (l : List α) (m a : α) :
    l.foldl (fun acc x => acc + (x - m) ^ 2) a = a + (l.map fun x => (x - m) ^ 2).sum := by
  induction l generalizing a with
  | nil => simp
  | cons x xs ih => simp [ih, add_assoc]

theorem length_cast_ne_zero {l : List α} (h : l ≠ []) : (l.length : α) ≠ 0 := by
  have : 0 < l.length := List.length_pos.2 h
  exact Nat.cast_ne_zero.2 this.ne'

theorem mean_eq (arr : List α) (h : arr ≠ []) :
    mean arr = some (arr.sum / arr.length) := by
  unfold mean
  rw [jsDiv_of_ne_zero _ (length_cast_ne_zero h), foldl_add_eq_sum, zero_add]

theorem sampleVariance_eq (arr : List α) (h : arr ≠ []) :
    sampleVariance arr = some
      (if 2 ≤ arr.length then
        (arr.map fun x => (x - arr.sum / arr.length) ^ 2).sum / ((arr.length : α) - 1)
      else 0) := by
  unfold sampleVariance
  by_cases h2 : arr.length < 2
  · have : ¬ 2 ≤ arr.length := by omega
    simp [h2, this]
  · have h2' : 2 ≤ arr.length := by omega
    have hne : (arr.length : α) - 1 ≠ 0 := by
      have : (2 : α) ≤ (arr.length : α) := by exact_mod_cast h2'
      linarith
    rw [if_neg h2, if_pos h2', mean_eq arr h]
    simp only [Option.some_bind]
    rw [jsDiv_of_ne_zero _ hne, foldl_sq_dev_eq_sum, zero_add]


theorem ci95_normal_eq (M : JSMath α) (hsqrt : ∀ x : α, 0 < x → M.sqrt x ≠ 0)
    (arr : List α) (hne : arr ≠ []) (m s2 : α) (hm : mean arr = some m)
    (hs2 : sampleVariance arr = some s2) :
    ci95_normal M arr = some
      ⟨arr.length, m, s2, M.sqrt s2,
        (m - 1.96 * M.sqrt s2 / M.sqrt (arr.length : α),
          m + 1.96 * M.sqrt s2 / M.sqrt (arr.length : α))⟩ := by
  have hpos : (0 : α) < (arr.length : α) := by
    exact_mod_cast List.length_pos.2 hne
  unfold ci95_normal
  simp only [hm, hs2, Option.some_bind, jsDiv_of_ne_zero _ (hsqrt _ hpos), Option.map_some',
    Z95, mul_div_assoc]

theorem sum_eq_of_forall_eq (arr : List α) (c : α) (hall : ∀ x ∈ arr, x = c) :
    arr.sum = (arr.length : α) * c := by
  induction arr with
  | nil => simp
  | cons x xs ih =>
    have hx : x = c := hall x (List.mem_cons_self x xs)
    have hxs : ∀ y ∈ xs, y = c := fun y hy => hall y (List.mem_cons_of_mem x hy)
    rw [List.sum_cons, ih hxs, hx, List.length_cons]
    push_cast
    ring

theorem sum_sq_dev_eq_zero (arr : List α) (c : α) (hall : ∀ x ∈ arr, x = c) :
    (arr.map fun x => (x - c) ^ 2).sum = 0 := by
  induction arr with
  | nil => simp
  | cons x xs ih =>
    have hx : x = c := hall x (List.mem_cons_self x xs)
    have hxs : ∀ y ∈ xs, y = c := fun y hy => hall y (List.mem_cons_of_mem x hy)
    simp [ih hxs, hx]


theorem floor_half [FloorRing α] (n : ℕ) : ⌊(n : α) / 2⌋₊ = n / 2 := by
  have h := @Nat.floor_div_eq_div α _ _ n 2
  simpa using h

theorem floor_p95 [FloorRing α] (n : ℕ) : ⌊(n : α) * 0.95⌋₊ = n * 95 / 100 := by
  have h : (n : α) * 0.95 = ((n * 95 : ℕ) : α) / ((100 : ℕ) : α) := by
    push_cast
    norm_num
    ring
  rw [h, Nat.floor_div_eq_div]

theorem floor_p99 [FloorRing α] (n : ℕ) : ⌊(n : α) * 0.99⌋₊ = n * 99 / 100 := by
  have h : (n : α) * 0.99 = ((n * 99 : ℕ) : α) / ((100 : ℕ) : α) := by
    push_cast
    norm_num
    ring
  rw [h, Nat.floor_div_eq_div]

theorem calculateStats_eq [FloorRing α] (values : List α) (hne : values ≠ []) :
    MetricsCollector.calculateStats values = some
      ⟨(values.insertionSort (· ≤ ·))[0]?,
        (values.insertionSort (· ≤ ·))[values.length - 1]?,
        some (values.sum / (values.length : α)),
        (values.insertionSort (· ≤ ·))[values.length / 2]?,
        (values.insertionSort (· ≤ ·))[values.length * 95 / 100]?,
        (values.insertionSort (· ≤ ·))[values.length * 99 / 100]?,
        values.length⟩ := by
  have hlen : values.length ≠ 0 := fun h => hne (List.length_eq_zero.1 h)
  unfold MetricsCollector.calculateStats
  rw [if_neg hlen]
  simp only [List.length_insertionSort, floor_half, floor_p95, floor_p99,
    jsDiv_of_ne_zero _ (length_cast_ne_zero hne), foldl_add_eq_sum, zero_add]

theorem calculateStatsRounded_eq [FloorRing α] (fl : α → α) (values : List α)
    (hne : values ≠ []) :
    MetricsCollector.calculateStatsRounded fl values = some
      ⟨(values.insertionSort (· ≤ ·))[0]?,
        (values.insertionSort (· ≤ ·))[values.length - 1]?,
        some (fl (values.foldl (fun a b => fl (a + b)) 0 / (values.length : α))),
        (values.insertionSort (· ≤ ·))[values.length / 2]?,
        (values.insertionSort (· ≤ ·))[values.length * 95 / 100]?,
        (values.insertionSort (· ≤ ·))[values.length * 99 / 100]?,
        values.length⟩ := by
  have hlen : values.length ≠ 0 := fun h => hne (List.length_eq_zero.1 h)
  unfold MetricsCollector.calculateStatsRounded
  rw [if_neg hlen]
  simp only [List.length_insertionSort, floor_half, floor_p95, floor_p99,
    jsDiv_of_ne_zero _ (length_cast_ne_zero hne), Option.map_some']


theorem candidate_shift (M : JSMath α) (mean sd : α) (r : RandomSource α) (i : Nat) :
    candidate M mean sd ⟨r.stream, r.pos + 2⟩ i = candidate M mean sd r (i + 1) := by
  have h : r.pos + 2 + 2 * i = r.pos + 2 * (i + 1) := by ring
  simp only [candidate, h]

theorem truncatedNormalLoop_accept (M : JSMath α) (mean sd min : α) (max : WithTop α)
    (k : Nat) (r : RandomSource α) (h : inBounds min max (candidate M mean sd r 0)) :
    truncatedNormalLoop M mean sd min max (k + 1) r =
      (candidate M mean sd r 0, ⟨r.stream, r.pos + 2⟩) := by
  unfold truncatedNormalLoop
  exact if_pos h

theorem truncatedNormalLoop_reject (M : JSMath α) (mean sd min : α) (max : WithTop α)
    (k : Nat) (r : RandomSource α) (h : ¬ inBounds min max (candidate M mean sd r 0)) :
    truncatedNormalLoop M mean sd min max (k + 1) r =
      truncatedNormalLoop M mean sd min max k ⟨r.stream, r.pos + 2⟩ := by
  conv_lhs => unfold truncatedNormalLoop
  exact if_neg h

theorem truncatedNormalLoop_first (M : JSMath α) (mean sd min : α) (max : WithTop α) :
    ∀ (k : Nat) (r : RandomSource α) (j : Nat), j < k →
      inBounds min max (candidate M mean sd r j) →
      (∀ i, i < j → ¬ inBounds min max (candidate M mean sd r i)) →
      truncatedNormalLoop M mean sd min max k r =
        (candidate M mean sd r j, ⟨r.stream, r.pos + 2 * (j + 1)⟩) := by
  intro k
  induction k with
  | zero => intro r j hj; omega
  | succ k ih =>
    intro r j hj hacc hrej
    cases j with
    | zero => exact truncatedNormalLoop_accept M mean sd min max k r hacc
    | succ j =>
      rw [truncatedNormalLoop_reject M mean sd min max k r (hrej 0 (Nat.succ_pos j)),
        ih ⟨r.stream, r.pos + 2⟩ j (by omega)
          (by rw [candidate_shift]; exact hacc)
          (fun i hi => by rw [candidate_shift]; exact hrej (i + 1) (by omega)),
        candidate_shift]
      have h : r.pos + 2 + 2 * (j + 1) = r.pos + 2 * (j + 1 + 1) := by ring
      simp only [h]

theorem truncatedNormalLoop_none (M : JSMath α) (mean sd min : α) (max : WithTop α) :
    ∀ (k : Nat) (r : RandomSource α),
      (∀ i, i < k → ¬ inBounds min max (candidate M mean sd r i)) →
      truncatedNormalLoop M mean sd min max k r =
        (minBound max (Max.max min mean), ⟨r.stream, r.pos + 2 * k⟩) := by
  intro k
  induction k with
  | zero => intro r _; rfl
  | succ k ih =>
    intro r hrej
    rw [truncatedNormalLoop_reject M mean sd min max k r (hrej 0 (Nat.succ_pos k)),
      ih ⟨r.stream, r.pos + 2⟩ (fun i hi => by rw [candidate_shift]; exact hrej (i + 1) (by omega))]
    have h : r.pos + 2 + 2 * k = r.pos + 2 * (k + 1) := by ring
    simp only [h]

theorem truncatedNormalLoop_source (M : JSMath α) (mean sd min : α) (max : WithTop α) :
    ∀ (k : Nat) (r : RandomSource α),
      (truncatedNormalLoop M mean sd min max k r).2.stream = r.stream ∧
      r.pos ≤ (truncatedNormalLoop M mean sd min max k r).2.pos ∧
      (truncatedNormalLoop M mean sd min max k r).2.pos ≤ r.pos + 2 * k := by
  intro k
  induction k with
  | zero => intro r; exact ⟨rfl, le_refl _, le_refl _⟩
  | succ k ih =>
    intro r
    by_cases h : inBounds min max (candidate M mean sd r 0)
    · rw [truncatedNormalLoop_accept M mean sd min max k r h]
      refine ⟨rfl, ?_, ?_⟩
      · show r.pos ≤ r.pos + 2
        omega
      · show r.pos + 2 ≤ r.pos + 2 * (k + 1)
        omega
    · rw [truncatedNormalLoop_reject M mean sd min max k r h]
      obtain ⟨h1, h2, h3⟩ := ih ⟨r.stream, r.pos + 2⟩
      refine ⟨h1, ?_, ?_⟩
      · have : r.pos + 2 ≤ (truncatedNormalLoop M mean sd min max k ⟨r.stream, r.pos + 2⟩).2.pos := h2
        omega
      · have : (truncatedNormalLoop M mean sd min max k ⟨r.stream, r.pos + 2⟩).2.pos
            ≤ r.pos + 2 + 2 * k := h3
        omega

theorem minBound_inBounds (mean min : α) (max : WithTop α) (hle : (min : WithTop α) ≤ max) :
    inBounds min max (minBound max (Max.max min mean)) := by
  cases max with
  | top => exact ⟨le_max_left min mean, le_top⟩
  | coe m =>
    have hm : min ≤ m := WithTop.coe_le_coe.1 hle
    exact ⟨le_min hm (le_max_left min mean), WithTop.coe_le_coe.2 (min_le_left m _)⟩

theorem coe_minBound (max : WithTop α) (y : α) :
    ((minBound max y : α) : WithTop α) = Min.min max (y : WithTop α) := by
  cases max with
  | top => simp [minBound]
  | coe m => simp [minBound]

theorem truncatedNormalLoop_inBounds (M : JSMath α) (mean sd min : α) (max : WithTop α)
    (hle : (min : WithTop α) ≤ max) :
    ∀ (k : Nat) (r : RandomSource α),
      inBounds min max (truncatedNormalLoop M mean sd min max k r).1 := by
  intro k
  induction k with
  | zero => intro r; exact minBound_inBounds mean min max hle
  | succ k ih =>
    intro r
    by_cases h : inBounds min max (candidate M mean sd r 0)
    · rw [truncatedNormalLoop_accept M mean sd min max k r h]
      exact h
    · rw [truncatedNormalLoop_reject M mean sd min max k r h]
      exact ih _


theorem foldl_recordOutcome_metrics (net : Network) (ops : List (Completion α))
    (c : MetricsCollector α) :
    (ops.foldl (fun c op => recordOutcome net op.1 op.2 c) c).metrics =
      c.metrics ++ ops.map fun op => (⟨outcomeData net op.2, op.1⟩ : Record α) := by
  induction ops generalizing c with
  | nil => simp
  | cons op ops ih =>
    rw [List.foldl_cons, ih]
    simp [recordOutcome, MetricsCollector.recordTransaction]

theorem runOperations_metrics (net : Network) (ops : List (Completion α)) :
    (runOperations net ops).metrics =
      ops.map fun op => (⟨outcomeData net op.2, op.1⟩ : Record α) := by
  unfold runOperations
  rw [foldl_recordOutcome_metrics]
  rfl

theorem latency_none_of_rejected (net : Network) (o : Outcome α)
    (h : ∃ e, o = Outcome.rejected e) :
    (outcomeData net o).latency = none ∧ (outcomeData net o).success = some false := by
  obtain ⟨e, rfl⟩ := h
  exact ⟨rfl, rfl⟩

theorem getLatencyStats_all_rejected [FloorRing α] (net : Network)
    (ops : List (Completion α)) (hrej : ∀ op ∈ ops, ∃ e, op.2 = Outcome.rejected e) :
    (runOperations net ops).getLatencyStats = none := by
  have hnil : (runOperations net ops).metrics.filterMap (fun m => m.latency) = [] := by
    rw [runOperations_metrics, List.filterMap_eq_nil_iff]
    intro m hm
    obtain ⟨op, hop, rfl⟩ := List.mem_map.1 hm
    exact (latency_none_of_rejected net op.2 (hrej op hop)).1
  unfold MetricsCollector.getLatencyStats
  rw [hnil]
  rfl

theorem scalabilityRow_all_rejected [FloorRing α] (net : Network) (b : Batch α)
    (hrej : ∀ op ∈ b.ops, ∃ e, op.2 = Outcome.rejected e) :
    scalabilityRow net b = Except.error (JSError.typeError "mean") := by
  have h : (runOperations net b.ops).getSummary.latency = none :=
    getLatencyStats_all_rejected net b.ops hrej
  unfold scalabilityRow
  simp only [h]

theorem runAllSimulatedTests_raises [FloorRing α] (t : ReplicationTrace α) (b : Batch α)
    (bs : List (Batch α)) (ht : t.scalabilitySepolia = b :: bs)
    (hrej : ∀ op ∈ b.ops, ∃ e, op.2 = Outcome.rejected e) :
    runAllSimulatedTests t = Except.error (JSError.typeError "mean") := by
  unfold runAllSimulatedTests testLatencySimulated testThroughputSimulated
    testScalabilitySimulated
  simp only [ht, scalabilityRows, scalabilityRow_all_rejected Network.sepolia b hrej]


theorem getSuccessRate_eq (c : MetricsCollector α) :
    c.getSuccessRate = some
      (if c.metrics.length = 0 then 0
      else 100 * ((List.countP (fun m => m.success == some true) c.metrics : ℕ) : α) /
        (c.metrics.length : α)) := by
  unfold MetricsCollector.getSuccessRate
  by_cases h : c.metrics.length = 0
  · simp [h]
  · have hpos : c.metrics.length > 0 := Nat.pos_of_ne_zero h
    have hne : (c.metrics.length : α) ≠ 0 := Nat.cast_ne_zero.2 h
    simp only [if_pos hpos, if_neg h, jsDiv_of_ne_zero _ hne,
      Option.map_some', List.countP_eq_length_filter]
    congr 1
    ring

theorem getThroughput_cons (first : Record α) (rest : List (Record α)) :
    MetricsCollector.getThroughput ⟨first :: rest⟩ = some
      (if 0 < ((first :: rest).getLast (List.cons_ne_nil first rest)).timestamp
            - first.timestamp then
        ((rest.length : α) + 1) /
          ((((first :: rest).getLast (List.cons_ne_nil first rest)).timestamp
            - first.timestamp) / 1000)
      else 0) := by
  unfold MetricsCollector.getThroughput
  by_cases h : 0 < ((first :: rest).getLast (List.cons_ne_nil first rest)).timestamp
      - first.timestamp
  · have h1 : ((first :: rest).getLast (List.cons_ne_nil first rest)).timestamp
        - first.timestamp > 0 := h
    have h2 : (((first :: rest).getLast (List.cons_ne_nil first rest)).timestamp
        - first.timestamp) / 1000 > 0 := by positivity
    simp only [if_pos h2, if_pos h, jsDiv_of_ne_zero _ h2.ne', List.length_cons]
    push_cast
    rfl
  · have h2 : ¬ (((first :: rest).getLast (List.cons_ne_nil first rest)).timestamp
        - first.timestamp) / 1000 > 0 := by
      intro hpos
      apply h
      have := mul_pos hpos (show (0 : α) < 1000 by norm_num)
      rwa [div_mul_cancel₀ _ (show (1000 : α) ≠ 0 by norm_num)] at this
    simp only [if_neg h2, if_neg h]


theorem geometricBlocksLoop_found (p : α) :
    ∀ (j fuel k : Nat) (r : RandomSource α), j < fuel → r.stream (r.pos + j) ≤ p →
      (∀ i, i < j → r.stream (r.pos + i) > p) →
      geometricBlocksLoop p fuel k r = some (k + j, ⟨r.stream, r.pos + (j + 1)⟩) := by
  intro j
  induction j with
  | zero =>
    intro fuel k r hf hle _
    obtain ⟨fuel, rfl⟩ : ∃ n, fuel = n + 1 := ⟨fuel - 1, by omega⟩
    have hn : ¬ r.stream r.pos > p := not_lt.2 hle
    simp only [geometricBlocksLoop, RandomSource.random, hn, if_false]
    rfl
  | succ j ih =>
    intro fuel k r hf hle hgt
    obtain ⟨fuel, rfl⟩ : ∃ n, fuel = n + 1 := ⟨fuel - 1, by omega⟩
    have h0 : r.stream r.pos > p := hgt 0 (Nat.succ_pos j)
    have hle1 : r.stream (r.pos + 1 + j) ≤ p := by
      have e : r.pos + 1 + j = r.pos + (j + 1) := by ring
      rw [e]; exact hle
    have hgt1 : ∀ i, i < j → r.stream (r.pos + 1 + i) > p := by
      intro i hi
      have e : r.pos + 1 + i = r.pos + (i + 1) := by ring
      rw [e]; exact hgt (i + 1) (by omega)
    have hrec := ih fuel (k + 1) ⟨r.stream, r.pos + 1⟩ (by omega) hle1 hgt1
    simp only [geometricBlocksLoop, RandomSource.random, h0, if_true]
    rw [hrec]
    have e1 : k + 1 + j = k + (j + 1) := by ring
    have e2 : r.pos + 1 + (j + 1) = r.pos + (j + 1 + 1) := by ring
    simp only [e1, e2]

theorem geometricBlocksLoop_sound (p : α) :
    ∀ (fuel k : Nat) (r : RandomSource α) (n : Nat) (r1 : RandomSource α),
      geometricBlocksLoop p fuel k r = some (n, r1) →
      ∃ j, j < fuel ∧ n = k + j ∧ r1 = ⟨r.stream, r.pos + (j + 1)⟩ ∧
        r.stream (r.pos + j) ≤ p ∧ ∀ i, i < j → r.stream (r.pos + i) > p := by
  intro fuel
  induction fuel with
  | zero => intro k r n r1 h; simp [geometricBlocksLoop] at h
  | succ fuel ih =>
    intro k r n r1 h
    by_cases h0 : r.stream r.pos > p
    · simp only [geometricBlocksLoop, RandomSource.random, h0, if_true] at h
      obtain ⟨j, hjf, hn, hr, hle, hgt⟩ := ih (k + 1) ⟨r.stream, r.pos + 1⟩ n r1 h
      refine ⟨j + 1, by omega, by omega, ?_, ?_, ?_⟩
      · rw [hr]
        have e : r.pos + 1 + (j + 1) = r.pos + (j + 1 + 1) := by ring
        simp only [e]
      · have e : r.pos + (j + 1) = r.pos + 1 + j := by ring
        rw [e]; exact hle
      · intro i hi
        cases i with
        | zero => exact h0
        | succ i =>
          have e : r.pos + (i + 1) = r.pos + 1 + i := by ring
          rw [e]; exact hgt i (by omega)
    · simp only [geometricBlocksLoop, RandomSource.random, h0, if_false] at h
      have hk : k = n := congrArg Prod.fst (Option.some.inj h)
      have hr : (⟨r.stream, r.pos + 1⟩ : RandomSource α) = r1 :=
        congrArg Prod.snd (Option.some.inj h)
      exact ⟨0, by omega, by omega, hr.symm, not_lt.1 h0,
        fun i hi => absurd hi (Nat.not_lt_zero i)⟩

theorem uniform_of_stream_eq {r r1 : RandomSource α} (h : r1.stream = r.stream)
    (hu : r.Uniform) : r1.Uniform := by
  intro i
  rw [h]
  exact hu i

theorem geometricBlocks_sound (p : α) (r : RandomSource α) (fuel k : Nat)
    (r1 : RandomSource α) (h : geometricBlocks fuel p r = some (k, r1)) :
    1 ≤ k ∧ r.stream (r.pos + (k - 1)) ≤ p ∧
      (∀ i, i < k - 1 → r.stream (r.pos + i) > p) ∧ r1 = ⟨r.stream, r.pos + k⟩ ∧
      k ≤ fuel := by
  obtain ⟨j, hjf, hk, hr, hle, hgt⟩ := geometricBlocksLoop_sound p fuel 1 r k r1 h
  have hj : k - 1 = j := by omega
  have hk1 : j + 1 = k := by omega
  rw [hj]
  refine ⟨by omega, hle, hgt, ?_, by omega⟩
  rw [hr, hk1]

theorem geometricBlocks_found (p : α) (r : RandomSource α) (j : Nat)
    (hle : r.stream (r.pos + j) ≤ p) (hgt : ∀ i, i < j → r.stream (r.pos + i) > p)
    (fuel : Nat) (hf : j < fuel) :
    geometricBlocks fuel p r = some (j + 1, ⟨r.stream, r.pos + (j + 1)⟩) := by
  have h := geometricBlocksLoop_found p j fuel 1 r hf hle hgt
  have e : 1 + j = j + 1 := by ring
  rw [e] at h
  exact h

theorem geometricBlocks_mono (p : α) (r : RandomSource α) (fuel fuel1 : Nat)
    (res : Nat × RandomSource α) (h : geometricBlocks fuel p r = some res)
    (hf : fuel ≤ fuel1) : geometricBlocks fuel1 p r = some res := by
  obtain ⟨k, r1⟩ := res
  obtain ⟨hk, hle, hgt, hr, hkf⟩ := geometricBlocks_sound p r fuel k r1 h
  have h1 := geometricBlocks_found p r (k - 1) hle hgt fuel1 (by omega)
  have e : k - 1 + 1 = k := by omega
  rw [e] at h1
  rw [h1, hr]

theorem geometricBlocks_returns_iff (p : α) (r : RandomSource α) :
    (∃ fuel, (geometricBlocks fuel p r).isSome) ↔ ∃ j, r.stream (r.pos + j) ≤ p := by
  constructor
  · rintro ⟨fuel, h⟩
    obtain ⟨⟨k, r1⟩, hk⟩ := Option.isSome_iff_exists.1 h
    exact ⟨k - 1, (geometricBlocks_sound p r fuel k r1 hk).2.1⟩
  · intro hex
    classical
    have hfirst := Nat.find_spec hex
    have hmin : ∀ i, i < Nat.find hex → r.stream (r.pos + i) > p :=
      fun i hi => not_le.1 (Nat.find_min hex hi)
    exact ⟨Nat.find hex + 1, by
      rw [geometricBlocks_found p r (Nat.find hex) hfirst hmin _ (Nat.lt_succ_self _)]
      rfl⟩

theorem gammaBody_nonneg (M : JSMath α) (d c theta : α) (r : RandomSource α) (y : α)
    (hd : 0 ≤ d) (ht : 0 ≤ theta) (h : (gammaBody M d c theta r).1 = some y) : 0 ≤ y := by
  unfold gammaBody at h
  by_cases hv : 1 + c * (randn M r).1 ≤ 0
  · simp [hv] at h
  · have hvpos : 0 < 1 + c * (randn M r).1 := not_le.1 hv
    have hv3 : 0 ≤ (1 + c * (randn M r).1) * (1 + c * (randn M r).1)
        * (1 + c * (randn M r).1) := by positivity
    have hy : 0 ≤ d * ((1 + c * (randn M r).1) * (1 + c * (randn M r).1)
        * (1 + c * (randn M r).1)) * theta := mul_nonneg (mul_nonneg hd hv3) ht
    simp only [hv, if_false] at h
    split_ifs at h <;> (rw [← Option.some.inj h]; exact hy)

theorem gammaBody_stream (M : JSMath α) (d c theta : α) (r : RandomSource α) :
    (gammaBody M d c theta r).2.stream = r.stream := by
  simp only [gammaBody]
  split_ifs <;> rfl

theorem gammaLoop_accept (M : JSMath α) (d c theta : α) (fuel : Nat) (r : RandomSource α)
    (y : α) (h : (gammaBody M d c theta r).1 = some y) :
    gammaLoop M d c theta (fuel + 1) r = some (y, (gammaBody M d c theta r).2) := by
  conv_lhs => unfold gammaLoop
  rcases hb : gammaBody M d c theta r with ⟨o, r1⟩
  rw [hb] at h
  simp only at h
  subst h
  rfl

theorem gammaLoop_reject (M : JSMath α) (d c theta : α) (fuel : Nat) (r : RandomSource α)
    (h : (gammaBody M d c theta r).1 = none) :
    gammaLoop M d c theta (fuel + 1) r =
      gammaLoop M d c theta fuel (gammaBody M d c theta r).2 := by
  conv_lhs => unfold gammaLoop
  rcases hb : gammaBody M d c theta r with ⟨o, r1⟩
  rw [hb] at h
  simp only at h
  subst h
  rfl

theorem gammaLoop_nonneg (M : JSMath α) (d c theta : α) (hd : 0 ≤ d) (ht : 0 ≤ theta) :
    ∀ (fuel : Nat) (r : RandomSource α) (y : α) (r1 : RandomSource α),
      gammaLoop M d c theta fuel r = some (y, r1) → 0 ≤ y ∧ r1.stream = r.stream := by
  intro fuel
  induction fuel with
  | zero => intro r y r1 h; simp [gammaLoop] at h
  | succ fuel ih =>
    intro r y r1 h
    cases hb : (gammaBody M d c theta r).1 with
    | none =>
      rw [gammaLoop_reject M d c theta fuel r hb] at h
      obtain ⟨h1, h2⟩ := ih _ y r1 h
      exact ⟨h1, h2.trans (gammaBody_stream M d c theta r)⟩
    | some z =>
      rw [gammaLoop_accept M d c theta fuel r z hb] at h
      have hz : z = y := congrArg Prod.fst (Option.some.inj h)
      have hr : (gammaBody M d c theta r).2 = r1 := congrArg Prod.snd (Option.some.inj h)
      rw [← hz, ← hr]
      exact ⟨gammaBody_nonneg M d c theta r z hd ht hb, gammaBody_stream M d c theta r⟩

theorem gammaLoop_returns_iff (M : JSMath α) (d c theta : α) (r : RandomSource α) :
    (∃ fuel, (gammaLoop M d c theta fuel r).isSome) ↔
      ∃ i, (gammaBody M d c theta
        ((fun s => (gammaBody M d c theta s).2)^[i] r)).1.isSome := by
  constructor
  · rintro ⟨fuel, h⟩
    induction fuel generalizing r with
    | zero => simp [gammaLoop] at h
    | succ fuel ih =>
      cases hb : (gammaBody M d c theta r).1 with
      | none =>
        rw [gammaLoop_reject M d c theta fuel r hb] at h
        obtain ⟨i, hi⟩ := ih _ h
        exact ⟨i + 1, by rw [Function.iterate_succ_apply]; exact hi⟩
      | some z => exact ⟨0, by rw [Function.iterate_zero_apply, hb]; rfl⟩
  · rintro ⟨i, hi⟩
    induction i generalizing r with
    | zero =>
      rw [Function.iterate_zero_apply] at hi
      obtain ⟨z, hz⟩ := Option.isSome_iff_exists.1 hi
      exact ⟨1, by rw [gammaLoop_accept M d c theta 0 r z hz]; rfl⟩
    | succ i ih =>
      rw [Function.iterate_succ_apply] at hi
      obtain ⟨fuel, hf⟩ := ih _ hi
      cases hb : (gammaBody M d c theta r).1 with
      | none => exact ⟨fuel + 1, by rw [gammaLoop_reject M d c theta fuel r hb]; exact hf⟩
      | some z => exact ⟨1, by rw [gammaLoop_accept M d c theta 0 r z hb]; rfl⟩

theorem boostFactor_nonneg (M : JSMath α) (hpow : ∀ u e : α, 0 ≤ u → 0 ≤ M.pow u e)
    (u k f : α) (hu : 0 ≤ u) (h : boostFactor M u k = some f) : 0 ≤ f := by
  unfold boostFactor at h
  split_ifs at h with h1 h2 h3
  · rw [← Option.some.inj h]
  · rw [← Option.some.inj h]
    exact hpow u _ hu

theorem boostFactor_isSome (M : JSMath α) (u k : α) (hk : 0 ≤ k) (hu0 : 0 ≤ u)
    (hu1 : u < 1) : (boostFactor M u k).isSome := by
  unfold boostFactor
  by_cases h1 : k = 0
  · rw [if_pos h1, if_pos (by rw [abs_of_nonneg hu0]; exact hu1)]
    rfl
  · rw [if_neg h1, if_neg (fun h => absurd hk (not_le.2 h.2))]
    rfl

theorem gamma_nonneg_aux (M : JSMath α) (hpow : ∀ u e : α, 0 ≤ u → 0 ≤ M.pow u e)
    (scale : α) (hscale : 0 ≤ scale) :
    ∀ (fuel : Nat) (shape : α) (r : RandomSource α) (y : α) (r1 : RandomSource α),
      r.Uniform → gamma M fuel shape scale r = Run.done (y, r1) →
      0 ≤ y ∧ r1.stream = r.stream := by
  intro fuel
  induction fuel with
  | zero => intro shape r y r1 _ h; simp [gamma] at h
  | succ fuel ih =>
    intro shape r y r1 hu h
    unfold gamma at h
    by_cases hs : shape < 1
    · simp only [hs, if_true] at h
      cases hrec : gamma M fuel (shape + 1) scale (r.random).2 with
      | done res =>
        obtain ⟨g, r2⟩ := res
        rw [hrec] at h
        cases hdiv : boostFactor M (r.random).1 shape with
        | none => simp [hdiv] at h
        | some f =>
          simp only [hdiv, Run.done.injEq, Prod.mk.injEq] at h
          obtain ⟨hy, hr⟩ := h
          have hur : (r.random).2.Uniform := uniform_of_stream_eq rfl hu
          obtain ⟨hg, hst⟩ := ih (shape + 1) (r.random).2 g r2 hur hrec
          have hu0 : 0 ≤ (r.random).1 := (hu r.pos).1
          rw [← hy, ← hr]
          exact ⟨mul_nonneg hg (boostFactor_nonneg M hpow _ shape f hu0 hdiv), hst⟩
      | nonFinite => rw [hrec] at h; simp at h
      | unfinished => rw [hrec] at h; simp at h
    · rw [if_neg hs] at h
      have hd : 0 ≤ shape - 1 / 3 := by
        have : (1 : α) ≤ shape := not_lt.1 hs
        linarith
      generalize shape - 1 / 3 = d at h hd
      cases hdiv : jsDiv 1 (M.sqrt (9 * d)) with
      | none => simp [hdiv] at h
      | some c =>
        simp only [hdiv] at h
        cases hl : gammaLoop M d c scale fuel r with
        | none => simp [hl] at h
        | some res =>
          obtain ⟨z, r2⟩ := res
          simp only [hl, Run.done.injEq, Prod.mk.injEq] at h
          obtain ⟨hy, hr⟩ := h
          rw [← hy, ← hr]
          exact gammaLoop_nonneg M d c scale hd hscale fuel r z r2 hl

theorem gamma_finite (M : JSMath α) (hsqrt : ∀ x : α, 0 < x → M.sqrt x ≠ 0) (scale : α) :
    ∀ (fuel : Nat) (shape : α) (r : RandomSource α), 0 ≤ shape → r.Uniform →
      gamma M fuel shape scale r ≠ Run.nonFinite := by
  intro fuel
  induction fuel with
  | zero => intro shape r _ _ h; simp [gamma] at h
  | succ fuel ih =>
    intro shape r hk hu h
    unfold gamma at h
    by_cases hs : shape < 1
    · simp only [hs, if_true] at h
      have hur : (r.random).2.Uniform := uniform_of_stream_eq rfl hu
      have hrec := ih (shape + 1) (r.random).2 (by linarith) hur
      cases hg : gamma M fuel (shape + 1) scale (r.random).2 with
      | done res =>
        obtain ⟨g, r2⟩ := res
        rw [hg] at h
        obtain ⟨f, hf⟩ := Option.isSome_iff_exists.1
          (boostFactor_isSome M (r.random).1 shape hk (hu r.pos).1 (hu r.pos).2)
        simp [hf] at h
      | nonFinite => exact hrec hg
      | unfinished => rw [hg] at h; simp at h
    · rw [if_neg hs] at h
      have hd : 0 < 9 * (shape - 1 / 3) := by
        have : (1 : α) ≤ shape := not_lt.1 hs
        linarith
      dsimp only at h
      rw [jsDiv_of_ne_zero 1 (hsqrt _ hd)] at h
      simp only at h
      cases hl : gammaLoop M (shape - 1 / 3) (1 / M.sqrt (9 * (shape - 1 / 3))) scale fuel r with
      | none => rw [hl] at h; simp at h
      | some res => rw [hl] at h; simp at h

theorem maybeSpike_ge (ms spikeProb spikeMin spikeMax : α) (r : RandomSource α)
    (hmin : 0 ≤ spikeMin) (hle : spikeMin ≤ spikeMax) (hu : r.Uniform) :
    ms ≤ (maybeSpike ms spikeProb spikeMin spikeMax r).1 := by
  unfold maybeSpike
  by_cases h : r.stream r.pos < spikeProb
  · simp only [RandomSource.random, h, if_true]
    have h1 : 0 ≤ r.stream (r.pos + 1) := (hu (r.pos + 1)).1
    have h2 : 0 ≤ spikeMax - spikeMin := sub_nonneg.2 hle
    have h3 : 0 ≤ r.stream (r.pos + 1) * (spikeMax - spikeMin) := mul_nonneg h1 h2
    linarith
  · simp only [RandomSource.random, h, if_false]
    exact le_refl ms

theorem maybeSpike_stream (ms spikeProb spikeMin spikeMax : α) (r : RandomSource α) :
    (maybeSpike ms spikeProb spikeMin spikeMax r).2.stream = r.stream ∧
      r.pos + 1 ≤ (maybeSpike ms spikeProb spikeMin spikeMax r).2.pos ∧
      (maybeSpike ms spikeProb spikeMin spikeMax r).2.pos ≤ r.pos + 2 := by
  unfold maybeSpike
  by_cases h : r.stream r.pos < spikeProb
  · simp only [RandomSource.random, h, if_true]
    exact ⟨trivial, by omega, by omega⟩
  · simp only [RandomSource.random, h, if_false]
    exact ⟨trivial, by omega, by omega⟩

theorem ethereumRtt_ge_one (M : JSMath α) (r : RandomSource α) (hu : r.Uniform) :
    1 ≤ (ethereumRtt M r).1 := by
  unfold ethereumRtt
  have h1 : (1 : α) ≤ (lognormal M 90 250 r).1 := le_max_left _ _
  have hu1 : (lognormal M 90 250 r).2.Uniform := uniform_of_stream_eq rfl hu
  have h2 := maybeSpike_ge (lognormal M 90 250 r).1 0.01 400 1500 (lognormal M 90 250 r).2
    (by norm_num) (by norm_num) hu1
  exact le_trans h1 h2

theorem ethereumRtt_stream (M : JSMath α) (r : RandomSource α) :
    (ethereumRtt M r).2.stream = r.stream := by
  unfold ethereumRtt
  exact (maybeSpike_stream (lognormal M 90 250 r).1 0.01 400 1500 (lognormal M 90 250 r).2).1

theorem le_sum_of_forall_le (arr : List α) (b : α) (h : ∀ x ∈ arr, b ≤ x) :
    (arr.length : α) * b ≤ arr.sum := by
  induction arr with
  | nil => simp
  | cons x xs ih =>
    have hx : b ≤ x := h x (List.mem_cons_self x xs)
    have hxs := ih fun y hy => h y (List.mem_cons_of_mem x hy)
    rw [List.sum_cons, List.length_cons]
    push_cast
    linarith

theorem mean_ge_of_forall_ge (arr : List α) (b : α) (hne : arr ≠ [])
    (h : ∀ x ∈ arr, b ≤ x) : ∃ m, mean arr = some m ∧ b ≤ m := by
  refine ⟨_, mean_eq arr hne, ?_⟩
  have hpos : (0 : α) < (arr.length : α) := by
    exact_mod_cast List.length_pos.2 hne
  rw [le_div_iff₀ hpos, mul_comm]
  exact le_sum_of_forall_le arr b h

theorem one_le_jsRound [FloorRing α] (x : α) (h : 1 ≤ x) : 1 ≤ jsRound x := by
  unfold jsRound
  have h1 : (1 : ℤ) ≤ ⌊x + 1 / 2⌋ := by
    apply Int.le_floor.2
    push_cast
    linarith
  exact_mod_cast h1


theorem gamma_of_one_le (M : JSMath α) (fuel : Nat) (shape scale c : α)
    (r : RandomSource α) (hs : ¬ shape < 1)
    (hc : jsDiv 1 (M.sqrt (9 * (shape - 1 / 3))) = some c) :
    gamma M (fuel + 1) shape scale r =
      match gammaLoop M (shape - 1 / 3) c scale fuel r with
      | none => Run.unfinished
      | some res => Run.done res := by
  conv_lhs => unfold gamma
  rw [if_neg hs]
  simp only [hc]

theorem gamma_boost_done (M : JSMath α) (fuel : Nat) (shape scale s1 g f : α)
    (r r1 : RandomSource α) (hs : shape < 1) (hs1 : shape + 1 = s1)
    (hrec : gamma M fuel s1 scale ⟨r.stream, r.pos + 1⟩ = Run.done (g, r1))
    (hf : boostFactor M (r.stream r.pos) shape = some f) :
    gamma M (fuel + 1) shape scale r = Run.done (g * f, r1) := by
  conv_lhs => unfold gamma
  rw [if_pos hs]
  simp only [RandomSource.random, hs1, hrec, hf]

theorem gamma_boost_nonFinite (M : JSMath α) (fuel : Nat) (shape scale s1 g : α)
    (r r1 : RandomSource α) (hs : shape < 1) (hs1 : shape + 1 = s1)
    (hrec : gamma M fuel s1 scale ⟨r.stream, r.pos + 1⟩ = Run.done (g, r1))
    (hf : boostFactor M (r.stream r.pos) shape = none) :
    gamma M (fuel + 1) shape scale r = Run.nonFinite := by
  conv_lhs => unfold gamma
  rw [if_pos hs]
  simp only [RandomSource.random, hs1, hrec, hf]

theorem gammaBody_zero_stream (d c theta : ℝ) (n : Nat) :
    gammaBody (JSMath.mk Real.sqrt Real.log Real.exp Real.cos (fun x y => x ^ y) Real.pi) d c theta ⟨fun _ => 0, n⟩ =
      (some (d * theta), ⟨fun _ => 0, n + 1 + 1 + 1⟩) := by
  simp [gammaBody, randn, RandomSource.random]

theorem gamma_zero_stream (shape scale : ℝ) (hs : 1 ≤ shape) (n : Nat) :
    gamma (JSMath.mk Real.sqrt Real.log Real.exp Real.cos (fun x y => x ^ y) Real.pi) 2 shape scale ⟨fun _ => 0, n⟩ =
      Run.done ((shape - 1 / 3) * scale, ⟨fun _ => 0, n + 1 + 1 + 1⟩) := by
  have hd : 0 < 9 * (shape - 1 / 3) := by linarith
  have hsq : Real.sqrt (9 * (shape - 1 / 3)) ≠ 0 := (Real.sqrt_pos.2 hd).ne'
  rw [gamma_of_one_le (JSMath.mk Real.sqrt Real.log Real.exp Real.cos (fun x y => x ^ y) Real.pi) 1 shape scale (1 / Real.sqrt (9 * (shape - 1 / 3))) _ (not_lt.2 hs)
    (jsDiv_of_ne_zero 1 hsq)]
  rw [gammaLoop_accept (JSMath.mk Real.sqrt Real.log Real.exp Real.cos (fun x y => x ^ y) Real.pi) _ _ scale 0 _ ((shape - 1 / 3) * scale)
    (by rw [gammaBody_zero_stream])]
  rw [gammaBody_zero_stream]


theorem gamma_half_zero_stream (n : Nat) :
    gamma (JSMath.mk Real.sqrt Real.log Real.exp Real.cos (fun x y => x ^ y) Real.pi) 3 (1 / 2) 1 ⟨fun _ => 0, n⟩ =
      Run.done (0, ⟨fun _ => 0, n + 1 + 1 + 1 + 1⟩) := by
  have hf : boostFactor (JSMath.mk Real.sqrt Real.log Real.exp Real.cos (fun x y => x ^ y) Real.pi) (0 : ℝ) (1 / 2) = some 0 := by
    unfold boostFactor
    rw [if_neg (by norm_num), if_neg (by norm_num)]
    show some ((0 : ℝ) ^ ((1 : ℝ) / (1 / 2))) = some 0
    rw [Real.zero_rpow (by norm_num)]
  rw [gamma_boost_done _ 2 (1 / 2) 1 (3 / 2) ((3 / 2 - 1 / 3) * 1) 0 ⟨fun _ => 0, n⟩
    ⟨fun _ => 0, n + 1 + 1 + 1 + 1⟩ (by norm_num) (by norm_num)
    (gamma_zero_stream (3 / 2) 1 (by norm_num) (n + 1)) hf, mul_zero]

theorem gamma_negative_shape_zero_stream :
    gamma (JSMath.mk Real.sqrt Real.log Real.exp Real.cos (fun x y => x ^ y) Real.pi) 4 (-(1 / 2)) 1 ⟨fun _ => 0, 0⟩ =
      Run.nonFinite := by
  have hf : boostFactor (JSMath.mk Real.sqrt Real.log Real.exp Real.cos (fun x y => x ^ y) Real.pi) (0 : ℝ) (-(1 / 2)) = none := by
    unfold boostFactor
    rw [if_neg (by norm_num), if_pos ⟨rfl, by norm_num⟩]
  exact gamma_boost_nonFinite _ 3 (-(1 / 2)) 1 (1 / 2) 0 ⟨fun _ => 0, 0⟩
    ⟨fun _ => 0, 0 + 1 + 1 + 1 + 1 + 1⟩ (by norm_num) (by norm_num)
    (gamma_half_zero_stream (0 + 1)) hf

theorem exp_twelve_le : Real.exp 12 ≤ 1000000 := by
  have h1 : Real.exp 1 < 3 := lt_trans Real.exp_one_lt_d9 (by norm_num)
  have h2 : Real.exp 12 = Real.exp 1 ^ 12 := by
    rw [← Real.exp_nat_mul]
    norm_num
  rw [h2]
  have h3 : Real.exp 1 ^ 12 ≤ 3 ^ 12 :=
    pow_le_pow_left₀ (Real.exp_pos 1).le h1.le 12
  exact le_trans h3 (by norm_num)

theorem log_millionth_le : Real.log (1 / 1000000) ≤ -12 := by
  rw [Real.log_le_iff_le_exp (by norm_num), Real.exp_neg]
  rw [one_div]
  exact inv_anti₀ (Real.exp_pos 12) exp_twelve_le

theorem randn_stall (n : Nat) :
    (randn (JSMath.mk Real.sqrt Real.log Real.exp Real.cos (fun x y => x ^ y) Real.pi) ⟨stallStream, 2 * n⟩).1 = -Real.sqrt (-2 * Real.log (1 / 1000000)) := by
  have h0 : (2 * n) % 2 = 0 := by omega
  have h1 : (2 * n + 1) % 2 ≠ 0 := by omega
  have hpi : (2.0 : ℝ) * Real.pi * (1 - 1 / 2) = Real.pi := by
    norm_num
    ring
  have hu : (1 : ℝ) - (1 - 1 / 1000000) = 1 / 1000000 := by norm_num
  have h2 : (-2.0 : ℝ) = -2 := by norm_num
  simp only [randn, RandomSource.random, stallStream, h0, h1, if_true, if_false, hpi, hu,
    Real.cos_pi, h2]
  ring

theorem gammaBody_stall (n : Nat) (theta : ℝ) :
    gammaBody (JSMath.mk Real.sqrt Real.log Real.exp Real.cos (fun x y => x ^ y) Real.pi) (3 - 1 / 3) (1 / Real.sqrt (9 * (3 - 1 / 3))) theta ⟨stallStream, 2 * n⟩ =
      (none, ⟨stallStream, 2 * (n + 1)⟩) := by
  have hlog := log_millionth_le
  have h24 : (9 : ℝ) * (3 - 1 / 3) = 24 := by norm_num
  have hs : Real.sqrt 24 ≤ Real.sqrt (-2 * Real.log (1 / 1000000)) :=
    Real.sqrt_le_sqrt (by linarith)
  have hpos : 0 < Real.sqrt 24 := Real.sqrt_pos.2 (by norm_num)
  have hv : 1 + 1 / Real.sqrt (9 * (3 - 1 / 3)) *
      (randn (JSMath.mk Real.sqrt Real.log Real.exp Real.cos (fun x y => x ^ y) Real.pi) ⟨stallStream, 2 * n⟩).1 ≤ 0 := by
    rw [randn_stall, h24]
    have h1 : 1 ≤ Real.sqrt (-2 * Real.log (1 / 1000000)) / Real.sqrt 24 := by
      rw [le_div_iff₀ hpos]
      linarith
    have h2 : 1 / Real.sqrt 24 * -Real.sqrt (-2 * Real.log (1 / 1000000)) =
        -(Real.sqrt (-2 * Real.log (1 / 1000000)) / Real.sqrt 24) := by ring
    rw [h2]
    linarith
  unfold gammaBody
  simp only [hv, if_true]
  rfl

theorem gammaLoop_stall (theta : ℝ) :
    ∀ (fuel n : Nat),
      gammaLoop (JSMath.mk Real.sqrt Real.log Real.exp Real.cos (fun x y => x ^ y) Real.pi) (3 - 1 / 3) (1 / Real.sqrt (9 * (3 - 1 / 3))) theta fuel
        ⟨stallStream, 2 * n⟩ = none := by
  intro fuel
  induction fuel with
  | zero => intro n; rfl
  | succ fuel ih =>
    intro n
    rw [gammaLoop_reject (JSMath.mk Real.sqrt Real.log Real.exp Real.cos (fun x y => x ^ y) Real.pi) _ _ theta fuel _ (by rw [gammaBody_stall]), gammaBody_stall]
    exact ih (n + 1)

theorem gamma_stall (fuel : Nat) :
    gamma (JSMath.mk Real.sqrt Real.log Real.exp Real.cos (fun x y => x ^ y) Real.pi) fuel 3 270 ⟨stallStream, 0⟩ = Run.unfinished := by
  cases fuel with
  | zero => rfl
  | succ fuel =>
    have hsq : Real.sqrt (9 * (3 - 1 / 3)) ≠ 0 :=
      (Real.sqrt_pos.2 (by norm_num)).ne'
    rw [gamma_of_one_le (JSMath.mk Real.sqrt Real.log Real.exp Real.cos (fun x y => x ^ y) Real.pi) fuel 3 270 (1 / Real.sqrt (9 * (3 - 1 / 3))) _ (by norm_num)
      (jsDiv_of_ne_zero 1 hsq)]
    have h := gammaLoop_stall 270 fuel 0
    rw [Nat.mul_zero] at h
    rw [h]

theorem stallStream_uniform (pos : Nat) :
    (⟨stallStream, pos⟩ : RandomSource α).Uniform := by
  intro i
  show 0 ≤ stallStream i ∧ stallStream i < 1
  unfold stallStream
  split_ifs <;> norm_num


end Lemmas

section StoreLemmas

variable {α : Type}

theorem objGet_objSet {β : Type} (o : List (String × β)) (k k1 : String) (v : β) :
    objGet (objSet o k v) k1 = if k = k1 then some v else objGet o k1 := by
  induction o with
  | nil => simp [objSet, objGet]
  | cons e rest ih =>
    obtain ⟨k0, v0⟩ := e
    by_cases h0 : k0 = k
    · subst h0
      simp only [objSet, objGet, if_true]
      split_ifs <;> rfl
    · simp only [objSet, if_neg h0, objGet, ih]
      by_cases h1 : k0 = k1
      · have h2 : ¬ k = k1 := fun h => h0 (h1.trans h.symm)
        simp [h1, h2]
      · simp [h1]

theorem getD_pushMetric (bag : MetricsBag α) (key : String) (value : Option α)
    (m : String) :
    (objGet (pushMetric bag key value) m).getD [] =
      (objGet bag m).getD [] ++ (if m = key then value.toList else []) := by
  cases value with
  | none => simp [pushMetric]
  | some v =>
    by_cases hm : m = key
    · subst hm
      cases hb : objGet bag m with
      | none => simp [pushMetric, hb, objGet_objSet]
      | some arr => simp [pushMetric, hb, objGet_objSet]
    · have hm1 : ¬ key = m := fun h => hm h.symm
      cases hb : objGet bag key with
      | none => simp [pushMetric, hb, objGet_objSet, hm, hm1]
      | some arr => simp [pushMetric, hb, objGet_objSet, hm, hm1]

theorem pushAt_spec (o o1 : List (String × MetricsBag α)) (name key : String)
    (value : Option α) (h : pushAt o name key value = Except.ok o1) :
    (∀ n m, sampleArray o1 n m =
        sampleArray o n m ++ (if n = name ∧ m = key then value.toList else [])) ∧
      (∀ n, (objGet o1 n).isSome = (objGet o n).isSome) := by
  cases value with
  | none =>
    simp only [pushAt, Except.ok.injEq] at h
    subst h
    simp
  | some v =>
    cases hb : objGet o name with
    | none => simp [pushAt, hb] at h
    | some bag =>
      simp only [pushAt, hb, Except.ok.injEq] at h
      subst h
      constructor
      · intro n m
        by_cases hn : n = name
        · subst hn
          simp only [sampleArray, objGet_objSet, if_true, hb, getD_pushMetric, true_and]
        · have hn1 : ¬ name = n := fun h => hn h.symm
          simp [sampleArray, objGet_objSet, hn, hn1]
      · intro n
        by_cases hn : name = n
        · subst hn
          simp [objGet_objSet, hb]
        · simp [objGet_objSet, hn]

theorem pushAt_ok (o : List (String × MetricsBag α)) (name key : String)
    (value : Option α) (h : (objGet o name).isSome) :
    ∃ o1, pushAt o name key value = Except.ok o1 := by
  obtain ⟨bag, hb⟩ := Option.isSome_iff_exists.1 h
  cases value with
  | none => exact ⟨o, rfl⟩
  | some v => exact ⟨objSet o name (pushMetric bag key (some v)), by simp only [pushAt, hb]⟩

theorem pushAvgLatency_spec (o o1 : List (String × MetricsBag (WithTop α))) (name : String)
    (s : Summary α) (h : pushAvgLatency o name s = Except.ok o1) :
    (∀ n m, sampleArray o1 n m = sampleArray o n m ++
        (if n = name ∧ m = "avgLatency" then
          ((s.latency.bind fun st => st.mean).map WithTop.some).toList else [])) ∧
      (∀ n, (objGet o1 n).isSome = (objGet o n).isSome) :=
  pushAt_spec o o1 name "avgLatency" _ h

theorem pushAvgLatency_ok (o : List (String × MetricsBag (WithTop α))) (name : String)
    (s : Summary α) (h : (objGet o name).isSome) :
    ∃ o1, pushAvgLatency o name s = Except.ok o1 :=
  pushAt_ok o name "avgLatency" _ h

theorem recordLatencyEntry_spec (o o1 : List (String × MetricsBag (WithTop α)))
    (e : String × Summary α) (h : recordLatencyEntry o e = Except.ok o1) :
    (∀ n m, sampleArray o1 n m = sampleArray o n m ++
        (if n = e.1 then latencyPushed e.2 m else [])) ∧
      (∀ n, (objGet o1 n).isSome = (objGet o n).isSome) := by
  unfold recordLatencyEntry at h
  split at h
  · cases h
  · rename_i oa ha
    split at h
    · cases h
    · rename_i ob hb
      obtain ⟨a1, a2⟩ := pushAvgLatency_spec o oa e.1 e.2 ha
      obtain ⟨b1, b2⟩ := pushAt_spec oa ob e.1 "p95Latency" _ hb
      obtain ⟨c1, c2⟩ := pushAt_spec ob o1 e.1 "successRate" _ h
      constructor
      · intro n m
        rw [c1, b1, a1]
        by_cases hn : n = e.1
        · simp [hn, latencyPushed, List.append_assoc]
        · simp [hn]
      · intro n
        rw [c2, b2, a2]

theorem recordLatencyEntry_ok (o : List (String × MetricsBag (WithTop α)))
    (e : String × Summary α) (h : (objGet o e.1).isSome) :
    ∃ o1, recordLatencyEntry o e = Except.ok o1 := by
  obtain ⟨oa, ha⟩ := pushAvgLatency_ok o e.1 e.2 h
  have h1 : (objGet oa e.1).isSome := by rw [(pushAvgLatency_spec o oa e.1 e.2 ha).2]; exact h
  obtain ⟨ob, hb⟩ := pushAt_ok oa e.1 "p95Latency"
    ((e.2.latency.bind fun st => st.p95).map WithTop.some) h1
  have h2 : (objGet ob e.1).isSome := by rw [(pushAt_spec oa ob e.1 _ _ hb).2]; exact h1
  obtain ⟨oc, hc⟩ := pushAt_ok ob e.1 "successRate" (e.2.successRate.map WithTop.some) h2
  exact ⟨oc, by simp only [recordLatencyEntry, ha, hb, hc]⟩

theorem recordThroughputEntry_spec (o o1 : List (String × MetricsBag (WithTop α)))
    (e : String × Summary α × Option (WithTop α) × α)
    (h : recordThroughputEntry o e = Except.ok o1) :
    (∀ n m, sampleArray o1 n m = sampleArray o n m ++
        (if n = e.1 then throughputPushed e.2 m else [])) ∧
      (∀ n, (objGet o1 n).isSome = (objGet o n).isSome) := by
  unfold recordThroughputEntry at h
  cases ha : pushAt o e.1 "tps" e.2.2.1 with
  | error x => simp [ha] at h
  | ok oa =>
    simp only [ha] at h
    cases hb : pushAvgLatency oa e.1 e.2.1 with
    | error x => simp [hb] at h
    | ok ob =>
      simp only [hb] at h
      obtain ⟨a1, a2⟩ := pushAt_spec o oa e.1 "tps" _ ha
      obtain ⟨b1, b2⟩ := pushAvgLatency_spec oa ob e.1 e.2.1 hb
      obtain ⟨c1, c2⟩ := pushAt_spec ob o1 e.1 "successRate" _ h
      refine ⟨?_, ?_⟩
      · intro n m
        rw [c1, b1, a1]
        by_cases hn : n = e.1
        · simp [hn, throughputPushed, List.append_assoc]
        · simp [hn]
      · intro n
        rw [c2, b2, a2]

theorem recordThroughputEntry_ok (o : List (String × MetricsBag (WithTop α)))
    (e : String × Summary α × Option (WithTop α) × α) (h : (objGet o e.1).isSome) :
    ∃ o1, recordThroughputEntry o e = Except.ok o1 := by
  obtain ⟨oa, ha⟩ := pushAt_ok o e.1 "tps" e.2.2.1 h
  have h1 : (objGet oa e.1).isSome := by rw [(pushAt_spec o oa e.1 _ _ ha).2]; exact h
  obtain ⟨ob, hb⟩ := pushAvgLatency_ok oa e.1 e.2.1 h1
  have h2 : (objGet ob e.1).isSome := by rw [(pushAvgLatency_spec oa ob e.1 _ hb).2]; exact h1
  obtain ⟨oc, hc⟩ := pushAt_ok ob e.1 "successRate" (e.2.1.successRate.map WithTop.some) h2
  exact ⟨oc, by simp only [recordThroughputEntry, ha, hb, hc]⟩

theorem keys_objSet {β : Type} (o : List (String × β)) (k : String) (v : β) :
    (objSet o k v).map Prod.fst =
      if (objGet o k).isSome then o.map Prod.fst else o.map Prod.fst ++ [k] := by
  induction o with
  | nil => simp [objSet, objGet]
  | cons e rest ih =>
    obtain ⟨k0, v0⟩ := e
    by_cases h0 : k0 = k
    · simp [objSet, objGet, h0]
    · simp only [objSet, if_neg h0, objGet, List.map_cons, ih]
      split_ifs <;> simp

theorem keys_pushAt (o o1 : List (String × MetricsBag α)) (name key : String)
    (value : Option α) (h : pushAt o name key value = Except.ok o1) :
    o1.map Prod.fst = o.map Prod.fst := by
  cases value with
  | none =>
    simp only [pushAt, Except.ok.injEq] at h
    rw [h]
  | some v =>
    cases hb : objGet o name with
    | none => simp [pushAt, hb] at h
    | some bag =>
      simp only [pushAt, hb, Except.ok.injEq] at h
      rw [← h, keys_objSet, hb]
      rfl

theorem recordScalabilityRow_spec (o o1 : List (String × MetricsBag (WithTop α)))
    (row : ScalabilityRow α) (h : recordScalabilityRow o row = Except.ok o1) :
    (∀ n m, sampleArray o1 n m = sampleArray o n m ++
        (if n = batchKey row.batchSize then rowPushed row m else [])) ∧
      (o1.map Prod.fst =
        if (objGet o (batchKey row.batchSize)).isSome then o.map Prod.fst
        else o.map Prod.fst ++ [batchKey row.batchSize]) := by
  unfold recordScalabilityRow at h
  simp only at h
  generalize ho0 : (match objGet o (batchKey row.batchSize) with
    | none => objSet o (batchKey row.batchSize) []
    | some _ => o) = o0 at h
  have hs0 : ∀ n m, sampleArray o0 n m = sampleArray o n m := by
    intro n m
    cases hb : objGet o (batchKey row.batchSize) with
    | none =>
      rw [hb] at ho0
      rw [← ho0]
      by_cases hn : batchKey row.batchSize = n
      · subst hn
        simp [sampleArray, objGet_objSet, hb, objGet]
      · simp [sampleArray, objGet_objSet, hn]
    | some bag =>
      rw [hb] at ho0
      rw [← ho0]
  have hk0 : o0.map Prod.fst =
      if (objGet o (batchKey row.batchSize)).isSome then o.map Prod.fst
      else o.map Prod.fst ++ [batchKey row.batchSize] := by
    cases hb : objGet o (batchKey row.batchSize) with
    | none =>
      rw [hb] at ho0
      rw [← ho0, keys_objSet, hb]
    | some bag =>
      rw [hb] at ho0
      rw [← ho0]
      rfl
  cases ha : pushAt o0 (batchKey row.batchSize) "tps" row.tps with
  | error x => simp [ha] at h
  | ok oa =>
    simp only [ha] at h
    cases hb : pushAt oa (batchKey row.batchSize) "avgLatency"
        (row.avgLatency.map WithTop.some) with
    | error x => simp [hb] at h
    | ok ob =>
      simp only [hb] at h
      obtain ⟨a1, _⟩ := pushAt_spec o0 oa _ "tps" _ ha
      obtain ⟨b1, _⟩ := pushAt_spec oa ob _ "avgLatency" _ hb
      obtain ⟨c1, _⟩ := pushAt_spec ob o1 _ "successRate" _ h
      refine ⟨?_, ?_⟩
      · intro n m
        rw [c1, b1, a1, hs0]
        by_cases hn : n = batchKey row.batchSize
        · simp [hn, rowPushed, List.append_assoc]
        · simp [hn]
      · rw [keys_pushAt ob o1 _ _ _ h, keys_pushAt oa ob _ _ _ hb,
          keys_pushAt o0 oa _ _ _ ha, hk0]

theorem recordScalabilityRow_ok (o : List (String × MetricsBag (WithTop α)))
    (row : ScalabilityRow α) : ∃ o1, recordScalabilityRow o row = Except.ok o1 := by
  unfold recordScalabilityRow
  simp only
  generalize ho0 : (match objGet o (batchKey row.batchSize) with
    | none => objSet o (batchKey row.batchSize) []
    | some _ => o) = o0
  have hp0 : (objGet o0 (batchKey row.batchSize)).isSome := by
    cases hb : objGet o (batchKey row.batchSize) with
    | none =>
      rw [hb] at ho0
      rw [← ho0, objGet_objSet]
      simp
    | some bag =>
      rw [hb] at ho0
      rw [← ho0, hb]
      rfl
  obtain ⟨oa, ha⟩ := pushAt_ok o0 (batchKey row.batchSize) "tps" row.tps hp0
  have h1 : (objGet oa (batchKey row.batchSize)).isSome := by
    rw [(pushAt_spec o0 oa _ _ _ ha).2]; exact hp0
  obtain ⟨ob, hb⟩ := pushAt_ok oa (batchKey row.batchSize) "avgLatency"
    (row.avgLatency.map WithTop.some) h1
  have h2 : (objGet ob (batchKey row.batchSize)).isSome := by
    rw [(pushAt_spec oa ob _ _ _ hb).2]; exact h1
  obtain ⟨oc, hc⟩ := pushAt_ok ob (batchKey row.batchSize) "successRate"
    (row.successRate.map WithTop.some) h2
  exact ⟨oc, by simp only [ha, hb, hc]⟩

theorem forEach_append {σ β : Type} (body : σ → β → Except SuiteStop σ)
    (arr : σ → List α) (pushed : β → List α) :
    ∀ (xs : List β) (st st1 : σ),
      (∀ s0 x s1, x ∈ xs → body s0 x = Except.ok s1 → arr s1 = arr s0 ++ pushed x) →
      forEach body st xs = Except.ok st1 → arr st1 = arr st ++ xs.flatMap pushed := by
  intro xs
  induction xs with
  | nil =>
    intro st st1 _ h
    simp only [forEach, Except.ok.injEq] at h
    simp [h]
  | cons x xs ih =>
    intro st st1 hbody h
    unfold forEach at h
    cases hb : body st x with
    | error e => simp [hb] at h
    | ok s1 =>
      simp only [hb] at h
      have h1 := hbody st x s1 (List.mem_cons_self x xs) hb
      have h2 := ih s1 st1 (fun s0 y s2 hy => hbody s0 y s2 (List.mem_cons_of_mem x hy)) h
      rw [h2, h1, List.flatMap_cons, List.append_assoc]

theorem forEach_ok {σ β : Type} (body : σ → β → Except SuiteStop σ) (P : σ → Prop) :
    ∀ (xs : List β) (st : σ),
      (∀ s0 x, x ∈ xs → P s0 → ∃ s1, body s0 x = Except.ok s1 ∧ P s1) →
      P st → ∃ st1, forEach body st xs = Except.ok st1 ∧ P st1 := by
  intro xs
  induction xs with
  | nil => intro st _ hP; exact ⟨st, rfl, hP⟩
  | cons x xs ih =>
    intro st hbody hP
    obtain ⟨s1, hb, hP1⟩ := hbody st x (List.mem_cons_self x xs) hP
    obtain ⟨st1, h1, hP2⟩ :=
      ih s1 (fun s0 y hy => hbody s0 y (List.mem_cons_of_mem x hy)) hP1
    exact ⟨st1, by simp only [forEach, hb, h1], hP2⟩

theorem forEach_invariant {σ β : Type} (body : σ → β → Except SuiteStop σ)
    (P : σ → Prop) :
    ∀ (xs : List β) (st st1 : σ),
      (∀ s0 x s1, x ∈ xs → P s0 → body s0 x = Except.ok s1 → P s1) →
      P st → forEach body st xs = Except.ok st1 → P st1 := by
  intro xs
  induction xs with
  | nil =>
    intro st st1 _ hP h
    simp only [forEach, Except.ok.injEq] at h
    rw [← h]; exact hP
  | cons x xs ih =>
    intro st st1 hbody hP h
    unfold forEach at h
    cases hb : body st x with
    | error e => simp [hb] at h
    | ok s1 =>
      simp only [hb] at h
      exact ih s1 st1 (fun s0 y s2 hy => hbody s0 y s2 (List.mem_cons_of_mem x hy))
        (hbody st x s1 (List.mem_cons_self x xs) hP hb) h


theorem forEach_forall {σ β : Type} (body : σ → β → Except SuiteStop σ) (Q : β → Prop)
    (hbody : ∀ s0 x s1, body s0 x = Except.ok s1 → Q x) :
    ∀ (xs : List β) (st st1 : σ), forEach body st xs = Except.ok st1 → ∀ x ∈ xs, Q x := by
  intro xs
  induction xs with
  | nil => intro st st1 _ x hx; simp at hx
  | cons y ys ih =>
    intro st st1 h x hx
    unfold forEach at h
    cases hb : body st y with
    | error e => simp [hb] at h
    | ok s1 =>
      simp only [hb] at h
      rcases List.mem_cons.1 hx with rfl | hx1
      · exact hbody st x s1 hb
      · exact ih s1 st1 h x hx1

theorem length_flatMap_le {β : Type} (f : β → List α) :
    ∀ xs : List β, (∀ x ∈ xs, (f x).length ≤ 1) → (xs.flatMap f).length ≤ xs.length := by
  intro xs
  induction xs with
  | nil => intro _; simp
  | cons x xs ih =>
    intro h
    rw [List.flatMap_cons, List.length_append, List.length_cons]
    have h1 := h x (List.mem_cons_self x xs)
    have h2 := ih fun y hy => h y (List.mem_cons_of_mem x hy)
    omega

theorem length_flatMap_eq {β : Type} (f : β → List α) :
    ∀ xs : List β, (∀ x ∈ xs, (f x).length = 1) → (xs.flatMap f).length = xs.length := by
  intro xs
  induction xs with
  | nil => intro _; simp
  | cons x xs ih =>
    intro h
    rw [List.flatMap_cons, List.length_append, List.length_cons]
    have h1 := h x (List.mem_cons_self x xs)
    have h2 := ih fun y hy => h y (List.mem_cons_of_mem x hy)
    omega

theorem toList_length_le_one (v : Option α) : v.toList.length ≤ 1 := by
  cases v <;> simp

theorem toList_length_of_isSome (v : Option α) (h : v.isSome) : v.toList.length = 1 := by
  obtain ⟨x, rfl⟩ := Option.isSome_iff_exists.1 h
  rfl

theorem latencyPushed_length_le (s : Summary α) (m : String) :
    (latencyPushed s m).length ≤ 1 := by
  unfold latencyPushed
  by_cases h1 : m = "avgLatency"
  · subst h1
    simpa using toList_length_le_one _
  · by_cases h2 : m = "p95Latency"
    · subst h2
      simpa using toList_length_le_one _
    · by_cases h3 : m = "successRate"
      · subst h3
        simpa using toList_length_le_one _
      · simp [h1, h2, h3]

theorem throughputPushed_length_le (e : Summary α × Option (WithTop α) × α) (m : String) :
    (throughputPushed e m).length ≤ 1 := by
  unfold throughputPushed
  by_cases h1 : m = "tps"
  · subst h1
    simpa using toList_length_le_one _
  · by_cases h2 : m = "avgLatency"
    · subst h2
      simpa using toList_length_le_one _
    · by_cases h3 : m = "successRate"
      · subst h3
        simpa using toList_length_le_one _
      · simp [h1, h2, h3]

theorem recordReplication_spec (res : SuiteResult α) (s s1 : Samples (WithTop α))
    (h : recordReplication res s = Except.ok s1) :
    (∀ n m, sampleArray s1.latency n m = sampleArray s.latency n m ++
        res.latency.flatMap fun e => if n = e.1 then latencyPushed e.2 m else []) ∧
      (∀ n m, sampleArray s1.throughput n m = sampleArray s.throughput n m ++
        res.throughput.flatMap fun e => if n = e.1 then throughputPushed e.2 m else []) ∧
      (∀ n m, sampleArray s1.scalabilitySepolia n m =
        sampleArray s.scalabilitySepolia n m ++
          res.scalability.1.flatMap fun row =>
            if n = batchKey row.batchSize then rowPushed row m else []) ∧
      (∀ n m, sampleArray s1.scalabilityIota n m =
        sampleArray s.scalabilityIota n m ++
          res.scalability.2.flatMap fun row =>
            if n = batchKey row.batchSize then rowPushed row m else []) ∧
      (s.Ready → s1.Ready) := by
  unfold recordReplication at h
  cases h1 : forEach recordLatencyEntry s.latency res.latency with
  | error e => simp [h1] at h
  | ok lat =>
    simp only [h1] at h
    cases h2 : forEach recordThroughputEntry s.throughput res.throughput with
    | error e => simp [h2] at h
    | ok thr =>
      simp only [h2] at h
      cases h3 : forEach recordScalabilityRow s.scalabilitySepolia res.scalability.1 with
      | error e => simp [h3] at h
      | ok sep =>
        simp only [h3] at h
        cases h4 : forEach recordScalabilityRow s.scalabilityIota res.scalability.2 with
        | error e => simp [h4] at h
        | ok iot =>
          simp only [h4, Except.ok.injEq] at h
          rw [← h]
          refine ⟨?_, ?_, ?_, ?_, ?_⟩
          · intro n m
            exact forEach_append recordLatencyEntry (fun o => sampleArray o n m) _
              res.latency s.latency lat
              (fun s0 x s2 _ hb => (recordLatencyEntry_spec s0 s2 x hb).1 n m) h1
          · intro n m
            exact forEach_append recordThroughputEntry (fun o => sampleArray o n m) _
              res.throughput s.throughput thr
              (fun s0 x s2 _ hb => (recordThroughputEntry_spec s0 s2 x hb).1 n m) h2
          · intro n m
            exact forEach_append recordScalabilityRow (fun o => sampleArray o n m) _
              res.scalability.1 s.scalabilitySepolia sep
              (fun s0 x s2 _ hb => (recordScalabilityRow_spec s0 s2 x hb).1 n m) h3
          · intro n m
            exact forEach_append recordScalabilityRow (fun o => sampleArray o n m) _
              res.scalability.2 s.scalabilityIota iot
              (fun s0 x s2 _ hb => (recordScalabilityRow_spec s0 s2 x hb).1 n m) h4
          · intro hready
            have hl := forEach_invariant recordLatencyEntry
              (fun o => (objGet o "Sepolia").isSome ∧ (objGet o "IOTA").isSome)
              res.latency s.latency lat
              (fun s0 x s2 _ hP hb => by
                show (objGet s2 "Sepolia").isSome = true ∧ (objGet s2 "IOTA").isSome = true
                rw [(recordLatencyEntry_spec s0 s2 x hb).2, (recordLatencyEntry_spec s0 s2 x hb).2]
                exact hP)
              ⟨hready.1, hready.2.1⟩ h1
            have ht := forEach_invariant recordThroughputEntry
              (fun o => (objGet o "Sepolia").isSome ∧ (objGet o "IOTA").isSome)
              res.throughput s.throughput thr
              (fun s0 x s2 _ hP hb => by
                show (objGet s2 "Sepolia").isSome = true ∧ (objGet s2 "IOTA").isSome = true
                rw [(recordThroughputEntry_spec s0 s2 x hb).2,
                  (recordThroughputEntry_spec s0 s2 x hb).2]
                exact hP)
              ⟨hready.2.2.1, hready.2.2.2⟩ h2
            exact ⟨hl.1, hl.2, ht.1, ht.2⟩

theorem objGet_isSome_iff_mem {β : Type} (o : List (String × β)) (k : String) :
    (objGet o k).isSome ↔ k ∈ o.map Prod.fst := by
  induction o with
  | nil => simp [objGet]
  | cons e rest ih =>
    obtain ⟨k0, v0⟩ := e
    by_cases h0 : k0 = k
    · simp [objGet, h0]
    · have h1 : ¬ k = k0 := fun h => h0 h.symm
      simp [objGet, h0, h1, ih]

theorem keys_after_rows :
    ∀ (rows : List (ScalabilityRow α)) (o o1 : List (String × MetricsBag (WithTop α))),
      forEach recordScalabilityRow o rows = Except.ok o1 →
      o1.map Prod.fst =
        (rows.map fun row => row.batchSize).foldl
          (fun ks n => if batchKey n ∈ ks then ks else ks ++ [batchKey n])
          (o.map Prod.fst) := by
  intro rows
  induction rows with
  | nil =>
    intro o o1 h
    simp only [forEach, Except.ok.injEq] at h
    rw [← h]
    rfl
  | cons row rows ih =>
    intro o o1 h
    unfold forEach at h
    cases hb : recordScalabilityRow o row with
    | error e => simp [hb] at h
    | ok oa =>
      simp only [hb] at h
      rw [ih oa o1 h, (recordScalabilityRow_spec o oa row hb).2, List.map_cons,
        List.foldl_cons]
      by_cases hk : batchKey row.batchSize ∈ o.map Prod.fst
      · rw [if_pos ((objGet_isSome_iff_mem o _).2 hk), if_pos hk]
      · have hk1 : ¬ (objGet o (batchKey row.batchSize)).isSome = true :=
          fun h1 => hk ((objGet_isSome_iff_mem o _).1 h1)
        rw [if_neg hk1, if_neg hk]

theorem sampleArray_empty_latency (n m : String) :
    sampleArray (emptySamples : Samples (WithTop α)).latency n m = [] := by
  unfold sampleArray emptySamples
  simp only [objGet]
  split_ifs <;> rfl

theorem sampleArray_empty_throughput (n m : String) :
    sampleArray (emptySamples : Samples (WithTop α)).throughput n m = [] := by
  unfold sampleArray emptySamples
  simp only [objGet]
  split_ifs <;> rfl

theorem flatMap_two_entries {β : Type} (a b : β) (f : β → List α) (n : String) :
    ([("Sepolia", a), ("IOTA", b)].flatMap fun e => if n = e.1 then f e.2 else []) =
      if n = "Sepolia" then f a else if n = "IOTA" then f b else [] := by
  have hne : ¬ ("Sepolia" = "IOTA") := by decide
  by_cases h1 : n = "Sepolia"
  · subst h1
    simp [hne]
  · by_cases h2 : n = "IOTA"
    · subst h2
      simp [h1]
    · simp [h1, h2]

theorem latencyPushed_successRate (s : Summary α) :
    latencyPushed s "successRate" = (s.successRate.map WithTop.some).toList := by
  have h1 : ¬ ("successRate" = "avgLatency") := by decide
  have h2 : ¬ ("successRate" = "p95Latency") := by decide
  simp [latencyPushed, h1, h2]

theorem latencyPushed_avgLatency (s : Summary α) :
    latencyPushed s "avgLatency" =
      ((s.latency.bind fun st => st.mean).map WithTop.some).toList := by
  have h1 : ¬ ("avgLatency" = "p95Latency") := by decide
  have h2 : ¬ ("avgLatency" = "successRate") := by decide
  simp [latencyPushed, h1, h2]

theorem throughputPushed_successRate (e : Summary α × Option (WithTop α) × α) :
    throughputPushed e "successRate" = (e.1.successRate.map WithTop.some).toList := by
  have h1 : ¬ ("successRate" = "tps") := by decide
  have h2 : ¬ ("successRate" = "avgLatency") := by decide
  simp [throughputPushed, h1, h2]

theorem throughputPushed_avgLatency (e : Summary α × Option (WithTop α) × α) :
    throughputPushed e "avgLatency" =
      ((e.1.latency.bind fun st => st.mean).map WithTop.some).toList := by
  have h1 : ¬ ("avgLatency" = "tps") := by decide
  have h2 : ¬ ("avgLatency" = "successRate") := by decide
  simp [throughputPushed, h1, h2]

theorem throughputPushed_tps (e : Summary α × Option (WithTop α) × α) :
    throughputPushed e "tps" = e.2.1.toList := by
  have h1 : ¬ ("tps" = "avgLatency") := by decide
  have h2 : ¬ ("tps" = "successRate") := by decide
  simp [throughputPushed, h1, h2]

theorem map_toList_length {β γ : Type} (f : β → γ) (v : Option β) :
    (v.map f).toList.length = v.toList.length := by
  cases v <;> rfl

theorem rowPushed_length (row : ScalabilityRow α) (m : String)
    (hm : m = "tps" ∨ m = "avgLatency" ∨ m = "successRate")
    (ht : row.tps.isSome) (ha : row.avgLatency.isSome) (hs : row.successRate.isSome) :
    (rowPushed row m).length = 1 := by
  have h1 : ¬ ("tps" = "avgLatency") := by decide
  have h2 : ¬ ("tps" = "successRate") := by decide
  have h3 : ¬ ("avgLatency" = "tps") := by decide
  have h4 : ¬ ("avgLatency" = "successRate") := by decide
  have h5 : ¬ ("successRate" = "tps") := by decide
  have h6 : ¬ ("successRate" = "avgLatency") := by decide
  rcases hm with rfl | rfl | rfl
  · simpa [rowPushed, h1, h2] using toList_length_of_isSome _ ht
  · have h := toList_length_of_isSome _ ha
    rw [← map_toList_length WithTop.some] at h
    simpa [rowPushed, h3, h4] using h
  · have h := toList_length_of_isSome _ hs
    rw [← map_toList_length WithTop.some] at h
    simpa [rowPushed, h5, h6] using h

theorem length_flatMap_filter {β : Type} (f : β → List α) (q : β → Prop) [DecidablePred q] :
    ∀ xs : List β, (∀ x ∈ xs, q x → (f x).length = 1) →
      (xs.flatMap fun x => if q x then f x else []).length =
        (xs.filter fun x => decide (q x)).length := by
  intro xs
  induction xs with
  | nil => intro _; rfl
  | cons x xs ih =>
    intro h
    have h2 := ih fun y hy => h y (List.mem_cons_of_mem x hy)
    rw [List.flatMap_cons, List.length_append, h2]
    by_cases hq : q x
    · have h1 := h x (List.mem_cons_self x xs) hq
      simp [hq, h1, add_comm]
    · simp [hq]

theorem run_arrays (results : List (SuiteResult α)) (final : Samples (WithTop α))
    (h : forEach (fun st res => recordReplication res st) emptySamples results =
      Except.ok final) :
    (∀ n m, sampleArray final.latency n m =
        results.flatMap fun res =>
          res.latency.flatMap fun e => if n = e.1 then latencyPushed e.2 m else []) ∧
      (∀ n m, sampleArray final.throughput n m =
        results.flatMap fun res =>
          res.throughput.flatMap fun e =>
            if n = e.1 then throughputPushed e.2 m else []) := by
  refine ⟨?_, ?_⟩
  · intro n m
    have h1 := forEach_append (fun st res => recordReplication res st)
      (fun st : Samples (WithTop α) => sampleArray st.latency n m) _ results emptySamples
      final (fun s0 res s1 _ hb => (recordReplication_spec res s0 s1 hb).1 n m) h
    have h2 : sampleArray final.latency n m = sampleArray emptySamples.latency n m ++ _ := h1
    rw [h2, sampleArray_empty_latency, List.nil_append]
  · intro n m
    have h1 := forEach_append (fun st res => recordReplication res st)
      (fun st : Samples (WithTop α) => sampleArray st.throughput n m) _ results emptySamples
      final (fun s0 res s1 _ hb => (recordReplication_spec res s0 s1 hb).2.1 n m) h
    have h2 : sampleArray final.throughput n m =
        sampleArray emptySamples.throughput n m ++ _ := h1
    rw [h2, sampleArray_empty_throughput, List.nil_append]

theorem emptySamples_ready : (emptySamples : Samples (WithTop α)).Ready := by
  refine ⟨?_, ?_, ?_, ?_⟩ <;> simp [emptySamples, objGet]

theorem sampleArray_nil (n m : String) :
    sampleArray ([] : List (String × MetricsBag α)) n m = [] := rfl

theorem length_flatMap_const {β : Type} (f : β → List α) (c : Nat) :
    ∀ xs : List β, (∀ x ∈ xs, (f x).length = c) → (xs.flatMap f).length = xs.length * c := by
  intro xs
  induction xs with
  | nil => intro _; simp
  | cons x xs ih =>
    intro h
    rw [List.flatMap_cons, List.length_append, List.length_cons,
      h x (List.mem_cons_self x xs), ih fun y hy => h y (List.mem_cons_of_mem x hy)]
    ring

theorem length_filter_batchKey (rows : List (ScalabilityRow α)) (key : String) :
    (rows.filter fun row => decide (key = batchKey row.batchSize)).length =
      ((rows.map fun row => row.batchSize).filter fun n => decide (key = batchKey n)).length := by
  induction rows with
  | nil => rfl
  | cons row rows ih =>
    rw [List.map_cons, List.filter_cons, List.filter_cons]
    split_ifs
    · rw [List.length_cons, List.length_cons, ih]
    · exact ih

theorem run_scalability (results : List (SuiteResult α)) (final : Samples (WithTop α))
    (h : forEach (fun st res => recordReplication res st) emptySamples results =
      Except.ok final) :
    (∀ n m, sampleArray final.scalabilitySepolia n m =
        results.flatMap fun res =>
          res.scalability.1.flatMap fun row =>
            if n = batchKey row.batchSize then rowPushed row m else []) ∧
      (∀ n m, sampleArray final.scalabilityIota n m =
        results.flatMap fun res =>
          res.scalability.2.flatMap fun row =>
            if n = batchKey row.batchSize then rowPushed row m else []) := by
  refine ⟨?_, ?_⟩
  · intro n m
    have h1 := forEach_append (fun st res => recordReplication res st)
      (fun st : Samples (WithTop α) => sampleArray st.scalabilitySepolia n m) _ results
      emptySamples final
      (fun s0 res s1 _ hb => (recordReplication_spec res s0 s1 hb).2.2.1 n m) h
    have h2 : sampleArray final.scalabilitySepolia n m =
        sampleArray (emptySamples : Samples (WithTop α)).scalabilitySepolia n m ++ _ := h1
    rw [h2]
    exact List.nil_append _
  · intro n m
    have h1 := forEach_append (fun st res => recordReplication res st)
      (fun st : Samples (WithTop α) => sampleArray st.scalabilityIota n m) _ results
      emptySamples final
      (fun s0 res s1 _ hb => (recordReplication_spec res s0 s1 hb).2.2.2.1 n m) h
    have h2 : sampleArray final.scalabilityIota n m =
        sampleArray (emptySamples : Samples (WithTop α)).scalabilityIota n m ++ _ := h1
    rw [h2]
    exact List.nil_append _

theorem scalability_step_length (rows : List (ScalabilityRow α)) (key m : String)
    (hm : m = "tps" ∨ m = "avgLatency" ∨ m = "successRate")
    (hrow : ∀ row ∈ rows, row.tps.isSome ∧ row.avgLatency.isSome ∧ row.successRate.isSome) :
    (rows.flatMap fun row =>
        if key = batchKey row.batchSize then rowPushed row m else []).length =
      ((rows.map fun row => row.batchSize).filter fun n => decide (key = batchKey n)).length := by
  rw [← length_filter_batchKey]
  exact length_flatMap_filter (fun row => rowPushed row m)
    (fun row => key = batchKey row.batchSize) rows
    (fun row hr _ => rowPushed_length row m hm (hrow row hr).1 (hrow row hr).2.1
      (hrow row hr).2.2)

theorem recordRows_ok (rows : List (ScalabilityRow α))
    (o : List (String × MetricsBag (WithTop α))) :
    ∃ o1, forEach recordScalabilityRow o rows = Except.ok o1 := by
  obtain ⟨o1, h1, _⟩ := forEach_ok recordScalabilityRow (fun _ => True) rows o
    (fun s0 row _ _ => by
      obtain ⟨s1, hs1⟩ := recordScalabilityRow_ok s0 row
      exact ⟨s1, hs1, trivial⟩)
    trivial
  exact ⟨o1, h1⟩

end StoreLemmas

section Lemmas2

variable {α : Type} [LinearOrderedField α]

theorem getSuccessRate_isSome (c : MetricsCollector α) : c.getSuccessRate.isSome := by
  rw [getSuccessRate_eq]
  rfl

theorem calculateStats_mean_isSome [FloorRing α] (values : List α) (st : Stats α)
    (h : MetricsCollector.calculateStats values = some st) : st.mean.isSome := by
  by_cases hne : values = []
  · subst hne
    simp [MetricsCollector.calculateStats] at h
  · rw [calculateStats_eq values hne] at h
    rw [← Option.some.inj h]
    rfl

theorem outcomeData_resolved_latency (net : Network) (r : OpResult α) :
    (outcomeData net (Outcome.resolved r)).latency = r.latency := by
  cases net <;> rfl

theorem getLatencyStats_isSome_of [FloorRing α] (net : Network) (ops : List (Completion α))
    (h : ∃ op ∈ ops, ∃ r, op.2 = Outcome.resolved r ∧ r.latency.isSome) :
    ∃ st, (runOperations net ops).getLatencyStats = some st := by
  obtain ⟨op, hop, r, hr, hl⟩ := h
  obtain ⟨x, hx⟩ := Option.isSome_iff_exists.1 hl
  have hmem : x ∈ (runOperations net ops).metrics.filterMap (fun m => m.latency) := by
    rw [runOperations_metrics, List.mem_filterMap]
    refine ⟨⟨outcomeData net op.2, op.1⟩, List.mem_map.2 ⟨op, hop, rfl⟩, ?_⟩
    show (outcomeData net op.2).latency = some x
    rw [hr, outcomeData_resolved_latency, hx]
  have hne : (runOperations net ops).metrics.filterMap (fun m => m.latency) ≠ [] :=
    List.ne_nil_of_mem hmem
  exact ⟨_, calculateStats_eq _ hne⟩

theorem jsDiv_isSome_iff (a b : α) : (jsDiv a b).isSome ↔ b ≠ 0 := by
  unfold jsDiv
  by_cases h : b = 0
  · simp [h]
  · simp [h]

theorem duration_ne_zero (b : Batch α) (h : b.finish ≠ b.start) :
    (b.finish - b.start) / 1000 ≠ 0 := by
  have h1 : b.finish - b.start ≠ 0 := sub_ne_zero.2 h
  exact div_ne_zero h1 (by norm_num)

theorem jsDivCount_isSome (n : Nat) (b : α) (h : n ≠ 0 ∨ b ≠ 0) :
    (jsDivCount n b).isSome := by
  unfold jsDivCount
  by_cases hb : b = 0
  · rcases h with h | h
    · simp [hb, h]
    · exact absurd hb h
  · simp [hb]

theorem jsDivCount_ne_top (n : Nat) (b : α) (hb : b ≠ 0) : jsDivCount n b ≠ some ⊤ := by
  unfold jsDivCount
  rw [if_neg hb]
  intro h
  exact WithTop.coe_ne_top (Option.some.inj h)

theorem jsDivCount_zero_divisor (n : Nat) (hn : n ≠ 0) :
    jsDivCount n (0 : α) = some ⊤ := by
  unfold jsDivCount
  rw [if_pos rfl, if_neg hn]

theorem totalTransactions_eq [FloorRing α] (net : Network) (ops : List (Completion α)) :
    (runOperations net ops).getSummary.totalTransactions = ops.length := by
  show (runOperations net ops).metrics.length = ops.length
  rw [runOperations_metrics, List.length_map]

theorem totalTransactions_ne_zero [FloorRing α] (c : MetricsCollector α) (st : Stats α)
    (h : c.getSummary.latency = some st) : c.getSummary.totalTransactions ≠ 0 := by
  intro h0
  have hlen : c.metrics.length = 0 := h0
  have hnil : c.metrics = [] := List.length_eq_zero.1 hlen
  have h1 : c.getLatencyStats = some st := h
  unfold MetricsCollector.getLatencyStats at h1
  rw [hnil] at h1
  simp [MetricsCollector.calculateStats] at h1

theorem scalabilityRow_spec [FloorRing α] (net : Network) (b : Batch α)
    (row : ScalabilityRow α) (h : scalabilityRow net b = Except.ok row) :
    row.batchSize = b.batchSize ∧ row.avgLatency.isSome ∧ row.successRate.isSome ∧
      row.tps.isSome ∧ (b.finish ≠ b.start → row.tps ≠ some ⊤) := by
  unfold scalabilityRow at h
  cases hl : (runOperations net b.ops).getSummary.latency with
  | none => simp [hl] at h
  | some st =>
    simp only [hl, Except.ok.injEq] at h
    rw [← h]
    refine ⟨rfl, calculateStats_mean_isSome _ st hl, getSuccessRate_isSome _, ?_, ?_⟩
    · exact jsDivCount_isSome _ _ (Or.inl (totalTransactions_ne_zero _ st hl))
    · intro hd
      exact jsDivCount_ne_top _ _ (duration_ne_zero b hd)

theorem scalabilityRow_ok [FloorRing α] (net : Network) (b : Batch α)
    (h : ∃ op ∈ b.ops, ∃ r, op.2 = Outcome.resolved r ∧ r.latency.isSome) :
    ∃ row, scalabilityRow net b = Except.ok row := by
  obtain ⟨st, hst⟩ := getLatencyStats_isSome_of net b.ops h
  have hl : (runOperations net b.ops).getSummary.latency = some st := hst
  unfold scalabilityRow
  simp only [hl]
  exact ⟨_, rfl⟩

theorem scalabilityRows_spec [FloorRing α] (net : Network) :
    ∀ (batches : List (Batch α)) (rows : List (ScalabilityRow α)),
      scalabilityRows net batches = Except.ok rows →
      List.Forall₂ (fun b row => scalabilityRow net b = Except.ok row) batches rows := by
  intro batches
  induction batches with
  | nil =>
    intro rows h
    simp only [scalabilityRows, Except.ok.injEq] at h
    rw [← h]
    exact List.Forall₂.nil
  | cons b bs ih =>
    intro rows h
    unfold scalabilityRows at h
    cases hb : scalabilityRow net b with
    | error e => simp [hb] at h
    | ok row =>
      simp only [hb] at h
      cases hr : scalabilityRows net bs with
      | error e => simp [hr] at h
      | ok rest =>
        simp only [hr, Except.ok.injEq] at h
        rw [← h]
        exact List.Forall₂.cons hb (ih rest hr)

theorem scalabilityRows_ok [FloorRing α] (net : Network) :
    ∀ (batches : List (Batch α)),
      (∀ b ∈ batches, ∃ op ∈ b.ops, ∃ r, op.2 = Outcome.resolved r ∧ r.latency.isSome) →
      ∃ rows, scalabilityRows net batches = Except.ok rows := by
  intro batches
  induction batches with
  | nil => intro _; exact ⟨[], rfl⟩
  | cons b bs ih =>
    intro h
    obtain ⟨row, hrow⟩ := scalabilityRow_ok net b (h b (List.mem_cons_self b bs))
    obtain ⟨rest, hrest⟩ := ih fun b1 hb1 => h b1 (List.mem_cons_of_mem b hb1)
    exact ⟨row :: rest, by simp only [scalabilityRows, hrow, hrest]⟩

theorem forall₂_batchSize [FloorRing α] (net : Network) (batches : List (Batch α))
    (rows : List (ScalabilityRow α))
    (h : List.Forall₂ (fun b row => scalabilityRow net b = Except.ok row) batches rows) :
    rows.map (fun row => row.batchSize) = batches.map (fun b => b.batchSize) := by
  induction h with
  | nil => rfl
  | cons hb _ ih =>
    rw [List.map_cons, List.map_cons, ih, (scalabilityRow_spec net _ _ hb).1]

theorem testScalabilitySimulated_spec [FloorRing α] (eth iota : List (Batch α))
    (res : List (ScalabilityRow α) × List (ScalabilityRow α))
    (h : testScalabilitySimulated eth iota = Except.ok res) :
    scalabilityRows Network.sepolia eth = Except.ok res.1 ∧
      scalabilityRows Network.iota iota = Except.ok res.2 := by
  unfold testScalabilitySimulated at h
  cases h1 : scalabilityRows Network.sepolia eth with
  | error e => simp [h1] at h
  | ok s1 =>
    simp only [h1] at h
    cases h2 : scalabilityRows Network.iota iota with
    | error e => simp [h2] at h
    | ok s2 =>
      simp only [h2, Except.ok.injEq] at h
      rw [← h]
      exact ⟨rfl, rfl⟩

theorem runAllSimulatedTests_spec [FloorRing α] (t : ReplicationTrace α)
    (res : SuiteResult α) (h : runAllSimulatedTests t = Except.ok res) :
    res.latency =
        [("Sepolia", (runOperations Network.sepolia t.latencySepolia).getSummary),
          ("IOTA", (runOperations Network.iota t.latencyIota).getSummary)] ∧
      res.throughput =
        [("Sepolia", throughputSummary Network.sepolia t.throughputSepolia),
          ("IOTA", throughputSummary Network.iota t.throughputIota)] ∧
      scalabilityRows Network.sepolia t.scalabilitySepolia = Except.ok res.scalability.1 ∧
      scalabilityRows Network.iota t.scalabilityIota = Except.ok res.scalability.2 := by
  unfold runAllSimulatedTests testLatencySimulated testThroughputSimulated at h
  simp only at h
  cases hs : testScalabilitySimulated t.scalabilitySepolia t.scalabilityIota with
  | error e => simp [hs] at h
  | ok sc =>
    simp only [hs, Except.ok.injEq] at h
    obtain ⟨h1, h2⟩ := testScalabilitySimulated_spec _ _ sc hs
    rw [← h]
    exact ⟨rfl, rfl, h1, h2⟩

theorem runAllSimulatedTests_ok [FloorRing α] (t : ReplicationTrace α)
    (hs : ∀ b ∈ t.scalabilitySepolia,
      ∃ op ∈ b.ops, ∃ r, op.2 = Outcome.resolved r ∧ r.latency.isSome)
    (hi : ∀ b ∈ t.scalabilityIota,
      ∃ op ∈ b.ops, ∃ r, op.2 = Outcome.resolved r ∧ r.latency.isSome) :
    ∃ res, runAllSimulatedTests t = Except.ok res := by
  obtain ⟨s1, h1⟩ := scalabilityRows_ok Network.sepolia t.scalabilitySepolia hs
  obtain ⟨s2, h2⟩ := scalabilityRows_ok Network.iota t.scalabilityIota hi
  simp only [runAllSimulatedTests, testLatencySimulated, testThroughputSimulated,
    testScalabilitySimulated, h1, h2]
  exact ⟨_, rfl⟩

theorem forall₂_mem_right {β γ : Type} (R : β → γ → Prop) (xs : List β) (ys : List γ)
    (h : List.Forall₂ R xs ys) : ∀ y ∈ ys, ∃ x ∈ xs, R x y := by
  induction h with
  | nil => intro y hy; simp at hy
  | cons hr _ ih =>
    intro y hy
    rcases List.mem_cons.1 hy with rfl | hy1
    · exact ⟨_, List.mem_cons_self _ _, hr⟩
    · obtain ⟨x, hx, hxy⟩ := ih y hy1
      exact ⟨x, List.mem_cons_of_mem _ hx, hxy⟩

theorem getSummary_mean_isSome [FloorRing α] (c : MetricsCollector α) (st : Stats α)
    (h : c.getSummary.latency = some st) : st.mean.isSome :=
  calculateStats_mean_isSome _ st h

theorem throughputSummary_facts [FloorRing α] (net : Network) (b : Batch α) :
    (b.ops ≠ [] ∨ b.finish ≠ b.start → (throughputSummary net b).2.1.isSome) ∧
      (b.finish ≠ b.start → (throughputSummary net b).2.1 ≠ some ⊤) ∧
      (∀ st, (throughputSummary net b).1.latency = some st → st.mean.isSome) ∧
      (throughputSummary net b).1.successRate.isSome := by
  refine ⟨?_, ?_, fun st h => calculateStats_mean_isSome _ st h, getSuccessRate_isSome _⟩
  · intro h
    apply jsDivCount_isSome
    rcases h with h | h
    · left
      rw [totalTransactions_eq]
      exact fun h0 => h (List.length_eq_zero.1 h0)
    · exact Or.inr (duration_ne_zero b h)
  · intro h
    exact jsDivCount_ne_top _ _ (duration_ne_zero b h)

theorem recordReplication_ok [FloorRing α] (t : ReplicationTrace α) (res : SuiteResult α)
    (s : Samples (WithTop α)) (hres : runAllSimulatedTests t = Except.ok res)
    (hready : s.Ready) : ∃ s1, recordReplication res s = Except.ok s1 := by
  obtain ⟨hlat, hthr, _, _⟩ := runAllSimulatedTests_spec t res hres
  obtain ⟨lat, h1, _⟩ := forEach_ok recordLatencyEntry
    (fun o => (objGet o "Sepolia").isSome ∧ (objGet o "IOTA").isSome) res.latency s.latency
    (fun s0 e he hP => by
      have hname : (objGet s0 e.1).isSome := by
        rw [hlat] at he
        simp only [List.mem_cons, List.mem_singleton, List.not_mem_nil, or_false] at he
        rcases he with rfl | rfl
        · exact hP.1
        · exact hP.2
      obtain ⟨s1, hs1⟩ := recordLatencyEntry_ok s0 e hname
      refine ⟨s1, hs1, ?_⟩
      show (objGet s1 "Sepolia").isSome = true ∧ (objGet s1 "IOTA").isSome = true
      rw [(recordLatencyEntry_spec s0 s1 e hs1).2, (recordLatencyEntry_spec s0 s1 e hs1).2]
      exact hP)
    ⟨hready.1, hready.2.1⟩
  obtain ⟨thr, h2, _⟩ := forEach_ok recordThroughputEntry
    (fun o => (objGet o "Sepolia").isSome ∧ (objGet o "IOTA").isSome) res.throughput
    s.throughput
    (fun s0 e he hP => by
      have hname : (objGet s0 e.1).isSome := by
        rw [hthr] at he
        simp only [List.mem_cons, List.mem_singleton, List.not_mem_nil, or_false] at he
        rcases he with rfl | rfl
        · exact hP.1
        · exact hP.2
      obtain ⟨s1, hs1⟩ := recordThroughputEntry_ok s0 e hname
      refine ⟨s1, hs1, ?_⟩
      show (objGet s1 "Sepolia").isSome = true ∧ (objGet s1 "IOTA").isSome = true
      rw [(recordThroughputEntry_spec s0 s1 e hs1).2,
        (recordThroughputEntry_spec s0 s1 e hs1).2]
      exact hP)
    ⟨hready.2.2.1, hready.2.2.2⟩
  obtain ⟨sep, h3⟩ := recordRows_ok res.scalability.1 s.scalabilitySepolia
  obtain ⟨iot, h4⟩ := recordRows_ok res.scalability.2 s.scalabilityIota
  exact ⟨⟨lat, thr, sep, iot⟩, by simp only [recordReplication, h1, h2, h3, h4]⟩

theorem runReplications_spec [FloorRing α] {ρ : Type} (seedrandom : String → ρ)
    (replicate : ρ → ReplicationTrace α) :
    ∀ (seeds : List Int) (w w1 : Runtime ρ (Samples (WithTop α))),
      runReplications seedrandom replicate seeds w = (Except.ok (), w1) →
      w1.mathRandom = w.mathRandom ∧
        ∃ results : List (SuiteResult α),
          List.Forall₂
            (fun seed res =>
              runAllSimulatedTests (replicate (seedrandom (toString seed))) = Except.ok res)
            seeds results ∧
          forEach (fun st res => recordReplication res st) w.rest results =
            Except.ok w1.rest := by
  intro seeds
  induction seeds with
  | nil =>
    intro w w1 h
    simp only [runReplications, Prod.mk.injEq, true_and] at h
    rw [← h]
    exact ⟨rfl, [], List.Forall₂.nil, rfl⟩
  | cons seed seeds ih =>
    intro w w1 h
    unfold runReplications at h
    simp only [withSeed, replicationBody] at h
    cases hr : runAllSimulatedTests (replicate (seedrandom (toString seed))) with
    | error e => simp [hr] at h
    | ok res =>
      simp only [hr] at h
      cases hrec : recordReplication res w.rest with
      | error e => simp [hrec] at h
      | ok samples =>
        simp only [hrec] at h
        obtain ⟨hm, results, hf, hfe⟩ := ih _ w1 h
        refine ⟨hm, res :: results, List.Forall₂.cons hr hf, ?_⟩
        simp only [forEach, hrec]
        exact hfe

theorem runReplications_ok [FloorRing α] {ρ : Type} (seedrandom : String → ρ)
    (replicate : ρ → ReplicationTrace α) (hgood : ∀ g, (replicate g).Measured) :
    ∀ (seeds : List Int) (w : Runtime ρ (Samples (WithTop α))), w.rest.Ready →
      ∃ w1, runReplications seedrandom replicate seeds w = (Except.ok (), w1) := by
  intro seeds
  induction seeds with
  | nil => intro w _; exact ⟨w, rfl⟩
  | cons seed seeds ih =>
    intro w hready
    obtain ⟨res, hres⟩ := runAllSimulatedTests_ok (replicate (seedrandom (toString seed)))
      (hgood _).1 (hgood _).2
    obtain ⟨s1, hs1⟩ := recordReplication_ok _ res w.rest hres hready
    have hready1 : s1.Ready := (recordReplication_spec res w.rest s1 hs1).2.2.2.2 hready
    obtain ⟨w1, hw1⟩ := ih ⟨w.mathRandom, s1⟩ hready1
    refine ⟨w1, ?_⟩
    unfold runReplications
    simp only [withSeed, replicationBody, hres, hs1]
    exact hw1

theorem forall₂_getElem? {β γ : Type} (R : β → γ → Prop) (xs : List β) (ys : List γ)
    (h : List.Forall₂ R xs ys) :
    ∀ (i : Nat) (x : β), xs[i]? = some x → ∃ y, ys[i]? = some y ∧ R x y := by
  induction h with
  | nil => intro i x hx; simp at hx
  | cons hr _ ih =>
    intro i x hx
    cases i with
    | zero =>
      simp only [List.getElem?_cons_zero, Option.some.injEq] at hx
      subst hx
      exact ⟨_, by simp, hr⟩
    | succ i =>
      simp only [List.getElem?_cons_succ] at hx
      obtain ⟨y, hy, hxy⟩ := ih i x hx
      exact ⟨y, by simpa using hy, hxy⟩

theorem seedAt_exact (seedStart : Int) (i : Nat) (h : |(i : Int) + seedStart| ≤ 2 ^ 53) :
    seedAt seedStart i = seedStart + i := by
  unfold seedAt
  rw [roundDouble_intCast _ h, Int.floor_intCast, add_comm]

theorem seedAt_of_le (N : Nat) (seedStart : Int) (hs : |seedStart| + (N : Int) ≤ 2 ^ 53)
    (i : Nat) (hi : i < N) : seedAt seedStart i = seedStart + i := by
  apply seedAt_exact
  have h1 := abs_add (i : Int) seedStart
  have h2 : |(i : Int)| = (i : Int) := abs_of_nonneg (Int.ofNat_nonneg i)
  have h3 : (i : Int) < (N : Int) := Int.ofNat_lt.2 hi
  linarith

theorem seedList_length (N : Nat) (seedStart : Int) : (seedList N seedStart).length = N := by
  unfold seedList
  rw [List.length_map, List.length_range]

theorem seedList_getElem? (N : Nat) (seedStart : Int) (i : Nat) (hi : i < N) :
    (seedList N seedStart)[i]? = some (seedAt seedStart i) := by
  unfold seedList
  rw [List.getElem?_map, List.getElem?_range hi, Option.map_some']

theorem seedList_eq_of_le (N : Nat) (seedStart : Int)
    (hs : |seedStart| + (N : Int) ≤ 2 ^ 53) :
    seedList N seedStart = (List.range N).map fun (i : Nat) => seedStart + (i : Int) := by
  unfold seedList
  apply List.map_congr_left
  intro i hi
  exact seedAt_of_le N seedStart hs i (List.mem_range.1 hi)

theorem seedList_pairwise (N : Nat) (seedStart : Int)
    (hs : |seedStart| + (N : Int) ≤ 2 ^ 53) :
    (seedList N seedStart).Pairwise (· < ·) := by
  rw [seedList_eq_of_le N seedStart hs, List.pairwise_map]
  refine (List.pairwise_lt_range N).imp ?_
  intro a b h
  have hab : (a : Int) < (b : Int) := Int.ofNat_lt.2 h
  linarith

theorem seedAt_two_pow_zero : seedAt (2 ^ 53) 0 = 2 ^ 53 :=
  (seedAt_exact (2 ^ 53) 0 (by norm_num)).trans (by norm_num)

theorem seedAt_two_pow_one : seedAt (2 ^ 53) 1 = 2 ^ 53 := by
  unfold seedAt
  have h := roundDouble_eq ((((1 : Nat) : Int) + 2 ^ 53 : Int) : ℚ) 53 (2 ^ 52)
    (by norm_num [abs_of_pos]) (by norm_num [abs_of_pos])
    (by
      have e : ((((1 : Nat) : Int) + 2 ^ 53 : Int) : ℚ) / 2 ^ ((53 : ℤ) - 52) =
          ((2 ^ 52 : ℤ) : ℚ) + 1 / 2 := by norm_num
      rw [e, roundHalfEven_tie]
      norm_num)
  rw [h]
  have e2 : ((2 ^ 52 : ℤ) : ℚ) * 2 ^ ((53 : ℤ) - 52) = ((2 ^ 53 : ℤ) : ℚ) := by norm_num
  rw [e2, Int.floor_intCast]

theorem seedAt_two_pow_two : seedAt (2 ^ 53) 2 = 2 ^ 53 + 2 := by
  unfold seedAt
  rw [roundDouble_multiple _ (2 ^ 52 + 1) 1 (by norm_num) (by norm_num), Int.floor_intCast]
  norm_num

theorem calculateStats_count [FloorRing α] (values : List α) (st : Stats α)
    (h : MetricsCollector.calculateStats values = some st) : st.count = values.length := by
  by_cases hne : values = []
  · subst hne
    simp [MetricsCollector.calculateStats] at h
  · rw [calculateStats_eq values hne] at h
    rw [← Option.some.inj h]

theorem calculateStats_eq_none_iff [FloorRing α] (values : List α) :
    MetricsCollector.calculateStats values = none ↔ values.length = 0 := by
  by_cases hne : values = []
  · subst hne
    simp [MetricsCollector.calculateStats]
  · rw [calculateStats_eq values hne]
    have : values.length ≠ 0 := fun h => hne (List.length_eq_zero.1 h)
    simp [this]

theorem length_filterMap_eq_countP' {β γ : Type} (f : β → Option γ) (l : List β) :
    (l.filterMap f).length = l.countP fun x => (f x).isSome := by
  induction l with
  | nil => rfl
  | cons x xs ih =>
    cases hx : f x with
    | none => simp [List.filterMap_cons, hx, ih]
    | some y => simp [List.filterMap_cons, hx, ih]

theorem mem_seedList (N : Nat) (seedStart seed : Int) (h : seed ∈ seedList N seedStart) :
    ∃ i, i < N ∧ seed = seedAt seedStart i := by
  unfold seedList at h
  obtain ⟨i, hi, rfl⟩ := List.mem_map.1 h
  exact ⟨i, List.mem_range.1 hi, rfl⟩

theorem run_results [FloorRing α] {ρ : Type} (seedrandom : String → ρ)
    (replicate : ρ → ReplicationTrace α) (N : Nat) (seedStart : Int) (original : ρ)
    (w1 : Runtime ρ (Samples (WithTop α)))
    (h : runReplicatedSuite seedrandom replicate N seedStart original = (Except.ok (), w1)) :
    ∃ results : List (SuiteResult α), results.length = N ∧
      (∀ res ∈ results, ∃ i, i < N ∧
        runAllSimulatedTests (replicate (seedrandom (toString (seedAt seedStart i))))
          = Except.ok res) ∧
      forEach (fun st res => recordReplication res st) emptySamples results =
        Except.ok w1.rest := by
  obtain ⟨_, results, hf, hfe⟩ := runReplications_spec seedrandom replicate _ _ w1 h
  have hlen : (seedList N seedStart).length = N := by
    unfold seedList
    rw [List.length_map, List.length_range]
  refine ⟨results, by rw [← hf.length_eq, hlen], ?_, hfe⟩
  intro res hres
  obtain ⟨seed, hseed, hrun⟩ := forall₂_mem_right _ _ _ hf res hres
  obtain ⟨i, hi, rfl⟩ := mem_seedList N seedStart seed hseed
  exact ⟨i, hi, hrun⟩

theorem sampleArray_avgLatency_of_rejected [FloorRing α] {ρ : Type} (seedrandom : String → ρ)
    (replicate : ρ → ReplicationTrace α) (N : Nat) (seedStart : Int) (original : ρ)
    (w1 : Runtime ρ (Samples (WithTop α)))
    (h : runReplicatedSuite seedrandom replicate N seedStart original = (Except.ok (), w1))
    (hrej : ∀ g, ∀ op ∈ (replicate g).latencySepolia, ∃ e, op.2 = Outcome.rejected e) :
    sampleArray w1.rest.latency "Sepolia" "avgLatency" = [] := by
  obtain ⟨results, _, hres, hfe⟩ := run_results seedrandom replicate N seedStart original w1 h
  rw [(run_arrays results w1.rest hfe).1, List.flatMap_eq_nil_iff]
  intro res hr
  obtain ⟨i, _, hrun⟩ := hres res hr
  obtain ⟨a, _⟩ := runAllSimulatedTests_spec _ res hrun
  rw [a, flatMap_two_entries _ _ (fun s => latencyPushed s "avgLatency") "Sepolia",
    if_pos rfl, latencyPushed_avgLatency]
  have hl : (runOperations Network.sepolia
      (replicate (seedrandom (toString (seedAt seedStart i)))).latencySepolia).getSummary.latency
      = none := getLatencyStats_all_rejected _ _ (hrej _)
  rw [hl]
  rfl

theorem resolvedOp_mem (n : Nat) (hn : n ≠ 0) :
    ∃ op ∈ (measuredBatch n).ops, ∃ r, op.2 = Outcome.resolved r ∧ r.latency.isSome :=
  ⟨resolvedOp, List.mem_replicate.2 ⟨hn, rfl⟩, _, rfl, rfl⟩

theorem measuredBatches_good :
    (∀ b ∈ [10, 100, 1000, 10000].map measuredBatch, b.finish ≠ b.start) ∧
      (∀ b ∈ [10, 100, 1000, 10000].map measuredBatch,
        ∃ op ∈ b.ops, ∃ r, op.2 = Outcome.resolved r ∧ r.latency.isSome) := by
  constructor
  · intro b hb
    obtain ⟨n, _, rfl⟩ := List.mem_map.1 hb
    show (1000 : ℚ) ≠ 0
    norm_num
  · intro b hb
    obtain ⟨n, hn, rfl⟩ := List.mem_map.1 hb
    apply resolvedOp_mem
    rintro rfl
    simp at hn

theorem measuredTrace_good : measuredTrace.Timed ∧ measuredTrace.Measured := by
  have h1 : (1000 : ℚ) ≠ 0 := by norm_num
  exact ⟨⟨h1, h1, measuredBatches_good.1, measuredBatches_good.1⟩,
    measuredBatches_good.2, measuredBatches_good.2⟩

theorem lostSepoliaTrace_good : lostSepoliaTrace.Timed ∧ lostSepoliaTrace.Measured := by
  have h1 : (1000 : ℚ) ≠ 0 := by norm_num
  exact ⟨⟨h1, h1, measuredBatches_good.1, measuredBatches_good.1⟩,
    measuredBatches_good.2, measuredBatches_good.2⟩

theorem instantTrace_measured : instantTrace.Measured :=
  ⟨measuredBatches_good.2, measuredBatches_good.2⟩

theorem instantTrace_ops : instantTrace.throughputSepolia.ops ≠ [] := by
  show List.replicate 1000 instantOp ≠ []
  intro h
  have h1 := congrArg List.length h
  rw [List.length_replicate, List.length_nil] at h1
  exact absurd h1 (by decide)

theorem avgLatency_length_one [FloorRing α] (net : Network) (ops : List (Completion α))
    (h : HasLatency ops) :
    (((runOperations net ops).getSummary.latency.bind fun st => st.mean).map
      WithTop.some).toList.length = 1 := by
  obtain ⟨st, hst⟩ := getLatencyStats_isSome_of net ops h
  have hl : (runOperations net ops).getSummary.latency = some st := hst
  rw [hl, map_toList_length]
  exact toList_length_of_isSome _ (calculateStats_mean_isSome _ st hst)

theorem successRate_length_one (c : MetricsCollector α) :
    (c.getSuccessRate.map WithTop.some).toList.length = 1 := by
  rw [map_toList_length]
  exact toList_length_of_isSome _ (getSuccessRate_isSome c)

theorem rows_facts [FloorRing α] (net : Network) (batches : List (Batch α))
    (rows : List (ScalabilityRow α)) (hrows : scalabilityRows net batches = Except.ok rows) :
    ∀ row ∈ rows, row.tps.isSome ∧ row.avgLatency.isSome ∧ row.successRate.isSome := by
  intro row hrow
  obtain ⟨b, _, hbr⟩ := forall₂_mem_right _ batches rows
    (scalabilityRows_spec net batches rows hrows) row hrow
  obtain ⟨_, h1, h2, h3, _⟩ := scalabilityRow_spec net b row hbr
  exact ⟨h3, h1, h2⟩

theorem sampleArray_tps_of_instant [FloorRing α] {ρ : Type} (seedrandom : String → ρ)
    (replicate : ρ → ReplicationTrace α) (N : Nat) (seedStart : Int) (original : ρ)
    (w1 : Runtime ρ (Samples (WithTop α)))
    (h : runReplicatedSuite seedrandom replicate N seedStart original = (Except.ok (), w1))
    (hz : ∀ g, (replicate g).throughputSepolia.finish = (replicate g).throughputSepolia.start ∧
      (replicate g).throughputSepolia.ops ≠ []) :
    ∀ v ∈ sampleArray w1.rest.throughput "Sepolia" "tps", v = ⊤ := by
  intro v hv
  obtain ⟨results, _, hres, hfe⟩ := run_results seedrandom replicate N seedStart original w1 h
  rw [(run_arrays results w1.rest hfe).2] at hv
  obtain ⟨res, hr, hv1⟩ := List.mem_flatMap.1 hv
  obtain ⟨i, _, hrun⟩ := hres res hr
  obtain ⟨_, b, _⟩ := runAllSimulatedTests_spec _ res hrun
  rw [b, flatMap_two_entries _ _
      (fun p : Summary α × Option (WithTop α) × α => throughputPushed p "tps") "Sepolia",
    if_pos rfl, throughputPushed_tps] at hv1
  obtain ⟨hz1, hz2⟩ := hz (seedrandom (toString (seedAt seedStart i)))
  have htop : (throughputSummary Network.sepolia
      (replicate (seedrandom (toString (seedAt seedStart i)))).throughputSepolia).2.1 =
      some ⊤ := by
    show jsDivCount _ _ = some ⊤
    rw [totalTransactions_eq, hz1, sub_self, zero_div]
    exact jsDivCount_zero_divisor _ (fun h0 => hz2 (List.length_eq_zero.1 h0))
  rw [htop] at hv1
  simpa using hv1

end Lemmas2

section HeapLemmas

open MetricsCollector

variable {α : Type}

theorem heapRead_alloc_old (h : List (List α)) (a : List α) (ref : Nat)
    (hr : ref < h.length) : heapRead (heapAlloc h a).2 ref = heapRead h ref := by
  simp [heapRead, heapAlloc, List.getElem?_append_left hr]

theorem heapRead_alloc_new (h : List (List α)) (a : List α) :
    heapRead (heapAlloc h a).2 (heapAlloc h a).1 = a := by
  simp [heapRead, heapAlloc]

variable [LinearOrderedField α]

theorem heapRead_sort_other (h : List (List α)) (ref ref1 : Nat) (hne : ref ≠ ref1) :
    heapRead (heapSort h ref) ref1 = heapRead h ref1 := by
  simp [heapRead, heapSort, List.getElem?_set_ne hne]

theorem heapRead_sort_same (h : List (List α)) (ref : Nat) (hr : ref < h.length) :
    heapRead (heapSort h ref) ref =
      (heapRead h ref).insertionSort (· ≤ ·) := by
  simp [heapRead, heapSort, List.getElem?_set_self hr]

theorem length_heapSort (h : List (List α)) (ref : Nat) :
    (heapSort h ref).length = h.length := by
  simp [heapSort]

theorem calculateStatsOn_spec [FloorRing α] (h : List (List α)) (values : Nat)
    (hv : values < h.length) :
    (calculateStatsOn h values).1 =
        calculateStats (heapRead h values) ∧
      (∀ ref, ref < h.length →
        heapRead (calculateStatsOn h values).2 ref = heapRead h ref) ∧
      h.length ≤ (calculateStatsOn h values).2.length := by
  unfold calculateStatsOn
  by_cases h0 : (heapRead h values).length = 0
  · simp only [h0, if_true]
    refine ⟨?_, fun ref _ => trivial, le_refl _⟩
    unfold calculateStats
    rw [if_pos h0]
  · simp only [h0, if_false]
    have hcopy : (heapAlloc h (heapRead h values)).1 = h.length := rfl
    have hlen : h.length < (heapAlloc h (heapRead h values)).2.length := by
      simp [heapAlloc]
    have hold : ∀ ref, ref < h.length →
        heapRead (heapSort (heapAlloc h (heapRead h values)).2
          (heapAlloc h (heapRead h values)).1) ref = heapRead h ref := by
      intro ref hr
      rw [heapRead_sort_other _ _ _ (by rw [hcopy]; omega), heapRead_alloc_old h _ ref hr]
    have hnew : heapRead (heapSort
          (heapAlloc h (heapRead h values)).2
          (heapAlloc h (heapRead h values)).1)
        (heapAlloc h (heapRead h values)).1 =
        (heapRead h values).insertionSort (· ≤ ·) := by
      rw [heapRead_sort_same _ _ (by rw [hcopy]; exact hlen), heapRead_alloc_new]
    refine ⟨?_, hold, ?_⟩
    · unfold calculateStats
      rw [if_neg h0, hnew, hold values hv]
    · rw [length_heapSort]
      exact hlen.le

theorem getSummaryOn_spec [FloorRing α] (c : MetricsCollector α) (h : List (List α)) :
    (getSummaryOn c h).1 = c.getSummary ∧
      (getSummaryOn c h).2.1 = c ∧
      (∀ ref, ref < h.length →
        heapRead (getSummaryOn c h).2.2 ref = heapRead h ref) := by
  have ha : ∀ (h0 : List (List α)) (a : List α),
      (calculateStatsOn (heapAlloc h0 a).2
          (heapAlloc h0 a).1).1 = calculateStats a ∧
        (∀ ref, ref < h0.length →
          heapRead (calculateStatsOn (heapAlloc h0 a).2
            (heapAlloc h0 a).1).2 ref = heapRead h0 ref) ∧
        h0.length ≤ (calculateStatsOn (heapAlloc h0 a).2
            (heapAlloc h0 a).1).2.length := by
    intro h0 a
    have hlt : (heapAlloc h0 a).1 < (heapAlloc h0 a).2.length := by
      simp [heapAlloc]
    have hlen : (heapAlloc h0 a).2.length = h0.length + 1 := by
      simp [heapAlloc]
    obtain ⟨h1, h2, h3⟩ := calculateStatsOn_spec (heapAlloc h0 a).2
      (heapAlloc h0 a).1 hlt
    refine ⟨by rw [h1, heapRead_alloc_new], ?_, by omega⟩
    intro ref hr
    rw [h2 ref (by omega), heapRead_alloc_old h0 a ref hr]
  unfold getSummaryOn
  simp only
  obtain ⟨l1, l2, l3⟩ := ha h (c.metrics.filterMap fun m => m.latency)
  obtain ⟨g1, g2, g3⟩ := ha
    (calculateStatsOn
      (heapAlloc h (c.metrics.filterMap fun m => m.latency)).2
      (heapAlloc h (c.metrics.filterMap fun m => m.latency)).1).2
    (c.metrics.filterMap fun m => m.gasUsed)
  obtain ⟨u1, u2, u3⟩ := ha
    (calculateStatsOn
      (heapAlloc
        (calculateStatsOn
          (heapAlloc h (c.metrics.filterMap fun m => m.latency)).2
          (heapAlloc h (c.metrics.filterMap fun m => m.latency)).1).2
        (c.metrics.filterMap fun m => m.gasUsed)).2
      (heapAlloc
        (calculateStatsOn
          (heapAlloc h (c.metrics.filterMap fun m => m.latency)).2
          (heapAlloc h (c.metrics.filterMap fun m => m.latency)).1).2
        (c.metrics.filterMap fun m => m.gasUsed)).1).2
    (c.metrics.filterMap fun m => m.cpuTime)
  refine ⟨?_, trivial, ?_⟩
  · rw [l1, g1, u1]
    rfl
  · intro ref hr
    rw [u2 ref (by omega), g2 ref (by omega), l2 ref hr]

end HeapLemmas

section StatsLemmas

variable {α : Type} [LinearOrderedField α]

theorem sum_le_of_forall_le (arr : List α) (b : α) (h : ∀ x ∈ arr, x ≤ b) :
    arr.sum ≤ (arr.length : α) * b := by
  induction arr with
  | nil => simp
  | cons x xs ih =>
    have hx : x ≤ b := h x (List.mem_cons_self x xs)
    have hxs := ih fun y hy => h y (List.mem_cons_of_mem x hy)
    rw [List.sum_cons, List.length_cons]
    push_cast
    linarith

theorem sorted_getElem?_le (l : List α) (hs : l.Sorted (· ≤ ·)) (i j : Nat) (hij : i ≤ j)
    (hj : j < l.length) :
    ∃ a b, l[i]? = some a ∧ l[j]? = some b ∧ a ≤ b := by
  have hi : i < l.length := lt_of_le_of_lt hij hj
  refine ⟨l[i], l[j], List.getElem?_eq_getElem hi, List.getElem?_eq_getElem hj, ?_⟩
  exact @List.Sorted.rel_get_of_le _ _ _ _ hs ⟨i, hi⟩ ⟨j, hj⟩ hij

theorem sorted_bounds (l : List α) (hs : l.Sorted (· ≤ ·)) (lo hi : α)
    (hlo : l[0]? = some lo) (hhi : l[l.length - 1]? = some hi) :
    ∀ x ∈ l, lo ≤ x ∧ x ≤ hi := by
  intro x hx
  obtain ⟨k, hk, rfl⟩ := List.mem_iff_getElem.1 hx
  constructor
  · obtain ⟨a, b, h1, h2, h3⟩ := sorted_getElem?_le l hs 0 k (Nat.zero_le _) hk
    rw [hlo] at h1
    rw [List.getElem?_eq_getElem hk] at h2
    rw [Option.some.inj h1, Option.some.inj h2]
    exact h3
  · obtain ⟨a, b, h1, h2, h3⟩ := sorted_getElem?_le l hs k (l.length - 1) (by omega)
      (by omega)
    rw [hhi] at h2
    rw [List.getElem?_eq_getElem hk] at h1
    rw [Option.some.inj h1, Option.some.inj h2]
    exact h3

theorem randn_real (r : RandomSource ℝ) :
    (randn (JSMath.mk Real.sqrt Real.log Real.exp Real.cos (fun x y => x ^ y) Real.pi) r).1 =
      Real.sqrt (-2 * Real.log (1 - r.stream r.pos)) *
        Real.cos (2 * Real.pi * (1 - r.stream (r.pos + 1))) := by
  have e2 : (2.0 : ℝ) = 2 := by norm_num
  simp only [randn, RandomSource.random, e2]

theorem randn_zero_draws (r : RandomSource ℝ) (h0 : r.stream r.pos = 0) :
    (randn (JSMath.mk Real.sqrt Real.log Real.exp Real.cos (fun x y => x ^ y) Real.pi) r).1 = 0 := by
  rw [randn_real, h0]
  simp

theorem submitBlock_canReal (b : Bool) (c : IOTAClient) :
    (c.submitBlock b).2.canReal = c.canReal := by
  unfold IOTAClient.submitBlock
  split_ifs <;> rfl

theorem submitBlock_calls (b : Bool) (c : IOTAClient) :
    ClientCall.sendRealTransaction ∈ (c.submitBlock b).1 ↔ c.canReal = true := by
  unfold IOTAClient.submitBlock
  split_ifs with h1 h2 h3 <;> simp [h1]

end StatsLemmas

section ClientLemmas

variable {α : Type} [LinearOrderedField α] [FloorRing α]

theorem jsRound_sub (x : α) : -(1 / 2) < jsRound x - x ∧ jsRound x - x ≤ 1 / 2 := by
  unfold jsRound
  have h1 := Int.floor_le (x + 1 / 2)
  have h2 := Int.lt_floor_add_one (x + 1 / 2)
  constructor <;> linarith

theorem abs_jsRound_sub (x : α) : |jsRound x - x| ≤ 1 / 2 :=
  abs_le.2 ⟨(jsRound_sub x).1.le, (jsRound_sub x).2⟩

theorem simulateEthereumLatency_eq (M : JSMath α) (wait : α → α) (fuel : Nat) (p b s : α)
    (r : RandomSource α) (res : EthereumLatency α) (r1 : RandomSource α)
    (h : simulateEthereumLatency M wait fuel p b s r = some (res, r1)) :
    ∃ k : Nat, geometricBlocks fuel p (ethereumRtt M r).2 = some (k, r1) ∧
      res = ⟨jsRound (ethereumRtt M r).1, k, (k : α) * b, s * b,
        wait (ethereumRtt M r).1 + wait ((k : α) * b) + wait (s * b),
        ⟨jsRound (ethereumRtt M r).1, (k : α) * b, s * b⟩⟩ := by
  unfold simulateEthereumLatency at h
  cases hg : geometricBlocks fuel p (ethereumRtt M r).2 with
  | none => simp [hg] at h
  | some kr =>
    obtain ⟨k, r2⟩ := kr
    simp only [hg, Option.some.injEq, Prod.mk.injEq] at h
    obtain ⟨h1, h2⟩ := h
    subst h2
    exact ⟨k, rfl, h1.symm⟩

theorem simulateEthereumLatency_first_block (M : JSMath α) (wait : α → α) (p b s : α)
    (r : RandomSource α)
    (h : (ethereumRtt M r).2.stream (ethereumRtt M r).2.pos ≤ p) :
    simulateEthereumLatency M wait 1 p b s r =
      some
        (⟨jsRound (ethereumRtt M r).1, 1, ((1 : Nat) : α) * b, s * b,
            wait (ethereumRtt M r).1 + wait (((1 : Nat) : α) * b) + wait (s * b),
            ⟨jsRound (ethereumRtt M r).1, ((1 : Nat) : α) * b, s * b⟩⟩,
          ⟨(ethereumRtt M r).2.stream, (ethereumRtt M r).2.pos + 1⟩) := by
  have hg : geometricBlocks 1 p (ethereumRtt M r).2 =
      some (1, ⟨(ethereumRtt M r).2.stream, (ethereumRtt M r).2.pos + 1⟩) := by
    simp only [geometricBlocks, geometricBlocksLoop, RandomSource.random, not_lt.2 h,
      if_false]
  unfold simulateEthereumLatency
  simp only [hg]

theorem simulateTransaction_eq (M : JSMath α) (wait : α → α) (overhead : α) (fuel : Nat)
    (r : RandomSource α) (tx : SimulatedTransaction α) (r1 : RandomSource α)
    (h : simulateTransaction M wait overhead fuel r = Run.done (tx, r1)) :
    ∃ res : EthereumLatency α,
      simulateEthereumLatency M wait fuel 0.8 12000 1 ⟨r.stream, r.pos + 1⟩ =
        some (res, r1) ∧
      tx = ⟨⌊r.stream r.pos * 1000000⌋, 21000, res.totalMs + overhead, true,
        res.breakdown,
        ⟨res.networkRttMs, res.blocksToInclusion, res.inclusionDelayMs,
          res.confirmDelayMs⟩⟩ := by
  unfold simulateTransaction at h
  simp only [RandomSource.random] at h
  cases hs : simulateEthereumLatency M wait fuel 0.8 12000 1 ⟨r.stream, r.pos + 1⟩ with
  | none => simp [hs] at h
  | some x =>
    obtain ⟨res, r2⟩ := x
    simp only [hs, Run.done.injEq, Prod.mk.injEq] at h
    obtain ⟨h1, h2⟩ := h
    subst h2
    exact ⟨res, rfl, h1.symm⟩

theorem simulateTransaction_sampled (M : JSMath α) (wait1 wait2 : α → α)
    (overhead1 overhead2 : α) (fuel : Nat) (r : RandomSource α) :
    Run.map (fun x : SimulatedTransaction α × RandomSource α => (x.1.sampled, x.2))
        (simulateTransaction M wait1 overhead1 fuel r) =
      Run.map (fun x : SimulatedTransaction α × RandomSource α => (x.1.sampled, x.2))
        (simulateTransaction M wait2 overhead2 fuel r) := by
  unfold simulateTransaction simulateEthereumLatency
  simp only [RandomSource.random]
  cases geometricBlocks fuel 0.8 (ethereumRtt M ⟨r.stream, r.pos + 1⟩).2 with
  | none => rfl
  | some kr => rfl

theorem simulateIOTALatency_eq (M : JSMath α) (wait : α → α) (fuel : Nat)
    (r : RandomSource α) (res : IOTALatency α) (r1 : RandomSource α)
    (h : simulateIOTALatency M wait fuel r = Run.done (res, r1)) :
    ∃ confirm : α,
      gamma M fuel 3 270
          (truncatedNormal M 180 60 80 (WithTop.some 400) (iotaGossip M r).2).2 =
        Run.done (confirm, r1) ∧
      res = ⟨jsRound (iotaGossip M r).1,
        jsRound (truncatedNormal M 180 60 80 (WithTop.some 400) (iotaGossip M r).2).1,
        jsRound confirm,
        wait (iotaGossip M r).1 +
          wait (truncatedNormal M 180 60 80 (WithTop.some 400) (iotaGossip M r).2).1 +
          wait confirm,
        ⟨jsRound (iotaGossip M r).1,
          jsRound
            (truncatedNormal M 180 60 80 (WithTop.some 400) (iotaGossip M r).2).1,
          jsRound confirm⟩⟩ := by
  unfold simulateIOTALatency at h
  cases hg : gamma M fuel 3 270
      (truncatedNormal M 180 60 80 (WithTop.some 400) (iotaGossip M r).2).2 with
  | done x =>
    obtain ⟨confirm, r2⟩ := x
    simp only [hg, Run.done.injEq, Prod.mk.injEq] at h
    obtain ⟨h1, h2⟩ := h
    subst h2
    exact ⟨confirm, rfl, h1.symm⟩
  | nonFinite => dsimp only at h; rw [hg] at h; cases h
  | unfinished => dsimp only at h; rw [hg] at h; cases h

theorem sendDummyBlock_eq (M : JSMath α) (wait : α → α) (overhead : α) (fuel : Nat)
    (sdkAvailable : Bool) (r : RandomSource α) (b : DummyBlock α) (r1 : RandomSource α)
    (h : sendDummyBlock M wait overhead fuel sdkAvailable r = Run.done (b, r1)) :
    ∃ res : IOTALatency α,
      simulateIOTALatency M wait fuel
          (if sdkAvailable then (([] : List Int), r) else randomHex 32 r).2 =
        Run.done (res, r1) ∧
      b = ⟨true, res.totalMs + overhead, res.breakdown,
        ⟨res.gossipMs, res.solidificationMs, res.confirmationMs⟩⟩ := by
  unfold sendDummyBlock at h
  cases hs : simulateIOTALatency M wait fuel
      (if sdkAvailable then (([] : List Int), r) else randomHex 32 r).2 with
  | done x =>
    obtain ⟨res, r2⟩ := x
    simp only [hs, Run.done.injEq, Prod.mk.injEq] at h
    obtain ⟨h1, h2⟩ := h
    subst h2
    exact ⟨res, rfl, h1.symm⟩
  | nonFinite => dsimp only at h; rw [hs] at h; cases h
  | unfinished => dsimp only at h; rw [hs] at h; cases h

theorem sendDummyBlock_sampled (M : JSMath α) (wait1 wait2 : α → α)
    (overhead1 overhead2 : α) (fuel : Nat) (sdkAvailable : Bool) (r : RandomSource α) :
    Run.map (fun x : DummyBlock α × RandomSource α => (x.1.sampled, x.2))
        (sendDummyBlock M wait1 overhead1 fuel sdkAvailable r) =
      Run.map (fun x : DummyBlock α × RandomSource α => (x.1.sampled, x.2))
        (sendDummyBlock M wait2 overhead2 fuel sdkAvailable r) := by
  unfold sendDummyBlock simulateIOTALatency
  dsimp only
  cases hg : gamma M fuel 3 270
      (truncatedNormal M 180 60 80 (WithTop.some 400)
        (iotaGossip M (if sdkAvailable then (([] : List Int), r) else randomHex 32 r).2).2).2 with
  | done x => rfl
  | nonFinite => rfl
  | unfinished => rfl

end ClientLemmas

section RealLemmas

theorem lognormal_zero_draws (medianMs p95Ms : ℝ) (hm : 1 ≤ medianMs) (r : RandomSource ℝ)
    (h0 : r.stream r.pos = 0) :
    lognormal (JSMath.mk Real.sqrt Real.log Real.exp Real.cos (fun x y => x ^ y) Real.pi) medianMs p95Ms r = (medianMs, ⟨r.stream, r.pos + 1 + 1⟩) := by
  have h1 : (lognormal (JSMath.mk Real.sqrt Real.log Real.exp Real.cos (fun x y => x ^ y) Real.pi) medianMs p95Ms r).1 = medianMs := by
    show Max.max 1 (Real.exp (Real.log medianMs +
      (Real.log p95Ms - Real.log medianMs) / 1.6448536269514722 * (randn (JSMath.mk Real.sqrt Real.log Real.exp Real.cos (fun x y => x ^ y) Real.pi) r).1)) = medianMs
    rw [randn_zero_draws r h0, mul_zero, add_zero, Real.exp_log (by linarith)]
    exact max_eq_right hm
  exact Prod.ext h1 rfl

theorem ethereumRtt_zero_draws (r : RandomSource ℝ) (h0 : r.stream r.pos = 0)
    (h2 : r.stream (r.pos + 1 + 1) = 0) :
    ethereumRtt (JSMath.mk Real.sqrt Real.log Real.exp Real.cos (fun x y => x ^ y) Real.pi) r =
      (90 + (400 + r.stream (r.pos + 1 + 1 + 1) * (1500 - 400)),
        ⟨r.stream, r.pos + 1 + 1 + 1 + 1⟩) := by
  unfold ethereumRtt
  simp only [lognormal_zero_draws 90 250 (by norm_num) r h0, maybeSpike, RandomSource.random,
    h2]
  rw [if_pos (by norm_num)]

theorem jsRound_intCast (n : ℤ) : jsRound ((n : ℝ)) = (n : ℝ) := by
  unfold jsRound
  have h : ⌊(n : ℝ) + 1 / 2⌋ = n := by
    rw [Int.floor_eq_iff]
    constructor <;> norm_num
  rw [h]

theorem jsRound_half (n : ℤ) : jsRound ((n : ℝ) + 1 / 2) = (n : ℝ) + 1 := by
  unfold jsRound
  have h : ⌊(n : ℝ) + 1 / 2 + 1 / 2⌋ = n + 1 := by
    rw [Int.floor_eq_iff]
    push_cast
    constructor <;> linarith
  rw [h]
  push_cast
  rfl

theorem halfStream_uniform : (⟨halfStream, 0⟩ : RandomSource ℝ).Uniform := by
  intro i
  show (0 : ℝ) ≤ halfStream i ∧ halfStream i < (1 : ℝ)
  unfold halfStream
  split_ifs <;> norm_num

theorem ethereumRtt_halfStream :
    ethereumRtt (JSMath.mk Real.sqrt Real.log Real.exp Real.cos (fun x y => x ^ y) Real.pi) ⟨halfStream, 0⟩ = (490 + 1 / 2, ⟨halfStream, 4⟩) := by
  rw [ethereumRtt_zero_draws ⟨halfStream, 0⟩ (by simp [halfStream]) (by simp [halfStream])]
  simp only [halfStream]
  norm_num

theorem ethereumRtt_zero_stream (n : Nat) :
    ethereumRtt (JSMath.mk Real.sqrt Real.log Real.exp Real.cos (fun x y => x ^ y) Real.pi) ⟨fun _ => 0, n⟩ = (490, ⟨fun _ => 0, n + 1 + 1 + 1 + 1⟩) := by
  rw [ethereumRtt_zero_draws ⟨fun _ => 0, n⟩ rfl rfl]
  norm_num

theorem simulateEthereumLatency_zero_stream (wait : ℝ → ℝ) (n : Nat) :
    simulateEthereumLatency (JSMath.mk Real.sqrt Real.log Real.exp Real.cos (fun x y => x ^ y) Real.pi) wait 1 0.8 12000 1 ⟨fun _ => 0, n⟩ =
      some
        (⟨490, 1, 12000, 12000, wait 490 + wait 12000 + wait 12000, ⟨490, 12000, 12000⟩⟩,
          ⟨fun _ => 0, n + 1 + 1 + 1 + 1 + 1⟩) := by
  have h := simulateEthereumLatency_first_block (JSMath.mk Real.sqrt Real.log Real.exp Real.cos (fun x y => x ^ y) Real.pi) wait 0.8 12000 1 ⟨fun _ => 0, n⟩
    (by rw [ethereumRtt_zero_stream]; norm_num)
  rw [h, ethereumRtt_zero_stream]
  have e : jsRound (490 : ℝ) = 490 := by
    have := jsRound_intCast 490
    norm_num at this
    exact this
  simp only [e, Nat.cast_one, one_mul]

theorem simulateTransaction_zero_stream (wait : ℝ → ℝ) (overhead : ℝ) (n : Nat) :
    simulateTransaction (JSMath.mk Real.sqrt Real.log Real.exp Real.cos (fun x y => x ^ y) Real.pi) wait overhead 1 ⟨fun _ => 0, n⟩ =
      Run.done
        (⟨0, 21000, wait 490 + wait 12000 + wait 12000 + overhead, true,
            ⟨490, 12000, 12000⟩,
            ⟨490, 1, 12000, 12000⟩⟩,
          ⟨fun _ => 0, n + 1 + 1 + 1 + 1 + 1 + 1⟩) := by
  unfold simulateTransaction
  simp only [RandomSource.random, simulateEthereumLatency_zero_stream, zero_mul,
    Int.floor_zero]

theorem randomHex_zero_stream :
    ∀ (k n : Nat), ∃ m : Nat,
      (randomHex k (⟨fun _ => 0, n⟩ : RandomSource ℝ)).2 = ⟨fun _ => 0, m⟩ := by
  intro k
  induction k with
  | zero => intro n; exact ⟨n, rfl⟩
  | succ k ih =>
    intro n
    obtain ⟨m, hm⟩ := ih (n + 1)
    exact ⟨m, hm⟩

theorem iotaGossip_zero_stream (n : Nat) :
    iotaGossip (JSMath.mk Real.sqrt Real.log Real.exp Real.cos (fun x y => x ^ y) Real.pi) ⟨fun _ => 0, n⟩ = (270, ⟨fun _ => 0, n + 1 + 1 + 1 + 1⟩) := by
  unfold iotaGossip
  simp only [lognormal_zero_draws 70 180 (by norm_num) ⟨fun _ => 0, n⟩ rfl, maybeSpike,
    RandomSource.random]
  rw [if_pos (by norm_num)]
  norm_num

theorem truncatedNormal_zero_stream (n : Nat) :
    truncatedNormal (JSMath.mk Real.sqrt Real.log Real.exp Real.cos (fun x y => x ^ y) Real.pi) 180 60 80 (WithTop.some 400) ⟨fun _ => 0, n⟩ =
      (180, ⟨fun _ => 0, n + 2⟩) := by
  have hc : candidate (JSMath.mk Real.sqrt Real.log Real.exp Real.cos (fun x y => x ^ y) Real.pi) 180 60 ⟨fun _ => 0, n⟩ 0 = 180 := by
    unfold candidate
    rw [randn_zero_draws _ rfl]
    norm_num
  unfold truncatedNormal
  rw [truncatedNormalLoop_accept _ _ _ _ _ 9 _ (by
    rw [hc]
    exact ⟨by norm_num, WithTop.coe_le_coe.2 (by norm_num)⟩), hc]

theorem simulateIOTALatency_zero_stream (wait : ℝ → ℝ) (n : Nat) :
    simulateIOTALatency (JSMath.mk Real.sqrt Real.log Real.exp Real.cos (fun x y => x ^ y) Real.pi) wait 2 ⟨fun _ => 0, n⟩ =
      Run.done
        (⟨270, 180, 720, wait 270 + wait 180 + wait 720, ⟨270, 180, 720⟩⟩,
          ⟨fun _ => 0, n + 1 + 1 + 1 + 1 + 2 + 1 + 1 + 1⟩) := by
  have e1 : jsRound (270 : ℝ) = 270 := by
    have := jsRound_intCast 270
    norm_num at this
    exact this
  have e2 : jsRound (180 : ℝ) = 180 := by
    have := jsRound_intCast 180
    norm_num at this
    exact this
  have e3 : jsRound (720 : ℝ) = 720 := by
    have := jsRound_intCast 720
    norm_num at this
    exact this
  have e4 : ((3 : ℝ) - 1 / 3) * 270 = 720 := by norm_num
  unfold simulateIOTALatency
  simp only [iotaGossip_zero_stream, truncatedNormal_zero_stream,
    gamma_zero_stream 3 270 (by norm_num), e1, e2, e3, e4]

theorem sendDummyBlock_zero_stream (n : Nat) :
    ∃ m : Nat, ∀ (wait : ℝ → ℝ) (overhead : ℝ),
      sendDummyBlock (JSMath.mk Real.sqrt Real.log Real.exp Real.cos (fun x y => x ^ y) Real.pi) wait overhead 2 false ⟨fun _ => 0, n⟩ =
        Run.done
          (⟨true, wait 270 + wait 180 + wait 720 + overhead, ⟨270, 180, 720⟩,
              ⟨270, 180, 720⟩⟩,
            ⟨fun _ => 0, m⟩) := by
  obtain ⟨m, hm⟩ := randomHex_zero_stream 32 n
  refine ⟨m + 1 + 1 + 1 + 1 + 2 + 1 + 1 + 1, fun wait overhead => ?_⟩
  unfold sendDummyBlock
  simp only [Bool.false_eq_true, if_false, hm, simulateIOTALatency_zero_stream]

theorem randn_quantile (z : ℝ) (hz : 0 ≤ z) :
    (randn (JSMath.mk Real.sqrt Real.log Real.exp Real.cos (fun x y => x ^ y) Real.pi) ⟨fun i => if i = 0 then 1 - Real.exp (-(z ^ 2 / 2)) else 0, 0⟩).1 = z := by
  rw [randn_real]
  have h0 : (if (0 : Nat) = 0 then 1 - Real.exp (-(z ^ 2 / 2)) else (0 : ℝ)) =
      1 - Real.exp (-(z ^ 2 / 2)) := if_pos rfl
  have h1 : (if (0 + 1 : Nat) = 0 then 1 - Real.exp (-(z ^ 2 / 2)) else (0 : ℝ)) = 0 :=
    if_neg (by decide)
  simp only [h0, h1, if_true, sub_sub_cancel, Real.log_exp, sub_zero, mul_one,
    Real.cos_two_pi]
  have e : -2 * -(z ^ 2 / 2) = z ^ 2 := by ring
  rw [e, Real.sqrt_sq hz]

end RealLemmas

section FilledLemmas

variable {α : Type}

theorem mem_objSet {β : Type} (k : String) (v : β) :
    ∀ (o : List (String × β)) (e : String × β), e ∈ objSet o k v → e ∈ o ∨ e = (k, v) := by
  intro o
  induction o with
  | nil =>
    intro e h
    simp only [objSet, List.mem_singleton] at h
    exact Or.inr h
  | cons x rest ih =>
    intro e h
    obtain ⟨k0, v0⟩ := x
    unfold objSet at h
    split_ifs at h with hk
    · rcases List.mem_cons.1 h with h1 | h1
      · right
        rw [h1, hk]
      · left
        exact List.mem_cons_of_mem _ h1
    · rcases List.mem_cons.1 h with h1 | h1
      · left
        rw [h1]
        exact List.mem_cons_self _ _
      · rcases ih e h1 with h2 | h2
        · left
          exact List.mem_cons_of_mem _ h2
        · right
          exact h2

theorem objGet_mem {β : Type} (k : String) (v : β) :
    ∀ o : List (String × β), objGet o k = some v → (k, v) ∈ o := by
  intro o
  induction o with
  | nil => intro h; simp [objGet] at h
  | cons x rest ih =>
    intro h
    obtain ⟨k0, v0⟩ := x
    unfold objGet at h
    split_ifs at h with hk
    · rw [← hk, ← Option.some.inj h]
      exact List.mem_cons_self _ _
    · exact List.mem_cons_of_mem _ (ih h)

theorem pushMetric_filled (bag : MetricsBag α) (key : String) (value : Option α)
    (h : ∀ a ∈ bag, a.2 ≠ []) : ∀ a ∈ pushMetric bag key value, a.2 ≠ [] := by
  intro a ha
  cases value with
  | none => exact h a ha
  | some v =>
    unfold pushMetric at ha
    cases hg : objGet bag key with
    | none =>
      simp only [hg] at ha
      rcases mem_objSet key [v] bag a ha with h1 | h1
      · exact h a h1
      · rw [h1]
        exact List.cons_ne_nil _ _
    | some arr =>
      simp only [hg] at ha
      rcases mem_objSet key (arr ++ [v]) bag a ha with h1 | h1
      · exact h a h1
      · rw [h1]
        exact List.append_ne_nil_of_right_ne_nil _ (List.cons_ne_nil _ _)

theorem pushAt_filled (o o1 : List (String × MetricsBag α)) (name key : String)
    (value : Option α) (h : BagsFilled o) (hp : pushAt o name key value = Except.ok o1) :
    BagsFilled o1 := by
  cases value with
  | none =>
    simp only [pushAt, Except.ok.injEq] at hp
    rw [← hp]
    exact h
  | some v =>
    unfold pushAt at hp
    cases hg : objGet o name with
    | none => simp [hg] at hp
    | some bag =>
      simp only [hg, Except.ok.injEq] at hp
      rw [← hp]
      intro e he
      rcases mem_objSet name _ o e he with h1 | h1
      · exact h e h1
      · rw [h1]
        exact pushMetric_filled bag key (some v) (h (name, bag) (objGet_mem name bag o hg))

theorem pushAvgLatency_filled (o o1 : List (String × MetricsBag (WithTop α))) (name : String)
    (s : Summary α) (h : BagsFilled o) (hp : pushAvgLatency o name s = Except.ok o1) :
    BagsFilled o1 :=
  pushAt_filled o o1 name "avgLatency" _ h hp

theorem recordLatencyEntry_filled (o o1 : List (String × MetricsBag (WithTop α)))
    (e : String × Summary α) (h : BagsFilled o)
    (hp : recordLatencyEntry o e = Except.ok o1) : BagsFilled o1 := by
  unfold recordLatencyEntry at hp
  split at hp
  · cases hp
  · rename_i oa ha
    split at hp
    · cases hp
    · rename_i ob hb
      exact pushAt_filled ob o1 e.1 "successRate" _
        (pushAt_filled oa ob e.1 "p95Latency" _ (pushAvgLatency_filled o oa e.1 e.2 h ha) hb)
        hp

theorem recordThroughputEntry_filled (o o1 : List (String × MetricsBag (WithTop α)))
    (e : String × Summary α × Option (WithTop α) × α) (h : BagsFilled o)
    (hp : recordThroughputEntry o e = Except.ok o1) : BagsFilled o1 := by
  unfold recordThroughputEntry at hp
  split at hp
  · cases hp
  · rename_i oa ha
    split at hp
    · cases hp
    · rename_i ob hb
      exact pushAt_filled ob o1 e.1 "successRate" _
        (pushAvgLatency_filled oa ob e.1 e.2.1 (pushAt_filled o oa e.1 "tps" _ h ha) hb)
        hp

theorem recordScalabilityRow_filled (o o1 : List (String × MetricsBag (WithTop α)))
    (row : ScalabilityRow α) (h : BagsFilled o)
    (hp : recordScalabilityRow o row = Except.ok o1) : BagsFilled o1 := by
  have h0 : BagsFilled
      (match objGet o (batchKey row.batchSize) with
        | none => objSet o (batchKey row.batchSize) []
        | some _ => o) := by
    cases hg : objGet o (batchKey row.batchSize) with
    | none =>
      intro e he
      rcases mem_objSet (batchKey row.batchSize) [] o e he with h1 | h1
      · exact h e h1
      · rw [h1]
        intro a ha
        simp at ha
    | some bag => exact h
  unfold recordScalabilityRow at hp
  simp only at hp
  generalize (match objGet o (batchKey row.batchSize) with
    | none => objSet o (batchKey row.batchSize) []
    | some _ => o) = o0 at hp h0
  split at hp
  · cases hp
  · rename_i oa ha
    split at hp
    · cases hp
    · rename_i ob hb
      exact pushAt_filled ob o1 _ "successRate" _
        (pushAt_filled oa ob _ "avgLatency" _ (pushAt_filled _ oa _ "tps" _ h0 ha) hb)
        hp

theorem recordReplication_filled (res : SuiteResult α) (s s1 : Samples (WithTop α))
    (h : s.Filled) (hp : recordReplication res s = Except.ok s1) : s1.Filled := by
  obtain ⟨f1, f2, f3, f4⟩ := h
  unfold recordReplication at hp
  cases h1 : forEach recordLatencyEntry s.latency res.latency with
  | error e => simp [h1] at hp
  | ok lat =>
    simp only [h1] at hp
    cases h2 : forEach recordThroughputEntry s.throughput res.throughput with
    | error e => simp [h2] at hp
    | ok thr =>
      simp only [h2] at hp
      cases h3 : forEach recordScalabilityRow s.scalabilitySepolia res.scalability.1 with
      | error e => simp [h3] at hp
      | ok sep =>
        simp only [h3] at hp
        cases h4 : forEach recordScalabilityRow s.scalabilityIota res.scalability.2 with
        | error e => simp [h4] at hp
        | ok iot =>
          simp only [h4, Except.ok.injEq] at hp
          rw [← hp]
          exact ⟨forEach_invariant recordLatencyEntry BagsFilled _ _ _
              (fun s0 x s2 _ hs hb => recordLatencyEntry_filled s0 s2 x hs hb) f1 h1,
            forEach_invariant recordThroughputEntry BagsFilled _ _ _
              (fun s0 x s2 _ hs hb => recordThroughputEntry_filled s0 s2 x hs hb) f2 h2,
            forEach_invariant recordScalabilityRow BagsFilled _ _ _
              (fun s0 x s2 _ hs hb => recordScalabilityRow_filled s0 s2 x hs hb) f3 h3,
            forEach_invariant recordScalabilityRow BagsFilled _ _ _
              (fun s0 x s2 _ hs hb => recordScalabilityRow_filled s0 s2 x hs hb) f4 h4⟩

theorem emptySamples_filled : (emptySamples : Samples (WithTop α)).Filled := by
  have h : BagsFilled
      ([("Sepolia", []), ("IOTA", [])] : List (String × MetricsBag (WithTop α))) := by
    intro e he a ha
    simp only [List.mem_cons, List.mem_singleton, List.not_mem_nil, or_false] at he
    rcases he with rfl | rfl <;> simp at ha
  have h0 : BagsFilled ([] : List (String × MetricsBag (WithTop α))) := by
    intro e he
    simp at he
  exact ⟨h, h, h0, h0⟩

theorem pushMetric_finite (bag : MetricsBag (WithTop α)) (key : String)
    (value : Option (WithTop α)) (hv : value ≠ some ⊤)
    (h : ∀ a ∈ bag, ∀ v ∈ a.2, v ≠ ⊤) :
    ∀ a ∈ pushMetric bag key value, ∀ v ∈ a.2, v ≠ ⊤ := by
  intro a ha
  cases value with
  | none => exact h a ha
  | some x =>
    have hx : x ≠ ⊤ := fun e => hv (by rw [e])
    unfold pushMetric at ha
    cases hg : objGet bag key with
    | none =>
      simp only [hg] at ha
      rcases mem_objSet key [x] bag a ha with h1 | h1
      · exact h a h1
      · rw [h1]
        intro v hv1
        rw [List.mem_singleton.1 hv1]
        exact hx
    | some arr =>
      simp only [hg] at ha
      rcases mem_objSet key (arr ++ [x]) bag a ha with h1 | h1
      · exact h a h1
      · rw [h1]
        intro v hv1
        rcases List.mem_append.1 hv1 with h2 | h2
        · exact h (key, arr) (objGet_mem key arr bag hg) v h2
        · rw [List.mem_singleton.1 h2]
          exact hx

theorem pushAt_finite (o o1 : List (String × MetricsBag (WithTop α))) (name key : String)
    (value : Option (WithTop α)) (hv : value ≠ some ⊤) (h : BagsFinite o)
    (hp : pushAt o name key value = Except.ok o1) : BagsFinite o1 := by
  cases value with
  | none =>
    simp only [pushAt, Except.ok.injEq] at hp
    rw [← hp]
    exact h
  | some x =>
    unfold pushAt at hp
    cases hg : objGet o name with
    | none => simp [hg] at hp
    | some bag =>
      simp only [hg, Except.ok.injEq] at hp
      rw [← hp]
      intro e he
      rcases mem_objSet name _ o e he with h1 | h1
      · exact h e h1
      · rw [h1]
        exact pushMetric_finite bag key (some x) hv (h (name, bag) (objGet_mem name bag o hg))

theorem map_some_ne_top (v : Option α) : v.map WithTop.some ≠ some (⊤ : WithTop α) := by
  cases v with
  | none => simp
  | some x =>
    intro h
    exact WithTop.coe_ne_top (Option.some.inj h)

theorem recordLatencyEntry_finite (o o1 : List (String × MetricsBag (WithTop α)))
    (e : String × Summary α) (h : BagsFinite o)
    (hp : recordLatencyEntry o e = Except.ok o1) : BagsFinite o1 := by
  unfold recordLatencyEntry pushAvgLatency at hp
  split at hp
  · cases hp
  · rename_i oa ha
    split at hp
    · cases hp
    · rename_i ob hb
      exact pushAt_finite ob o1 e.1 "successRate" _ (map_some_ne_top _)
        (pushAt_finite oa ob e.1 "p95Latency" _ (map_some_ne_top _)
          (pushAt_finite o oa e.1 "avgLatency" _ (map_some_ne_top _) h ha) hb) hp

theorem recordThroughputEntry_finite (o o1 : List (String × MetricsBag (WithTop α)))
    (e : String × Summary α × Option (WithTop α) × α) (ht : e.2.2.1 ≠ some ⊤)
    (h : BagsFinite o) (hp : recordThroughputEntry o e = Except.ok o1) : BagsFinite o1 := by
  unfold recordThroughputEntry pushAvgLatency at hp
  split at hp
  · cases hp
  · rename_i oa ha
    split at hp
    · cases hp
    · rename_i ob hb
      exact pushAt_finite ob o1 e.1 "successRate" _ (map_some_ne_top _)
        (pushAt_finite oa ob e.1 "avgLatency" _ (map_some_ne_top _)
          (pushAt_finite o oa e.1 "tps" _ ht h ha) hb) hp

theorem recordScalabilityRow_finite (o o1 : List (String × MetricsBag (WithTop α)))
    (row : ScalabilityRow α) (ht : row.tps ≠ some ⊤) (h : BagsFinite o)
    (hp : recordScalabilityRow o row = Except.ok o1) : BagsFinite o1 := by
  have h0 : BagsFinite
      (match objGet o (batchKey row.batchSize) with
        | none => objSet o (batchKey row.batchSize) []
        | some _ => o) := by
    cases hg : objGet o (batchKey row.batchSize) with
    | none =>
      intro e he
      rcases mem_objSet (batchKey row.batchSize) [] o e he with h1 | h1
      · exact h e h1
      · rw [h1]
        intro a ha
        simp at ha
    | some bag => exact h
  unfold recordScalabilityRow at hp
  simp only at hp
  generalize (match objGet o (batchKey row.batchSize) with
    | none => objSet o (batchKey row.batchSize) []
    | some _ => o) = o0 at hp h0
  split at hp
  · cases hp
  · rename_i oa ha
    split at hp
    · cases hp
    · rename_i ob hb
      exact pushAt_finite ob o1 _ "successRate" _ (map_some_ne_top _)
        (pushAt_finite oa ob _ "avgLatency" _ (map_some_ne_top _)
          (pushAt_finite _ oa _ "tps" _ ht h0 ha) hb) hp

theorem recordReplication_finite (res : SuiteResult α) (s s1 : Samples (WithTop α))
    (h : s.Finite) (ht : ∀ e ∈ res.throughput, e.2.2.1 ≠ some ⊤)
    (hr1 : ∀ row ∈ res.scalability.1, row.tps ≠ some ⊤)
    (hr2 : ∀ row ∈ res.scalability.2, row.tps ≠ some ⊤)
    (hp : recordReplication res s = Except.ok s1) : s1.Finite := by
  obtain ⟨f1, f2, f3, f4⟩ := h
  unfold recordReplication at hp
  cases h1 : forEach recordLatencyEntry s.latency res.latency with
  | error e => simp [h1] at hp
  | ok lat =>
    simp only [h1] at hp
    cases h2 : forEach recordThroughputEntry s.throughput res.throughput with
    | error e => simp [h2] at hp
    | ok thr =>
      simp only [h2] at hp
      cases h3 : forEach recordScalabilityRow s.scalabilitySepolia res.scalability.1 with
      | error e => simp [h3] at hp
      | ok sep =>
        simp only [h3] at hp
        cases h4 : forEach recordScalabilityRow s.scalabilityIota res.scalability.2 with
        | error e => simp [h4] at hp
        | ok iot =>
          simp only [h4, Except.ok.injEq] at hp
          rw [← hp]
          exact ⟨forEach_invariant recordLatencyEntry BagsFinite _ _ _
              (fun s0 x s2 _ hs hb => recordLatencyEntry_finite s0 s2 x hs hb) f1 h1,
            forEach_invariant recordThroughputEntry BagsFinite _ _ _
              (fun s0 x s2 hx hs hb => recordThroughputEntry_finite s0 s2 x (ht x hx) hs hb)
              f2 h2,
            forEach_invariant recordScalabilityRow BagsFinite _ _ _
              (fun s0 x s2 hx hs hb => recordScalabilityRow_finite s0 s2 x (hr1 x hx) hs hb)
              f3 h3,
            forEach_invariant recordScalabilityRow BagsFinite _ _ _
              (fun s0 x s2 hx hs hb => recordScalabilityRow_finite s0 s2 x (hr2 x hx) hs hb)
              f4 h4⟩

theorem emptySamples_finite : (emptySamples : Samples (WithTop α)).Finite := by
  have h : BagsFinite
      ([("Sepolia", []), ("IOTA", [])] : List (String × MetricsBag (WithTop α))) := by
    intro e he a ha
    simp only [List.mem_cons, List.mem_singleton, List.not_mem_nil, or_false] at he
    rcases he with rfl | rfl <;> simp at ha
  have h0 : BagsFinite ([] : List (String × MetricsBag (WithTop α))) := by
    intro e he
    simp at he
  exact ⟨h, h, h0, h0⟩

theorem finiteValues_cons_top (vs : List (WithTop α)) : finiteValues (⊤ :: vs) = none :=
  rfl

theorem finiteValues_cons_coe (x : α) (vs : List (WithTop α)) :
    finiteValues (WithTop.some x :: vs) = (finiteValues vs).map fun xs => x :: xs :=
  rfl

theorem finiteValues_length :
    ∀ (arr : List (WithTop α)) (values : List α),
      finiteValues arr = some values → values.length = arr.length := by
  intro arr
  induction arr with
  | nil =>
    intro values h
    simp only [finiteValues, Option.some.injEq] at h
    subst h
    rfl
  | cons v vs ih =>
    intro values h
    cases v with
    | top =>
      rw [finiteValues_cons_top] at h
      cases h
    | coe x =>
      rw [finiteValues_cons_coe] at h
      cases hv : finiteValues vs with
      | none =>
        rw [hv] at h
        cases h
      | some xs =>
        rw [hv, Option.map_some', Option.some.injEq] at h
        rw [← h, List.length_cons, List.length_cons, ih xs hv]

theorem finiteValues_isSome :
    ∀ arr : List (WithTop α), (∀ v ∈ arr, v ≠ ⊤) → (finiteValues arr).isSome := by
  intro arr
  induction arr with
  | nil => intro _; rfl
  | cons v vs ih =>
    intro h
    have hv : v ≠ ⊤ := h v (List.mem_cons_self _ _)
    obtain ⟨xs, hxs⟩ := Option.isSome_iff_exists.1
      (ih fun w hw => h w (List.mem_cons_of_mem _ hw))
    cases v with
    | top => exact absurd rfl hv
    | coe x =>
      rw [finiteValues_cons_coe, hxs]
      rfl

theorem finiteValues_top (arr : List (WithTop α)) (h : ⊤ ∈ arr) : finiteValues arr = none := by
  induction arr with
  | nil => simp at h
  | cons v vs ih =>
    cases v with
    | top => rfl
    | coe x =>
      have h1 : (⊤ : WithTop α) ∈ vs := by
        rcases List.mem_cons.1 h with h2 | h2
        · exact absurd h2.symm WithTop.coe_ne_top
        · exact h2
      rw [finiteValues_cons_coe, ih h1]
      rfl

end FilledLemmas

section AggregationLemmas

variable {α : Type} [LinearOrderedField α]

theorem ci95_normal_isSome (M : JSMath α) (hsqrt : ∀ x : α, 0 < x → M.sqrt x ≠ 0)
    (arr : List α) (hne : arr ≠ []) : (ci95_normal M arr).isSome := by
  rw [ci95_normal_eq M hsqrt arr hne _ _ (mean_eq arr hne) (sampleVariance_eq arr hne)]
  rfl

theorem bagStats_isSome (M : JSMath α) (hsqrt : ∀ x : α, 0 < x → M.sqrt x ≠ 0) :
    ∀ bag : MetricsBag (WithTop α), (∀ a ∈ bag, a.2 ≠ []) →
      (∀ a ∈ bag, ∀ v ∈ a.2, v ≠ ⊤) → (bagStats M bag).isSome := by
  intro bag
  induction bag with
  | nil => intro _ _; rfl
  | cons x rest ih =>
    intro h hfin
    obtain ⟨metric, arr⟩ := x
    obtain ⟨values, hvalues⟩ := Option.isSome_iff_exists.1
      (finiteValues_isSome arr (hfin (metric, arr) (List.mem_cons_self _ _)))
    have hne : values ≠ [] := by
      intro h0
      have hlen := finiteValues_length arr values hvalues
      rw [h0, List.length_nil] at hlen
      exact h (metric, arr) (List.mem_cons_self _ _) (List.length_eq_zero.1 hlen.symm)
    obtain ⟨c, hc⟩ := Option.isSome_iff_exists.1 (ci95_normal_isSome M hsqrt values hne)
    obtain ⟨cs, hcs⟩ := Option.isSome_iff_exists.1
      (ih (fun a ha => h a (List.mem_cons_of_mem _ ha))
        (fun a ha => hfin a (List.mem_cons_of_mem _ ha)))
    simp only [bagStats, hvalues, hc, hcs, Option.some_bind, Option.map_some',
      Option.isSome_some]

theorem sectionStats_isSome (M : JSMath α) (hsqrt : ∀ x : α, 0 < x → M.sqrt x ≠ 0) :
    ∀ o : List (String × MetricsBag (WithTop α)), BagsFilled o → BagsFinite o →
      (sectionStats M o).isSome := by
  intro o
  induction o with
  | nil => intro _ _; rfl
  | cons x rest ih =>
    intro h hfin
    obtain ⟨name, bag⟩ := x
    obtain ⟨b, hb⟩ := Option.isSome_iff_exists.1
      (bagStats_isSome M hsqrt bag (h (name, bag) (List.mem_cons_self _ _))
        (hfin (name, bag) (List.mem_cons_self _ _)))
    obtain ⟨bs, hbs⟩ := Option.isSome_iff_exists.1
      (ih (fun e he => h e (List.mem_cons_of_mem _ he))
        (fun e he => hfin e (List.mem_cons_of_mem _ he)))
    simp only [sectionStats, hb, hbs, Option.some_bind, Option.map_some', Option.isSome_some]

theorem aggregateSamples_isSome (M : JSMath α) (hsqrt : ∀ x : α, 0 < x → M.sqrt x ≠ 0)
    (s : Samples (WithTop α)) (h : s.Filled) (hfin : s.Finite) :
    (aggregateSamples M s).isSome := by
  obtain ⟨f1, f2, f3, f4⟩ := h
  obtain ⟨g1, g2, g3, g4⟩ := hfin
  obtain ⟨a, ha⟩ := Option.isSome_iff_exists.1 (sectionStats_isSome M hsqrt _ f1 g1)
  obtain ⟨b, hb⟩ := Option.isSome_iff_exists.1 (sectionStats_isSome M hsqrt _ f2 g2)
  obtain ⟨c, hc⟩ := Option.isSome_iff_exists.1 (sectionStats_isSome M hsqrt _ f3 g3)
  obtain ⟨d, hd⟩ := Option.isSome_iff_exists.1 (sectionStats_isSome M hsqrt _ f4 g4)
  simp only [aggregateSamples, ha, hb, hc, hd, Option.some_bind, Option.map_some',
    Option.isSome_some]

theorem run_filled [FloorRing α] {ρ : Type} (seedrandom : String → ρ)
    (replicate : ρ → ReplicationTrace α) (N : Nat) (seedStart : Int) (original : ρ)
    (w1 : Runtime ρ (Samples (WithTop α)))
    (h : runReplicatedSuite seedrandom replicate N seedStart original = (Except.ok (), w1)) :
    w1.rest.Filled := by
  obtain ⟨results, _, _, hfe⟩ := run_results seedrandom replicate N seedStart original w1 h
  exact forEach_invariant (fun st res => recordReplication res st) Samples.Filled results
    emptySamples w1.rest (fun s0 res s1 _ hs hb => recordReplication_filled res s0 s1 hs hb)
    emptySamples_filled hfe

theorem rows_tps_finite [FloorRing α] (net : Network) (batches : List (Batch α))
    (rows : List (ScalabilityRow α)) (hrows : scalabilityRows net batches = Except.ok rows)
    (hd : ∀ b ∈ batches, b.finish ≠ b.start) : ∀ row ∈ rows, row.tps ≠ some ⊤ := by
  intro row hrow
  obtain ⟨b, hb, hbr⟩ := forall₂_mem_right _ batches rows
    (scalabilityRows_spec net batches rows hrows) row hrow
  exact (scalabilityRow_spec net b row hbr).2.2.2.2 (hd b hb)

theorem suite_tps_finite [FloorRing α] (t : ReplicationTrace α) (res : SuiteResult α)
    (hres : runAllSimulatedTests t = Except.ok res) (ht : t.Timed) :
    (∀ e ∈ res.throughput, e.2.2.1 ≠ some ⊤) ∧
      (∀ row ∈ res.scalability.1, row.tps ≠ some ⊤) ∧
      (∀ row ∈ res.scalability.2, row.tps ≠ some ⊤) := by
  obtain ⟨_, hthr, hsep, hiot⟩ := runAllSimulatedTests_spec t res hres
  refine ⟨?_, rows_tps_finite _ _ _ hsep ht.2.2.1, rows_tps_finite _ _ _ hiot ht.2.2.2⟩
  intro e he
  rw [hthr] at he
  simp only [List.mem_cons, List.mem_singleton, List.not_mem_nil, or_false] at he
  rcases he with rfl | rfl
  · exact (throughputSummary_facts Network.sepolia _).2.1 ht.1
  · exact (throughputSummary_facts Network.iota _).2.1 ht.2.1

theorem run_finite [FloorRing α] {ρ : Type} (seedrandom : String → ρ)
    (replicate : ρ → ReplicationTrace α) (N : Nat) (seedStart : Int) (original : ρ)
    (w1 : Runtime ρ (Samples (WithTop α)))
    (h : runReplicatedSuite seedrandom replicate N seedStart original = (Except.ok (), w1))
    (ht : ∀ i, i < N → (replicate (seedrandom (toString (seedAt seedStart i)))).Timed) :
    w1.rest.Finite := by
  obtain ⟨results, _, hres, hfe⟩ := run_results seedrandom replicate N seedStart original w1 h
  exact forEach_invariant (fun st res => recordReplication res st) Samples.Finite results
    emptySamples w1.rest
    (fun s0 res s1 hr hs hb => by
      obtain ⟨i, hi, hrun⟩ := hres res hr
      obtain ⟨a, b, c⟩ := suite_tps_finite _ res hrun (ht i hi)
      exact recordReplication_finite res s0 s1 hs a b c hb)
    emptySamples_finite hfe

end AggregationLemmas

section GammaLemmas

theorem log_taylor_lower (t : ℝ) (ht : |t| < 27 / 50) :
    -(t ^ 4 / (23 / 50)) ≤ Real.log (1 + t) - t + t ^ 2 / 2 - t ^ 3 / 3 := by
  have h1 : |(-t)| < 1 := by rw [abs_neg]; linarith
  have hT := @Real.abs_log_sub_add_sum_range_le (-t) h1 3
  have hsum : ∑ i ∈ Finset.range 3, (-t) ^ (i + 1) / ((i : ℝ) + 1) =
      -t + t ^ 2 / 2 - t ^ 3 / 3 := by
    simp [Finset.sum_range_succ]
    ring
  rw [hsum, sub_neg_eq_add, abs_neg] at hT
  have h4 : |t| ^ 4 = t ^ 4 := by
    rw [← abs_pow]
    exact abs_of_nonneg (by positivity)
  rw [h4] at hT
  have hden : (23 : ℝ) / 50 ≤ 1 - |t| := by linarith
  have hb : t ^ 4 / (1 - |t|) ≤ t ^ 4 / (23 / 50) :=
    div_le_div_of_nonneg_left (by positivity) (by norm_num) hden
  have := (abs_le.1 hT).1
  linarith

theorem squeeze_implies (d x u : ℝ) (hd : 2 / 3 ≤ d)
    (hv : 0 < 1 + 1 / Real.sqrt (9 * d) * x) (hu0 : 0 ≤ u)
    (h : u < 1 - 0.331 * x ^ 4) :
    u = 0 ∨ Real.log u <
      0.5 * x * x + d * (1 - (1 + 1 / Real.sqrt (9 * d) * x) *
        (1 + 1 / Real.sqrt (9 * d) * x) * (1 + 1 / Real.sqrt (9 * d) * x) +
        Real.log ((1 + 1 / Real.sqrt (9 * d) * x) *
          (1 + 1 / Real.sqrt (9 * d) * x) * (1 + 1 / Real.sqrt (9 * d) * x))) := by
  rcases eq_or_lt_of_le hu0 with h0 | hpos
  · exact Or.inl h0.symm
  right
  have h9 : (0 : ℝ) ≤ 9 * d := by linarith
  have hs : 0 < Real.sqrt (9 * d) := Real.sqrt_pos.2 (by linarith)
  have hs2 : Real.sqrt (9 * d) * Real.sqrt (9 * d) = 9 * d := Real.mul_self_sqrt h9
  generalize Real.sqrt (9 * d) = s at hv hs hs2 ⊢
  have hxt : x = s * (1 / s * x) := by field_simp
  generalize 1 / s * x = t at hv hxt ⊢
  subst hxt
  have hx4 : (s * t) ^ 4 = 81 * d ^ 2 * t ^ 4 := by
    have : (s * t) ^ 4 = (s * s) ^ 2 * t ^ 4 := by ring
    rw [this, hs2]
    ring
  have hx2 : s * t * (s * t) = 9 * d * t ^ 2 := by
    have : s * t * (s * t) = (s * s) * t ^ 2 := by ring
    rw [this, hs2]
  rw [hx4] at h
  have ht4 : 0 ≤ t ^ 4 := by positivity
  have hd2 : (4 : ℝ) / 9 ≤ d ^ 2 := by nlinarith
  have ht4lt : t ^ 4 < 0.084 := by
    have h1 : 0.331 * (81 * d ^ 2 * t ^ 4) < 1 := by linarith
    have h2 : (4 : ℝ) / 9 * t ^ 4 ≤ d ^ 2 * t ^ 4 := mul_le_mul_of_nonneg_right hd2 ht4
    norm_num at h1 ⊢
    nlinarith
  have ht2 : t ^ 2 < (27 / 50) ^ 2 := by
    by_contra hc
    push_neg at hc
    have h1 : ((27 / 50 : ℝ) ^ 2) ^ 2 ≤ (t ^ 2) ^ 2 := pow_le_pow_left₀ (by norm_num) hc 2
    have h2 : (t ^ 2) ^ 2 = t ^ 4 := by ring
    rw [h2] at h1
    norm_num at h1 ht4lt
    linarith
  have habs : |t| < 27 / 50 := by
    have := sq_lt_sq.1 ht2
    rwa [abs_of_pos (by norm_num : (0 : ℝ) < 27 / 50)] at this
  have hT := log_taylor_lower t habs
  have hlog3 : Real.log ((1 + t) * (1 + t) * (1 + t)) = 3 * Real.log (1 + t) := by
    rw [Real.log_mul (mul_pos hv hv).ne' hv.ne', Real.log_mul hv.ne' hv.ne']
    ring
  rw [hlog3, mul_assoc (0.5 : ℝ), hx2]
  have hy : 0 < 1 - 0.331 * (81 * d ^ 2 * t ^ 4) := lt_trans hpos h
  have hl1 : Real.log u < Real.log (1 - 0.331 * (81 * d ^ 2 * t ^ 4)) :=
    Real.log_lt_log hpos h
  have hl2 := Real.log_le_sub_one_of_pos hy
  have hdpos : 0 < d := by linarith
  have hkey : -(0.331 * (81 * d ^ 2 * t ^ 4)) ≤
      3 * d * (Real.log (1 + t) - t + t ^ 2 / 2 - t ^ 3 / 3) := by
    have h1 : 3 * d * -(t ^ 4 / (23 / 50)) ≤
        3 * d * (Real.log (1 + t) - t + t ^ 2 / 2 - t ^ 3 / 3) :=
      mul_le_mul_of_nonneg_left hT (by linarith)
    have h2 : -(0.331 * (81 * d ^ 2 * t ^ 4)) ≤ 3 * d * -(t ^ 4 / (23 / 50)) := by
      have h3 : 0 ≤ d * t ^ 4 := mul_nonneg hdpos.le ht4
      norm_num
      nlinarith
    linarith
  have hrhs : 0.5 * (9 * d * t ^ 2) + d * (1 - (1 + t) * (1 + t) * (1 + t) +
      3 * Real.log (1 + t)) = 3 * d * (Real.log (1 + t) - t + t ^ 2 / 2 - t ^ 3 / 3) := by
    ring
  rw [hrhs]
  linarith

theorem rpow_four (x : ℝ) : x ^ (4 : ℝ) = x ^ 4 := by
  have h := Real.rpow_natCast x 4
  norm_num at h
  exact h

theorem gammaBodySecondTest_eq (d theta : ℝ) (hd : 2 / 3 ≤ d) (r : RandomSource ℝ)
    (hu : r.Uniform) :
    gammaBodySecondTest (JSMath.mk Real.sqrt Real.log Real.exp Real.cos (fun x y => x ^ y) Real.pi) d (1 / Real.sqrt (9 * d)) theta r =
      gammaBody (JSMath.mk Real.sqrt Real.log Real.exp Real.cos (fun x y => x ^ y) Real.pi) d (1 / Real.sqrt (9 * d)) theta r := by
  unfold gammaBodySecondTest gammaBody
  simp only []
  by_cases hv : 1 + 1 / Real.sqrt (9 * d) * (randn (JSMath.mk Real.sqrt Real.log Real.exp Real.cos (fun x y => x ^ y) Real.pi) r).1 ≤ 0
  · rw [if_pos hv, if_pos hv]
  · rw [if_neg hv, if_neg hv]
    by_cases h1 : ((randn (JSMath.mk Real.sqrt Real.log Real.exp Real.cos (fun x y => x ^ y) Real.pi) r).2.random).1 <
        1 - 0.331 * (randn (JSMath.mk Real.sqrt Real.log Real.exp Real.cos (fun x y => x ^ y) Real.pi) r).1 ^ (4 : ℝ)
    · rw [if_pos h1]
      have h2 := squeeze_implies d (randn (JSMath.mk Real.sqrt Real.log Real.exp Real.cos (fun x y => x ^ y) Real.pi) r).1 ((randn (JSMath.mk Real.sqrt Real.log Real.exp Real.cos (fun x y => x ^ y) Real.pi) r).2.random).1 hd
        (not_le.1 hv) (hu _).1 (by rw [← rpow_four]; exact h1)
      rw [if_pos h2]
    · rw [if_neg h1]

theorem gammaLoopSecondTest_eq (d theta : ℝ) (hd : 2 / 3 ≤ d) :
    ∀ (fuel : Nat) (r : RandomSource ℝ), r.Uniform →
      gammaLoopSecondTest (JSMath.mk Real.sqrt Real.log Real.exp Real.cos (fun x y => x ^ y) Real.pi) d (1 / Real.sqrt (9 * d)) theta fuel r =
        gammaLoop (JSMath.mk Real.sqrt Real.log Real.exp Real.cos (fun x y => x ^ y) Real.pi) d (1 / Real.sqrt (9 * d)) theta fuel r := by
  intro fuel
  induction fuel with
  | zero => intro r _; rfl
  | succ fuel ih =>
    intro r hu
    unfold gammaLoopSecondTest gammaLoop
    rw [gammaBodySecondTest_eq d theta hd r hu]
    rcases hb : gammaBody (JSMath.mk Real.sqrt Real.log Real.exp Real.cos (fun x y => x ^ y) Real.pi) d (1 / Real.sqrt (9 * d)) theta r with ⟨o, r1⟩
    cases o with
    | some y => rfl
    | none =>
      simp only
      have hs : r1.stream = r.stream := by
        have := gammaBody_stream (JSMath.mk Real.sqrt Real.log Real.exp Real.cos (fun x y => x ^ y) Real.pi) d (1 / Real.sqrt (9 * d)) theta r
        rw [hb] at this
        exact this
      exact ih r1 (uniform_of_stream_eq hs hu)

theorem gammaSecondTest_eq (scale : ℝ) :
    ∀ (fuel : Nat) (shape : ℝ) (r : RandomSource ℝ), r.Uniform →
      gammaSecondTest (JSMath.mk Real.sqrt Real.log Real.exp Real.cos (fun x y => x ^ y) Real.pi) fuel shape scale r = gamma (JSMath.mk Real.sqrt Real.log Real.exp Real.cos (fun x y => x ^ y) Real.pi) fuel shape scale r := by
  intro fuel
  induction fuel with
  | zero => intro shape r _; rfl
  | succ fuel ih =>
    intro shape r hu
    unfold gammaSecondTest gamma
    by_cases hs : shape < 1
    · rw [if_pos hs, if_pos hs]
      simp only []
      rw [ih (shape + 1) r.random.2 (uniform_of_stream_eq rfl hu)]
    · rw [if_neg hs, if_neg hs]
      have hd : 2 / 3 ≤ shape - 1 / 3 := by linarith [not_lt.1 hs]
      have hpos : 0 < Real.sqrt (9 * (shape - 1 / 3)) := Real.sqrt_pos.2 (by linarith)
      simp only [jsDiv_of_ne_zero 1 hpos.ne']
      rw [gammaLoopSecondTest_eq (shape - 1 / 3) scale hd fuel r hu]

end GammaLemmas

/-! ## Theorems -/

section Aggregator

variable {α : Type} [LinearOrderedField α]

/-- C1: for every non-empty list `arr` of `n` numbers, `ci95_normal(arr)` returns
`n = arr.length`, `mean = (sum of arr)/n`, `variance = (sum of (x - mean)^2)/(n - 1)` when
`n >= 2` and `0` when `n < 2`, `std = sqrt(variance)` and the interval
`[mean - 1.96*std/sqrt(n), mean + 1.96*std/sqrt(n)]`, for every square root function that
does not vanish on positive numbers. -/
theorem ci95_normal_spec (M : JSMath α) (hsqrt : ∀ x : α, 0 < x → M.sqrt x ≠ 0)
    (arr : List α) (hne : arr ≠ []) :
    ∃ s : SummaryStatistic α, ci95_normal M arr = some s ∧
      s.n = arr.length ∧
      s.mean = arr.sum / (arr.length : α) ∧
      s.variance =
        (if 2 ≤ arr.length then
          (arr.map fun x => (x - s.mean) ^ 2).sum / ((arr.length : α) - 1)
        else 0) ∧
      s.std = M.sqrt s.variance ∧
      s.ci95_normal =
        (s.mean - 1.96 * s.std / M.sqrt (arr.length : α),
          s.mean + 1.96 * s.std / M.sqrt (arr.length : α)) :=
  ⟨_, ci95_normal_eq M hsqrt arr hne _ _ (mean_eq arr hne) (sampleVariance_eq arr hne),
    rfl, rfl, rfl, rfl, rfl⟩

/-- Witness of C1: the list `[0, 0, 0, 4]` over the reals with the real square root has
`n = 4`, mean `1`, variance `4`, standard deviation `sqrt 4` and the interval
`1 ± 1.96 * sqrt 4 / sqrt 4`. -/
theorem ci95_normal_spec_witness :
    ∃ s : SummaryStatistic ℝ,
      ci95_normal (JSMath.mk Real.sqrt Real.log Real.exp Real.cos (fun x y => x ^ y) Real.pi)
        [0, 0, 0, 4] = some s ∧
      s.n = 4 ∧ s.mean = 1 ∧ s.variance = 4 ∧ s.std = Real.sqrt 4 ∧
      s.ci95_normal = (1 - 1.96 * Real.sqrt 4 / Real.sqrt 4, 1 + 1.96 * Real.sqrt 4 / Real.sqrt 4) := by
  obtain ⟨s, h, hn, hm, hv, hs, hc⟩ :=
    ci95_normal_spec (JSMath.mk Real.sqrt Real.log Real.exp Real.cos (fun x y => x ^ y) Real.pi)
      (fun x hx => (Real.sqrt_pos.2 hx).ne') [0, 0, 0, 4] (by simp)
  have hm1 : s.mean = 1 := by rw [hm]; norm_num
  have hv4 : s.variance = 4 := by rw [hv, hm1]; norm_num
  refine ⟨s, h, by simpa using hn, hm1, hv4, by rw [hs, hv4], ?_⟩
  rw [hc, hs, hv4, hm1]
  norm_num

/-- C10 as amended: for every non-empty list whose elements are all equal to `c`, and
every rounding that leaves the running sums `0, c, 2c, ..., nc` unchanged (as the
rounding of doubles does for an integer `c` with `n*|c| <= 2^53`), `ci95_normal` returns
`mean = c`, `variance = 0`, `std = 0` and the interval `[c, c]`, for every square root
function with `sqrt 0 = 0` that does not vanish on positive numbers. -/
theorem ci95_normalRounded_constant (fl : α → α) (M : JSMath α) (hsqrt0 : M.sqrt 0 = 0)
    (hsqrt : ∀ x : α, 0 < x → M.sqrt x ≠ 0) (arr : List α) (c : α)
    (hne : arr ≠ []) (hall : ∀ x ∈ arr, x = c)
    (hsum : ∀ k : Nat, k ≤ arr.length → fl ((k : α) * c) = (k : α) * c) :
    ci95_normalRounded fl M arr = some ⟨arr.length, c, 0, 0, (c, c)⟩ := by
  have h0 : fl 0 = 0 := by
    have := hsum 0 (Nat.zero_le _)
    simpa using this
  have hc : fl c = c := by
    have := hsum 1 (List.length_pos.2 hne)
    simpa using this
  have hpos : (0 : α) < (arr.length : α) := by
    exact_mod_cast List.length_pos.2 hne
  unfold ci95_normalRounded
  simp only [meanRounded_constant fl c arr hne hall hsum,
    sampleVarianceRounded_constant fl c arr hne hall hsum, Option.some_bind, hsqrt0, jsDiv,
    if_neg (hsqrt _ hpos), zero_div, Option.map_some', h0, mul_zero, sub_zero, add_zero, hc]

/-- Witness of C10 as amended: three replications that all measured `100`, over the reals
with the rounding of doubles and the correctly rounded square root. -/
theorem ci95_normalRounded_constant_witness :
    ci95_normalRounded roundDouble
      (JSMath.mk (fun x => roundDouble (Real.sqrt x)) Real.log Real.exp Real.cos (fun x y => x ^ y) Real.pi)
      [100, 100, 100] = some ⟨3, 100, 0, 0, (100, 100)⟩ :=
  ci95_normalRounded_constant roundDouble
    (JSMath.mk (fun x => roundDouble (Real.sqrt x)) Real.log Real.exp Real.cos (fun x y => x ^ y) Real.pi)
    (by
      show roundDouble (Real.sqrt 0) = 0
      rw [Real.sqrt_zero, roundDouble_zero])
    (fun x hx => roundDouble_ne_zero _ (Real.sqrt_pos.2 hx).ne') [100, 100, 100] 100
    (by simp) (by simp)
    (fun k hk => by
      have e : ((k : ℝ)) * 100 = (((k : ℤ) * 100 : ℤ) : ℝ) := by push_cast; ring
      rw [e]
      apply roundDouble_intCast
      have hk3 : (k : ℤ) ≤ 3 := by exact_mod_cast hk
      rw [abs_of_nonneg (by positivity)]
      norm_num
      linarith)

/-- C10 fails as stated: for the list `[0.1, 0.1, 0.1]` in doubles, the running sum
`0.1 + 0.1 + 0.1` is rounded to `0.30000000000000004`, so `ci95_normal` returns the mean
`0.10000000000000002` (the double after `0.1`), which is not `0.1`, and the variance
`3 * 2^-113`, about `2.9e-34`, which is not `0`. -/
theorem ci95_normal_tenth :
    ∃ r : SummaryStatistic ℝ,
      ci95_normalRounded roundDouble
        (JSMath.mk (fun x => roundDouble (Real.sqrt x)) Real.log Real.exp Real.cos (fun x y => x ^ y) Real.pi)
        [tenth, tenth, tenth] = some r ∧
      roundDouble (1 / 10 : ℝ) = tenth ∧
      r.mean = 7205759403792795 / 2 ^ 56 ∧ r.variance = 3 / 2 ^ 113 ∧
      r.mean ≠ tenth ∧ r.variance ≠ 0 := by
  have h3 : roundDouble (Real.sqrt (([(tenth : ℝ), tenth, tenth].length : ℕ) : ℝ)) ≠ 0 :=
    roundDouble_ne_zero _ (Real.sqrt_pos.2 (by norm_num)).ne'
  have h : ∃ r : SummaryStatistic ℝ,
      ci95_normalRounded roundDouble
        (JSMath.mk (fun x => roundDouble (Real.sqrt x)) Real.log Real.exp Real.cos (fun x y => x ^ y) Real.pi)
        [tenth, tenth, tenth] = some r ∧
      r.mean = 7205759403792795 / 2 ^ 56 ∧ r.variance = 3 / 2 ^ 113 := by
    unfold ci95_normalRounded
    simp only [meanRounded_tenth, sampleVarianceRounded_tenth, Option.some_bind, jsDiv,
      if_neg h3, Option.map_some']
    exact ⟨_, rfl, rfl, rfl⟩
  obtain ⟨r, hr, hm, hv⟩ := h
  refine ⟨r, hr, roundDouble_tenth, hm, hv, ?_, ?_⟩
  · rw [hm]
    norm_num [tenth]
  · rw [hv]
    norm_num

end Aggregator

section Metrics

variable {α : Type} [LinearOrderedField α] [FloorRing α]

/-- C2: for every non-empty list `values` of `n` numbers there is a list `sorted`, the
values in ascending order, such that `calculateStats` returns `min = sorted[0]`,
`max = sorted[n-1]`, `mean = sum/n`, `median = sorted[floor(n/2)]`,
`p95 = sorted[floor(n*0.95)]`, `p99 = sorted[floor(n*0.99)]` and `count = n`; every index
is below `n`, so every statistic is a defined element of `sorted`. -/
theorem calculateStats_spec (values : List α) (hne : values ≠ []) :
    ∃ (sorted : List α) (lo hi med p95 p99 : α),
      sorted.Sorted (· ≤ ·) ∧ sorted.Perm values ∧
      0 < values.length ∧ values.length - 1 < values.length ∧
      ⌊(values.length : α) / 2⌋₊ < values.length ∧
      ⌊(values.length : α) * 0.95⌋₊ < values.length ∧
      ⌊(values.length : α) * 0.99⌋₊ < values.length ∧
      sorted[0]? = some lo ∧
      sorted[values.length - 1]? = some hi ∧
      sorted[⌊(values.length : α) / 2⌋₊]? = some med ∧
      sorted[⌊(values.length : α) * 0.95⌋₊]? = some p95 ∧
      sorted[⌊(values.length : α) * 0.99⌋₊]? = some p99 ∧
      MetricsCollector.calculateStats values = some
        ⟨some lo, some hi, some (values.sum / (values.length : α)), some med, some p95,
          some p99, values.length⟩ := by
  have hpos : 0 < values.length := List.length_pos.2 hne
  have hlen : (values.insertionSort (· ≤ ·)).length = values.length :=
    List.length_insertionSort _ values
  have h0 : 0 < (values.insertionSort (· ≤ ·)).length := by omega
  have h1 : values.length - 1 < (values.insertionSort (· ≤ ·)).length := by omega
  have h2 : values.length / 2 < (values.insertionSort (· ≤ ·)).length := by omega
  have h3 : values.length * 95 / 100 < (values.insertionSort (· ≤ ·)).length := by omega
  have h4 : values.length * 99 / 100 < (values.insertionSort (· ≤ ·)).length := by omega
  refine ⟨values.insertionSort (· ≤ ·), (values.insertionSort (· ≤ ·))[0],
    (values.insertionSort (· ≤ ·))[values.length - 1],
    (values.insertionSort (· ≤ ·))[values.length / 2],
    (values.insertionSort (· ≤ ·))[values.length * 95 / 100],
    (values.insertionSort (· ≤ ·))[values.length * 99 / 100],
    List.sorted_insertionSort _ values, List.perm_insertionSort _ values, hpos, by omega,
    ?_, ?_, ?_, ?_, ?_, ?_, ?_, ?_, ?_⟩
  · rw [floor_half]; omega
  · rw [floor_p95]; omega
  · rw [floor_p99]; omega
  · exact List.getElem?_eq_getElem h0
  · exact List.getElem?_eq_getElem h1
  · rw [floor_half]; exact List.getElem?_eq_getElem h2
  · rw [floor_p95]; exact List.getElem?_eq_getElem h3
  · rw [floor_p99]; exact List.getElem?_eq_getElem h4
  · rw [calculateStats_eq values hne, List.getElem?_eq_getElem h0,
      List.getElem?_eq_getElem h1, List.getElem?_eq_getElem h2,
      List.getElem?_eq_getElem h3, List.getElem?_eq_getElem h4]

/-- Witness of C2: the three values `3, 1, 2` over the rationals. -/
theorem calculateStats_spec_witness :
    ∃ (sorted : List ℚ) (lo hi med p95 p99 : ℚ),
      sorted.Sorted (· ≤ ·) ∧ sorted.Perm [3, 1, 2] ∧
      0 < ([3, 1, 2] : List ℚ).length ∧
      ([3, 1, 2] : List ℚ).length - 1 < ([3, 1, 2] : List ℚ).length ∧
      ⌊((([3, 1, 2] : List ℚ).length : ℕ) : ℚ) / 2⌋₊ < ([3, 1, 2] : List ℚ).length ∧
      ⌊((([3, 1, 2] : List ℚ).length : ℕ) : ℚ) * 0.95⌋₊ < ([3, 1, 2] : List ℚ).length ∧
      ⌊((([3, 1, 2] : List ℚ).length : ℕ) : ℚ) * 0.99⌋₊ < ([3, 1, 2] : List ℚ).length ∧
      sorted[0]? = some lo ∧
      sorted[([3, 1, 2] : List ℚ).length - 1]? = some hi ∧
      sorted[⌊((([3, 1, 2] : List ℚ).length : ℕ) : ℚ) / 2⌋₊]? = some med ∧
      sorted[⌊((([3, 1, 2] : List ℚ).length : ℕ) : ℚ) * 0.95⌋₊]? = some p95 ∧
      sorted[⌊((([3, 1, 2] : List ℚ).length : ℕ) : ℚ) * 0.99⌋₊]? = some p99 ∧
      MetricsCollector.calculateStats ([3, 1, 2] : List ℚ) = some
        ⟨some lo, some hi,
          some (([3, 1, 2] : List ℚ).sum / ((([3, 1, 2] : List ℚ).length : ℕ) : ℚ)),
          some med, some p95, some p99, ([3, 1, 2] : List ℚ).length⟩ :=
  calculateStats_spec ([3, 1, 2] : List ℚ) (by simp)

end Metrics

section SamplerTheorems

variable {α : Type} [LinearOrderedField α]

/-- C4: for every `mean`, `sd` and bounds with `min <= max` (where `max` may be the
default `Infinity`), and for every sequence of uniform draws, the value `x` returned by
`truncatedNormal({mean, sd, min, max})` satisfies `min <= x <= max`. -/
theorem truncatedNormal_mem_bounds (M : JSMath α) (mean sd min : α) (max : WithTop α)
    (hle : (min : WithTop α) ≤ max) (r : RandomSource α) :
    min ≤ (truncatedNormal M mean sd min max r).1 ∧
      ((truncatedNormal M mean sd min max r).1 : WithTop α) ≤ max :=
  truncatedNormalLoop_inBounds M mean sd min max hle 10 r

/-- Witness of C4: the call of `simulateIOTALatency`, `mean = 180`, `sd = 60`, `min = 80`,
`max = 400`, over the reals with the real `Math` functions and the uniform stream that
is constantly `1/2`. -/
theorem truncatedNormal_mem_bounds_witness :
    (80 : ℝ) ≤ (truncatedNormal
        (JSMath.mk Real.sqrt Real.log Real.exp Real.cos (fun x y => x ^ y) Real.pi)
        180 60 80 (400 : ℝ) ⟨fun _ => 1 / 2, 0⟩).1 ∧
      ((truncatedNormal
        (JSMath.mk Real.sqrt Real.log Real.exp Real.cos (fun x y => x ^ y) Real.pi)
        180 60 80 (400 : ℝ) ⟨fun _ => 1 / 2, 0⟩).1 : WithTop ℝ) ≤ (400 : ℝ) :=
  truncatedNormal_mem_bounds
    (JSMath.mk Real.sqrt Real.log Real.exp Real.cos (fun x y => x ^ y) Real.pi)
    180 60 80 (400 : ℝ) (WithTop.coe_le_coe.2 (by norm_num)) ⟨fun _ => 1 / 2, 0⟩

/-- C5: `truncatedNormal` makes at most 10 candidate draws `mean + sd*randn()` (at most
20 uniform draws) and returns the first candidate that lies in `[min, max]`; if all 10
candidates lie outside it returns exactly `Math.min(max, Math.max(min, mean))`.  It is a
total function of the random stream. -/
theorem truncatedNormal_spec (M : JSMath α) (mean sd min : α) (max : WithTop α)
    (r : RandomSource α) :
    (∀ j, j < 10 → inBounds min max (candidate M mean sd r j) →
        (∀ i, i < j → ¬ inBounds min max (candidate M mean sd r i)) →
        truncatedNormal M mean sd min max r =
          (candidate M mean sd r j, ⟨r.stream, r.pos + 2 * (j + 1)⟩)) ∧
      ((∀ i, i < 10 → ¬ inBounds min max (candidate M mean sd r i)) →
        truncatedNormal M mean sd min max r =
          (minBound max (Max.max min mean), ⟨r.stream, r.pos + 20⟩)) ∧
      ((minBound max (Max.max min mean) : α) : WithTop α) =
        Min.min max ((Max.max min mean : α) : WithTop α) ∧
      (truncatedNormal M mean sd min max r).2.stream = r.stream ∧
      r.pos ≤ (truncatedNormal M mean sd min max r).2.pos ∧
      (truncatedNormal M mean sd min max r).2.pos ≤ r.pos + 20 :=
  ⟨fun j hj hacc hrej => truncatedNormalLoop_first M mean sd min max 10 r j hj hacc hrej,
    fun hrej => truncatedNormalLoop_none M mean sd min max 10 r hrej,
    coe_minBound max (Max.max min mean),
    truncatedNormalLoop_source M mean sd min max 10 r⟩

/-- Witness of C5 over the reals, on the uniform stream that is constantly `0` (so that
every candidate equals `mean`): with `mean = 180` inside `[80, 400]` the first candidate
is returned after 2 uniform draws; with `mean = 500` all 10 candidates are rejected and
the fallback `Math.min(400, Math.max(80, 500)) = 400` is returned after 20 draws. -/
theorem truncatedNormal_spec_witness :
    truncatedNormal (JSMath.mk Real.sqrt Real.log Real.exp Real.cos (fun x y => x ^ y) Real.pi)
        180 60 80 ((400 : ℝ) : WithTop ℝ) ⟨fun _ => 0, 0⟩ = (180, ⟨fun _ => 0, 2⟩) ∧
      truncatedNormal (JSMath.mk Real.sqrt Real.log Real.exp Real.cos (fun x y => x ^ y) Real.pi)
        500 60 80 ((400 : ℝ) : WithTop ℝ) ⟨fun _ => 0, 0⟩ = (400, ⟨fun _ => 0, 20⟩) := by
  have hc : ∀ (mean sd : ℝ) (i : ℕ),
      candidate (JSMath.mk Real.sqrt Real.log Real.exp Real.cos (fun x y => x ^ y) Real.pi)
        mean sd ⟨fun _ => 0, 0⟩ i = mean := by
    intro mean sd i
    simp [candidate, randn, RandomSource.random]
  constructor
  · have h := (truncatedNormal_spec (JSMath.mk Real.sqrt Real.log Real.exp Real.cos (fun x y => x ^ y) Real.pi)
      180 60 80 ((400 : ℝ) : WithTop ℝ) ⟨fun _ => 0, 0⟩).1 0 (by norm_num)
      (by rw [hc]; exact ⟨by norm_num, WithTop.coe_le_coe.2 (by norm_num)⟩)
      (fun i hi => absurd hi (Nat.not_lt_zero i))
    rw [hc] at h
    exact h
  · have h := (truncatedNormal_spec (JSMath.mk Real.sqrt Real.log Real.exp Real.cos (fun x y => x ^ y) Real.pi)
      500 60 80 ((400 : ℝ) : WithTop ℝ) ⟨fun _ => 0, 0⟩).2.1
      (fun i _ => by
        rw [hc]
        intro hb
        have h400 : (500 : ℝ) ≤ 400 := WithTop.coe_le_coe.1 hb.2
        norm_num at h400)
    have hv : minBound ((400 : ℝ) : WithTop ℝ) (Max.max 80 500) = 400 := by
      show Min.min (400 : ℝ) (Max.max 80 500) = 400
      rw [max_eq_right (by norm_num : (80 : ℝ) ≤ 500), min_eq_left (by norm_num : (400 : ℝ) ≤ 500)]
    rw [hv] at h
    exact h

end SamplerTheorems

section MetricsTheorems

variable {α : Type} [LinearOrderedField α]

/-- C7: `getSummary()` on a `MetricsCollector` with no records returns
`totalTransactions = 0`, `successRate = 0`, `latency = null`, `throughput = 0`,
`gas = null` and `cpu = null`. -/
theorem getSummary_empty [FloorRing α] :
    (⟨[]⟩ : MetricsCollector α).getSummary = ⟨0, some 0, none, some 0, none, none⟩ :=
  rfl

/-- C8: for every list of records, `getSuccessRate()` equals
`100 * (number of records whose success field is exactly true) / (number of records)`
when the list is non-empty and `0` when it is empty; it always lies in `[0, 100]`, and
appending a record without a `success` field raises the total but not the number of
successes. -/
theorem getSuccessRate_spec (c : MetricsCollector α) :
    c.getSuccessRate = some
        (if c.metrics.length = 0 then 0
        else 100 * ((List.countP (fun m => m.success == some true) c.metrics : ℕ) : α) /
          (c.metrics.length : α)) ∧
      (∃ v : α, c.getSuccessRate = some v ∧ 0 ≤ v ∧ v ≤ 100) ∧
      (∀ m : Record α, m.success = none →
        MetricsCollector.getSuccessRate ⟨c.metrics ++ [m]⟩ = some
          (100 * ((List.countP (fun m => m.success == some true) c.metrics : ℕ) : α) /
            ((c.metrics.length : α) + 1))) := by
  refine ⟨getSuccessRate_eq c, ⟨_, getSuccessRate_eq c, ?_, ?_⟩, ?_⟩
  · split_ifs
    · exact le_refl _
    · positivity
  · split_ifs with h
    · norm_num
    · have hlen : (0 : α) < (c.metrics.length : α) := by
        exact_mod_cast Nat.pos_of_ne_zero h
      have hle : ((List.countP (fun m => m.success == some true) c.metrics : ℕ) : α)
          ≤ (c.metrics.length : α) := by
        exact_mod_cast List.countP_le_length _
      rw [div_le_iff₀ hlen]
      linarith
  · intro m hm
    rw [getSuccessRate_eq]
    simp [hm]

/-- C9: `getThroughput()` is `0` on the empty log and on a log of one record; on a log
`first :: rest` it equals `(number of records) / ((last timestamp - first timestamp)/1000)`
when that elapsed time is positive and `0` otherwise; the result is always a finite
number (no division by zero) and never negative. -/
theorem getThroughput_spec :
    MetricsCollector.getThroughput (⟨[]⟩ : MetricsCollector α) = some 0 ∧
      (∀ m : Record α, MetricsCollector.getThroughput ⟨[m]⟩ = some 0) ∧
      (∀ (first : Record α) (rest : List (Record α)),
        MetricsCollector.getThroughput ⟨first :: rest⟩ = some
          (if 0 < ((first :: rest).getLast (List.cons_ne_nil first rest)).timestamp
                - first.timestamp then
            ((rest.length : α) + 1) /
              ((((first :: rest).getLast (List.cons_ne_nil first rest)).timestamp
                - first.timestamp) / 1000)
          else 0)) ∧
      (∀ c : MetricsCollector α, ∃ v : α, c.getThroughput = some v ∧ 0 ≤ v) := by
  refine ⟨rfl, ?_, getThroughput_cons, ?_⟩
  · intro m
    rw [getThroughput_cons]
    simp
  · rintro ⟨metrics⟩
    cases metrics with
    | nil => exact ⟨0, rfl, le_refl _⟩
    | cons first rest =>
      refine ⟨_, getThroughput_cons first rest, ?_⟩
      split_ifs with h
      · positivity
      · exact le_refl _

/-- Witness of C8: three records with `success` true, absent and false have the
success rate `100/3`. -/
theorem getSuccessRate_spec_witness :
    MetricsCollector.getSuccessRate
      (⟨[⟨⟨none, none, none, none, some true, none⟩, 5⟩,
          ⟨⟨none, none, none, none, none, none⟩, 1005⟩,
          ⟨⟨none, none, none, none, some false, none⟩, 2005⟩]⟩ : MetricsCollector ℚ)
      = some (100 / 3) := by
  have h := (getSuccessRate_spec
    (⟨[⟨⟨none, none, none, none, some true, none⟩, 5⟩,
        ⟨⟨none, none, none, none, none, none⟩, 1005⟩,
        ⟨⟨none, none, none, none, some false, none⟩, 2005⟩]⟩ : MetricsCollector ℚ)).1
  rw [h]
  norm_num [List.countP_cons]

/-- Witness of C9: three records stamped `5`, `1005` and `2005` milliseconds give
`3 / 2` records per second. -/
theorem getThroughput_spec_witness :
    MetricsCollector.getThroughput
      (⟨[⟨⟨none, none, none, none, some true, none⟩, 5⟩,
          ⟨⟨none, none, none, none, none, none⟩, 1005⟩,
          ⟨⟨none, none, none, none, some false, none⟩, 2005⟩]⟩ : MetricsCollector ℚ)
      = some (3 / 2) := by
  have h := (@getThroughput_spec ℚ _).2.2.1
    ⟨⟨none, none, none, none, some true, none⟩, 5⟩
    [⟨⟨none, none, none, none, none, none⟩, 1005⟩,
      ⟨⟨none, none, none, none, some false, none⟩, 2005⟩]
  rw [h]
  norm_num

end MetricsTheorems

section Harness

/-- C3: once the promise returned by `withSeed(seed, fn)` settles, `Math.random` is
again the function that was installed before the call, whether `fn` resolves or throws
or rejects; the promise settles as `fn` did (same result, same error), and `fn` ran with
the generator seeded by `String(seed)` installed. -/
theorem withSeed_restores {ρ σ ε β : Type} (seedrandom : String → ρ) (seed : Int)
    (fn : Runtime ρ σ → Except ε β × Runtime ρ σ) (w : Runtime ρ σ) :
    (withSeed seedrandom seed fn w).2.mathRandom = w.mathRandom ∧
      (withSeed seedrandom seed fn w).1 = (fn ⟨seedrandom (toString seed), w.rest⟩).1 ∧
      (∀ v : β, (fn ⟨seedrandom (toString seed), w.rest⟩).1 = Except.ok v →
        (withSeed seedrandom seed fn w).1 = Except.ok v) ∧
      (∀ e : ε, (fn ⟨seedrandom (toString seed), w.rest⟩).1 = Except.error e →
        (withSeed seedrandom seed fn w).1 = Except.error e) :=
  ⟨rfl, rfl, fun _ h => h, fun _ h => h⟩

/-- Witness of C3: a source is a number, the generator seeded by a string is its
length, and `fn` installs source `7` and then throws `boom`; started with source `1`
installed, `withSeed` rejects with `boom` and leaves source `1` installed. -/
theorem withSeed_restores_witness :
    (withSeed String.length 42
        (fun _ => ((Except.error "boom" : Except String Nat), (⟨7, ()⟩ : Runtime Nat Unit)))
        ⟨1, ()⟩).2.mathRandom = 1 ∧
      (withSeed String.length 42
        (fun _ => ((Except.error "boom" : Except String Nat), (⟨7, ()⟩ : Runtime Nat Unit)))
        ⟨1, ()⟩).1 = Except.error "boom" :=
  ⟨(withSeed_restores String.length 42
      (fun _ => ((Except.error "boom" : Except String Nat), (⟨7, ()⟩ : Runtime Nat Unit)))
      ⟨1, ()⟩).1,
    (withSeed_restores String.length 42
      (fun _ => ((Except.error "boom" : Except String Nat), (⟨7, ()⟩ : Runtime Nat Unit)))
      ⟨1, ()⟩).2.2.2 "boom" rfl⟩

end Harness

section SuiteTheorems

/-- C6 fails on the code: in the replication `rejectedTrace`, where every simulated
operation rejects, `runAllSimulatedTests` does not return the three summaries but raises
the `TypeError` of reading `mean` of the `null` latency statistics of the first
scalability batch. -/
theorem runAllSimulatedTests_rejectedTrace :
    runAllSimulatedTests rejectedTrace = Except.error (JSError.typeError "mean") :=
  runAllSimulatedTests_raises rejectedTrace
    ⟨10, 0, 1000, List.replicate 10 (1000, Outcome.rejected "boom")⟩ _ rfl
    (fun op hop => ⟨"boom", by rw [List.eq_of_mem_replicate hop]⟩)

end SuiteTheorems

section SamplerTheorems2

variable {α : Type} [LinearOrderedField α]

/-- C11: whenever `geometricBlocks(p)` returns, it returns an integer `k >= 1`, the
position (counting from 1) of the first draw that is not greater than `p`, and it has
consumed exactly `k` draws; and it does return, on every fuel above `j`, as soon as the
draw number `j` (counting from 0) is the first one that is not greater than `p`. -/
theorem geometricBlocks_spec (p : α) (r : RandomSource α) :
    (∀ (fuel k : Nat) (r1 : RandomSource α), geometricBlocks fuel p r = some (k, r1) →
        1 ≤ k ∧ r.stream (r.pos + (k - 1)) ≤ p ∧
          (∀ i, i < k - 1 → r.stream (r.pos + i) > p) ∧ r1 = ⟨r.stream, r.pos + k⟩ ∧
          k ≤ fuel) ∧
      (∀ j, r.stream (r.pos + j) ≤ p → (∀ i, i < j → r.stream (r.pos + i) > p) →
        ∀ fuel, j < fuel →
          geometricBlocks fuel p r = some (j + 1, ⟨r.stream, r.pos + (j + 1)⟩)) :=
  ⟨fun fuel k r1 h => geometricBlocks_sound p r fuel k r1 h,
    fun j hle hgt fuel hf => geometricBlocks_found p r j hle hgt fuel hf⟩

/-- Witness of C11 over the rationals, for `p = 0.8` and the draws `0.9, 0.9, 0.3, ...`:
the third draw is the first one that is not greater than `p`, and `3` is returned. -/
theorem geometricBlocks_spec_witness :
    geometricBlocks 5 (4 / 5 : ℚ) ⟨fun i => if i < 2 then 9 / 10 else 3 / 10, 0⟩ =
      some (3, ⟨fun i => if i < 2 then 9 / 10 else 3 / 10, 3⟩) :=
  (geometricBlocks_spec (4 / 5 : ℚ) ⟨fun i => if i < 2 then 9 / 10 else 3 / 10, 0⟩).2 2
    (by norm_num)
    (fun i hi => by
      have h2 : 0 + i < 2 := by omega
      simp only [h2, if_true]
      norm_num)
    5 (by norm_num)

/-- C13: `lognormal({medianMs, p95Ms})` equals `max(1, exp(mu + sigma*z))` with
`mu = ln(medianMs)`, `sigma = (ln(p95Ms) - mu)/1.6448536269514722` and `z` the value of
`randn()`; the result is always `>= 1`, and two uniform draws are consumed. -/
theorem lognormal_spec (M : JSMath α) (medianMs p95Ms : α) (r : RandomSource α) :
    (lognormal M medianMs p95Ms r).1 =
        Max.max 1
          (M.exp (M.log medianMs +
            (M.log p95Ms - M.log medianMs) / 1.6448536269514722 * (randn M r).1)) ∧
      1 ≤ (lognormal M medianMs p95Ms r).1 ∧
      (lognormal M medianMs p95Ms r).2 = ⟨r.stream, r.pos + 2⟩ :=
  ⟨rfl, le_max_left _ _, rfl⟩

/-- C12 as amended: for every shape, every scale `>= 0` and every sequence of uniform
draws, a finite value returned by `gamma({shape, scale})` is `>= 0`, in the branch
`shape >= 1` (`d*v*scale` with `d > 0` and `v > 0`) and in the boosted branch
`shape < 1`; and for every shape `>= 0` the call produces no non-finite value, so that
every value it returns is `>= 0`.  This holds for every `Math.pow` that is non-negative
on a non-negative base and every `Math.sqrt` that does not vanish on positive numbers. -/
theorem gamma_nonneg (M : JSMath α) (hpow : ∀ u e : α, 0 ≤ u → 0 ≤ M.pow u e)
    (hsqrt : ∀ x : α, 0 < x → M.sqrt x ≠ 0)
    (scale : α) (hscale : 0 ≤ scale) (fuel : Nat) (shape : α) (r : RandomSource α)
    (hu : r.Uniform) :
    (∀ (y : α) (r1 : RandomSource α),
        gamma M fuel shape scale r = Run.done (y, r1) → 0 ≤ y) ∧
      (0 ≤ shape → gamma M fuel shape scale r ≠ Run.nonFinite) :=
  ⟨fun y r1 h => (gamma_nonneg_aux M hpow scale hscale fuel shape r y r1 hu h).1,
    fun hk => gamma_finite M hsqrt scale fuel shape r hk hu⟩

/-- Witness of C12 as amended, over the reals with the real `Math` functions: the call
`gamma({shape: 3, scale: 270})` of `simulateIOTALatency` on the uniform stream that is
constantly `0` returns `(3 - 1/3) * 270 = 720` in its first pass, and the call
`gamma({shape: 0.5, scale: 1})` returns `(1.5 - 1/3) * 0^2 = 0` from its boosted
branch. -/
theorem gamma_nonneg_witness :
    gamma (JSMath.mk Real.sqrt Real.log Real.exp Real.cos (fun x y => x ^ y) Real.pi) 2 3 270 ⟨fun _ => 0, 0⟩ = Run.done (720, ⟨fun _ => 0, 3⟩) ∧ (0 : ℝ) ≤ 720 ∧
      gamma (JSMath.mk Real.sqrt Real.log Real.exp Real.cos (fun x y => x ^ y) Real.pi) 3 (1 / 2) 1 ⟨fun _ => 0, 0⟩ = Run.done (0, ⟨fun _ => 0, 4⟩) ∧
      gamma (JSMath.mk Real.sqrt Real.log Real.exp Real.cos (fun x y => x ^ y) Real.pi) 3 (1 / 2) 1 ⟨fun _ => 0, 0⟩ ≠ Run.nonFinite := by
  have h : gamma (JSMath.mk Real.sqrt Real.log Real.exp Real.cos (fun x y => x ^ y) Real.pi) 2 3 270 ⟨fun _ => 0, 0⟩ = Run.done (720, ⟨fun _ => 0, 3⟩) := by
    rw [gamma_zero_stream 3 270 (by norm_num)]
    norm_num
  exact ⟨h, (gamma_nonneg (JSMath.mk Real.sqrt Real.log Real.exp Real.cos (fun x y => x ^ y) Real.pi) (fun u e hu => Real.rpow_nonneg hu e)
      (fun x hx => (Real.sqrt_pos.2 hx).ne') 270 (by norm_num) 2 3
      ⟨fun _ => 0, 0⟩ (fun _ => ⟨le_refl 0, zero_lt_one⟩)).1 720 ⟨fun _ => 0, 3⟩ h,
    gamma_half_zero_stream 0,
    (gamma_nonneg (JSMath.mk Real.sqrt Real.log Real.exp Real.cos (fun x y => x ^ y) Real.pi) (fun u e hu => Real.rpow_nonneg hu e)
      (fun x hx => (Real.sqrt_pos.2 hx).ne') 1 (by norm_num) 3 (1 / 2)
      ⟨fun _ => 0, 0⟩ (fun _ => ⟨le_refl 0, zero_lt_one⟩)).2 (by norm_num)⟩

/-- C12 fails as stated: with `shape = 1` and the negative `scale = -1`, on the uniform
stream that is constantly `0`, `gamma` returns `(1 - 1/3) * (-1) = -2/3`, which is
negative.  With the negative `shape = -0.5` and `scale = 1` on the same stream, the inner
call `gamma({shape: 0.5, scale: 1})` returns `0` and `Math.pow(0, 1/(-0.5))` is
`Infinity`, so the call returns the product `0 * Infinity`, which is `NaN` and not
`>= 0`. -/
theorem gamma_negative_scale :
    (⟨fun _ => 0, 0⟩ : RandomSource ℝ).Uniform ∧
      gamma (JSMath.mk Real.sqrt Real.log Real.exp Real.cos (fun x y => x ^ y) Real.pi) 2 1 (-1) ⟨fun _ => 0, 0⟩ = Run.done (-(2 / 3), ⟨fun _ => 0, 3⟩) ∧
      ¬ (0 : ℝ) ≤ -(2 / 3) ∧
      gamma (JSMath.mk Real.sqrt Real.log Real.exp Real.cos (fun x y => x ^ y) Real.pi) 3 (1 / 2) 1 ⟨fun _ => 0, 1⟩ = Run.done (0, ⟨fun _ => 0, 5⟩) ∧
      boostFactor (JSMath.mk Real.sqrt Real.log Real.exp Real.cos (fun x y => x ^ y) Real.pi) (0 : ℝ) (-(1 / 2)) = none ∧
      gamma (JSMath.mk Real.sqrt Real.log Real.exp Real.cos (fun x y => x ^ y) Real.pi) 4 (-(1 / 2)) 1 ⟨fun _ => 0, 0⟩ = Run.nonFinite := by
  refine ⟨fun _ => ⟨le_refl 0, zero_lt_one⟩, ?_, by norm_num, gamma_half_zero_stream 1, ?_,
    gamma_negative_shape_zero_stream⟩
  · rw [gamma_zero_stream 1 (-1) (le_refl 1)]
    norm_num
  · unfold boostFactor
    rw [if_neg (by norm_num), if_pos ⟨rfl, by norm_num⟩]

/-- C20 fails as stated: on the uniform stream that is constantly `0.9`,
`geometricBlocks(0.8)` returns for no amount of fuel, and on the uniform stream
`stallStream`, `gamma({shape: 3, scale: 270})` is still running after every amount of
fuel. -/
theorem samplers_not_total :
    ((⟨fun _ => 9 / 10, 0⟩ : RandomSource ℚ).Uniform ∧
        ¬ ∃ fuel, (geometricBlocks fuel (4 / 5 : ℚ) ⟨fun _ => 9 / 10, 0⟩).isSome) ∧
      ((⟨stallStream, 0⟩ : RandomSource ℝ).Uniform ∧
        ∀ fuel, gamma (JSMath.mk Real.sqrt Real.log Real.exp Real.cos (fun x y => x ^ y) Real.pi) fuel 3 270 ⟨stallStream, 0⟩ = Run.unfinished) := by
  refine ⟨⟨fun _ => ⟨by norm_num, by norm_num⟩, ?_⟩, stallStream_uniform 0, gamma_stall⟩
  rw [geometricBlocks_returns_iff]
  rintro ⟨j, hj⟩
  norm_num at hj

/-- C20 as amended: `randn` and `lognormal` return after exactly 2 uniform draws,
`truncatedNormal` after at most 20 and `maybeSpike` after 1 or 2, on every stream;
`geometricBlocks(p)` returns exactly on the streams that have a draw not greater than `p`
at or after the current position, and `gamma` with `shape >= 1` exactly on the streams on
which some pass of its loop accepts; once they return, more fuel gives the same result.
No sampler raises. -/
theorem samplers_return (M : JSMath α) (r : RandomSource α) :
    (randn M r).2 = ⟨r.stream, r.pos + 2⟩ ∧
      (∀ medianMs p95Ms : α, (lognormal M medianMs p95Ms r).2 = ⟨r.stream, r.pos + 2⟩) ∧
      (∀ (mean sd min : α) (max : WithTop α),
        (truncatedNormal M mean sd min max r).2.stream = r.stream ∧
          r.pos ≤ (truncatedNormal M mean sd min max r).2.pos ∧
          (truncatedNormal M mean sd min max r).2.pos ≤ r.pos + 20) ∧
      (∀ ms spikeProb spikeMin spikeMax : α,
        (maybeSpike ms spikeProb spikeMin spikeMax r).2.stream = r.stream ∧
          r.pos + 1 ≤ (maybeSpike ms spikeProb spikeMin spikeMax r).2.pos ∧
          (maybeSpike ms spikeProb spikeMin spikeMax r).2.pos ≤ r.pos + 2) ∧
      (∀ p : α, (∃ fuel, (geometricBlocks fuel p r).isSome) ↔
        ∃ j, r.stream (r.pos + j) ≤ p) ∧
      (∀ (p : α) (fuel fuel1 : Nat) (res : Nat × RandomSource α),
        geometricBlocks fuel p r = some res → fuel ≤ fuel1 →
          geometricBlocks fuel1 p r = some res) ∧
      (∀ d c theta : α, (∃ fuel, (gammaLoop M d c theta fuel r).isSome) ↔
        ∃ i, (gammaBody M d c theta
          ((fun s => (gammaBody M d c theta s).2)^[i] r)).1.isSome) ∧
      (∀ (shape scale c : α) (fuel : Nat), ¬ shape < 1 →
        jsDiv 1 (M.sqrt (9 * (shape - 1 / 3))) = some c →
        gamma M (fuel + 1) shape scale r =
          match gammaLoop M (shape - 1 / 3) c scale fuel r with
          | none => Run.unfinished
          | some res => Run.done res) :=
  ⟨rfl, fun _ _ => rfl,
    fun mean sd min max => truncatedNormalLoop_source M mean sd min max 10 r,
    fun ms spikeProb spikeMin spikeMax => maybeSpike_stream ms spikeProb spikeMin spikeMax r,
    fun p => geometricBlocks_returns_iff p r,
    fun p fuel fuel1 res h hf => geometricBlocks_mono p r fuel fuel1 res h hf,
    fun d c theta => gammaLoop_returns_iff M d c theta r,
    fun shape scale c fuel hs hc => gamma_of_one_le M fuel shape scale c r hs hc⟩

end SamplerTheorems2

section EthereumTheorems

variable {α : Type} [LinearOrderedField α] [FloorRing α]

/-- C14: for uniform draws, the phase delays sampled by `simulateEthereumLatency` with the
default parameters satisfy `rtt >= 1`, `inclusionDelayMs = blocksToInclusion*12000 >= 12000`
and `confirmDelayMs = 12000`, so their sum is `>= 24001` (as is `totalMs` when no wait
ends early); the call returns as soon as one draw after the round trip draws is not
greater than `0.8`; and the mean of a non-empty list of numbers `>= 24001` is
`>= 24001`. -/
theorem simulateEthereumLatency_bounds (M : JSMath α) (wait : α → α)
    (r : RandomSource α) (hu : r.Uniform) :
    1 ≤ (ethereumRtt M r).1 ∧
      (∀ (fuel : Nat) (res : EthereumLatency α) (r1 : RandomSource α),
        simulateEthereumLatency M wait fuel 0.8 12000 1 r = some (res, r1) →
          1 ≤ res.blocksToInclusion ∧
          res.inclusionDelayMs = (res.blocksToInclusion : α) * 12000 ∧
          12000 ≤ res.inclusionDelayMs ∧
          res.confirmDelayMs = 12000 ∧
          24001 ≤ (ethereumRtt M r).1 + res.inclusionDelayMs + res.confirmDelayMs ∧
          res.networkRttMs = jsRound (ethereumRtt M r).1 ∧
          1 ≤ res.networkRttMs ∧
          res.totalMs = wait (ethereumRtt M r).1 + wait res.inclusionDelayMs
            + wait res.confirmDelayMs ∧
          ((∀ d, d ≤ wait d) → 24001 ≤ res.totalMs)) ∧
      (∀ j, (ethereumRtt M r).2.stream ((ethereumRtt M r).2.pos + j) ≤ 0.8 →
        ∃ (fuel : Nat) (res : EthereumLatency α) (r1 : RandomSource α),
          simulateEthereumLatency M wait fuel 0.8 12000 1 r = some (res, r1)) ∧
      (∀ arr : List α, arr ≠ [] → (∀ x ∈ arr, 24001 ≤ x) →
        ∃ m, mean arr = some m ∧ 24001 ≤ m) := by
  have hrtt := ethereumRtt_ge_one M r hu
  refine ⟨hrtt, ?_, ?_, fun arr hne h => mean_ge_of_forall_ge arr 24001 hne h⟩
  · intro fuel res r1 h
    unfold simulateEthereumLatency at h
    cases hg : geometricBlocks fuel 0.8 (ethereumRtt M r).2 with
    | none => simp [hg] at h
    | some kr =>
      obtain ⟨k, r2⟩ := kr
      simp only [hg, Option.some.injEq, Prod.mk.injEq] at h
      obtain ⟨hres, _⟩ := h
      have hk : 1 ≤ k := (geometricBlocks_sound (0.8 : α) (ethereumRtt M r).2 fuel k r2 hg).1
      have hkα : (1 : α) ≤ (k : α) := by exact_mod_cast hk
      subst hres
      have hinc : (12000 : α) ≤ (k : α) * 12000 := by nlinarith
      refine ⟨hk, rfl, hinc, by simp, ?_, rfl, one_le_jsRound _ hrtt, rfl, ?_⟩
      · show 24001 ≤ (ethereumRtt M r).1 + (k : α) * 12000 + 1 * 12000
        linarith
      · intro hw
        show 24001 ≤ wait (ethereumRtt M r).1 + wait ((k : α) * 12000) + wait (1 * 12000)
        have w1 := hw (ethereumRtt M r).1
        have w2 := hw ((k : α) * 12000)
        have w3 := hw ((1 : α) * 12000)
        linarith
  · intro j hj
    classical
    have hex : ∃ n, (ethereumRtt M r).2.stream ((ethereumRtt M r).2.pos + n) ≤ 0.8 := ⟨j, hj⟩
    have hfirst := Nat.find_spec hex
    have hmin : ∀ i, i < Nat.find hex →
        (ethereumRtt M r).2.stream ((ethereumRtt M r).2.pos + i) > 0.8 :=
      fun i hi => not_le.1 (Nat.find_min hex hi)
    have hg := geometricBlocks_found (0.8 : α) (ethereumRtt M r).2 (Nat.find hex) hfirst hmin
      (Nat.find hex + 1) (Nat.lt_succ_self _)
    refine ⟨Nat.find hex + 1, ?_⟩
    unfold simulateEthereumLatency
    simp only [hg]
    exact ⟨_, _, rfl⟩

/-- Witness of C14 over the reals with the real `Math` functions, on the uniform stream
that is constantly `0` and with waits that last exactly their delay: the round trip is
`>= 1`, the call returns, and its `totalMs` is `>= 24001`. -/
theorem simulateEthereumLatency_bounds_witness :
    1 ≤ (ethereumRtt (JSMath.mk Real.sqrt Real.log Real.exp Real.cos (fun x y => x ^ y) Real.pi) ⟨fun _ => 0, 0⟩).1 ∧
      ∃ (fuel : Nat) (res : EthereumLatency ℝ) (r1 : RandomSource ℝ),
        simulateEthereumLatency (JSMath.mk Real.sqrt Real.log Real.exp Real.cos (fun x y => x ^ y) Real.pi) id fuel 0.8 12000 1 ⟨fun _ => 0, 0⟩ = some (res, r1) ∧
          24001 ≤ res.totalMs := by
  have H := simulateEthereumLatency_bounds (JSMath.mk Real.sqrt Real.log Real.exp Real.cos (fun x y => x ^ y) Real.pi) id ⟨fun _ => 0, 0⟩
    (fun _ => ⟨le_refl 0, zero_lt_one⟩)
  obtain ⟨fuel, res, r1, h⟩ := H.2.2.1 0 (by
    rw [ethereumRtt_stream]
    show (0 : ℝ) ≤ 0.8
    norm_num)
  exact ⟨H.1, fuel, res, r1, h, (H.2.1 fuel res r1 h).2.2.2.2.2.2.2.2 (fun d => le_refl d)⟩

end EthereumTheorems

section OrchestratorTheorems

variable {α : Type} [LinearOrderedField α] [FloorRing α]

/-- C17 as amended: for every replication count `N` and every integer `seedStart` with
`|seedStart| + N <= 2^53`, `runReplicatedSuite` uses exactly `N` seeds, the seed of
replication index `i` being `seedStart + i`, so the seeds are pairwise distinct and
increasing; and in a run that completes, replication `i` is the one that ran with the
generator seeded by `String(seedStart + i)` installed, its results being recorded in this
order. -/
theorem seedList_spec (ρ : Type) (N : Nat) (seedStart : Int)
    (hs : |seedStart| + (N : Int) ≤ 2 ^ 53) :
    (seedList N seedStart).length = N ∧
      (∀ i, i < N → (seedList N seedStart)[i]? = some (seedStart + i)) ∧
      (seedList N seedStart).Nodup ∧
      (seedList N seedStart).Pairwise (· < ·) ∧
      (∀ (seedrandom : String → ρ) (replicate : ρ → ReplicationTrace α)
        (original : ρ) (w1 : Runtime ρ (Samples (WithTop α))),
        runReplicatedSuite seedrandom replicate N seedStart original = (Except.ok (), w1) →
        ∃ results : List (SuiteResult α), results.length = N ∧
          (∀ i, i < N → ∃ res, results[i]? = some res ∧
            runAllSimulatedTests (replicate (seedrandom (toString (seedStart + i))))
              = Except.ok res) ∧
          forEach (fun st res => recordReplication res st) emptySamples results =
            Except.ok w1.rest) := by
  have hlen : (seedList N seedStart).length = N := seedList_length N seedStart
  refine ⟨hlen, fun i hi => ?_,
    (seedList_pairwise N seedStart hs).imp (fun h => ne_of_lt h),
    seedList_pairwise N seedStart hs, ?_⟩
  · rw [seedList_getElem? N seedStart i hi, seedAt_of_le N seedStart hs i hi]
  · intro seedrandom replicate original w1 h
    obtain ⟨_, results, hf, hfe⟩ := runReplications_spec seedrandom replicate _ _ w1 h
    refine ⟨results, by rw [← hf.length_eq, hlen], ?_, hfe⟩
    intro i hi
    have h1 := forall₂_getElem? _ _ _ hf i _ (seedList_getElem? N seedStart i hi)
    rw [seedAt_of_le N seedStart hs i hi] at h1
    exact h1

/-- Witness of C17 as amended: three replications from `seedStart = 1` use the seeds
`1, 2, 3`, which are pairwise distinct. -/
theorem seedList_spec_witness :
    |(1 : Int)| + ((3 : Nat) : Int) ≤ 2 ^ 53 ∧ (seedList 3 1).length = 3 ∧
      (∀ i : Nat, i < 3 → (seedList 3 1)[i]? = some (1 + (i : Int))) ∧
      (seedList 3 1).Nodup :=
  ⟨by norm_num, (@seedList_spec ℚ _ _ Unit 3 1 (by norm_num)).1,
    (@seedList_spec ℚ _ _ Unit 3 1 (by norm_num)).2.1,
    (@seedList_spec ℚ _ _ Unit 3 1 (by norm_num)).2.2.1⟩

/-- C17 fails as stated: the sums `i + seedStart` are computed in doubles, where
`2^53 + 1` is rounded to `2^53`.  For `seedStart = 2^53` and three replications the seeds
are `2^53, 2^53, 2^53 + 2`: the seed of replication 1 is not `seedStart + 1`, and the
seeds are not pairwise distinct. -/
theorem seedList_two_pow :
    seedList 3 (2 ^ 53) = [2 ^ 53, 2 ^ 53, 2 ^ 53 + 2] ∧
      (seedList 3 (2 ^ 53))[(1 : Nat)]? ≠ some (2 ^ 53 + 1) ∧ ¬ (seedList 3 (2 ^ 53)).Nodup := by
  have h : seedList 3 (2 ^ 53) = [2 ^ 53, 2 ^ 53, 2 ^ 53 + 2] := by
    show [seedAt (2 ^ 53) 0, seedAt (2 ^ 53) 1, seedAt (2 ^ 53) 2] = _
    rw [seedAt_two_pow_zero, seedAt_two_pow_one, seedAt_two_pow_two]
  refine ⟨h, ?_, ?_⟩
  · rw [h]
    norm_num
  · rw [h]
    norm_num

/-- C19: `recordTransaction(data)` appends exactly one record to the log and leaves all
earlier records unchanged; a record that lacks a latency (gasUsed, cpuTime) field is left
out of the latency (gas, cpu) statistics: the count that `getLatencyStats` reports is the
number of records whose latency field is present, it reports `null` exactly when there is
no such record, and recording data without the field leaves the statistics as they
were. -/
theorem recordTransaction_spec (now : α) (data : TxData α) (c : MetricsCollector α) :
    (c.recordTransaction now data).metrics = c.metrics ++ [⟨data, now⟩] ∧
      (c.recordTransaction now data).metrics.length = c.metrics.length + 1 ∧
      (∀ i, i < c.metrics.length →
        (c.recordTransaction now data).metrics[i]? = c.metrics[i]?) ∧
      ((∀ st, c.getLatencyStats = some st →
          st.count = c.metrics.countP fun m => m.latency.isSome) ∧
        (c.getLatencyStats = none ↔ (c.metrics.countP fun m => m.latency.isSome) = 0) ∧
        (data.latency = none →
          (c.recordTransaction now data).getLatencyStats = c.getLatencyStats)) ∧
      ((∀ st, c.getGasStats = some st →
          st.count = c.metrics.countP fun m => m.gasUsed.isSome) ∧
        (c.getGasStats = none ↔ (c.metrics.countP fun m => m.gasUsed.isSome) = 0) ∧
        (data.gasUsed = none →
          (c.recordTransaction now data).getGasStats = c.getGasStats)) ∧
      ((∀ st, c.getCPUUsage = some st →
          st.count = c.metrics.countP fun m => m.cpuTime.isSome) ∧
        (c.getCPUUsage = none ↔ (c.metrics.countP fun m => m.cpuTime.isSome) = 0) ∧
        (data.cpuTime = none →
          (c.recordTransaction now data).getCPUUsage = c.getCPUUsage)) := by
  refine ⟨rfl, by simp [MetricsCollector.recordTransaction], ?_, ⟨?_, ?_, ?_⟩, ⟨?_, ?_, ?_⟩,
    ⟨?_, ?_, ?_⟩⟩
  · intro i hi
    simp [MetricsCollector.recordTransaction, List.getElem?_append_left hi]
  · intro st h
    rw [calculateStats_count _ st h, length_filterMap_eq_countP']
  · unfold MetricsCollector.getLatencyStats
    rw [calculateStats_eq_none_iff, length_filterMap_eq_countP']
  · intro h
    simp [MetricsCollector.getLatencyStats, MetricsCollector.recordTransaction,
      List.filterMap_append, h]
  · intro st h
    rw [calculateStats_count _ st h, length_filterMap_eq_countP']
  · unfold MetricsCollector.getGasStats
    rw [calculateStats_eq_none_iff, length_filterMap_eq_countP']
  · intro h
    simp [MetricsCollector.getGasStats, MetricsCollector.recordTransaction,
      List.filterMap_append, h]
  · intro st h
    rw [calculateStats_count _ st h, length_filterMap_eq_countP']
  · unfold MetricsCollector.getCPUUsage
    rw [calculateStats_eq_none_iff, length_filterMap_eq_countP']
  · intro h
    simp [MetricsCollector.getCPUUsage, MetricsCollector.recordTransaction,
      List.filterMap_append, h]

/-- C18: `getSummary()` has no side effects and is repeatable: a call leaves the record
log unchanged and changes no array that existed before the call (`calculateStats` sorts a
fresh copy of its argument, which keeps its order), the summary it returns is a function
of the log alone, and a second call returns an equal summary. -/
theorem getSummary_repeatable (c : MetricsCollector α) (h : List (List α)) :
    (MetricsCollector.getSummaryOn c h).2.1 = c ∧
      (∀ ref, ref < h.length →
        MetricsCollector.heapRead (MetricsCollector.getSummaryOn c h).2.2 ref =
          MetricsCollector.heapRead h ref) ∧
      (MetricsCollector.getSummaryOn c h).1 = c.getSummary ∧
      (MetricsCollector.getSummaryOn (MetricsCollector.getSummaryOn c h).2.1
          (MetricsCollector.getSummaryOn c h).2.2).1 =
        (MetricsCollector.getSummaryOn c h).1 ∧
      (∀ values, values < h.length →
        MetricsCollector.heapRead (MetricsCollector.calculateStatsOn h values).2 values =
            MetricsCollector.heapRead h values ∧
          (MetricsCollector.calculateStatsOn h values).1 =
            MetricsCollector.calculateStats (MetricsCollector.heapRead h values)) := by
  obtain ⟨h1, h2, h3⟩ := getSummaryOn_spec c h
  refine ⟨h2, h3, h1, ?_, ?_⟩
  · rw [(getSummaryOn_spec _ _).1, h2, h1]
  · intro values hv
    obtain ⟨a1, a2, _⟩ := calculateStatsOn_spec h values hv
    exact ⟨a2 values hv, a1⟩

/-- When every scalability batch has an operation that resolves with a latency, the
scalability test yields, for each of the two networks, exactly one row per configured
batch, in the configured order and carrying that batch size; filing rows into a store
adds the keys `batch_<size>` of the rows that are not yet present, in order, so that the
batch sizes `[10, 100]` filed into an empty store give exactly the two entries `batch_10`
and `batch_100`. -/
theorem testScalabilitySimulated_rows (eth iota : List (Batch α))
    (hs : ∀ b ∈ eth, ∃ op ∈ b.ops, ∃ r, op.2 = Outcome.resolved r ∧ r.latency.isSome)
    (hi : ∀ b ∈ iota, ∃ op ∈ b.ops, ∃ r, op.2 = Outcome.resolved r ∧ r.latency.isSome) :
    ∃ (s i : List (ScalabilityRow α)),
      testScalabilitySimulated eth iota = Except.ok (s, i) ∧
      s.length = eth.length ∧ i.length = iota.length ∧
      (s.map fun row => row.batchSize) = (eth.map fun b => b.batchSize) ∧
      (i.map fun row => row.batchSize) = (iota.map fun b => b.batchSize) ∧
      (∀ (rows : List (ScalabilityRow α)) (o o1 : List (String × MetricsBag (WithTop α))),
        rows = s ∨ rows = i →
        forEach recordScalabilityRow o rows = Except.ok o1 →
        o1.map Prod.fst =
          (rows.map fun row => row.batchSize).foldl
            (fun ks n => if batchKey n ∈ ks then ks else ks ++ [batchKey n])
            (o.map Prod.fst)) ∧
      (∀ (rows : List (ScalabilityRow α)) (o1 : List (String × MetricsBag (WithTop α))),
        (rows.map fun row => row.batchSize) = [10, 100] →
        forEach recordScalabilityRow [] rows = Except.ok o1 →
        o1.map Prod.fst = ["batch_10", "batch_100"]) := by
  obtain ⟨s, h1⟩ := scalabilityRows_ok Network.sepolia eth hs
  obtain ⟨i, h2⟩ := scalabilityRows_ok Network.iota iota hi
  have hms := forall₂_batchSize Network.sepolia eth s (scalabilityRows_spec _ _ _ h1)
  have hmi := forall₂_batchSize Network.iota iota i (scalabilityRows_spec _ _ _ h2)
  refine ⟨s, i, by simp only [testScalabilitySimulated, h1, h2],
    (scalabilityRows_spec _ _ _ h1).length_eq.symm,
    (scalabilityRows_spec _ _ _ h2).length_eq.symm, hms, hmi,
    fun rows o o1 _ h => keys_after_rows rows o o1 h, ?_⟩
  intro rows o1 hrows h
  rw [keys_after_rows rows [] o1 h, hrows, List.map_nil]
  decide

/-- C16 as amended: after `runReplicatedSuite` has completed `N` replications, the sample
array of every latency and throughput metric of a network has length at most `N`.  The
length is exactly `N` for `successRate`; for `tps` of a network when no throughput batch
of that network is empty with a zero duration (then `0 / 0` is `NaN`, which is skipped;
`Infinity` is pushed); and for `avgLatency` of a network in the latency or throughput
scenario when in every replication some operation of that test resolved with a latency.
A scalability array holds `N` values for every occurrence of its batch size in the
configured list.  In every replication each array only grows at its end (earlier values
are neither altered nor removed), a latency or throughput array by at most one value and
a scalability array by the number of rows of its batch key; `pushMetric` leaves the bag
as it is for a value that is `null`, `undefined` or `NaN`.  A run in which every
scalability batch has a latency sample completes, whatever the batch durations. -/
theorem sampleArrays_after_run (ρ : Type) (seedrandom : String → ρ)
    (replicate : ρ → ReplicationTrace α) (N : Nat) (seedStart : Int) (original : ρ)
    (w1 : Runtime ρ (Samples (WithTop α)))
    (h : runReplicatedSuite seedrandom replicate N seedStart original = (Except.ok (), w1)) :
    (∀ n m, (sampleArray w1.rest.latency n m).length ≤ N ∧
        (sampleArray w1.rest.throughput n m).length ≤ N) ∧
      (∀ n, n = "Sepolia" ∨ n = "IOTA" →
        (sampleArray w1.rest.latency n "successRate").length = N ∧
          (sampleArray w1.rest.throughput n "successRate").length = N) ∧
      ((∀ i, i < N →
          (replicationTrace seedrandom replicate seedStart i).throughputSepolia.ops ≠ [] ∨
            (replicationTrace seedrandom replicate seedStart i).throughputSepolia.finish ≠
              (replicationTrace seedrandom replicate seedStart i).throughputSepolia.start) →
        (sampleArray w1.rest.throughput "Sepolia" "tps").length = N) ∧
      ((∀ i, i < N →
          (replicationTrace seedrandom replicate seedStart i).throughputIota.ops ≠ [] ∨
            (replicationTrace seedrandom replicate seedStart i).throughputIota.finish ≠
              (replicationTrace seedrandom replicate seedStart i).throughputIota.start) →
        (sampleArray w1.rest.throughput "IOTA" "tps").length = N) ∧
      ((∀ i, i < N →
          HasLatency (replicationTrace seedrandom replicate seedStart i).latencySepolia) →
        (sampleArray w1.rest.latency "Sepolia" "avgLatency").length = N) ∧
      ((∀ i, i < N →
          HasLatency (replicationTrace seedrandom replicate seedStart i).latencyIota) →
        (sampleArray w1.rest.latency "IOTA" "avgLatency").length = N) ∧
      ((∀ i, i < N →
          HasLatency (replicationTrace seedrandom replicate seedStart i).throughputSepolia.ops) →
        (sampleArray w1.rest.throughput "Sepolia" "avgLatency").length = N) ∧
      ((∀ i, i < N →
          HasLatency (replicationTrace seedrandom replicate seedStart i).throughputIota.ops) →
        (sampleArray w1.rest.throughput "IOTA" "avgLatency").length = N) ∧
      (∀ sizes : List Nat,
        (∀ i, i < N →
          ((replicationTrace seedrandom replicate seedStart i).scalabilitySepolia.map
              fun b => b.batchSize) = sizes ∧
            ((replicationTrace seedrandom replicate seedStart i).scalabilityIota.map
              fun b => b.batchSize) = sizes) →
        ∀ key m, m = "tps" ∨ m = "avgLatency" ∨ m = "successRate" →
          (sampleArray w1.rest.scalabilitySepolia key m).length =
              N * (sizes.filter fun n => decide (key = batchKey n)).length ∧
            (sampleArray w1.rest.scalabilityIota key m).length =
              N * (sizes.filter fun n => decide (key = batchKey n)).length) ∧
      (∀ (res : SuiteResult α) (s s1 : Samples (WithTop α)),
        recordReplication res s = Except.ok s1 →
        ∀ n m, sampleArray s.latency n m <+: sampleArray s1.latency n m ∧
          sampleArray s.throughput n m <+: sampleArray s1.throughput n m ∧
          sampleArray s.scalabilitySepolia n m <+: sampleArray s1.scalabilitySepolia n m ∧
          sampleArray s.scalabilityIota n m <+: sampleArray s1.scalabilityIota n m) ∧
      (∀ (t : ReplicationTrace α) (res : SuiteResult α) (s s1 : Samples (WithTop α)),
        runAllSimulatedTests t = Except.ok res → recordReplication res s = Except.ok s1 →
        (∀ n m,
          (sampleArray s1.latency n m).length ≤ (sampleArray s.latency n m).length + 1 ∧
            (sampleArray s1.throughput n m).length ≤
              (sampleArray s.throughput n m).length + 1) ∧
        (∀ key m, m = "tps" ∨ m = "avgLatency" ∨ m = "successRate" →
          (sampleArray s1.scalabilitySepolia key m).length =
              (sampleArray s.scalabilitySepolia key m).length +
                (res.scalability.1.filter fun row =>
                  decide (key = batchKey row.batchSize)).length ∧
            (sampleArray s1.scalabilityIota key m).length =
              (sampleArray s.scalabilityIota key m).length +
                (res.scalability.2.filter fun row =>
                  decide (key = batchKey row.batchSize)).length)) ∧
      (∀ (bag : MetricsBag (WithTop α)) (key : String), pushMetric bag key none = bag) ∧
      ((∀ g, (replicate g).Measured) →
        ∃ w : Runtime ρ (Samples (WithTop α)),
          runReplicatedSuite seedrandom replicate N seedStart original = (Except.ok (), w)) := by
  obtain ⟨results, hlen, hres, hfe⟩ := run_results seedrandom replicate N seedStart original w1 h
  obtain ⟨hlat, hthr⟩ := run_arrays results w1.rest hfe
  have hshape : ∀ res ∈ results, ∃ i, i < N ∧
      res.latency =
        [("Sepolia", (runOperations Network.sepolia
            (replicate (seedrandom (toString (seedAt seedStart i)))).latencySepolia).getSummary),
          ("IOTA", (runOperations Network.iota
            (replicate (seedrandom (toString (seedAt seedStart i)))).latencyIota).getSummary)] ∧
      res.throughput =
        [("Sepolia", throughputSummary Network.sepolia
            (replicate (seedrandom (toString (seedAt seedStart i)))).throughputSepolia),
          ("IOTA", throughputSummary Network.iota
            (replicate (seedrandom (toString (seedAt seedStart i)))).throughputIota)] := by
    intro res hr
    obtain ⟨i, hi, hrun⟩ := hres res hr
    obtain ⟨a, b, _⟩ := runAllSimulatedTests_spec _ res hrun
    exact ⟨i, hi, a, b⟩
  obtain ⟨hsep, hiot⟩ := run_scalability results w1.rest hfe
  have hne : ¬ ("IOTA" = "Sepolia") := by decide
  refine ⟨?_, ?_, ?_, ?_, ?_, ?_, ?_, ?_, ?_, ?_, ?_, fun _ _ => rfl, ?_⟩
  · intro n m
    constructor
    · rw [hlat, ← hlen]
      apply length_flatMap_le
      intro res hr
      obtain ⟨i, _, a, _⟩ := hshape res hr
      rw [a, flatMap_two_entries _ _ (fun s => latencyPushed s m) n]
      split_ifs
      · exact latencyPushed_length_le _ m
      · exact latencyPushed_length_le _ m
      · exact Nat.zero_le 1
    · rw [hthr, ← hlen]
      apply length_flatMap_le
      intro res hr
      obtain ⟨i, _, _, b⟩ := hshape res hr
      rw [b, flatMap_two_entries _ _
        (fun p : Summary α × Option (WithTop α) × α => throughputPushed p m) n]
      split_ifs
      · exact throughputPushed_length_le _ m
      · exact throughputPushed_length_le _ m
      · exact Nat.zero_le 1
  · intro n hn
    refine ⟨?_, ?_⟩
    · rw [hlat, ← hlen]
      apply length_flatMap_eq
      intro res hr
      obtain ⟨i, _, a, _⟩ := hshape res hr
      rw [a, flatMap_two_entries _ _ (fun s => latencyPushed s "successRate") n]
      rcases hn with rfl | rfl
      · rw [if_pos rfl, latencyPushed_successRate]
        exact successRate_length_one _
      · rw [if_neg hne, if_pos rfl, latencyPushed_successRate]
        exact successRate_length_one _
    · rw [hthr, ← hlen]
      apply length_flatMap_eq
      intro res hr
      obtain ⟨i, _, _, b⟩ := hshape res hr
      rw [b, flatMap_two_entries _ _
        (fun p : Summary α × Option (WithTop α) × α => throughputPushed p "successRate") n]
      rcases hn with rfl | rfl
      · rw [if_pos rfl, throughputPushed_successRate]
        exact successRate_length_one _
      · rw [if_neg hne, if_pos rfl, throughputPushed_successRate]
        exact successRate_length_one _
  · intro hall
    rw [hthr, ← hlen]
    apply length_flatMap_eq
    intro res hr
    obtain ⟨i, hi, _, b⟩ := hshape res hr
    rw [b, flatMap_two_entries _ _
        (fun p : Summary α × Option (WithTop α) × α => throughputPushed p "tps") "Sepolia",
      if_pos rfl, throughputPushed_tps]
    exact toList_length_of_isSome _
      ((throughputSummary_facts Network.sepolia _).1 (hall i hi))
  · intro hall
    rw [hthr, ← hlen]
    apply length_flatMap_eq
    intro res hr
    obtain ⟨i, hi, _, b⟩ := hshape res hr
    rw [b, flatMap_two_entries _ _
        (fun p : Summary α × Option (WithTop α) × α => throughputPushed p "tps") "IOTA",
      if_neg hne, if_pos rfl, throughputPushed_tps]
    exact toList_length_of_isSome _
      ((throughputSummary_facts Network.iota _).1 (hall i hi))
  · intro hall
    rw [hlat, ← hlen]
    apply length_flatMap_eq
    intro res hr
    obtain ⟨i, hi, a, _⟩ := hshape res hr
    rw [a, flatMap_two_entries _ _ (fun s => latencyPushed s "avgLatency") "Sepolia",
      if_pos rfl, latencyPushed_avgLatency]
    exact avgLatency_length_one Network.sepolia _ (hall i hi)
  · intro hall
    rw [hlat, ← hlen]
    apply length_flatMap_eq
    intro res hr
    obtain ⟨i, hi, a, _⟩ := hshape res hr
    rw [a, flatMap_two_entries _ _ (fun s => latencyPushed s "avgLatency") "IOTA",
      if_neg hne, if_pos rfl, latencyPushed_avgLatency]
    exact avgLatency_length_one Network.iota _ (hall i hi)
  · intro hall
    rw [hthr, ← hlen]
    apply length_flatMap_eq
    intro res hr
    obtain ⟨i, hi, _, b⟩ := hshape res hr
    rw [b, flatMap_two_entries _ _
        (fun p : Summary α × Option (WithTop α) × α => throughputPushed p "avgLatency")
        "Sepolia",
      if_pos rfl, throughputPushed_avgLatency]
    exact avgLatency_length_one Network.sepolia _ (hall i hi)
  · intro hall
    rw [hthr, ← hlen]
    apply length_flatMap_eq
    intro res hr
    obtain ⟨i, hi, _, b⟩ := hshape res hr
    rw [b, flatMap_two_entries _ _
        (fun p : Summary α × Option (WithTop α) × α => throughputPushed p "avgLatency")
        "IOTA",
      if_neg hne, if_pos rfl, throughputPushed_avgLatency]
    exact avgLatency_length_one Network.iota _ (hall i hi)
  · intro sizes hsizes key m hm
    constructor
    · rw [hsep, ← hlen]
      apply length_flatMap_const
      intro res hr
      obtain ⟨i, hi, hrun⟩ := hres res hr
      obtain ⟨_, _, c, _⟩ := runAllSimulatedTests_spec _ res hrun
      rw [scalability_step_length _ key m hm (rows_facts _ _ _ c),
        forall₂_batchSize _ _ _ (scalabilityRows_spec _ _ _ c), (hsizes i hi).1]
    · rw [hiot, ← hlen]
      apply length_flatMap_const
      intro res hr
      obtain ⟨i, hi, hrun⟩ := hres res hr
      obtain ⟨_, _, _, d⟩ := runAllSimulatedTests_spec _ res hrun
      rw [scalability_step_length _ key m hm (rows_facts _ _ _ d),
        forall₂_batchSize _ _ _ (scalabilityRows_spec _ _ _ d), (hsizes i hi).2]
  · intro res s s1 hrec n m
    obtain ⟨a, b, c, d, _⟩ := recordReplication_spec res s s1 hrec
    refine ⟨?_, ?_, ?_, ?_⟩
    · rw [a]; exact List.prefix_append _ _
    · rw [b]; exact List.prefix_append _ _
    · rw [c]; exact List.prefix_append _ _
    · rw [d]; exact List.prefix_append _ _
  · intro t res s s1 hrun hrec
    obtain ⟨a, b, c, d, _⟩ := recordReplication_spec res s s1 hrec
    obtain ⟨la, lb, lc, ld⟩ := runAllSimulatedTests_spec t res hrun
    refine ⟨fun n m => ⟨?_, ?_⟩, fun key m hm => ⟨?_, ?_⟩⟩
    · rw [a, List.length_append, la, flatMap_two_entries _ _ (fun s => latencyPushed s m) n]
      split_ifs
      · exact Nat.add_le_add_left (latencyPushed_length_le _ m) _
      · exact Nat.add_le_add_left (latencyPushed_length_le _ m) _
      · exact Nat.add_le_add_left (Nat.zero_le 1) _
    · rw [b, List.length_append, lb, flatMap_two_entries _ _
        (fun p : Summary α × Option (WithTop α) × α => throughputPushed p m) n]
      split_ifs
      · exact Nat.add_le_add_left (throughputPushed_length_le _ m) _
      · exact Nat.add_le_add_left (throughputPushed_length_le _ m) _
      · exact Nat.add_le_add_left (Nat.zero_le 1) _
    · rw [c, List.length_append]
      congr 1
      exact length_flatMap_filter (fun row => rowPushed row m)
        (fun row => key = batchKey row.batchSize) res.scalability.1
        (fun row hr _ => by
          obtain ⟨h1, h2, h3⟩ := rows_facts _ _ _ lc row hr
          exact rowPushed_length row m hm h1 h2 h3)
    · rw [d, List.length_append]
      congr 1
      exact length_flatMap_filter (fun row => rowPushed row m)
        (fun row => key = batchKey row.batchSize) res.scalability.2
        (fun row hr _ => by
          obtain ⟨h1, h2, h3⟩ := rows_facts _ _ _ ld row hr
          exact rowPushed_length row m hm h1 h2 h3)
  · intro hgood
    exact runReplications_ok seedrandom replicate hgood (seedList N seedStart)
      ⟨original, emptySamples⟩ emptySamples_ready

/-- Witness for C16 as amended: five replications, seeds 1 to 5, of the configured suite
in which every operation resolves and the throughput batches take no time complete; they
leave five values in the Sepolia `avgLatency` array of the latency test, five values in
the Sepolia `tps` array, each of them `Infinity`, and five values in the Sepolia
`batch_10` `tps` array. -/
theorem sampleArrays_after_run_witness :
    ∃ w1 : Runtime Unit (Samples (WithTop ℚ)),
      runReplicatedSuite (fun _ => ()) (fun _ => instantTrace) 5 1 () = (Except.ok (), w1) ∧
      (sampleArray w1.rest.latency "Sepolia" "avgLatency").length = 5 ∧
      (sampleArray w1.rest.throughput "Sepolia" "tps").length = 5 ∧
      (∀ v ∈ sampleArray w1.rest.throughput "Sepolia" "tps", v = ⊤) ∧
      (sampleArray w1.rest.scalabilitySepolia "batch_10" "tps").length = 5 := by
  obtain ⟨w1, hw⟩ := runReplications_ok (fun _ : String => ()) (fun _ => instantTrace)
    (fun _ => instantTrace_measured) (seedList 5 1) ⟨(), emptySamples⟩ emptySamples_ready
  have hw1 : runReplicatedSuite (fun _ => ()) (fun _ => instantTrace) 5 1 () =
      (Except.ok (), w1) := hw
  obtain ⟨_, _, h3, _, h5, _, _, _, h9, _⟩ := sampleArrays_after_run Unit (fun _ => ())
    (fun _ => instantTrace) 5 1 () w1 hw1
  refine ⟨w1, hw1, ?_, h3 (fun _ _ => Or.inl instantTrace_ops), ?_, ?_⟩
  · exact h5 fun _ _ => ⟨resolvedOp, List.mem_replicate.2 ⟨by decide, rfl⟩, _, rfl, rfl⟩
  · exact sampleArray_tps_of_instant (fun _ => ()) (fun _ => instantTrace) 5 1 () w1 hw1
      (fun _ => ⟨rfl, instantTrace_ops⟩)
  · have h10 := (h9 [10, 100, 1000, 10000] (fun _ _ => ⟨rfl, rfl⟩) "batch_10" "tps"
      (Or.inl rfl)).1
    rw [h10]
    decide

/-- C16 fails as stated: five replications, seeds 1 to 5, in which the operations of the
Sepolia latency test all reject complete, and the Sepolia `avgLatency` array of the
latency test is empty, because `pushMetric` skips the `undefined` mean. -/
theorem sampleArray_avgLatency_short :
    ∃ w1 : Runtime Unit (Samples (WithTop ℚ)),
      runReplicatedSuite (fun _ => ()) (fun _ => lostSepoliaTrace) 5 1 () =
        (Except.ok (), w1) ∧
      (sampleArray w1.rest.latency "Sepolia" "avgLatency").length = 0 := by
  obtain ⟨w1, hw⟩ := runReplications_ok (fun _ : String => ()) (fun _ => lostSepoliaTrace)
    (fun _ => lostSepoliaTrace_good.2) (seedList 5 1) ⟨(), emptySamples⟩ emptySamples_ready
  have hw1 : runReplicatedSuite (fun _ => ()) (fun _ => lostSepoliaTrace) 5 1 () =
      (Except.ok (), w1) := hw
  refine ⟨w1, hw1, ?_⟩
  rw [sampleArray_avgLatency_of_rejected (fun _ => ()) (fun _ => lostSepoliaTrace) 5 1 () w1
    hw1 (fun _ op hop => ⟨"timeout", (List.mem_replicate.1 hop).2 ▸ rfl⟩)]
  rfl

/-- C15 fails on the code: with the batch sizes `[0, 10]` the first Sepolia batch
launches no operation, the latency statistics of its collector are `null`, and
`testScalabilitySimulated` raises the `TypeError` of reading `mean` of `null` instead of
returning one row per batch size; the same happens when every operation of a batch
rejects. -/
theorem testScalabilitySimulated_empty_batch :
    testScalabilitySimulated ([⟨0, 0, 0, []⟩, measuredBatch 10] : List (Batch ℚ))
        [⟨0, 0, 0, []⟩, measuredBatch 10] =
      Except.error (JSError.typeError "mean") ∧
    testScalabilitySimulated
        ([⟨10, 0, 1000, List.replicate 10 (1000, Outcome.rejected "boom")⟩, measuredBatch 100] :
          List (Batch ℚ))
        [measuredBatch 10, measuredBatch 100] =
      Except.error (JSError.typeError "mean") := by
  constructor
  · unfold testScalabilitySimulated
    simp only [scalabilityRows, scalabilityRow_all_rejected Network.sepolia
      (⟨0, 0, 0, []⟩ : Batch ℚ) (fun op hop => absurd hop (List.not_mem_nil op))]
  · unfold testScalabilitySimulated
    simp only [scalabilityRows, scalabilityRow_all_rejected Network.sepolia
      (⟨10, 0, 1000, List.replicate 10 (1000, Outcome.rejected "boom")⟩ : Batch ℚ)
      (fun op hop => ⟨"boom", by rw [List.eq_of_mem_replicate hop]⟩)]

/-- With batches of sizes 10 and 100 in which every operation resolves, the scalability
test returns two rows per network, of batch sizes 10 and 100. -/
theorem testScalabilitySimulated_rows_witness :
    ∃ (s i : List (ScalabilityRow ℚ)),
      testScalabilitySimulated ([10, 100].map measuredBatch) ([10, 100].map measuredBatch) =
        Except.ok (s, i) ∧
      s.length = 2 ∧ i.length = 2 ∧
      (s.map fun row => row.batchSize) = [10, 100] ∧
      (i.map fun row => row.batchSize) = [10, 100] := by
  have hgood : ∀ b ∈ [10, 100].map measuredBatch,
      ∃ op ∈ b.ops, ∃ r, op.2 = Outcome.resolved r ∧ r.latency.isSome := by
    intro b hb
    obtain ⟨n, hn, rfl⟩ := List.mem_map.1 hb
    apply resolvedOp_mem
    rintro rfl
    simp at hn
  obtain ⟨s, i, h1, h2, h3, h4, h5, _⟩ :=
    testScalabilitySimulated_rows ([10, 100].map measuredBatch) ([10, 100].map measuredBatch)
      hgood hgood
  exact ⟨s, i, h1, h2, h3, h4, h5⟩

end OrchestratorTheorems

section SamplerTheorems3

variable {α : Type} [LinearOrderedField α]

/-- C23: for uniform draws and `spikeMin <= spikeMax`, `maybeSpike` returns `ms` unchanged
after one draw when that draw is `>= spikeProb`, and otherwise returns `ms + e` with
`e = spikeMin + u*(spikeMax - spikeMin)` for the second draw `u`, where
`spikeMin <= e <= spikeMax`; with `spikeMin >= 0` the result is never less than `ms`. -/
theorem maybeSpike_spec (ms spikeProb spikeMin spikeMax : α) (r : RandomSource α)
    (hu : r.Uniform) (hle : spikeMin ≤ spikeMax) :
    (spikeProb ≤ r.stream r.pos →
        maybeSpike ms spikeProb spikeMin spikeMax r = (ms, ⟨r.stream, r.pos + 1⟩)) ∧
      (r.stream r.pos < spikeProb →
        maybeSpike ms spikeProb spikeMin spikeMax r =
            (ms + (spikeMin + r.stream (r.pos + 1) * (spikeMax - spikeMin)),
              ⟨r.stream, r.pos + 1 + 1⟩) ∧
          spikeMin ≤ spikeMin + r.stream (r.pos + 1) * (spikeMax - spikeMin) ∧
          spikeMin + r.stream (r.pos + 1) * (spikeMax - spikeMin) ≤ spikeMax) ∧
      (0 ≤ spikeMin → ms ≤ (maybeSpike ms spikeProb spikeMin spikeMax r).1) := by
  have h0 : 0 ≤ r.stream (r.pos + 1) := (hu (r.pos + 1)).1
  have h1 : r.stream (r.pos + 1) < 1 := (hu (r.pos + 1)).2
  have hd : 0 ≤ spikeMax - spikeMin := sub_nonneg.2 hle
  refine ⟨?_, ?_, fun hmin => maybeSpike_ge ms spikeProb spikeMin spikeMax r hmin hle hu⟩
  · intro h
    unfold maybeSpike
    simp only [RandomSource.random, not_lt.2 h, if_false]
  · intro h
    refine ⟨?_, ?_, ?_⟩
    · unfold maybeSpike
      simp only [RandomSource.random, h, if_true]
    · have := mul_nonneg h0 hd
      linarith
    · have : r.stream (r.pos + 1) * (spikeMax - spikeMin) ≤ 1 * (spikeMax - spikeMin) :=
        mul_le_mul_of_nonneg_right h1.le hd
      linarith

/-- Witness of C23 over the rationals: `maybeSpike(90, {0.01, 400, 1500})` on the draws
`0, 0.5` spikes and returns `90 + (400 + 0.5 * 1100) = 1040`. -/
theorem maybeSpike_spec_witness :
    (maybeSpike (90 : ℚ) (1 / 100) 400 1500 ⟨fun i => if i = 0 then 0 else 1 / 2, 0⟩).1 =
      1040 := by
  have h := (maybeSpike_spec (90 : ℚ) (1 / 100) 400 1500
    ⟨fun i => if i = 0 then 0 else 1 / 2, 0⟩
    (fun i => by
      show (0 : ℚ) ≤ (if i = 0 then 0 else 1 / 2) ∧ (if i = 0 then 0 else 1 / 2 : ℚ) < 1
      split_ifs <;> norm_num)
    (by norm_num)).2.1 (by norm_num)
  rw [h.1]
  norm_num

/-- C24: for uniform draws `r1`, `r2` in `[0,1)`, `randn` takes the logarithm at
`u = 1 - r1`, which lies in `(0,1]`, so never at zero; the argument `-2*ln(u)` of the
square root is `>= 0`; and the result is the real number
`sqrt(-2 ln(1 - r1)) * cos(2*pi*(1 - r2))`, of absolute value at most
`sqrt(-2 ln(1 - r1))`. -/
theorem randn_finite (r : RandomSource ℝ) (hu : r.Uniform) :
    0 < 1 - r.stream r.pos ∧ 1 - r.stream r.pos ≤ 1 ∧
      0 ≤ -2 * Real.log (1 - r.stream r.pos) ∧
      (randn (JSMath.mk Real.sqrt Real.log Real.exp Real.cos (fun x y => x ^ y) Real.pi) r).1 =
        Real.sqrt (-2 * Real.log (1 - r.stream r.pos)) *
          Real.cos (2 * Real.pi * (1 - r.stream (r.pos + 1))) ∧
      Real.sqrt (-2 * Real.log (1 - r.stream r.pos)) ^ 2 =
        -2 * Real.log (1 - r.stream r.pos) ∧
      |(randn (JSMath.mk Real.sqrt Real.log Real.exp Real.cos (fun x y => x ^ y) Real.pi) r).1| ≤ Real.sqrt (-2 * Real.log (1 - r.stream r.pos)) ∧
      (randn (JSMath.mk Real.sqrt Real.log Real.exp Real.cos (fun x y => x ^ y) Real.pi) r).2 = ⟨r.stream, r.pos + 1 + 1⟩ := by
  have h0 := (hu r.pos).1
  have h1 := (hu r.pos).2
  have hpos : 0 < 1 - r.stream r.pos := by linarith
  have hle : 1 - r.stream r.pos ≤ 1 := by linarith
  have hlog : Real.log (1 - r.stream r.pos) ≤ 0 := Real.log_nonpos hpos.le hle
  have hnn : 0 ≤ -2 * Real.log (1 - r.stream r.pos) := by linarith
  refine ⟨hpos, hle, hnn, randn_real r, Real.sq_sqrt hnn, ?_, rfl⟩
  rw [randn_real, abs_mul, abs_of_nonneg (Real.sqrt_nonneg _)]
  calc Real.sqrt (-2 * Real.log (1 - r.stream r.pos)) *
        |Real.cos (2 * Real.pi * (1 - r.stream (r.pos + 1)))|
      ≤ Real.sqrt (-2 * Real.log (1 - r.stream r.pos)) * 1 :=
        mul_le_mul_of_nonneg_left (Real.abs_cos_le_one _) (Real.sqrt_nonneg _)
    _ = Real.sqrt (-2 * Real.log (1 - r.stream r.pos)) := mul_one _

/-- Witness of C24: on the draws `0, 0, ...` the logarithm is taken at `u = 1` and
`randn` is the real number `0`. -/
theorem randn_finite_witness :
    (0 : ℝ) < 1 - 0 ∧ (randn (JSMath.mk Real.sqrt Real.log Real.exp Real.cos (fun x y => x ^ y) Real.pi) ⟨fun _ => 0, 0⟩).1 = 0 :=
  ⟨(randn_finite ⟨fun _ => 0, 0⟩ (fun _ => ⟨le_refl 0, zero_lt_one⟩)).1,
    randn_zero_draws ⟨fun _ => 0, 0⟩ rfl⟩

/-- C30 as amended: `lognormal` matches its two named quantiles up to the rounding of
`Math.exp` and `Math.log`.  For every rounding `fl` and all `Math` functions, the value at
the standard normal draw `z = 0` is `max(1, Math.exp(Math.log(medianMs)))`, which for
`medianMs >= 1` is exactly `medianMs` when `Math.exp` inverts `Math.log` at `medianMs`;
for a monotone rounding and a monotone `Math.exp`, with
`Math.log(medianMs) <= Math.log(p95Ms)`, the value is non-decreasing in `z`.  In exact
arithmetic with the real exponential and logarithm, the value at `z = 0` is `medianMs`
for `medianMs >= 1` and the value at `z = 1.6448536269514722` is `p95Ms` for
`medianMs > 0` and `p95Ms >= 1`. -/
theorem lognormalAt_quantiles (fl : ℝ → ℝ) (M : JSMath ℝ) (medianMs p95Ms : ℝ)
    (h0 : fl 0 = 0) (hmu : fl (M.log medianMs) = M.log medianMs) :
    lognormalAt fl M medianMs p95Ms 0 = Max.max 1 (M.exp (M.log medianMs)) ∧
      (1 ≤ medianMs → M.exp (M.log medianMs) = medianMs →
        lognormalAt fl M medianMs p95Ms 0 = medianMs) ∧
      ((∀ x y : ℝ, x ≤ y → fl x ≤ fl y) → (∀ x y : ℝ, x ≤ y → M.exp x ≤ M.exp y) →
        0 < fl 1.6448536269514722 → M.log medianMs ≤ M.log p95Ms →
        ∀ z1 z2 : ℝ, z1 ≤ z2 →
          lognormalAt fl M medianMs p95Ms z1 ≤ lognormalAt fl M medianMs p95Ms z2) ∧
      (∀ r : RandomSource ℝ, lognormal M medianMs p95Ms r =
        (lognormalAt id M medianMs p95Ms (randn M r).1, (randn M r).2)) ∧
      (1 ≤ medianMs →
        lognormalAt id (JSMath.mk Real.sqrt Real.log Real.exp Real.cos (fun x y => x ^ y) Real.pi) medianMs p95Ms 0 = medianMs) ∧
      (0 < medianMs → 1 ≤ p95Ms →
        lognormalAt id (JSMath.mk Real.sqrt Real.log Real.exp Real.cos (fun x y => x ^ y) Real.pi) medianMs p95Ms 1.6448536269514722 =
          p95Ms) := by
  have hz : (0 : ℝ) < 1.6448536269514722 := by norm_num
  refine ⟨lognormalAt_zero fl M medianMs p95Ms h0 hmu, ?_, ?_, fun r => rfl, ?_, ?_⟩
  · intro hm hinv
    rw [lognormalAt_zero fl M medianMs p95Ms h0 hmu, hinv]
    exact max_eq_right hm
  · intro hfl hexp hz95 hlog z1 z2 hle
    exact lognormalAt_mono fl M medianMs p95Ms hfl h0 hexp hz95 hlog z1 z2 hle
  · intro hm
    rw [lognormalAt_zero id _ medianMs p95Ms rfl rfl]
    show Max.max 1 (Real.exp (Real.log medianMs)) = medianMs
    rw [Real.exp_log (by linarith)]
    exact max_eq_right hm
  · intro hm hp
    show Max.max 1 (Real.exp (Real.log medianMs +
      (Real.log p95Ms - Real.log medianMs) / 1.6448536269514722 * 1.6448536269514722)) = p95Ms
    rw [div_mul_cancel₀ _ hz.ne', add_sub_cancel, Real.exp_log (by linarith)]
    exact max_eq_right hp

/-- Witness of C30 as amended, with the rounding of doubles and correctly rounded `Math`
functions for `lognormal({medianMs: 90, p95Ms: 250})`: the value at `z = 0` is
`max(1, Math.exp(Math.log(90)))` and the value is non-decreasing in `z`; in exact
arithmetic the value at `z = 1.6448536269514722` is `250`. -/
theorem lognormalAt_quantiles_witness :
    roundDouble (0 : ℝ) = 0 ∧
      roundDouble (roundDouble (Real.log 90)) = roundDouble (Real.log 90) ∧
      lognormalAt roundDouble (JSMath.mk (fun x => roundDouble (Real.sqrt x)) (fun x => roundDouble (Real.log x)) (fun x => roundDouble (Real.exp x)) (fun x => roundDouble (Real.cos x)) (fun x y => roundDouble (x ^ y)) (roundDouble Real.pi)) 90 250 0 =
        Max.max 1 (roundDouble (Real.exp (roundDouble (Real.log 90)))) ∧
      (∀ z1 z2 : ℝ, z1 ≤ z2 →
        lognormalAt roundDouble (JSMath.mk (fun x => roundDouble (Real.sqrt x)) (fun x => roundDouble (Real.log x)) (fun x => roundDouble (Real.exp x)) (fun x => roundDouble (Real.cos x)) (fun x y => roundDouble (x ^ y)) (roundDouble Real.pi)) 90 250 z1 ≤
          lognormalAt roundDouble (JSMath.mk (fun x => roundDouble (Real.sqrt x)) (fun x => roundDouble (Real.log x)) (fun x => roundDouble (Real.exp x)) (fun x => roundDouble (Real.cos x)) (fun x y => roundDouble (x ^ y)) (roundDouble Real.pi)) 90 250 z2) ∧
      lognormalAt id (JSMath.mk Real.sqrt Real.log Real.exp Real.cos (fun x y => x ^ y) Real.pi) 90 250 1.6448536269514722 = 250 := by
  have h := lognormalAt_quantiles roundDouble
    (JSMath.mk (fun x => roundDouble (Real.sqrt x)) (fun x => roundDouble (Real.log x)) (fun x => roundDouble (Real.exp x)) (fun x => roundDouble (Real.cos x)) (fun x y => roundDouble (x ^ y)) (roundDouble Real.pi))
    90 250 roundDouble_zero (roundDouble_idem (Real.log 90))
  refine ⟨roundDouble_zero, roundDouble_idem _, h.1, ?_, h.2.2.2.2.2 (by norm_num) (by norm_num)⟩
  refine h.2.2.1 roundDouble_mono
    (fun x y hxy => roundDouble_mono _ _ (Real.exp_le_exp.2 hxy)) ?_
    (roundDouble_mono _ _ (Real.log_le_log (by norm_num) (by norm_num)))
  exact lt_of_lt_of_le (zpow_pos (by norm_num) _)
    (roundDouble_pos_bounds (1.6448536269514722 : ℝ) (by norm_num)).1

/-- C30 fails as stated: with the rounding of doubles and correctly rounded `Math`
functions, on the draws `0, 0` (for which `randn()` is `0`) the call
`lognormal({medianMs: 70, p95Ms: 180})` of `simulateIOTALatency` returns
`Math.exp(Math.log(70))`, where `Math.log(70)` is `4783380397244705 * 2^-50` and its
exponential rounds to `70 + 2^-45`, that is `70.00000000000003`, not `70`. -/
theorem lognormal_seventy :
    (randn (JSMath.mk (fun x => roundDouble (Real.sqrt x)) (fun x => roundDouble (Real.log x)) (fun x => roundDouble (Real.exp x)) (fun x => roundDouble (Real.cos x)) (fun x y => roundDouble (x ^ y)) (roundDouble Real.pi))
        ⟨fun _ => 0, 0⟩).1 = 0 ∧
      roundDouble (Real.log 70) = 4783380397244705 / 2 ^ 50 ∧
      (lognormal (JSMath.mk (fun x => roundDouble (Real.sqrt x)) (fun x => roundDouble (Real.log x)) (fun x => roundDouble (Real.exp x)) (fun x => roundDouble (Real.cos x)) (fun x y => roundDouble (x ^ y)) (roundDouble Real.pi))
        70 180 ⟨fun _ => 0, 0⟩).1 = 70 + 1 / 2 ^ 45 ∧
      lognormalAt roundDouble (JSMath.mk (fun x => roundDouble (Real.sqrt x)) (fun x => roundDouble (Real.log x)) (fun x => roundDouble (Real.exp x)) (fun x => roundDouble (Real.cos x)) (fun x y => roundDouble (x ^ y)) (roundDouble Real.pi)) 70 180 0 =
        70 + 1 / 2 ^ 45 ∧
      (70 + 1 / 2 ^ 45 : ℝ) ≠ 70 := by
  have hv : Max.max (1 : ℝ) (roundDouble (Real.exp (roundDouble (Real.log 70)))) =
      70 + 1 / 2 ^ 45 := by
    rw [roundDouble_log_seventy, roundDouble_exp_log_seventy]
    exact max_eq_right (by norm_num)
  refine ⟨randn_rounded_zero_draws, roundDouble_log_seventy, ?_, ?_, by norm_num⟩
  · show lognormalAt id _ 70 180 (randn _ ⟨fun _ => 0, 0⟩).1 = _
    rw [randn_rounded_zero_draws, lognormalAt_zero id _ 70 180 rfl rfl]
    exact hv
  · rw [lognormalAt_zero roundDouble _ 70 180 roundDouble_zero (roundDouble_idem _)]
    exact hv

end SamplerTheorems3

section StatsTheorems

variable {α : Type} [LinearOrderedField α] [FloorRing α]

/-- C26 as amended: for every non-empty list of numbers and every rounding `fl` of the
sum and of the mean, the statistics returned by `calculateStats` are all defined and
ordered `min <= median <= p95 <= p99 <= max`; and `min <= mean <= max` when the values
are representable (`fl` leaves them unchanged), the rounding is monotone, as that of
doubles is, and the running sum is computed without rounding error (as for latencies in
whole milliseconds that add up to less than `2^53`). -/
theorem calculateStatsRounded_ordered (fl : α → α) (values : List α) (hne : values ≠ []) :
    ∃ (st : Stats α) (lo med p95 p99 hi avg : α),
      MetricsCollector.calculateStatsRounded fl values = some st ∧
      st.min = some lo ∧ st.median = some med ∧ st.p95 = some p95 ∧
      st.p99 = some p99 ∧ st.max = some hi ∧ st.mean = some avg ∧
      lo ≤ med ∧ med ≤ p95 ∧ p95 ≤ p99 ∧ p99 ≤ hi ∧
      ((∀ x y : α, x ≤ y → fl x ≤ fl y) → (∀ x ∈ values, fl x = x) →
        values.foldl (fun a b => fl (a + b)) 0 = values.sum → lo ≤ avg ∧ avg ≤ hi) := by
  have hs : (values.insertionSort (· ≤ ·)).Sorted (· ≤ ·) := List.sorted_insertionSort _ _
  have hlen : (values.insertionSort (· ≤ ·)).length = values.length :=
    List.length_insertionSort _ _
  have hpos : 0 < values.length := List.length_pos.2 hne
  obtain ⟨lo, med, h1, h2, h12⟩ := sorted_getElem?_le _ hs 0 (values.length / 2)
    (Nat.zero_le _) (by rw [hlen]; omega)
  obtain ⟨med1, p95, h3, h4, h34⟩ := sorted_getElem?_le _ hs (values.length / 2)
    (values.length * 95 / 100) (by omega) (by rw [hlen]; omega)
  obtain ⟨p951, p99, h5, h6, h56⟩ := sorted_getElem?_le _ hs (values.length * 95 / 100)
    (values.length * 99 / 100) (by omega) (by rw [hlen]; omega)
  obtain ⟨p991, hi, h7, h8, h78⟩ := sorted_getElem?_le _ hs (values.length * 99 / 100)
    (values.length - 1) (by omega) (by rw [hlen]; omega)
  have e1 : med1 = med := Option.some.inj (h3.symm.trans h2)
  have e2 : p951 = p95 := Option.some.inj (h5.symm.trans h4)
  have e3 : p991 = p99 := Option.some.inj (h7.symm.trans h6)
  subst e1 e2 e3
  have hb : ∀ x ∈ values, lo ≤ x ∧ x ≤ hi := by
    intro x hx
    exact sorted_bounds _ hs lo hi h1 (by rw [hlen]; exact h8) x
      ((List.perm_insertionSort _ _).mem_iff.2 hx)
  have hn : (0 : α) < (values.length : α) := by exact_mod_cast hpos
  have hlo : lo ∈ values :=
    (List.perm_insertionSort _ _).mem_iff.1 (List.mem_iff_getElem?.2 ⟨_, h1⟩)
  have hhi : hi ∈ values :=
    (List.perm_insertionSort _ _).mem_iff.1 (List.mem_iff_getElem?.2 ⟨_, h8⟩)
  refine ⟨_, lo, med1, p951, p991, hi,
    fl (values.foldl (fun a b => fl (a + b)) 0 / (values.length : α)),
    calculateStatsRounded_eq fl values hne, h1, h2, h4, h6, h8, rfl, h12, h34, h56, h78, ?_⟩
  intro hmono hfix hsum
  rw [hsum]
  constructor
  · rw [← hfix lo hlo]
    apply hmono
    rw [le_div_iff₀ hn, mul_comm]
    exact le_sum_of_forall_le values lo fun x hx => (hb x hx).1
  · rw [← hfix hi hhi]
    apply hmono
    rw [div_le_iff₀ hn, mul_comm]
    exact sum_le_of_forall_le values hi fun x hx => (hb x hx).2

/-- Witness of C26 as amended over the rationals with the rounding of doubles, on the
list `[4, 1, 2]`, whose mean `7/3` is not representable. -/
theorem calculateStatsRounded_ordered_witness :
    ∃ (st : Stats ℚ) (lo med p95 p99 hi avg : ℚ),
      MetricsCollector.calculateStatsRounded roundDouble [4, 1, 2] = some st ∧
      st.min = some lo ∧ st.median = some med ∧ st.p95 = some p95 ∧
      st.p99 = some p99 ∧ st.max = some hi ∧ st.mean = some avg ∧
      lo ≤ med ∧ med ≤ p95 ∧ p95 ≤ p99 ∧ p99 ≤ hi ∧ lo ≤ avg ∧ avg ≤ hi := by
  obtain ⟨st, lo, med, p95, p99, hi, avg, h1, h2, h3, h4, h5, h6, h7, h8, h9, h10, h11, h12⟩ :=
    calculateStatsRounded_ordered roundDouble ([4, 1, 2] : List ℚ) (by simp)
  have r : ∀ n : ℤ, |n| ≤ 2 ^ 53 → roundDouble ((n : ℤ) : ℚ) = ((n : ℤ) : ℚ) :=
    fun n h => roundDouble_intCast n h
  have hfix : ∀ x ∈ ([4, 1, 2] : List ℚ), roundDouble x = x := by
    intro x hx
    simp only [List.mem_cons, List.mem_singleton, List.not_mem_nil, or_false] at hx
    rcases hx with rfl | rfl | rfl
    · exact_mod_cast r 4 (by norm_num)
    · exact_mod_cast r 1 (by norm_num)
    · exact_mod_cast r 2 (by norm_num)
  have hsum : ([4, 1, 2] : List ℚ).foldl (fun a b => roundDouble (a + b)) 0 =
      ([4, 1, 2] : List ℚ).sum := by
    have a1 : roundDouble ((0 : ℚ) + 4) = 4 := by
      rw [zero_add]
      exact_mod_cast r 4 (by norm_num)
    have a2 : roundDouble ((4 : ℚ) + 1) = 5 := by
      have e : (4 : ℚ) + 1 = ((5 : ℤ) : ℚ) := by norm_num
      rw [e]
      exact_mod_cast r 5 (by norm_num)
    have a3 : roundDouble ((5 : ℚ) + 2) = 7 := by
      have e : (5 : ℚ) + 2 = ((7 : ℤ) : ℚ) := by norm_num
      rw [e]
      exact_mod_cast r 7 (by norm_num)
    simp only [List.foldl_cons, List.foldl_nil, a1, a2, a3]
    norm_num
  exact ⟨st, lo, med, p95, p99, hi, avg, h1, h2, h3, h4, h5, h6, h7, h8, h9, h10, h11,
    h12 roundDouble_mono hfix hsum⟩

/-- C26 fails as stated: for the list `[0.1, 0.1, 0.1]` in doubles `calculateStats`
returns the maximum `0.1` and the mean `0.10000000000000002`, the rounding of
`0.30000000000000004 / 3`, which is greater than the maximum. -/
theorem calculateStatsRounded_tenth :
    ∃ st : Stats ℚ,
      MetricsCollector.calculateStatsRounded roundDouble [tenth, tenth, tenth] = some st ∧
      st.max = some tenth ∧ st.mean = some (7205759403792795 / 2 ^ 56) ∧
      ¬ (7205759403792795 / 2 ^ 56 : ℚ) ≤ tenth := by
  refine ⟨_, calculateStatsRounded_eq roundDouble [tenth, tenth, tenth] (by simp), ?_, ?_, ?_⟩
  · simp [List.insertionSort, List.orderedInsert]
  · have h3 : (([(tenth : ℚ), tenth, tenth].length : ℕ) : ℚ) = 3 := by
      simp only [List.length_cons, List.length_nil]
      norm_num
    show some (roundDouble
      (([(tenth : ℚ), tenth, tenth].foldl (fun a b => roundDouble (a + b)) 0) /
        (([(tenth : ℚ), tenth, tenth].length : ℕ) : ℚ))) = _
    rw [roundDouble_tenth_sum, h3, roundDouble_tenth_mean]
  · norm_num [tenth]

/-- C29: the percentile indices are `floor(n*q)`, so `calculateStats` returns `p95 = max`
for every list of `1 <= n <= 20` values and `p99 = max` for every list of
`1 <= n <= 100` values, while for `n = 21` the `p95` is the second largest value (index
19 of the sorted copy, the maximum being at index 20) and for `n = 101` the `p99` is the
second largest value (index 99, the maximum being at index 100). -/
theorem calculateStats_percentiles (values : List α) (st : Stats α)
    (h : MetricsCollector.calculateStats values = some st) :
    1 ≤ values.length ∧
      (values.length ≤ 20 → st.p95 = st.max) ∧
      (values.length ≤ 100 → st.p99 = st.max) ∧
      (values.length = 21 →
        ∃ second largest : α,
          (values.insertionSort (· ≤ ·))[19]? = some second ∧
          (values.insertionSort (· ≤ ·))[20]? = some largest ∧
          st.p95 = some second ∧ st.max = some largest ∧ second ≤ largest) ∧
      (values.length = 101 →
        ∃ second largest : α,
          (values.insertionSort (· ≤ ·))[99]? = some second ∧
          (values.insertionSort (· ≤ ·))[100]? = some largest ∧
          st.p99 = some second ∧ st.max = some largest ∧ second ≤ largest) := by
  have hne : values ≠ [] := by
    rintro rfl
    simp [MetricsCollector.calculateStats] at h
  have hs : (values.insertionSort (· ≤ ·)).Sorted (· ≤ ·) := List.sorted_insertionSort _ _
  have hlen : (values.insertionSort (· ≤ ·)).length = values.length :=
    List.length_insertionSort _ _
  have hpos : 0 < values.length := List.length_pos.2 hne
  rw [calculateStats_eq values hne] at h
  have hst := Option.some.inj h
  subst hst
  refine ⟨hpos, ?_, ?_, ?_, ?_⟩
  · intro h20
    have e : values.length * 95 / 100 = values.length - 1 := by omega
    show (values.insertionSort (· ≤ ·))[values.length * 95 / 100]? = _
    rw [e]
  · intro h100
    have e : values.length * 99 / 100 = values.length - 1 := by omega
    show (values.insertionSort (· ≤ ·))[values.length * 99 / 100]? = _
    rw [e]
  · intro h21
    obtain ⟨a, b, h1, h2, h3⟩ := sorted_getElem?_le _ hs 19 20 (by omega)
      (by rw [hlen]; omega)
    refine ⟨a, b, h1, h2, ?_, ?_, h3⟩
    · show (values.insertionSort (· ≤ ·))[values.length * 95 / 100]? = _
      rw [h21]
      exact h1
    · show (values.insertionSort (· ≤ ·))[values.length - 1]? = _
      rw [h21]
      exact h2
  · intro h101
    obtain ⟨a, b, h1, h2, h3⟩ := sorted_getElem?_le _ hs 99 100 (by omega)
      (by rw [hlen]; omega)
    refine ⟨a, b, h1, h2, ?_, ?_, h3⟩
    · show (values.insertionSort (· ≤ ·))[values.length * 99 / 100]? = _
      rw [h101]
      exact h1
    · show (values.insertionSort (· ≤ ·))[values.length - 1]? = _
      rw [h101]
      exact h2

/-- Witness of C29 over the rationals: on the three values `[5, 3, 8]` the `p95` and the
`p99` are the maximum. -/
theorem calculateStats_percentiles_witness :
    ∃ st : Stats ℚ, MetricsCollector.calculateStats [5, 3, 8] = some st ∧
      st.p95 = st.max ∧ st.p99 = st.max :=
  ⟨_, calculateStats_eq [5, 3, 8] (by simp),
    (calculateStats_percentiles [5, 3, 8] _ (calculateStats_eq [5, 3, 8] (by simp))).2.1
      (by decide),
    (calculateStats_percentiles [5, 3, 8] _ (calculateStats_eq [5, 3, 8] (by simp))).2.2.1
      (by decide)⟩

end StatsTheorems

section ClientTheorems

/-- C25 fails on the code: on a client on which a real transaction is possible, three
consecutive calls of `submitBlock` whose real transaction fails each call
`sendRealTransaction` again (only the warning is given once); `submitBlock` never
changes `canReal`, and it calls `sendRealTransaction` exactly when `canReal` holds. -/
theorem submitBlock_retries_real :
    (realClient.submitBlocks [false, false, false]).1 =
        [[ClientCall.sendRealTransaction, ClientCall.warn, ClientCall.sendDummyBlock],
          [ClientCall.sendRealTransaction, ClientCall.sendDummyBlock],
          [ClientCall.sendRealTransaction, ClientCall.sendDummyBlock]] ∧
      (∀ (b : Bool) (c : IOTAClient), (c.submitBlock b).2.canReal = c.canReal) ∧
      (∀ (b : Bool) (c : IOTAClient),
        ClientCall.sendRealTransaction ∈ (c.submitBlock b).1 ↔ c.canReal = true) :=
  ⟨by decide, submitBlock_canReal, submitBlock_calls⟩

end ClientTheorems

section LatencyTheorems

variable {α : Type} [LinearOrderedField α] [FloorRing α]

/-- C22 as amended: when every wait lasts exactly its requested delay, the total of each
latency model is the sum of its three waited delays, and the components of the
breakdown, of which the round trip (Ethereum) and all three delays (IOTA) are rounded to
integers, sum to within `0.5` (Ethereum) or `1.5` (IOTA) of the total; the sum equals
the total exactly when the rounded delays are integers. -/
theorem breakdown_sum_rounded (M : JSMath α) (fuel : Nat) (r : RandomSource α) :
    (∀ (p b s : α) (res : EthereumLatency α) (r1 : RandomSource α),
      simulateEthereumLatency M id fuel p b s r = some (res, r1) →
        res.totalMs = (ethereumRtt M r).1 + res.inclusionDelayMs + res.confirmDelayMs ∧
        res.breakdown.rtt = jsRound (ethereumRtt M r).1 ∧
        res.breakdown.inclusion = res.inclusionDelayMs ∧
        res.breakdown.confirmation = res.confirmDelayMs ∧
        |res.breakdown.rtt + res.breakdown.inclusion + res.breakdown.confirmation
            - res.totalMs| ≤ 1 / 2 ∧
        (res.breakdown.rtt + res.breakdown.inclusion + res.breakdown.confirmation
            = res.totalMs ↔ jsRound (ethereumRtt M r).1 = (ethereumRtt M r).1)) ∧
      (∀ (res : IOTALatency α) (r1 : RandomSource α),
        simulateIOTALatency M id fuel r = Run.done (res, r1) →
          ∃ confirm : α,
            gamma M fuel 3 270
                (truncatedNormal M 180 60 80 (WithTop.some 400) (iotaGossip M r).2).2 =
              Run.done (confirm, r1) ∧
            res.totalMs = (iotaGossip M r).1 +
              (truncatedNormal M 180 60 80 (WithTop.some 400) (iotaGossip M r).2).1 +
              confirm ∧
            res.breakdown = ⟨jsRound (iotaGossip M r).1,
              jsRound (truncatedNormal M 180 60 80 (WithTop.some 400) (iotaGossip M r).2).1,
              jsRound confirm⟩ ∧
            |res.breakdown.gossip + res.breakdown.solidification +
                res.breakdown.confirmation - res.totalMs| ≤ 3 / 2 ∧
            (jsRound (iotaGossip M r).1 = (iotaGossip M r).1 →
              jsRound (truncatedNormal M 180 60 80 (WithTop.some 400) (iotaGossip M r).2).1
                = (truncatedNormal M 180 60 80 (WithTop.some 400) (iotaGossip M r).2).1 →
              jsRound confirm = confirm →
              res.breakdown.gossip + res.breakdown.solidification +
                res.breakdown.confirmation = res.totalMs)) := by
  constructor
  · intro p b s res r1 h
    obtain ⟨k, _, hres⟩ := simulateEthereumLatency_eq M id fuel p b s r res r1 h
    subst hres
    have ha := abs_jsRound_sub (ethereumRtt M r).1
    refine ⟨rfl, rfl, rfl, rfl, ?_, ?_⟩
    · show |jsRound (ethereumRtt M r).1 + (k : α) * b + s * b -
        ((ethereumRtt M r).1 + (k : α) * b + s * b)| ≤ 1 / 2
      have e : jsRound (ethereumRtt M r).1 + (k : α) * b + s * b -
          ((ethereumRtt M r).1 + (k : α) * b + s * b) =
          jsRound (ethereumRtt M r).1 - (ethereumRtt M r).1 := by ring
      rw [e]
      exact ha
    · show jsRound (ethereumRtt M r).1 + (k : α) * b + s * b =
        (ethereumRtt M r).1 + (k : α) * b + s * b ↔ _
      constructor
      · intro h1
        linarith
      · intro h1
        rw [h1]
  · intro res r1 h
    obtain ⟨confirm, hg, hres⟩ := simulateIOTALatency_eq M id fuel r res r1 h
    subst hres
    refine ⟨confirm, hg, rfl, rfl, ?_, ?_⟩
    · have h1 := abs_le.1 (abs_jsRound_sub (iotaGossip M r).1)
      have h2 := abs_le.1 (abs_jsRound_sub
        (truncatedNormal M 180 60 80 (WithTop.some 400) (iotaGossip M r).2).1)
      have h3 := abs_le.1 (abs_jsRound_sub confirm)
      rw [abs_le]
      constructor
      · show -(3 / 2) ≤ jsRound (iotaGossip M r).1 +
          jsRound (truncatedNormal M 180 60 80 (WithTop.some 400) (iotaGossip M r).2).1 +
          jsRound confirm - ((iotaGossip M r).1 +
          (truncatedNormal M 180 60 80 (WithTop.some 400) (iotaGossip M r).2).1 + confirm)
        linarith [h1.1, h2.1, h3.1]
      · show jsRound (iotaGossip M r).1 +
          jsRound (truncatedNormal M 180 60 80 (WithTop.some 400) (iotaGossip M r).2).1 +
          jsRound confirm - ((iotaGossip M r).1 +
          (truncatedNormal M 180 60 80 (WithTop.some 400) (iotaGossip M r).2).1 + confirm)
          ≤ 3 / 2
        linarith [h1.2, h2.2, h3.2]
    · intro e1 e2 e3
      show jsRound (iotaGossip M r).1 +
          jsRound (truncatedNormal M 180 60 80 (WithTop.some 400) (iotaGossip M r).2).1 +
          jsRound confirm = (iotaGossip M r).1 +
          (truncatedNormal M 180 60 80 (WithTop.some 400) (iotaGossip M r).2).1 + confirm
      rw [e1, e2, e3]

/-- Witness of C22 as amended, over the reals with the real `Math` functions and exact
waits: on the draws `0, 0, ...` the round trip is the integer `490`, and the breakdown
`490 + 12000 + 12000` is the total `24490`. -/
theorem breakdown_sum_rounded_witness :
    simulateEthereumLatency (JSMath.mk Real.sqrt Real.log Real.exp Real.cos (fun x y => x ^ y) Real.pi) id 1 0.8 12000 1 ⟨fun _ => 0, 0⟩ =
        some
          (⟨490, 1, 12000, 12000, 490 + 12000 + 12000, ⟨490, 12000, 12000⟩⟩,
            ⟨fun _ => 0, 5⟩) ∧
      |(490 : ℝ) + 12000 + 12000 - (490 + 12000 + 12000)| ≤ 1 / 2 :=
  ⟨simulateEthereumLatency_zero_stream id 0,
    ((breakdown_sum_rounded (JSMath.mk Real.sqrt Real.log Real.exp Real.cos (fun x y => x ^ y) Real.pi) 1 ⟨fun _ => 0, 0⟩).1 0.8 12000 1 _ _
      (simulateEthereumLatency_zero_stream id 0)).2.2.2.2.1⟩

/-- C22 fails as stated: with exact waits, on the uniform draws `0, 0, 0, 1/2200, 0, ...`
the round trip is `490.5` ms, so `simulateEthereumLatency` returns the breakdown
`491 + 12000 + 12000 = 24491` with the total `24490.5`. -/
theorem breakdown_sum_off :
    (⟨halfStream, 0⟩ : RandomSource ℝ).Uniform ∧
      ∃ (res : EthereumLatency ℝ) (r1 : RandomSource ℝ),
        simulateEthereumLatency (JSMath.mk Real.sqrt Real.log Real.exp Real.cos (fun x y => x ^ y) Real.pi) id 1 0.8 12000 1 ⟨halfStream, 0⟩ = some (res, r1) ∧
        res.breakdown.rtt + res.breakdown.inclusion + res.breakdown.confirmation = 24491 ∧
        res.totalMs = 24490 + 1 / 2 ∧
        res.breakdown.rtt + res.breakdown.inclusion + res.breakdown.confirmation
          ≠ res.totalMs := by
  have hr : jsRound ((490 : ℝ) + 1 / 2) = 491 := by
    have := jsRound_half 490
    norm_num at this ⊢
    exact this
  have h := simulateEthereumLatency_first_block (JSMath.mk Real.sqrt Real.log Real.exp Real.cos (fun x y => x ^ y) Real.pi) id 0.8 12000 1 ⟨halfStream, 0⟩
    (by
      rw [ethereumRtt_halfStream]
      show halfStream 4 ≤ (0.8 : ℝ)
      simp only [halfStream]
      norm_num)
  rw [ethereumRtt_halfStream] at h
  refine ⟨halfStream_uniform, _, _, h, ?_, ?_, ?_⟩
  · show jsRound ((490 : ℝ) + 1 / 2) + ((1 : Nat) : ℝ) * 12000 + 1 * 12000 = 24491
    rw [hr]
    norm_num
  · show id ((490 : ℝ) + 1 / 2) + id (((1 : Nat) : ℝ) * 12000) + id (1 * 12000) =
      24490 + 1 / 2
    simp only [id]
    norm_num
  · show jsRound ((490 : ℝ) + 1 / 2) + ((1 : Nat) : ℝ) * 12000 + 1 * 12000 ≠
      id ((490 : ℝ) + 1 / 2) + id (((1 : Nat) : ℝ) * 12000) + id (1 * 12000)
    rw [hr]
    simp only [id]
    norm_num

/-- C21 fails on the code: the recorded `latency` is a difference of two clock readings,
not the sampled delay.  On the same generator (draws `0, 0, ...`) the sampled delays of a
simulated transaction are `490`, `12000` and `12000` in every run; a run whose waits
last exactly their delay and whose overhead is `0` records the latency `24490`, and a
run whose timers each fire one millisecond late and whose overhead is `3` records
`24496`.  Likewise a dummy block with the sampled delays `270`, `180` and `720` is
recorded with latency `1170` in the first run and `1176` in the second. -/
theorem recorded_latency_differs :
    (∃ (tx1 tx2 : SimulatedTransaction ℝ) (r1 : RandomSource ℝ),
      simulateTransaction (JSMath.mk Real.sqrt Real.log Real.exp Real.cos (fun x y => x ^ y) Real.pi) id 0 1 ⟨fun _ => 0, 0⟩ = Run.done (tx1, r1) ∧
      simulateTransaction (JSMath.mk Real.sqrt Real.log Real.exp Real.cos (fun x y => x ^ y) Real.pi) (fun d => d + 1) 3 1 ⟨fun _ => 0, 0⟩ = Run.done (tx2, r1) ∧
      tx1.sampled = tx2.sampled ∧ tx1.breakdown = ⟨490, 12000, 12000⟩ ∧
      tx1.latency = 24490 ∧ tx2.latency = 24496 ∧ tx1.latency ≠ tx2.latency) ∧
    (∃ (b1 b2 : DummyBlock ℝ) (r1 : RandomSource ℝ),
      sendDummyBlock (JSMath.mk Real.sqrt Real.log Real.exp Real.cos (fun x y => x ^ y) Real.pi) id 0 2 false ⟨fun _ => 0, 0⟩ = Run.done (b1, r1) ∧
      sendDummyBlock (JSMath.mk Real.sqrt Real.log Real.exp Real.cos (fun x y => x ^ y) Real.pi) (fun d => d + 1) 3 2 false ⟨fun _ => 0, 0⟩ = Run.done (b2, r1) ∧
      b1.sampled = b2.sampled ∧ b1.breakdown = ⟨270, 180, 720⟩ ∧
      b1.latency = 1170 ∧ b2.latency = 1176 ∧ b1.latency ≠ b2.latency) := by
  obtain ⟨m, hm⟩ := sendDummyBlock_zero_stream 0
  refine ⟨⟨_, _, _, simulateTransaction_zero_stream id 0 0,
    simulateTransaction_zero_stream (fun d => d + 1) 3 0, rfl, rfl, ?_, ?_, ?_⟩,
    ⟨_, _, _, hm id 0, hm (fun d => d + 1) 3, rfl, rfl, ?_, ?_, ?_⟩⟩
  · show id (490 : ℝ) + id 12000 + id 12000 + 0 = 24490
    simp only [id]
    norm_num
  · show ((490 : ℝ) + 1) + (12000 + 1) + (12000 + 1) + 3 = 24496
    norm_num
  · show id (490 : ℝ) + id 12000 + id 12000 + 0 ≠ (490 + 1) + (12000 + 1) + (12000 + 1) + 3
    simp only [id]
    norm_num
  · show id (270 : ℝ) + id 180 + id 720 + 0 = 1170
    simp only [id]
    norm_num
  · show ((270 : ℝ) + 1) + (180 + 1) + (720 + 1) + 3 = 1176
    norm_num
  · show id (270 : ℝ) + id 180 + id 720 + 0 ≠ (270 + 1) + (180 + 1) + (720 + 1) + 3
    simp only [id]
    norm_num

end LatencyTheorems

section AggregationTheorems

variable {α : Type} [LinearOrderedField α] [FloorRing α]

/-- C28: after a completed run of `runReplicatedSuite`, every array stored in the samples
bag is non-empty, because `pushMetric` creates an array only when it appends to it; so
the aggregation pass calls `ci95_normal` on non-empty arrays only, the divisor `n` of
`mean` is not zero, and for a square root that does not vanish on positive numbers
neither is the divisor `sqrt(n)` of the interval; on the numbers of an array both
statistics are computed without a division by zero.  When the clock advanced during
every batch of the replications that ran, no array holds `Infinity` and every statistic
of the pass is a number. -/
theorem samples_filled (ρ : Type) (seedrandom : String → ρ)
    (replicate : ρ → ReplicationTrace α) (N : Nat) (seedStart : Int) (original : ρ)
    (w1 : Runtime ρ (Samples (WithTop α)))
    (h : runReplicatedSuite seedrandom replicate N seedStart original = (Except.ok (), w1)) :
    w1.rest.Filled ∧
      (∀ o : List (String × MetricsBag (WithTop α)),
        o = w1.rest.latency ∨ o = w1.rest.throughput ∨ o = w1.rest.scalabilitySepolia ∨
          o = w1.rest.scalabilityIota →
        ∀ e ∈ o, ∀ a ∈ e.2,
          1 ≤ a.2.length ∧ (a.2.length : α) ≠ 0 ∧
            (∀ M : JSMath α, (∀ x : α, 0 < x → M.sqrt x ≠ 0) →
              M.sqrt (a.2.length : α) ≠ 0) ∧
            (∀ values : List α, finiteValues a.2 = some values →
              values.length = a.2.length ∧ (mean values).isSome ∧
                ∀ M : JSMath α, (∀ x : α, 0 < x → M.sqrt x ≠ 0) →
                  (ci95_normal M values).isSome) ∧
            ((∀ i, i < N → (replicationTrace seedrandom replicate seedStart i).Timed) →
              (finiteValues a.2).isSome)) ∧
      ((∀ i, i < N → (replicationTrace seedrandom replicate seedStart i).Timed) →
        w1.rest.Finite ∧
          ∀ M : JSMath α, (∀ x : α, 0 < x → M.sqrt x ≠ 0) →
            (aggregateSamples M w1.rest).isSome) ∧
      (∀ (bag : MetricsBag (WithTop α)) (key : String) (value : Option (WithTop α)),
        (∀ a ∈ bag, a.2 ≠ []) → ∀ a ∈ pushMetric bag key value, a.2 ≠ []) := by
  have hf := run_filled seedrandom replicate N seedStart original w1 h
  refine ⟨hf, ?_, fun ht => ⟨run_finite seedrandom replicate N seedStart original w1 h ht,
      fun M hsqrt => aggregateSamples_isSome M hsqrt w1.rest hf
        (run_finite seedrandom replicate N seedStart original w1 h ht)⟩,
    fun bag key value hb => pushMetric_filled bag key value hb⟩
  intro o ho e he a ha
  have hne : a.2 ≠ [] := by
    rcases ho with rfl | rfl | rfl | rfl
    · exact hf.1 e he a ha
    · exact hf.2.1 e he a ha
    · exact hf.2.2.1 e he a ha
    · exact hf.2.2.2 e he a ha
  have hpos : 0 < a.2.length := List.length_pos.2 hne
  have hposα : (0 : α) < (a.2.length : α) := by exact_mod_cast hpos
  refine ⟨hpos, hposα.ne', fun M hsqrt => hsqrt _ hposα, ?_, ?_⟩
  · intro values hvalues
    have hlen := finiteValues_length a.2 values hvalues
    have hne1 : values ≠ [] := by
      intro h0
      rw [h0, List.length_nil] at hlen
      exact hne (List.length_eq_zero.1 hlen.symm)
    refine ⟨hlen, ?_, fun M hsqrt => ci95_normal_isSome M hsqrt values hne1⟩
    rw [mean_eq values hne1]
    rfl
  · intro ht
    have hfin := run_finite seedrandom replicate N seedStart original w1 h ht
    apply finiteValues_isSome
    rcases ho with rfl | rfl | rfl | rfl
    · exact hfin.1 e he a ha
    · exact hfin.2.1 e he a ha
    · exact hfin.2.2.1 e he a ha
    · exact hfin.2.2.2 e he a ha

/-- Witness of C28: five replications, seeds 1 to 5, of the configured suite with every
operation resolving complete, and every array of the sample store is non-empty. -/
theorem samples_filled_witness :
    ∃ w1 : Runtime Unit (Samples (WithTop ℚ)),
      runReplicatedSuite (fun _ => ()) (fun _ => measuredTrace) 5 1 () = (Except.ok (), w1) ∧
      w1.rest.Filled := by
  obtain ⟨w1, hw⟩ := runReplications_ok (fun _ : String => ()) (fun _ => measuredTrace)
    (fun _ => measuredTrace_good.2) (seedList 5 1) ⟨(), emptySamples⟩ emptySamples_ready
  have hw1 : runReplicatedSuite (fun _ => ()) (fun _ => measuredTrace) 5 1 () =
      (Except.ok (), w1) := hw
  exact ⟨w1, hw1, (samples_filled Unit (fun _ => ()) (fun _ => measuredTrace) 5 1 () w1
    hw1).1⟩

end AggregationTheorems

section GammaTheorems

/-- C27: in the accept-reject loop of `gamma` for `shape >= 1` the first acceptance test
is implied by the second.  For every `d >= 2/3`, every `x` with
`v = (1 + x/sqrt(9d))^3 > 0` and every `u` in `[0,1)`, if `u < 1 - 0.331*x^4` then
`ln(u) < 0.5*x^2 + d*(1 - v + ln v)` (for `u = 0` the logarithm is `-Infinity`, which is
below every number); hence `gamma` with the first test deleted returns the same value,
and leaves the generator in the same state, on every sequence of uniform draws. -/
theorem gamma_first_test_redundant (r : RandomSource ℝ) (hu : r.Uniform) :
    (∀ d x u : ℝ, 2 / 3 ≤ d → 0 < (1 + x / Real.sqrt (9 * d)) ^ 3 → 0 ≤ u → u < 1 →
        u < 1 - 0.331 * x ^ 4 →
        u = 0 ∨ Real.log u <
          0.5 * x ^ 2 + d * (1 - (1 + x / Real.sqrt (9 * d)) ^ 3 +
            Real.log ((1 + x / Real.sqrt (9 * d)) ^ 3))) ∧
      (∀ (d theta : ℝ), 2 / 3 ≤ d →
        gammaBodySecondTest (JSMath.mk Real.sqrt Real.log Real.exp Real.cos (fun x y => x ^ y) Real.pi) d (1 / Real.sqrt (9 * d)) theta r =
          gammaBody (JSMath.mk Real.sqrt Real.log Real.exp Real.cos (fun x y => x ^ y) Real.pi) d (1 / Real.sqrt (9 * d)) theta r) ∧
      (∀ (fuel : Nat) (shape scale : ℝ),
        gammaSecondTest (JSMath.mk Real.sqrt Real.log Real.exp Real.cos (fun x y => x ^ y) Real.pi) fuel shape scale r = gamma (JSMath.mk Real.sqrt Real.log Real.exp Real.cos (fun x y => x ^ y) Real.pi) fuel shape scale r) := by
  refine ⟨?_, fun d theta hd => gammaBodySecondTest_eq d theta hd r hu,
    fun fuel shape scale => gammaSecondTest_eq scale fuel shape r hu⟩
  intro d x u hd hv hu0 _ h
  have hodd : Odd 3 := by decide
  have hv1 : 0 < 1 + 1 / Real.sqrt (9 * d) * x := by
    have := hodd.pow_pos_iff.1 hv
    rwa [div_eq_inv_mul, ← one_div] at this
  have hsq := squeeze_implies d x u hd hv1 hu0 h
  have e1 : 1 + x / Real.sqrt (9 * d) = 1 + 1 / Real.sqrt (9 * d) * x := by
    rw [div_eq_inv_mul, ← one_div]
  have e2 : (1 + 1 / Real.sqrt (9 * d) * x) ^ 3 =
      (1 + 1 / Real.sqrt (9 * d) * x) * (1 + 1 / Real.sqrt (9 * d) * x) *
        (1 + 1 / Real.sqrt (9 * d) * x) := by ring
  have e3 : (0.5 : ℝ) * x ^ 2 = 0.5 * x * x := by ring
  rw [e1, e2, e3]
  exact hsq

/-- Witness of C27: on the draws `0, 0, ...`, which are uniform, `gamma({shape: 3,
scale: 270})` and its variant without the first test return the same value `720`. -/
theorem gamma_first_test_redundant_witness :
    gammaSecondTest (JSMath.mk Real.sqrt Real.log Real.exp Real.cos (fun x y => x ^ y) Real.pi) 2 3 270 ⟨fun _ => 0, 0⟩ = Run.done (720, ⟨fun _ => 0, 3⟩) := by
  rw [(gamma_first_test_redundant ⟨fun _ => 0, 0⟩
    (fun _ => ⟨le_refl 0, zero_lt_one⟩)).2.2 2 3 270,
    gamma_zero_stream 3 270 (by norm_num)]
  norm_num

end GammaTheorems

end IotaBench
